import Mathlib

/-!
DNS endpoint synthesis of the multi-cluster gateway controller.

A shallow embedding of `pkg/controllers/dnspolicy/dns_helper.go`.

Go pointers to endpoints are modelled explicitly: a heap is a list of endpoint
values and a pointer is an index into it.  `createOrUpdateEndpoint` either
returns the pointer stored in `currentEndpoints` (and mutates that object in
place) or allocates a fresh object at the end of the heap, exactly as the Go
code does.  A builder returns a list of pointers together with the final heap;
the published endpoint list is obtained by dereferencing the pointers in the
final heap.

The managed zone resolver `findMatchingManagedZone` is embedded with the public
suffix function of the library as a parameter.

The functions that talk to the object store (`removeDNSForDeletedListeners` and,
from `pkg/controllers/dnshealthcheckprobe/dnshealthcheckprobe_controller.go`,
`getAdditionalHeaders` and `Reconcile`) take the answers of the store as
parameters and return the objects they hand to it.
-/

namespace DNSPolicy

/-! ## Data model -/

/-- One provider specific attribute of an endpoint (a name and a value). -/
structure ProviderSpecificProperty where
  Name : String
  Value : String
deriving DecidableEq, Repr

/-- The `v1alpha1.Endpoint` object: the Go zero value is the default value. -/
structure Endpoint where
  DNSName : String := ""
  Targets : List String := []
  RecordType : String := ""
  SetIdentifier : String := ""
  RecordTTL : Int := 0
  Labels : List (String × String) := []
  ProviderSpecific : List ProviderSpecificProperty := []
deriving DecidableEq, Repr

instance : Inhabited Endpoint := ⟨{}⟩

/-- A gateway status address: its type and its value. -/
structure GatewayAddress where
  AddressType : String
  Value : String
deriving DecidableEq, Repr

/-- The cluster gateway target, as far as the builders read it: the results of
`GetShortCode()` and `GetWeight()` and the addresses of its status. -/
structure ClusterGatewayTarget where
  GetShortCode : String
  GetWeight : Int
  Addresses : List GatewayAddress
deriving DecidableEq, Repr

/-- The multi cluster gateway target, as far as the builders read it.
`GroupTargetsByGeo` holds the entries of the map returned by the Go method of
that name, in the order in which the `range` loop happens to visit them. -/
structure MultiClusterGatewayTarget where
  GetShortCode : String
  GetDefaultGeo : String
  ClusterGatewayTargets : List ClusterGatewayTarget
  GroupTargetsByGeo : List (String × List ClusterGatewayTarget)
deriving Repr

/-! ## Constants of the `dns`, `v1alpha1` and gateway API packages -/

/-- Modelled from the spec: `gatewayapiv1.IPAddressType`, the type tag of an IP address. -/
def IPAddressType : String := "IPAddress"

/-- Modelled from the spec: `gatewayapiv1.HostnameAddressType`. -/
def HostnameAddressType : String := "Hostname"

/-- Modelled from the spec: `v1alpha1.ARecordType`. -/
def ARecordType : String := "A"

/-- Modelled from the spec: `v1alpha1.CNAMERecordType`. -/
def CNAMERecordType : String := "CNAME"

/-- Modelled from the spec: `dns.DefaultTTL`, 60 seconds for leaves and weighted CNAMEs. -/
def DefaultTTL : Int := 60

/-- Modelled from the spec: `dns.DefaultCnameTTL`, 300 seconds for geo and root CNAMEs. -/
def DefaultCnameTTL : Int := 300

/-- Modelled from the spec: `dns.DefaultGeo`, the synthetic geo code `default`. -/
def DefaultGeo : String := "default"

/-- Modelled from the spec: `dns.WildcardGeo`, the literal `*`. -/
def WildcardGeo : String := "*"

/-- Modelled from the spec: `dns.ProviderSpecificWeight`. -/
def ProviderSpecificWeight : String := "weight"

/-- Modelled from the spec: `dns.ProviderSpecificGeoCode`. -/
def ProviderSpecificGeoCode : String := "geo-code"

/-- Modelled from the spec: `GeoCode.IsDefaultCode`, the code is the synthetic `default`. -/
def IsDefaultCode (geoCode : String) : Bool := geoCode == DefaultGeo

/-- The routing strategy selector of a policy: the two known values and any
other string. -/
inductive RoutingStrategy where
  | simple
  | loadbalanced
  | other (name : String)
deriving DecidableEq, Repr

/-! ## String helpers of the Go standard library -/

/-- The function `strings.ToLower`, on ASCII letters. -/
def toLower (s : String) : String := ⟨s.data.map Char.toLower⟩

/-- Removal of every non-overlapping occurrence of `*.`, scanning from the left;
`pending` tells that the character just read was a `*` not yet copied. -/
def removeWildcards (pending : Bool) : List Char → List Char
  | [] => if pending then ['*'] else []
  | c :: rest =>
    if pending then
      if c = '.' then removeWildcards false rest
      else if c = '*' then '*' :: removeWildcards true rest
      else '*' :: c :: removeWildcards false rest
    else
      if c = '*' then removeWildcards true rest
      else c :: removeWildcards false rest

/-- The call `strings.Replace(hostname, "*.", "", -1)`. -/
def replaceWildcards (s : String) : String := ⟨removeWildcards false s.data⟩

/-- The function `isWildCardHost`: `strings.HasPrefix(host, "*")`. -/
def isWildCardHost (host : String) : Bool :=
  match host.data with
  | c :: _ => c == '*'
  | [] => false

/-- The function `strconv.Itoa`: the decimal rendering of an integer. -/
def Itoa (n : Int) : String := toString n

/-! ## Endpoint methods -/

/-- Modelled from the spec: `Endpoint.SetID`, the identity string
`DNSName + SetIdentifier` under which `setEndpoints` keys an endpoint. -/
def Endpoint.SetID (e : Endpoint) : String := e.DNSName ++ e.SetIdentifier

/-- Update of the attribute `name` in a provider specific list: the first
entry of that name gets the value, and a new entry is appended when there is none. -/
def setProperty (name value : String) : List ProviderSpecificProperty → List ProviderSpecificProperty
  | [] => [{ Name := name, Value := value }]
  | p :: ps =>
    if p.Name = name then { p with Value := value } :: ps else p :: setProperty name value ps

/-- Modelled from the spec: `Endpoint.SetProviderSpecific`, which sets one
named attribute and leaves the others as they are. -/
def Endpoint.SetProviderSpecific (e : Endpoint) (name value : String) : Endpoint :=
  { e with ProviderSpecific := setProperty name value e.ProviderSpecific }

/-- Read of the attribute `name` of an endpoint. -/
def Endpoint.GetProviderSpecific (e : Endpoint) (name : String) : Option String :=
  (e.ProviderSpecific.find? (fun p => p.Name = name)).map (fun p => p.Value)

/-! ## Heap of endpoint objects -/

/-- The heap: endpoint objects, addressed by their index. -/
abbrev Heap := List Endpoint

/-- Read through a pointer. -/
def deref (h : Heap) (p : Nat) : Endpoint := h.getD p {}

/-- In-place mutation of the object behind a pointer. -/
def mutate (f : Endpoint → Endpoint) : Heap → Nat → Heap
  | [], _ => []
  | e :: h, 0 => f e :: h
  | e :: h, p + 1 => e :: mutate f h p

/-- The Go map `map[string]*v1alpha1.Endpoint`, most recent assignment first. -/
abbrev EndpointMap := List (String × Nat)

/-! ## The builders of `dns_helper.go` -/

/-- The function `createOrUpdateEndpoint`: the endpoint stored under the key
`dnsName + setIdentifier` is reused and mutated in place, otherwise a fresh
endpoint is allocated; the four fields are then assigned. -/
def createOrUpdateEndpoint (dnsName : String) (targets : List String) (recordType : String)
    (setIdentifier : String) (recordTTL : Int) (currentEndpoints : EndpointMap)
    (h : Heap) : Nat × Heap :=
  let endpointID := dnsName ++ setIdentifier
  let assign : Endpoint → Endpoint := fun e =>
    { e with DNSName := dnsName, RecordType := recordType, Targets := targets,
             RecordTTL := recordTTL }
  match currentEndpoints.lookup endpointID with
  | some p => (p, mutate assign h p)
  | none =>
    let fresh : Endpoint := {}
    let fresh := if setIdentifier ≠ "" then { fresh with SetIdentifier := setIdentifier } else fresh
    (h.length, h ++ [assign fresh])

/-- The values of the addresses of type `IPAddressType`, in order. -/
def ipValuesOf (addresses : List GatewayAddress) : List String :=
  (addresses.filter (fun gwa => gwa.AddressType == IPAddressType)).map (fun gwa => gwa.Value)

/-- The values of all other addresses, in order. -/
def hostValuesOf (addresses : List GatewayAddress) : List String :=
  (addresses.filter (fun gwa => !(gwa.AddressType == IPAddressType))).map (fun gwa => gwa.Value)

/-- The function `getSimpleEndpoints`. -/
def getSimpleEndpoints (mcgTarget : MultiClusterGatewayTarget) (hostname : String)
    (currentEndpoints : EndpointMap) (h : Heap) : List Nat × Heap :=
  let ipValues := mcgTarget.ClusterGatewayTargets.flatMap (fun cgwTarget => ipValuesOf cgwTarget.Addresses)
  let hostValues := mcgTarget.ClusterGatewayTargets.flatMap (fun cgwTarget => hostValuesOf cgwTarget.Addresses)
  let (endpoints, h) :=
    if ipValues.length > 0 then
      let (endpoint, h) := createOrUpdateEndpoint hostname ipValues ARecordType "" DefaultTTL currentEndpoints h
      ([endpoint], h)
    else ([], h)
  if hostValues.length > 0 then
    let (endpoint, h) := createOrUpdateEndpoint hostname hostValues CNAMERecordType "" DefaultTTL currentEndpoints h
    (endpoints ++ [endpoint], h)
  else (endpoints, h)

/-- The name `lb-<short code>.<host without wildcard>` of `getLoadBalancedEndpoints`, lower-cased. -/
def lbNameOf (mcgTarget : MultiClusterGatewayTarget) (hostname : String) : String :=
  let cnameHost := if isWildCardHost hostname then replaceWildcards hostname else hostname
  toLower ("lb-" ++ mcgTarget.GetShortCode ++ "." ++ cnameHost)

/-- The name `<geo code>.<lbName>`, lower-cased. -/
def geoLbNameOf (geoCode lbName : String) : String := toLower (geoCode ++ "." ++ lbName)

/-- The name `<cluster short code>.<lbName>`, lower-cased. -/
def clusterLbNameOf (cgwTarget : ClusterGatewayTarget) (lbName : String) : String :=
  toLower (cgwTarget.GetShortCode ++ "." ++ lbName)

/-- One pass of the loop over `hostValues` in `getLoadBalancedEndpoints`: a
weighted CNAME per value. -/
def hostValueStep (cgwTarget : ClusterGatewayTarget) (geoLbName : String)
    (currentEndpoints : EndpointMap) (st : List Nat × Heap) (hostValue : String) : List Nat × Heap :=
  let (endpoint, h) := createOrUpdateEndpoint geoLbName [hostValue] CNAMERecordType hostValue
    DefaultTTL currentEndpoints st.2
  let h := mutate (fun e => e.SetProviderSpecific ProviderSpecificWeight (Itoa cgwTarget.GetWeight)) h endpoint
  (st.1 ++ [endpoint], h)

/-- One pass of the loop over the cluster targets of a geo group. -/
def clusterStep (lbName geoLbName : String) (currentEndpoints : EndpointMap)
    (st : List Nat × Heap) (cgwTarget : ClusterGatewayTarget) : List Nat × Heap :=
  let ipValues := ipValuesOf cgwTarget.Addresses
  let hostValues := hostValuesOf cgwTarget.Addresses
  let (st, hostValues) :=
    if ipValues.length > 0 then
      let clusterLbName := clusterLbNameOf cgwTarget lbName
      let (endpoint, h) := createOrUpdateEndpoint clusterLbName ipValues ARecordType "" DefaultTTL
        currentEndpoints st.2
      ((st.1 ++ [endpoint], h), hostValues ++ [clusterLbName])
    else (st, hostValues)
  hostValues.foldl (hostValueStep cgwTarget geoLbName currentEndpoints) st

/-- The state of the loop over the geo groups: the slice `endpoints`, the
pointer `defaultEndpoint` (`none` is `nil`) and the heap. -/
structure LoopState where
  endpoints : List Nat
  defaultEndpoint : Option Nat
  heap : Heap

/-- One pass of the loop over the geo groups of `getLoadBalancedEndpoints`. -/
def geoStep (mcgTarget : MultiClusterGatewayTarget) (lbName : String) (currentEndpoints : EndpointMap)
    (st : LoopState) (entry : String × List ClusterGatewayTarget) : LoopState :=
  let geoCode := entry.1
  let cgwTargets := entry.2
  let geoLbName := geoLbNameOf geoCode lbName
  let (clusterEndpoints, h) :=
    cgwTargets.foldl (clusterStep lbName geoLbName currentEndpoints) ([], st.heap)
  if clusterEndpoints.length = 0 then
    { st with heap := h }
  else
    let endpoints := st.endpoints ++ clusterEndpoints
    let (endpoint, h) := createOrUpdateEndpoint lbName [geoLbName] CNAMERecordType geoCode
      DefaultCnameTTL currentEndpoints h
    if IsDefaultCode geoCode then
      { endpoints := endpoints, defaultEndpoint := some endpoint, heap := h }
    else
      let (defaultEndpoint, h) :=
        if geoCode = mcgTarget.GetDefaultGeo ∨ st.defaultEndpoint = none then
          let (d, h) := createOrUpdateEndpoint lbName [geoLbName] CNAMERecordType "default"
            DefaultCnameTTL currentEndpoints h
          (some d, h)
        else (st.defaultEndpoint, h)
      let h := mutate (fun e => e.SetProviderSpecific ProviderSpecificGeoCode geoCode) h endpoint
      { endpoints := endpoints ++ [endpoint], defaultEndpoint := defaultEndpoint, heap := h }

/-- The function `getLoadBalancedEndpoints`.  The result is `none` when the Go
code dereferences a nil `defaultEndpoint`. -/
def getLoadBalancedEndpoints (mcgTarget : MultiClusterGatewayTarget) (hostname : String)
    (currentEndpoints : EndpointMap) (h : Heap) : Option (List Nat × Heap) :=
  let lbName := lbNameOf mcgTarget hostname
  let st := mcgTarget.GroupTargetsByGeo.foldl (geoStep mcgTarget lbName currentEndpoints)
    { endpoints := [], defaultEndpoint := none, heap := h }
  if st.endpoints.length > 0 then
    match st.defaultEndpoint with
    | none => none
    | some defaultEndpoint =>
      let h := mutate (fun e => e.SetProviderSpecific ProviderSpecificGeoCode WildcardGeo) st.heap defaultEndpoint
      let endpoints := st.endpoints ++ [defaultEndpoint]
      let (endpoint, h) := createOrUpdateEndpoint hostname [lbName] CNAMERecordType "" DefaultCnameTTL
        currentEndpoints h
      some (endpoints ++ [endpoint], h)
  else some (st.endpoints, st.heap)

/-- The map `currentEndpoints` built by `setEndpoints`: every endpoint of the
record, at its index, under its identity string; a later endpoint replaces an
earlier one of the same identity string. -/
def currentEndpointsOf (endpoints : List Endpoint) : EndpointMap :=
  (endpoints.enum.map (fun ie => (ie.2.SetID, ie.1))).reverse

/-- The comparison `<` of Go strings, on the characters: lexicographic by code point. -/
def ltChars : List Char → List Char → Bool
  | _, [] => false
  | [], _ :: _ => true
  | a :: as, b :: bs => decide (a.toNat < b.toNat) || (decide (a.toNat = b.toNat) && ltChars as bs)

/-- The `less` function handed to `sort.Slice`: `endpoints[i].SetID() < endpoints[j].SetID()`. -/
def less (a b : Endpoint) : Bool := ltChars a.SetID.data b.SetID.data

/-- The call `sort.Slice(endpoints, less)` on the dereferenced endpoints: an
insertion sort (the algorithm `sort.Slice` runs on fewer than twelve elements),
which keeps endpoints of equal identity string in their order. -/
def sortEndpoints (endpoints : List Endpoint) : List Endpoint :=
  endpoints.insertionSort (fun a b => less b a = false)

/-- The outcome of `setEndpoints`: the endpoints now in the record and whether
`Update` was called on the store. -/
structure SetResult where
  endpoints : List Endpoint
  updated : Bool
deriving DecidableEq, Repr

/-- The errors of `setEndpoints`. -/
inductive SetError where
  | unknownRoutingStrategy (strategy : String)
  | nilDefaultEndpoint
deriving DecidableEq, Repr

/-- The builder selected by the `switch` of `setEndpoints`, started on the
endpoints of the record; the result is the dereferenced list of endpoints. -/
def synthesize (mcgTarget : MultiClusterGatewayTarget) (hostname : String)
    (strategy : RoutingStrategy) (recordEndpoints : List Endpoint) : Except SetError (List Endpoint) :=
  let currentEndpoints := currentEndpointsOf recordEndpoints
  match strategy with
  | .simple =>
    let (endpoints, h) := getSimpleEndpoints mcgTarget hostname currentEndpoints recordEndpoints
    .ok (endpoints.map (deref h))
  | .loadbalanced =>
    match getLoadBalancedEndpoints mcgTarget hostname currentEndpoints recordEndpoints with
    | none => .error .nilDefaultEndpoint
    | some (endpoints, h) => .ok (endpoints.map (deref h))
  | .other name => .error (.unknownRoutingStrategy name)

/-- The function `setEndpoints` on the endpoint list of the record: build,
sort, store, and update the store when the record changed. -/
def setEndpoints (mcgTarget : MultiClusterGatewayTarget) (hostname : String)
    (strategy : RoutingStrategy) (recordEndpoints : List Endpoint) : Except SetError SetResult :=
  match synthesize mcgTarget hostname strategy recordEndpoints with
  | .error e => .error e
  | .ok endpoints =>
    let sorted := sortEndpoints endpoints
    .ok { endpoints := sorted, updated := decide (sorted ≠ recordEndpoints) }

/-! ## The endpoints of a first synthesis, as values

The lists below describe what the builders publish when the record holds no
endpoints yet; `getLoadBalancedEndpoints_fresh` proves that the builder computes them. -/

/-- An endpoint with the five assigned fields and nothing else. -/
def mkEndpoint (dnsName : String) (targets : List String) (recordType : String)
    (setIdentifier : String) (recordTTL : Int) : Endpoint :=
  { DNSName := dnsName, Targets := targets, RecordType := recordType,
    SetIdentifier := setIdentifier, RecordTTL := recordTTL }

/-- The A record of a cluster. -/
def aEndpointOf (cgwTarget : ClusterGatewayTarget) (lbName : String) : Endpoint :=
  mkEndpoint (clusterLbNameOf cgwTarget lbName) (ipValuesOf cgwTarget.Addresses) ARecordType "" DefaultTTL

/-- The weighted CNAME of a cluster for one value. -/
def weightedEndpointOf (cgwTarget : ClusterGatewayTarget) (geoLbName hostValue : String) : Endpoint :=
  (mkEndpoint geoLbName [hostValue] CNAMERecordType hostValue DefaultTTL).SetProviderSpecific
    ProviderSpecificWeight (Itoa cgwTarget.GetWeight)

/-- The values a cluster is reachable at: its hostname addresses, then its
cluster LB name when it has an IP address. -/
def clusterValues (cgwTarget : ClusterGatewayTarget) (lbName : String) : List String :=
  hostValuesOf cgwTarget.Addresses ++
    (if (ipValuesOf cgwTarget.Addresses).length > 0 then [clusterLbNameOf cgwTarget lbName] else [])

/-- The endpoints of one cluster: its A record, if any, then its weighted CNAMEs. -/
def clusterOut (lbName geoLbName : String) (cgwTarget : ClusterGatewayTarget) : List Endpoint :=
  (if (ipValuesOf cgwTarget.Addresses).length > 0 then [aEndpointOf cgwTarget lbName] else []) ++
    (clusterValues cgwTarget lbName).map (weightedEndpointOf cgwTarget geoLbName)

/-- The geo CNAME of a geo group. -/
def geoEndpointOf (lbName geoCode : String) : Endpoint :=
  (mkEndpoint lbName [geoLbNameOf geoCode lbName] CNAMERecordType geoCode DefaultCnameTTL).SetProviderSpecific
    ProviderSpecificGeoCode geoCode

/-- The endpoints of all clusters of a geo group. -/
def groupClusterOut (lbName : String) (entry : String × List ClusterGatewayTarget) : List Endpoint :=
  entry.2.flatMap (clusterOut lbName (geoLbNameOf entry.1 lbName))

/-- The endpoints a geo group adds to `endpoints` inside the loop. -/
def groupOut (lbName : String) (entry : String × List ClusterGatewayTarget) : List Endpoint :=
  if (groupClusterOut lbName entry).length = 0 then []
  else groupClusterOut lbName entry ++ (if IsDefaultCode entry.1 then [] else [geoEndpointOf lbName entry.1])

/-- The geo code the `default` endpoint points at after one more geo group. -/
def defaultGeoStep (defaultGeo lbName : String) (d : Option String)
    (entry : String × List ClusterGatewayTarget) : Option String :=
  if (groupClusterOut lbName entry).length = 0 then d
  else if IsDefaultCode entry.1 then some entry.1
  else if entry.1 = defaultGeo ∨ d = none then some entry.1
  else d

/-- The geo code the `default` endpoint points at after the loop. -/
def defaultGeoOf (mcgTarget : MultiClusterGatewayTarget) (lbName : String) : Option String :=
  mcgTarget.GroupTargetsByGeo.foldl (defaultGeoStep mcgTarget.GetDefaultGeo lbName) none

/-- The `default` endpoint before its geo code attribute is set. -/
def defaultEndpointRaw (lbName geoCode : String) : Endpoint :=
  mkEndpoint lbName [geoLbNameOf geoCode lbName] CNAMERecordType "default" DefaultCnameTTL

/-- The `default` endpoint. -/
def defaultEndpointOf (lbName geoCode : String) : Endpoint :=
  (defaultEndpointRaw lbName geoCode).SetProviderSpecific ProviderSpecificGeoCode WildcardGeo

/-- The root CNAME at the listener host. -/
def rootEndpointOf (hostname lbName : String) : Endpoint :=
  mkEndpoint hostname [lbName] CNAMERecordType "" DefaultCnameTTL

/-- The endpoints `getLoadBalancedEndpoints` publishes for a record without endpoints. -/
def loadBalancedOut (mcgTarget : MultiClusterGatewayTarget) (hostname : String) : List Endpoint :=
  let lbName := lbNameOf mcgTarget hostname
  let endpoints := mcgTarget.GroupTargetsByGeo.flatMap (groupOut lbName)
  if endpoints.length > 0 then
    match defaultGeoOf mcgTarget lbName with
    | none => []
    | some g => endpoints ++ [defaultEndpointOf lbName g, rootEndpointOf hostname lbName]
  else []

/-- The endpoints `getSimpleEndpoints` publishes for a record without endpoints. -/
def simpleOut (mcgTarget : MultiClusterGatewayTarget) (hostname : String) : List Endpoint :=
  let ipValues := mcgTarget.ClusterGatewayTargets.flatMap (fun cgwTarget => ipValuesOf cgwTarget.Addresses)
  let hostValues := mcgTarget.ClusterGatewayTargets.flatMap (fun cgwTarget => hostValuesOf cgwTarget.Addresses)
  (if ipValues.length > 0 then [mkEndpoint hostname ipValues ARecordType "" DefaultTTL] else []) ++
    (if hostValues.length > 0 then [mkEndpoint hostname hostValues CNAMERecordType "" DefaultTTL] else [])

/-- The relation between the loop state of a first synthesis and the values
computed so far: the listed pointers are allocated and read as `vals`, and
`defaultEndpoint` is an allocated, unlisted object pointing at the geo code `d`. -/
def FreshInv (lbName : String) (st : LoopState) (vals : List Endpoint) (d : Option String) : Prop :=
  st.endpoints.map (deref st.heap) = vals ∧
  (∀ p ∈ st.endpoints, p < st.heap.length) ∧
  (st.defaultEndpoint = none ↔ d = none) ∧
  (∀ p, st.defaultEndpoint = some p →
    p < st.heap.length ∧ p ∉ st.endpoints ∧
      ∃ g, d = some g ∧ deref st.heap p = defaultEndpointRaw lbName g)

/-! ## Scenarios of the integration tests -/

/-- An IP address of a gateway status. -/
def ipAddress (value : String) : GatewayAddress := { AddressType := IPAddressType, Value := value }

/-- A hostname address of a gateway status. -/
def hostnameAddress (value : String) : GatewayAddress := { AddressType := HostnameAddressType, Value := value }

/-- The first test cluster, with the IP address `172.0.0.1` and the weight `w`. -/
def clusterOne (w : Int) : ClusterGatewayTarget :=
  { GetShortCode := "s07c46", GetWeight := w, Addresses := [ipAddress "172.0.0.1"] }

/-- The second test cluster, with the IP address `172.0.0.2` and the weight `w`. -/
def clusterTwo (w : Int) : ClusterGatewayTarget :=
  { GetShortCode := "2w705o", GetWeight := w, Addresses := [ipAddress "172.0.0.2"] }

/-- A cluster published behind the hostname `lb.example.org`. -/
def clusterHost (w : Int) : ClusterGatewayTarget :=
  { GetShortCode := "h05t01", GetWeight := w, Addresses := [hostnameAddress "lb.example.org"] }

/-- The scenario `weighted`: two clusters, no geo dimension. -/
def weightedTarget : MultiClusterGatewayTarget :=
  { GetShortCode := "abc123", GetDefaultGeo := "default",
    ClusterGatewayTargets := [clusterOne 120, clusterTwo 120],
    GroupTargetsByGeo := [("default", [clusterOne 120, clusterTwo 120])] }

/-- The scenario `geo+weighted with custom weights`: one cluster in `IE` with
weight 100, one in `ES` with weight 160, default geo `IE`. -/
def customWeightsTarget : MultiClusterGatewayTarget :=
  { GetShortCode := "abc123", GetDefaultGeo := "IE",
    ClusterGatewayTargets := [clusterOne 100, clusterTwo 160],
    GroupTargetsByGeo := [("IE", [clusterOne 100]), ("ES", [clusterTwo 160])] }

/-- A target with one IP cluster and one hostname cluster. -/
def mixedTarget : MultiClusterGatewayTarget :=
  { GetShortCode := "abc123", GetDefaultGeo := "default",
    ClusterGatewayTargets := [clusterOne 120, clusterHost 120],
    GroupTargetsByGeo := [("default", [clusterOne 120, clusterHost 120])] }

/-- The endpoint has the set-identifier `default` and the attribute `geo-code = *`. -/
def isDefaultWildcard (e : Endpoint) : Bool :=
  e.SetIdentifier == "default" && e.GetProviderSpecific ProviderSpecificGeoCode == some WildcardGeo

/-- The hostname addresses carried by the gateway status: the values of the
addresses of the clusters of the target that are not IP addresses. -/
def statusHostValues (mcgTarget : MultiClusterGatewayTarget) : List String :=
  (mcgTarget.ClusterGatewayTargets ++ mcgTarget.GroupTargetsByGeo.flatMap (fun entry => entry.2)).flatMap
    (fun cgwTarget => hostValuesOf cgwTarget.Addresses)

/-- A target whose policy designates the default geo `IE`, with one cluster in
`IE` and one cluster labelled with the geo code `default`. -/
def defaultLabelTarget : MultiClusterGatewayTarget :=
  { GetShortCode := "abc123", GetDefaultGeo := "IE",
    ClusterGatewayTargets := [clusterOne 120, clusterTwo 120],
    GroupTargetsByGeo := [("IE", [clusterOne 120]), ("default", [clusterTwo 120])] }

/-- The target `defaultLabelTarget` with its two geo groups visited in the
other order. -/
def defaultLabelFirstTarget : MultiClusterGatewayTarget :=
  { defaultLabelTarget with
    GroupTargetsByGeo := [("default", [clusterTwo 120]), ("IE", [clusterOne 120])] }

/-- The number of clusters of the target, over all geo groups. -/
def clusterCount (mcgTarget : MultiClusterGatewayTarget) : Nat :=
  (mcgTarget.GroupTargetsByGeo.map (fun entry => entry.2.length)).sum

/-- The number of geo groups whose code is not the synthetic `default`. -/
def geoCount (mcgTarget : MultiClusterGatewayTarget) : Nat :=
  (mcgTarget.GroupTargetsByGeo.filter (fun entry => !IsDefaultCode entry.1)).length

/-- The scenario `geo+weighted`: two clusters in `IE`, default geo `IE`. -/
def geoTarget : MultiClusterGatewayTarget :=
  { GetShortCode := "abc123", GetDefaultGeo := "IE",
    ClusterGatewayTargets := [clusterOne 120, clusterTwo 120],
    GroupTargetsByGeo := [("IE", [clusterOne 120, clusterTwo 120])] }

/-- The endpoints of the record of `mixedTarget` after a first reconciliation
with the simple strategy: an A record and a CNAME at the listener host. -/
def mixedSimpleRecord : List Endpoint :=
  [ { DNSName := "test.example.com", Targets := ["172.0.0.1"], RecordType := "A", RecordTTL := 60 },
    { DNSName := "test.example.com", Targets := ["lb.example.org"], RecordType := "CNAME", RecordTTL := 60 } ]

/-- A target whose policy designates the default geo `DE`, matched by no
cluster: one cluster in `IE` and one in `ES`, visited in the order `groups`. -/
def unmatchedDefaultTarget (groups : List (String × List ClusterGatewayTarget)) : MultiClusterGatewayTarget :=
  { GetShortCode := "abc123", GetDefaultGeo := "DE",
    ClusterGatewayTargets := [clusterOne 120, clusterTwo 120],
    GroupTargetsByGeo := groups }

/-- The number of hyphens of a string. -/
def hyphens (s : String) : Nat := s.data.count '-'

/-- The identity of an endpoint for reconciliation: its DNS name and its set-identifier. -/
def Endpoint.identity (e : Endpoint) : String × String := (e.DNSName, e.SetIdentifier)

/-- The values the weighted CNAMEs of a geo group point at. -/
def groupValues (lbName : String) (entry : String × List ClusterGatewayTarget) : List String :=
  entry.2.flatMap (fun cgwTarget => clusterValues cgwTarget lbName)

/-- The values the weighted CNAMEs of the target point at: the hostname
addresses of its clusters and the cluster LB names of its clusters with an IP address. -/
def weightedValues (mcgTarget : MultiClusterGatewayTarget) (hostname : String) : List String :=
  mcgTarget.GroupTargetsByGeo.flatMap (groupValues (lbNameOf mcgTarget hostname))

/-! ## The record after `setEndpoints` -/

/-- The endpoints of the record and whether `Update` was called on the store,
after a call of `setEndpoints` on a record holding `recordEndpoints`: the error
return of the `switch` precedes the assignment to `Spec.Endpoints`, so a failed
call leaves the record as it was and writes nothing. -/
def recordAfterSetEndpoints (mcgTarget : MultiClusterGatewayTarget) (hostname : String)
    (strategy : RoutingStrategy) (recordEndpoints : List Endpoint) : List Endpoint × Bool :=
  match setEndpoints mcgTarget hostname strategy recordEndpoints with
  | .error _ => (recordEndpoints, false)
  | .ok r => (r.endpoints, r.updated)

/-- A cluster whose gateway status carries no address yet. -/
def clusterPending : ClusterGatewayTarget :=
  { GetShortCode := "p3nd1g", GetWeight := 120, Addresses := [] }

/-- A target whose only cluster has no address. -/
def pendingTarget : MultiClusterGatewayTarget :=
  { GetShortCode := "abc123", GetDefaultGeo := "default",
    ClusterGatewayTargets := [clusterPending],
    GroupTargetsByGeo := [("default", [clusterPending])] }

/-- The record of the scenario `simple` after a reconciliation: one A record
with the addresses of the two test clusters. -/
def simpleRecord : List Endpoint :=
  [ { DNSName := "test.example.com", Targets := ["172.0.0.1", "172.0.0.2"], RecordType := "A", RecordTTL := 60 } ]

/-- The DNS name lies under the domain `base`: it ends with `.base`. -/
def rootedAt (name base : String) : Prop := ∃ p : String, name = p ++ "." ++ base

/-! ## The managed zone resolver -/

/-- The `v1alpha1.ManagedZone` object, as far as the helper reads it: its name,
its namespace and `Spec.DomainName`. -/
structure ManagedZone where
  Name : String
  Namespace : String
  DomainName : String
deriving DecidableEq, Repr

/-- The errors of `findMatchingManagedZone`: the one that wraps
`ErrNoManagedZoneForHost`, and the plain `no valid zone found for host`. -/
inductive ZoneError where
  | noManagedZoneForHost (host : String)
  | noValidZone (originalHost : String)
deriving DecidableEq, Repr

deriving instance DecidableEq for Except

/-- The element `hostParts[1]` of `strings.SplitN(host, ".", 2)`: the part
after the first dot; `none` when the split yields fewer than two parts. -/
def afterFirstDot : List Char → Option (List Char)
  | [] => none
  | c :: rest => if c = '.' then some rest else afterFirstDot rest

/-- Removal of the first occurrence of the non-empty `old`, scanning from the left. -/
def removeFirst (old : List Char) : List Char → List Char
  | [] => []
  | c :: rest =>
    if old.isPrefixOf (c :: rest) then (c :: rest).drop old.length
    else c :: removeFirst old rest

/-- The call `strings.Replace(s, old, "", 1)`. -/
def replaceFirst (s old : String) : String := ⟨removeFirst old.data s.data⟩

/-- The function `findMatchingManagedZone` with a bound on the depth of the
recursion; `none` tells that the bound was reached.  `publicSuffix` is the
function `publicsuffix.PublicSuffix` of the library, and `slice.Find` is the
first zone of the catalog that satisfies the predicate. -/
def findMatchingManagedZoneAux (publicSuffix : String → String) (originalHost : String)
    (zones : List ManagedZone) : Nat → String → Option (Except ZoneError (ManagedZone × String))
  | 0, _ => none
  | fuel + 1, host =>
    if zones.length = 0 then some (.error (.noManagedZoneForHost host))
    else
      let host := toLower host
      let tld := publicSuffix host
      if host = tld then some (.error (.noValidZone originalHost))
      else
        match afterFirstDot host.data with
        | none => some (.error (.noValidZone originalHost))
        | some parentDomain =>
          if host = originalHost then
            findMatchingManagedZoneAux publicSuffix originalHost zones fuel ⟨parentDomain⟩
          else
            match zones.find? (fun zone => toLower zone.DomainName == host) with
            | some zone =>
              let subdomain := replaceFirst (toLower originalHost) ("." ++ toLower zone.DomainName)
              some (.ok (zone, subdomain))
            | none => findMatchingManagedZoneAux publicSuffix originalHost zones fuel ⟨parentDomain⟩

/-- The function `findMatchingManagedZone`: every recursive call is made on a
shorter host, so a depth of one more than the length of the host is never reached. -/
def findMatchingManagedZone (publicSuffix : String → String) (originalHost host : String)
    (zones : List ManagedZone) : Option (Except ZoneError (ManagedZone × String)) :=
  findMatchingManagedZoneAux publicSuffix originalHost zones (host.length + 1) host

/-- The last label of a host, on the characters. -/
def lastLabelChars : List Char → List Char
  | [] => []
  | c :: rest =>
    if '.' ∈ rest then lastLabelChars rest
    else if c = '.' then rest else c :: rest

/-- A public suffix function that knows the top-level domains only: the public
suffix of a host is its last label. -/
def lastLabel (host : String) : String := ⟨lastLabelChars host.data⟩

/-- The managed zone of the integration tests, for the domain `example.com`. -/
def exampleZone : ManagedZone :=
  { Name := "mz-example-com", Namespace := "test-namespace", DomainName := "example.com" }

/-- A second managed zone, for the shorter domain `le.com`, which is no
label-boundary suffix of a host under `example.com`. -/
def leZone : ManagedZone :=
  { Name := "mz-le-com", Namespace := "test-namespace", DomainName := "le.com" }

/-- A managed zone for the domain `test.example.com`. -/
def testZone : ManagedZone :=
  { Name := "mz-test-example-com", Namespace := "test-namespace", DomainName := "test.example.com" }

/-- A managed zone whose domain is the top-level domain `com`. -/
def comZone : ManagedZone :=
  { Name := "mz-com", Namespace := "test-namespace", DomainName := "com" }

/-- The record `mixedSimpleRecord` after the provider has attached a health
check identifier to each of its two endpoints. -/
def mixedCheckedRecord : List Endpoint :=
  [ { DNSName := "test.example.com", Targets := ["172.0.0.1"], RecordType := "A", RecordTTL := 60,
      ProviderSpecific := [{ Name := "health-check-id", Value := "hc-a" }] },
    { DNSName := "test.example.com", Targets := ["lb.example.org"], RecordType := "CNAME", RecordTTL := 60,
      ProviderSpecific := [{ Name := "health-check-id", Value := "hc-cname" }] } ]

/-- The objects of the heap `h` are still in `h'`, each with the value it had
in `h` for every attribute other than `weight` and `geo-code`. -/
def KeepsAttributes (h h' : Heap) : Prop :=
  h.length ≤ h'.length ∧
  ∀ p < h.length, ∀ name, name ≠ ProviderSpecificWeight → name ≠ ProviderSpecificGeoCode →
    (deref h' p).GetProviderSpecific name = (deref h p).GetProviderSpecific name

/-- The test `errors.Is(err, ErrNoManagedZoneForHost)`: only the error built
with `%w` from `ErrNoManagedZoneForHost` wraps it. -/
def ZoneError.IsNoManagedZoneForHost : ZoneError → Bool
  | .noManagedZoneForHost _ => true
  | .noValidZone _ => false

/-- A managed zone for the domain `example.org`. -/
def orgZone : ManagedZone :=
  { Name := "mz-example-org", Namespace := "test-namespace", DomainName := "example.org" }

/-! ## DNS records of a gateway -/

/-- The label `kuadrant.io/gateway`. -/
def LabelGatewayReference : String := "kuadrant.io/gateway"

/-- The label `kuadrant.io/gateway-namespace`. -/
def LabelGatewayNSRef : String := "kuadrant.io/gateway-namespace"

/-- The label `kuadrant.io/listener-name`. -/
def LabelListenerReference : String := "kuadrant.io/listener-name"

/-- A Go `map[string]string`: the keys with their values, every key once. -/
abbrev LabelMap := List (String × String)

/-- The assignment `m[k] = v`. -/
def setLabel (k v : String) : LabelMap → LabelMap
  | [] => [(k, v)]
  | (k', v') :: m => if k' = k then (k, v) :: m else (k', v') :: setLabel k v m

/-- The read `m[k]`: the empty string when the key is absent. -/
def getLabel (m : LabelMap) (k : String) : String := (m.lookup k).getD ""

/-- The key of an object: `client.ObjectKey`. -/
structure ObjectKey where
  Namespace : String
  Name : String
deriving DecidableEq, Repr

/-- A listener of a gateway: its name and its hostname, if any. -/
structure Listener where
  Name : String
  Hostname : Option String
deriving DecidableEq, Repr

/-- The `gatewayapiv1.Gateway` object, as far as the helper reads it. -/
structure Gateway where
  Name : String
  Namespace : String
  Listeners : List Listener
deriving DecidableEq, Repr

/-- The `v1alpha1.DNSRecord` object: its name, namespace and labels, the name of
the managed zone it refers to and its endpoints. -/
structure DNSRecord where
  Name : String
  Namespace : String
  Labels : LabelMap
  ManagedZoneRef : Option String
  Endpoints : List Endpoint
deriving DecidableEq, Repr

/-- The function `policyDNSRecordLabels`; `backRef` is the constant
`DNSPolicyBackRefAnnotation`. -/
def policyDNSRecordLabels (backRef : String) (apKey : ObjectKey) : LabelMap :=
  [(backRef, apKey.Name), (backRef ++ "-namespace", apKey.Namespace)]

/-- The function `gatewayDNSRecordLabels`. -/
def gatewayDNSRecordLabels (gwKey : ObjectKey) : LabelMap :=
  [(LabelGatewayNSRef, gwKey.Namespace), (LabelGatewayReference, gwKey.Name)]

/-- The function `commonDNSRecordLabels`: the policy labels, then the gateway
labels, assigned one by one to an empty map. -/
def commonDNSRecordLabels (backRef : String) (gwKey apKey : ObjectKey) : LabelMap :=
  let common : LabelMap := []
  let common := (policyDNSRecordLabels backRef apKey).foldl (fun m kv => setLabel kv.1 kv.2 m) common
  (gatewayDNSRecordLabels gwKey).foldl (fun m kv => setLabel kv.1 kv.2 m) common

/-- The function `dnsRecordName`. -/
def dnsRecordName (gatewayName listenerName : String) : String :=
  gatewayName ++ "-" ++ listenerName

/-- The function `buildDNSRecordForListener`; the policy is given by its key. -/
def buildDNSRecordForListener (backRef : String) (gateway : Gateway) (dnsPolicy : ObjectKey)
    (targetListener : Listener) (managedZone : ManagedZone) : DNSRecord :=
  let dnsRecord : DNSRecord :=
    { Name := dnsRecordName gateway.Name targetListener.Name
      Namespace := managedZone.Namespace
      Labels := commonDNSRecordLabels backRef
        { Namespace := gateway.Namespace, Name := gateway.Name } dnsPolicy
      ManagedZoneRef := some managedZone.Name
      Endpoints := [] }
  { dnsRecord with Labels := setLabel LabelListenerReference targetListener.Name dnsRecord.Labels }

/-- An error of the object store: `not found`, or any other error. -/
inductive StoreError where
  | notFound
  | other (message : String)
deriving DecidableEq, Repr

/-- The function `client.IgnoreNotFound`: `nil` for a `not found` error. -/
def IgnoreNotFound : Option StoreError → Option StoreError
  | some .notFound => none
  | e => e

/-- The records `List` returns for the gateway: those in the namespace of the
gateway whose label `kuadrant.io/gateway` is the name of the gateway. -/
def listedFor (upstreamGateway : Gateway) (dnsRecord : DNSRecord) : Bool :=
  dnsRecord.Namespace == upstreamGateway.Namespace &&
    dnsRecord.Labels.lookup LabelGatewayReference == some upstreamGateway.Name

/-- The inner loop of `removeDNSForDeletedListeners`: some listener of the
gateway has the name held by the listener label of the record. -/
def listenerExists (upstreamGateway : Gateway) (dnsRecord : DNSRecord) : Bool :=
  upstreamGateway.Listeners.any (fun listener => listener.Name == getLabel dnsRecord.Labels LabelListenerReference)

/-- The store after `Delete` of a record: the object of that namespace and name is gone. -/
def deleteRecord (store : List DNSRecord) (dnsRecord : DNSRecord) : List DNSRecord :=
  store.filter (fun r => !(r.Namespace == dnsRecord.Namespace && r.Name == dnsRecord.Name))

/-- The outer loop of `removeDNSForDeletedListeners` over the listed records:
the store afterwards and the error returned.  `deleteError` tells which error,
if any, `Delete` reports for a record; a `not found` error is ignored. -/
def removeLoop (deleteError : DNSRecord → Option StoreError) (upstreamGateway : Gateway) :
    List DNSRecord → List DNSRecord → List DNSRecord × Option StoreError
  | [], store => (store, none)
  | dnsRecord :: items, store =>
    if listenerExists upstreamGateway dnsRecord then
      removeLoop deleteError upstreamGateway items store
    else
      match deleteError dnsRecord with
      | none => removeLoop deleteError upstreamGateway items (deleteRecord store dnsRecord)
      | some err =>
        match IgnoreNotFound (some err) with
        | some err => (store, some err)
        | none => removeLoop deleteError upstreamGateway items store

/-- The function `removeDNSForDeletedListeners` on a store holding the records
`store`: the store afterwards and the error returned.  `listError` is the error
`List` reports, if any. -/
def removeDNSForDeletedListeners (listError : Option StoreError)
    (deleteError : DNSRecord → Option StoreError) (store : List DNSRecord)
    (upstreamGateway : Gateway) : List DNSRecord × Option StoreError :=
  match listError with
  | some err => (store, some err)
  | none => removeLoop deleteError upstreamGateway (store.filter (listedFor upstreamGateway)) store

/-- The gateway of the integration tests, with its one listener. -/
def testGateway : Gateway :=
  { Name := "test-placed-gateway", Namespace := "test-namespace",
    Listeners := [{ Name := "test-listener", Hostname := some "test.example.com" }] }

/-- The key of the policy of the integration tests. -/
def testPolicyKey : ObjectKey := { Namespace := "test-namespace", Name := "test-dns-policy" }

/-- A record of `testGateway` for a listener that is gone. -/
def staleRecord : DNSRecord :=
  { Name := "test-placed-gateway-old-listener", Namespace := "test-namespace",
    Labels := [("kuadrant.io/gateway", "test-placed-gateway"), ("kuadrant.io/listener-name", "old-listener")],
    ManagedZoneRef := some "mz-example-com", Endpoints := [] }

/-! ## The health check probe reconciler -/

/-- The finalizer `DNSHealthCheckProbeFinalizer`. -/
def DNSHealthCheckProbeFinalizer : String := "kuadrant.io/dns-health-check-probe"

/-- The function `unicode.IsSpace` of the Go standard library: the white space
characters of Unicode. -/
def isSpace (c : Char) : Bool :=
  decide (c.toNat ∈ [0x09, 0x0A, 0x0B, 0x0C, 0x0D, 0x20, 0x85, 0xA0, 0x1680, 0x2028, 0x2029,
    0x202F, 0x205F, 0x3000]) || (decide (0x2000 ≤ c.toNat) && decide (c.toNat ≤ 0x200A))

/-- The function `strings.TrimSpace`: the string without its leading and
trailing white space. -/
def TrimSpace (s : String) : String :=
  ⟨((s.data.dropWhile isSpace).reverse.dropWhile isSpace).reverse⟩

/-- The function `strings.ContainsAny`: some character of `chars` occurs in `s`. -/
def ContainsAny (s chars : String) : Bool := s.data.any (fun c => chars.data.contains c)

/-- The type `v1alpha1.AdditionalHeader`. -/
structure AdditionalHeader where
  Name : String
  Value : String
deriving DecidableEq, Repr

/-- The status of a probe object. -/
structure DNSHealthCheckProbeStatus where
  LastCheckedAt : Int
  ConsecutiveFailures : Int
  Reason : String
  Healthy : Bool
deriving DecidableEq, Repr

/-- The spec of a probe object; `AdditionalHeadersRef` is the name of the
secret, if any, and `Interval` its duration. -/
structure DNSHealthCheckProbeSpec where
  Port : Int
  Host : String
  Address : String
  Path : String
  Protocol : String
  Interval : Int
  AdditionalHeadersRef : Option String
  ExpectedResponses : List Int
  AllowInsecureCertificate : Bool
deriving DecidableEq, Repr

/-- The `v1alpha1.DNSHealthCheckProbe` object; `DeletionTimestamp` is `none` for
a nil pointer and the zero time is `0`. -/
structure DNSHealthCheckProbe where
  Name : String
  Namespace : String
  DeletionTimestamp : Option Int
  Finalizers : List String
  Spec : DNSHealthCheckProbeSpec
  Status : DNSHealthCheckProbeStatus
deriving DecidableEq, Repr

/-- The errors of `getAdditionalHeaders`: the two that wrap the error of the
read of the secret, and the one that wraps `ErrInvalidHeader`. -/
inductive HeadersError where
  | unusualRetrieving (secretKey : ObjectKey) (err : StoreError)
  | retrieving (secretKey : ObjectKey) (err : StoreError)
  | invalidHeader (k : String)
deriving DecidableEq, Repr

/-- The test `errors.Is(err, ErrInvalidHeader)`. -/
def HeadersError.IsInvalidHeader : HeadersError → Bool
  | .invalidHeader _ => true
  | _ => false

/-- The loop of `getAdditionalHeaders` over the data of the secret, in the
order in which `range` visits the keys: the probe object, the headers returned
and the error. -/
def headersLoop (probeObj : DNSHealthCheckProbe) :
    List AdditionalHeader → List (String × String) →
      DNSHealthCheckProbe × List AdditionalHeader × Option HeadersError
  | additionalHeaders, [] => (probeObj, additionalHeaders, none)
  | additionalHeaders, (k, v) :: data =>
    if ContainsAny (TrimSpace k) " \t" then
      ({ probeObj with Status := { probeObj.Status with
          Healthy := false, ConsecutiveFailures := 0, Reason := "invalid header found: " ++ k } },
        [], some (.invalidHeader k))
    else
      headersLoop probeObj (additionalHeaders ++ [{ Name := TrimSpace k, Value := v }]) data

/-- The function `getAdditionalHeaders`: the probe object (whose status the
function may set), the headers returned and the error.  `getSecret` is the
read of a secret from the store: its data, in the order in which `range`
visits the keys, or an error. -/
def getAdditionalHeaders (getSecret : ObjectKey → Except StoreError (List (String × String)))
    (probeObj : DNSHealthCheckProbe) :
    DNSHealthCheckProbe × List AdditionalHeader × Option HeadersError :=
  match probeObj.Spec.AdditionalHeadersRef with
  | none => (probeObj, [], none)
  | some name =>
    let secretKey : ObjectKey := { Name := name, Namespace := probeObj.Namespace }
    match getSecret secretKey with
    | .error err =>
      if IgnoreNotFound (some err) ≠ none then
        (probeObj, [], some (.unusualRetrieving secretKey err))
      else
        ({ probeObj with Status := { probeObj.Status with
            Healthy := false, ConsecutiveFailures := 0,
            Reason := "additional headers secret not found" } },
          [], some (.retrieving secretKey err))
    | .ok data => headersLoop probeObj [] data

/-- The function `probeId`. -/
def probeId (probeObj : DNSHealthCheckProbe) : String :=
  probeObj.Namespace ++ "/" ++ probeObj.Name

/-- Modelled from the spec: an entry of the probe registry, `health.ProbeQueuer`;
`Notifier` is the key of the probe object the notifier reports to. -/
structure ProbeQueuer where
  ID : String
  Interval : Int
  Host : String
  Path : String
  Port : Int
  Protocol : String
  IPAddress : String
  AdditionalHeaders : List AdditionalHeader
  ExpectedResponses : List Int
  AllowInsecureCertificate : Bool
  Notifier : Option ObjectKey
deriving DecidableEq, Repr

/-- Modelled from the spec: the probe registry `health.Monitor`, its entries. -/
abbrev Monitor := List ProbeQueuer

/-- Modelled from the spec: `Has(id)` of the registry. -/
def HasProbe (monitor : Monitor) (id : String) : Bool := monitor.any (fun p => p.ID == id)

/-- Modelled from the spec: `Update(id, mutate-fn)` of the registry, which
applies the function to the entry of that id. -/
def UpdateProbe (monitor : Monitor) (id : String) (update : ProbeQueuer → ProbeQueuer) : Monitor :=
  monitor.map (fun p => if p.ID = id then update p else p)

/-- Modelled from the spec: `Add(entry)` of the registry, which replaces an
entry of the same id. -/
def AddProbeQueuer (monitor : Monitor) (probe : ProbeQueuer) : Monitor :=
  if HasProbe monitor probe.ID then monitor.map (fun p => if p.ID = probe.ID then probe else p)
  else monitor ++ [probe]

/-- Modelled from the spec: `Remove(id)` of the registry. -/
def RemoveProbe (monitor : Monitor) (id : String) : Monitor :=
  monitor.filter (fun p => !(p.ID == id))

/-- The function `controllerutil.ContainsFinalizer`. -/
def ContainsFinalizer (o : DNSHealthCheckProbe) (finalizer : String) : Bool :=
  o.Finalizers.contains finalizer

/-- The function `controllerutil.AddFinalizer`: appended unless present. -/
def AddFinalizer (o : DNSHealthCheckProbe) (finalizer : String) : DNSHealthCheckProbe :=
  if o.Finalizers.contains finalizer then o else { o with Finalizers := o.Finalizers ++ [finalizer] }

/-- The function `controllerutil.RemoveFinalizer`: every occurrence is removed. -/
def RemoveFinalizer (o : DNSHealthCheckProbe) (finalizer : String) : DNSHealthCheckProbe :=
  { o with Finalizers := o.Finalizers.filter (fun f => !(f == finalizer)) }

/-- The store as `Reconcile` sees it: the result of the read of the probe
object of the request, the error, if any, that `Update` reports for an object,
and the read of a secret. -/
structure ProbeClient where
  get : Except StoreError DNSHealthCheckProbe
  update : DNSHealthCheckProbe → Option StoreError
  getSecret : ObjectKey → Except StoreError (List (String × String))

/-- The error `Reconcile` returns: an error of the store or of `getAdditionalHeaders`. -/
inductive ReconcileError where
  | store (err : StoreError)
  | headers (err : HeadersError)
deriving DecidableEq, Repr

/-- The outcome of `Reconcile`: the error returned (`none` is `nil`), the
registry afterwards, the objects handed to `Update` and to `Status().Update`,
in order, and the local object `probeObj` at the return, if it was read. -/
structure ReconcileResult where
  err : Option ReconcileError
  monitor : Monitor
  updates : List DNSHealthCheckProbe
  statusUpdates : List DNSHealthCheckProbe
  probeObj : Option DNSHealthCheckProbe
deriving DecidableEq, Repr

/-- The condition `probeObj.DeletionTimestamp != nil && !probeObj.DeletionTimestamp.IsZero()`. -/
def beingDeleted (probeObj : DNSHealthCheckProbe) : Bool :=
  match probeObj.DeletionTimestamp with
  | none => false
  | some t => !(t == 0)

/-- The part of `Reconcile` after the finalizer is ensured: the headers are
resolved and the registry entry is updated or added.  `NewHealthProtocol` is
the function of that name of the API package; the default `HttpProtocol`
assigned to `protocol` before is overwritten by its result. -/
def registerProbe (NewHealthProtocol : String → String) (c : ProbeClient) (monitor : Monitor)
    (previous probeObj : DNSHealthCheckProbe) (updates : List DNSHealthCheckProbe) : ReconcileResult :=
  let interval := probeObj.Spec.Interval
  let protocol := NewHealthProtocol probeObj.Spec.Protocol
  let probeId := probeId probeObj
  match getAdditionalHeaders c.getSecret probeObj with
  | (probeObj, _, some err) =>
    { err := some (.headers err), monitor := monitor, updates := updates,
      statusUpdates := [probeObj], probeObj := some probeObj }
  | (probeObj, additionalHeaders, none) =>
    if HasProbe monitor probeId then
      { err := none
        monitor := UpdateProbe monitor probeId (fun p =>
          { p with Interval := interval, Host := probeObj.Spec.Host, IPAddress := probeObj.Spec.Address,
                   Path := probeObj.Spec.Path, Port := probeObj.Spec.Port, Protocol := protocol,
                   AdditionalHeaders := additionalHeaders,
                   ExpectedResponses := probeObj.Spec.ExpectedResponses,
                   AllowInsecureCertificate := probeObj.Spec.AllowInsecureCertificate })
        updates := updates, statusUpdates := [], probeObj := some probeObj }
    else
      { err := none
        monitor := AddProbeQueuer monitor
          { ID := probeId, Interval := interval, Host := probeObj.Spec.Host, Path := probeObj.Spec.Path,
            Port := probeObj.Spec.Port, Protocol := protocol, IPAddress := probeObj.Spec.Address,
            AdditionalHeaders := additionalHeaders,
            ExpectedResponses := probeObj.Spec.ExpectedResponses,
            AllowInsecureCertificate := probeObj.Spec.AllowInsecureCertificate,
            Notifier := some { Namespace := previous.Namespace, Name := previous.Name } }
        updates := updates, statusUpdates := [], probeObj := some probeObj }

/-- The function `DNSHealthCheckProbeReconciler.Reconcile` for one request. -/
def Reconcile (NewHealthProtocol : String → String) (c : ProbeClient) (monitor : Monitor) :
    ReconcileResult :=
  match c.get with
  | .error err =>
    -- `if err := client.IgnoreNotFound(err); err != nil { return nil } else { return err }`:
    -- the `err` of the `else` branch is the inner one
    let err := IgnoreNotFound (some err)
    if err ≠ none then
      { err := none, monitor := monitor, updates := [], statusUpdates := [], probeObj := none }
    else
      { err := err.map .store, monitor := monitor, updates := [], statusUpdates := [], probeObj := none }
  | .ok previous =>
    let probeObj := previous
    if beingDeleted probeObj then
      let monitor := RemoveProbe monitor (probeId probeObj)
      let probeObj := RemoveFinalizer probeObj DNSHealthCheckProbeFinalizer
      { err := (c.update probeObj).map .store, monitor := monitor, updates := [probeObj],
        statusUpdates := [], probeObj := some probeObj }
    else if !ContainsFinalizer probeObj DNSHealthCheckProbeFinalizer then
      let probeObj := AddFinalizer probeObj DNSHealthCheckProbeFinalizer
      match c.update probeObj with
      | some err =>
        { err := some (.store err), monitor := monitor, updates := [probeObj], statusUpdates := [],
          probeObj := some probeObj }
      | none => registerProbe NewHealthProtocol c monitor previous probeObj [probeObj]
    else registerProbe NewHealthProtocol c monitor previous probeObj []

/-- A probe object of the integration tests, without finalizer and without a
reference to a secret. -/
def testProbe : DNSHealthCheckProbe :=
  { Name := "test-probe", Namespace := "test-namespace", DeletionTimestamp := none, Finalizers := [],
    Spec := { Port := 80, Host := "test.example.com", Address := "172.0.0.1", Path := "/",
              Protocol := "HTTP", Interval := 1, AdditionalHeadersRef := none,
              ExpectedResponses := [200, 201], AllowInsecureCertificate := false },
    Status := { LastCheckedAt := 0, ConsecutiveFailures := 2, Reason := "", Healthy := true } }

/-- The probe object `testProbe` with a reference to the secret `probe-headers`. -/
def testProbeWithHeaders : DNSHealthCheckProbe :=
  { testProbe with Spec := { testProbe.Spec with AdditionalHeadersRef := some "probe-headers" } }

/-- A store in which the probe object `probeObj` is read, every `Update` fails
with a conflict, and no secret exists. -/
def conflictClient (probeObj : DNSHealthCheckProbe) : ProbeClient :=
  { get := .ok probeObj
    update := fun _ => some (.other "the object has been modified")
    getSecret := fun _ => .error .notFound }

/-- A store in which the probe object `probeObj` is read, every `Update`
succeeds, and no secret exists. -/
def healthyClient (probeObj : DNSHealthCheckProbe) : ProbeClient :=
  { get := .ok probeObj
    update := fun _ => none
    getSecret := fun _ => .error .notFound }

/-- The probe object `testProbe` while it is being deleted, with its finalizer. -/
def deletedProbe : DNSHealthCheckProbe :=
  { testProbe with DeletionTimestamp := some 1700000000,
                   Finalizers := ["kuadrant.io/dns-health-check-probe"] }

/-- A registry entry for `testProbe`, registered earlier with other values. -/
def testEntry : ProbeQueuer :=
  { ID := "test-namespace/test-probe", Interval := 60, Host := "old.example.com", Path := "/healthz",
    Port := 8080, Protocol := "HTTPS", IPAddress := "172.0.0.9", AdditionalHeaders := [],
    ExpectedResponses := [200], AllowInsecureCertificate := true,
    Notifier := some { Namespace := "test-namespace", Name := "test-probe" } }

/-- A registry entry of another probe. -/
def otherEntry : ProbeQueuer :=
  { testEntry with ID := "test-namespace/other-probe" }

/-- The probe object in the store after the calls of `Update` that `Reconcile`
made, in order: a write that the store accepts replaces the stored object, a
write that it answers with an error leaves the stored object as it was. -/
def storedAfter (c : ProbeClient) (previous : DNSHealthCheckProbe)
    (updates : List DNSHealthCheckProbe) : DNSHealthCheckProbe :=
  updates.foldl (fun stored u => if c.update u = none then u else stored) previous

/-- The number of labels of a host: one more than the number of its dots. -/
def labelCount (host : String) : Nat := host.data.count '.' + 1

/-- A record whose one endpoint has the DNS name `a` and the set-identifier `bc`. -/
def splitRecord : List Endpoint :=
  [ { DNSName := "a", Targets := ["172.0.0.1"], RecordType := "A", SetIdentifier := "bc", RecordTTL := 60 } ]

/-! ## Health feedback into the synthesis -/

/-- Modelled from the spec: the omission of the unhealthy addresses of one
cluster (4.G: the builder `may omit an address whose probe is currently
unhealthy`).  The method of `dns.MultiClusterGatewayTarget` that applies the
probe results is missing from the sources; `unhealthy c a` is the answer of the
probe registry for the probe of the address `a` of the cluster `c`. -/
def omitUnhealthy (unhealthy : ClusterGatewayTarget → GatewayAddress → Bool)
    (cgwTarget : ClusterGatewayTarget) : ClusterGatewayTarget :=
  { cgwTarget with Addresses := cgwTarget.Addresses.filter (fun a => !unhealthy cgwTarget a) }

/-- Modelled from the spec: the health feedback on one geo group, with the
safety floor of 4.G, missing from the sources: `if omitting unhealthy addresses
would leave a geo group empty, all addresses in that group are retained`;
otherwise the unhealthy addresses are omitted. -/
def retainHealthy (unhealthy : ClusterGatewayTarget → GatewayAddress → Bool)
    (cgwTargets : List ClusterGatewayTarget) : List ClusterGatewayTarget :=
  let kept := cgwTargets.map (omitUnhealthy unhealthy)
  if kept.all (fun c => c.Addresses.isEmpty) then cgwTargets else kept

/-- Modelled from the spec: the target the load-balanced builder synthesizes
from under a policy with health checks (4.G), missing from the sources: the
feedback is applied to every geo group. -/
def withHealthFeedback (unhealthy : ClusterGatewayTarget → GatewayAddress → Bool)
    (mcgTarget : MultiClusterGatewayTarget) : MultiClusterGatewayTarget :=
  { mcgTarget with
    GroupTargetsByGeo := mcgTarget.GroupTargetsByGeo.map
      (fun entry => (entry.1, retainHealthy unhealthy entry.2)) }

/-! ## Reuse of the current endpoints -/

/-- The object a builder call leaves behind when it reuses the stored endpoint
`stored` for the endpoint `o` it synthesizes: DNS name, record type, targets
and TTL are assigned and the attributes of `o` are set; the set-identifier, the
labels and the other attributes of the stored endpoint stay. -/
def reuseEndpoint (stored o : Endpoint) : Endpoint :=
  { stored with
    DNSName := o.DNSName, RecordType := o.RecordType, Targets := o.Targets, RecordTTL := o.RecordTTL,
    ProviderSpecific :=
      o.ProviderSpecific.foldl (fun ps a => setProperty a.Name a.Value ps) stored.ProviderSpecific }

/-- The pointers of the map `currentEndpoints` lie below `n0`, and no two keys
share a pointer. -/
def MapOK (cur : EndpointMap) (n0 : Nat) : Prop :=
  (∀ k q, cur.lookup k = some q → q < n0) ∧
  ∀ k k' q, cur.lookup k = some q → cur.lookup k' = some q → k = k'

/-- The heap `heap'` extends `heap`, and the objects of `heap` are unchanged
but for those stored under one of the keys `ks`. -/
def Frame (cur : EndpointMap) (ks : List String) (heap heap' : Heap) : Prop :=
  heap.length ≤ heap'.length ∧
  ∀ p, p < heap.length → (∀ k ∈ ks, cur.lookup k ≠ some p) → deref heap' p = deref heap p

/-- In `heap'` the pointer `p` holds the endpoint `o` as the builder leaves it
when it starts from `heap`: the stored object of the identity string of `o`,
reused, or a new object equal to `o`. -/
def Holds (cur : EndpointMap) (heap heap' : Heap) (p : Nat) (o : Endpoint) : Prop :=
  p < heap'.length ∧
  (∀ q, cur.lookup o.SetID = some q → p = q ∧ deref heap' p = reuseEndpoint (deref heap q) o) ∧
  (cur.lookup o.SetID = none → heap.length ≤ p ∧ deref heap' p = o)

/-- A block of builder calls started on `heap` ends on `heap'` with the
pointers `ptrs` holding the endpoints `outs`, and touched no other stored object. -/
def Emits (cur : EndpointMap) (heap : Heap) (ptrs : List Nat) (heap' : Heap)
    (outs : List Endpoint) : Prop :=
  Frame cur (outs.map Endpoint.SetID) heap heap' ∧ List.Forall₂ (Holds cur heap heap') ptrs outs

/-! ## Records with prior endpoints -/

/-- A cluster whose short code is the geo LB name of `IE` for the test
listener followed by the short code of the first test cluster. -/
def clusterLong : ClusterGatewayTarget :=
  { GetShortCode := "ie.lb-abc123.test.example.coms07c46", GetWeight := 120,
    Addresses := [ipAddress "172.0.0.2"] }

/-- A target with the clusters `clusterLong` and `clusterOne` in the geo group
`IE`: the A record of the first and the weighted CNAME of the second have the
same identity string. -/
def collidingTarget : MultiClusterGatewayTarget :=
  { GetShortCode := "abc123", GetDefaultGeo := "IE",
    ClusterGatewayTargets := [clusterLong, clusterOne 120],
    GroupTargetsByGeo := [("IE", [clusterLong, clusterOne 120])] }

/-- The record of `collidingTarget` after a first reconciliation. -/
def collidingRecord : List Endpoint :=
  sortEndpoints (loadBalancedOut collidingTarget "test.example.com")

/-- A record with one endpoint whose identity string is that of the `default`
endpoint of the test listener, split one character later. -/
def splitDefaultRecord : List Endpoint :=
  [ { DNSName := "lb-abc123.test.example.comd", Targets := ["ie.lb-abc123.test.example.com"],
      RecordType := "CNAME", SetIdentifier := "efault", RecordTTL := 300 } ]

/-- A record with one endpoint whose identity string is that of the geo CNAME
of `ES` of the test listener, split one character later. -/
def splitGeoRecord : List Endpoint :=
  [ { DNSName := "lb-abc123.test.example.comE", Targets := ["es.lb-abc123.test.example.com"],
      RecordType := "CNAME", SetIdentifier := "S", RecordTTL := 300 } ]

/-- A record with one endpoint whose identity string is that of the A record
of the first test cluster, split one character earlier. -/
def splitClusterRecord : List Endpoint :=
  [ { DNSName := "s07c46.lb-abc123.test.example.co", Targets := ["172.0.0.1"],
      RecordType := "A", SetIdentifier := "m", RecordTTL := 60 } ]

/-- The record of `customWeightsTarget` after a first reconciliation. -/
def customWeightsRecord : List Endpoint :=
  sortEndpoints (loadBalancedOut customWeightsTarget "test.example.com")

/-! ## The writes of the load-balanced builder -/

/-- A write of the load-balanced builder to an endpoint object: the call of
`createOrUpdateEndpoint` that assigns the fields of `o`, together with the
attribute the builder then sets on the object, or the attribute `geo-code = *`
set on `defaultEndpoint` after the loop. -/
inductive Write where
  | value (o : Endpoint)
  | star
deriving DecidableEq, Repr

/-- The identity string under which a write looks its object up. -/
def Write.key (lbName : String) : Write → String
  | .value o => o.SetID
  | .star => lbName ++ "default"

/-- What a write makes of the object it finds. -/
def Write.apply : Write → Endpoint → Endpoint
  | .value o, e => reuseEndpoint e o
  | .star, e => e.SetProviderSpecific ProviderSpecificGeoCode WildcardGeo

/-- An object after the writes `ws`, in order. -/
def replay (ws : List Write) (e : Endpoint) : Endpoint := ws.foldl (fun e w => w.apply e) e

/-- The writes of `ws` under the identity string `k`. -/
def writesTo (lbName k : String) (ws : List Write) : List Write :=
  ws.filter (fun w => w.key lbName == k)

/-- Every stored object of `b` is the object of `a` after the writes of `ws`
under its identity string. -/
def StoredUpd (cur : EndpointMap) (lbName : String) (ws : List Write) (a b : Heap) : Prop :=
  ∀ k q, cur.lookup k = some q → deref b q = replay (writesTo lbName k ws) (deref a q)

/-- The heap `b` extends `a` and the objects of `a` that are not stored in the
record (pointers from `n0` on) are unchanged. -/
def FreshKeep (n0 : Nat) (a b : Heap) : Prop :=
  a.length ≤ b.length ∧ ∀ p, n0 ≤ p → p < a.length → deref b p = deref a p

/-- The pointer `p` is the one the builder returned for the endpoint `o`: the
stored object of the identity string of `o`, or a new object (from `n` on) that
reads as `o`. -/
def Pin (cur : EndpointMap) (n : Nat) (heap : Heap) (p : Nat) (o : Endpoint) : Prop :=
  p < heap.length ∧ (∀ q, cur.lookup o.SetID = some q → p = q) ∧
    (cur.lookup o.SetID = none → n ≤ p ∧ deref heap p = o)

/-- A block of builder calls started on `a` ends on `b`, returned the pointers
`ptrs` for the endpoints `outs`, and wrote exactly these endpoints. -/
def Runs (cur : EndpointMap) (n0 : Nat) (lbName : String) (a : Heap) (ptrs : List Nat) (b : Heap)
    (outs : List Endpoint) : Prop :=
  StoredUpd cur lbName (outs.map Write.value) a b ∧ FreshKeep n0 a b ∧
    List.Forall₂ (Pin cur a.length b) ptrs outs

/-- The writes of one pass of the loop over the geo groups, when the `default`
endpoint points at `d` before the pass. -/
def groupWrites (defaultGeo lbName : String) (d : Option String)
    (entry : String × List ClusterGatewayTarget) : List Write :=
  if (groupClusterOut lbName entry).length = 0 then []
  else (groupClusterOut lbName entry).map Write.value ++
    (if IsDefaultCode entry.1 then [Write.value (defaultEndpointRaw lbName entry.1)]
     else Write.value (geoEndpointOf lbName entry.1) ::
       (if entry.1 = defaultGeo ∨ d = none then [Write.value (defaultEndpointRaw lbName entry.1)]
        else []))

/-- The writes of the loop over the geo groups. -/
def loopWrites (defaultGeo lbName : String) :
    Option String → List (String × List ClusterGatewayTarget) → List Write
  | _, [] => []
  | d, entry :: gs =>
    groupWrites defaultGeo lbName d entry ++
      loopWrites defaultGeo lbName (defaultGeoStep defaultGeo lbName d entry) gs

/-- All writes of `getLoadBalancedEndpoints`, in order. -/
def allWrites (mcgTarget : MultiClusterGatewayTarget) (hostname : String) : List Write :=
  let lbName := lbNameOf mcgTarget hostname
  let ws := loopWrites mcgTarget.GetDefaultGeo lbName none mcgTarget.GroupTargetsByGeo
  if (mcgTarget.GroupTargetsByGeo.flatMap (groupOut lbName)).length > 0 then
    ws ++ [Write.star, Write.value (rootEndpointOf hostname lbName)]
  else ws

/-- The endpoint published for `o` on a record that holds `recordEndpoints`:
the stored endpoint of the identity string of `o` after all writes of the
builder under that identity string, or `o` itself when there is none. -/
def finalIn (recordEndpoints : List Endpoint) (lbName : String) (ws : List Write) (o : Endpoint) :
    Endpoint :=
  match (currentEndpointsOf recordEndpoints).lookup o.SetID with
  | some q => replay (writesTo lbName o.SetID ws) (deref recordEndpoints q)
  | none => o

/-- The relation between the loop state of a synthesis started on the heap `h`
and the endpoints `vals` a first synthesis would publish so far, `d` the geo
code the `default` endpoint points at and `ws` the writes made so far. -/
def WriteInv (cur : EndpointMap) (n0 : Nat) (lbName : String) (h : Heap) (st : LoopState)
    (vals : List Endpoint) (d : Option String) (ws : List Write) : Prop :=
  StoredUpd cur lbName ws h st.heap ∧ FreshKeep n0 h st.heap ∧
  List.Forall₂ (Pin cur h.length st.heap) st.endpoints vals ∧
  (st.defaultEndpoint = none ↔ d = none) ∧
  ∀ pd, st.defaultEndpoint = some pd →
    ∃ g, d = some g ∧ Pin cur h.length st.heap pd (defaultEndpointRaw lbName g) ∧
      (cur.lookup (lbName ++ "default") = none → pd ∉ st.endpoints)

/-! ## Targets and records with colliding identity strings -/

/-- A cluster whose short code is the LB name of the test listener. -/
def clusterAtLbName : ClusterGatewayTarget :=
  { GetShortCode := "lb-abc123.test.example.com", GetWeight := 120,
    Addresses := [ipAddress "172.0.0.3"] }

/-- A target with a geo group whose code is a dot followed by the LB name of
the test listener, visited first, and the cluster `clusterAtLbName` in the geo
group `IE`: the geo CNAME of the first group and the A record of that cluster
have the same identity string. -/
def dottedGeoTarget : MultiClusterGatewayTarget :=
  { GetShortCode := "abc123", GetDefaultGeo := "IE",
    ClusterGatewayTargets := [clusterTwo 120, clusterAtLbName],
    GroupTargetsByGeo := [(".lb-abc123.test.example.com", [clusterTwo 120]), ("IE", [clusterAtLbName])] }

/-- A record that holds the geo CNAME of the first geo group of `dottedGeoTarget`. -/
def dottedGeoRecord : List Endpoint :=
  [ { DNSName := "lb-abc123.test.example.com",
      Targets := [".lb-abc123.test.example.com.lb-abc123.test.example.com"],
      RecordType := "CNAME", SetIdentifier := ".lb-abc123.test.example.com", RecordTTL := 300,
      ProviderSpecific := [{ Name := "geo-code", Value := ".lb-abc123.test.example.com" }] } ]

/-- A record with one endpoint that has the set-identifier `default` and the
identity string of the geo CNAME of a geo group `EU-default` of the test listener. -/
def suffixDefaultRecord : List Endpoint :=
  [ { DNSName := "lb-abc123.test.example.comEU-", Targets := ["eu-default.lb-abc123.test.example.com"],
      RecordType := "CNAME", SetIdentifier := "default", RecordTTL := 300 } ]

/-! ## Heap lemmas -/

theorem createOrUpdateEndpoint_nil (dnsName : String) (targets : List String) (recordType : String)
    (setIdentifier : String) (recordTTL : Int) (h : Heap) :
    createOrUpdateEndpoint dnsName targets recordType setIdentifier recordTTL [] h =
      (h.length, h ++ [mkEndpoint dnsName targets recordType setIdentifier recordTTL]) := by
  unfold createOrUpdateEndpoint mkEndpoint
  by_cases hs : setIdentifier = ""
  · subst hs; simp [List.lookup]
  · simp [List.lookup, hs]

theorem mutate_append_length (f : Endpoint → Endpoint) (h : Heap) (e : Endpoint) (rest : Heap) :
    mutate f (h ++ e :: rest) h.length = h ++ f e :: rest := by
  induction h with
  | nil => simp [mutate]
  | cons a h ih => simp [mutate, ih]

theorem length_mutate (f : Endpoint → Endpoint) (h : Heap) (p : Nat) :
    (mutate f h p).length = h.length := by
  induction h generalizing p with
  | nil => simp [mutate]
  | cons a h ih => cases p <;> simp [mutate, ih]

theorem deref_mutate_ne (f : Endpoint → Endpoint) (h : Heap) (p q : Nat) (hpq : p ≠ q) :
    deref (mutate f h q) p = deref h p := by
  induction h generalizing p q with
  | nil => simp [mutate]
  | cons a h ih =>
    cases q with
    | zero =>
      cases p with
      | zero => exact absurd rfl hpq
      | succ p => simp [mutate, deref]
    | succ q =>
      cases p with
      | zero => simp [mutate, deref]
      | succ p =>
        have := ih p q (by omega)
        simpa [mutate, deref] using this

theorem deref_mutate_eq (f : Endpoint → Endpoint) (h : Heap) (p : Nat) (hp : p < h.length) :
    deref (mutate f h p) p = f (deref h p) := by
  induction h generalizing p with
  | nil => simp at hp
  | cons a h ih =>
    cases p with
    | zero => simp [mutate, deref]
    | succ p =>
      have := ih p (by simpa using hp)
      simpa [mutate, deref] using this

theorem deref_append_left (h x : Heap) (p : Nat) (hp : p < h.length) :
    deref (h ++ x) p = deref h p := by
  unfold deref
  rw [List.getD_append _ _ _ _ hp]

theorem deref_append_length (h : Heap) (e : Endpoint) (rest : Heap) :
    deref (h ++ e :: rest) h.length = e := by
  unfold deref
  rw [List.getD_append_right _ _ _ _ (le_refl _)]
  simp

/-! ## A first synthesis computes `loadBalancedOut` and `simpleOut` -/

theorem hostValueStep_nil (c : ClusterGatewayTarget) (geoLbName : String) (ptrs : List Nat) (h : Heap)
    (hv : String) :
    hostValueStep c geoLbName [] (ptrs, h) hv =
      (ptrs ++ [h.length], h ++ [weightedEndpointOf c geoLbName hv]) := by
  simp only [hostValueStep, createOrUpdateEndpoint_nil, mutate_append_length, weightedEndpointOf]

theorem foldl_hostValueStep_nil (c : ClusterGatewayTarget) (geoLbName : String) (vs : List String)
    (ptrs : List Nat) (h : Heap) :
    vs.foldl (hostValueStep c geoLbName []) (ptrs, h) =
      (ptrs ++ List.range' h.length vs.length, h ++ vs.map (weightedEndpointOf c geoLbName)) := by
  induction vs generalizing ptrs h with
  | nil => simp
  | cons v vs ih =>
    rw [List.foldl_cons, hostValueStep_nil, ih]
    simp [List.range'_succ]

theorem clusterStep_nil (lbName geoLbName : String) (ptrs : List Nat) (h : Heap)
    (c : ClusterGatewayTarget) :
    clusterStep lbName geoLbName [] (ptrs, h) c =
      (ptrs ++ List.range' h.length (clusterOut lbName geoLbName c).length,
        h ++ clusterOut lbName geoLbName c) := by
  unfold clusterStep clusterOut clusterValues
  by_cases hip : (ipValuesOf c.Addresses).length > 0
  · simp only [hip, if_true, createOrUpdateEndpoint_nil, foldl_hostValueStep_nil, aEndpointOf]
    simp [List.range'_succ, List.range'_append]
  · simp only [hip, if_false, foldl_hostValueStep_nil]
    simp

theorem foldl_clusterStep_nil (lbName geoLbName : String) (cs : List ClusterGatewayTarget)
    (ptrs : List Nat) (h : Heap) :
    cs.foldl (clusterStep lbName geoLbName []) (ptrs, h) =
      (ptrs ++ List.range' h.length (cs.flatMap (clusterOut lbName geoLbName)).length,
        h ++ cs.flatMap (clusterOut lbName geoLbName)) := by
  induction cs generalizing ptrs h with
  | nil => simp
  | cons c cs ih =>
    rw [List.foldl_cons, clusterStep_nil, ih]
    simp [List.range'_append, List.flatMap_cons]
    omega

theorem map_deref_range' (h vals more : Heap) :
    (List.range' h.length vals.length).map (deref (h ++ vals ++ more)) = vals := by
  induction vals generalizing h with
  | nil => simp
  | cons v vals ih =>
    have h1 := ih (h ++ [v])
    simp only [List.length_append, List.length_singleton, List.append_assoc, List.singleton_append,
      List.cons_append, List.nil_append] at h1
    simp only [List.length_cons, List.range'_succ, List.map_cons, List.append_assoc, List.cons_append]
    rw [h1, deref_append_length]

theorem map_deref_append (h x : Heap) (ptrs : List Nat) (hb : ∀ p ∈ ptrs, p < h.length) :
    ptrs.map (deref (h ++ x)) = ptrs.map (deref h) :=
  List.map_congr_left (fun p hp => deref_append_left h x p (hb p hp))

theorem geoStep_nil (mcgTarget : MultiClusterGatewayTarget) (lbName : String) (st : LoopState)
    (entry : String × List ClusterGatewayTarget) :
    geoStep mcgTarget lbName [] st entry =
      let ce := groupClusterOut lbName entry
      let H := st.heap ++ ce
      if ce.length = 0 then st
      else if IsDefaultCode entry.1 then
        { endpoints := st.endpoints ++ List.range' st.heap.length ce.length,
          defaultEndpoint := some H.length,
          heap := H ++ [defaultEndpointRaw lbName entry.1] }
      else if entry.1 = mcgTarget.GetDefaultGeo ∨ st.defaultEndpoint = none then
        { endpoints := st.endpoints ++ List.range' st.heap.length ce.length ++ [H.length],
          defaultEndpoint := some (H.length + 1),
          heap := H ++ [geoEndpointOf lbName entry.1, defaultEndpointRaw lbName entry.1] }
      else
        { endpoints := st.endpoints ++ List.range' st.heap.length ce.length ++ [H.length],
          defaultEndpoint := st.defaultEndpoint,
          heap := H ++ [geoEndpointOf lbName entry.1] } := by
  unfold geoStep
  simp only [foldl_clusterStep_nil, List.nil_append, List.length_range']
  have hce : entry.2.flatMap (clusterOut lbName (geoLbNameOf entry.1 lbName)) = groupClusterOut lbName entry := rfl
  rw [hce]
  generalize groupClusterOut lbName entry = ce
  by_cases h0 : ce.length = 0
  · have : ce = [] := List.length_eq_zero.mp h0
    subst this
    simp
  · simp only [h0, if_false, createOrUpdateEndpoint_nil]
    by_cases hdc : IsDefaultCode entry.1 = true
    · simp only [hdc, if_true]
      have : entry.1 = "default" := by simpa [IsDefaultCode, DefaultGeo] using hdc
      simp [defaultEndpointRaw, this]
    · simp only [hdc]
      by_cases hd : entry.1 = mcgTarget.GetDefaultGeo ∨ st.defaultEndpoint = none
      · simp only [hd, if_true]
        have := mutate_append_length (fun e => e.SetProviderSpecific ProviderSpecificGeoCode entry.1)
          (st.heap ++ ce) (mkEndpoint lbName [geoLbNameOf entry.1 lbName] CNAMERecordType entry.1 DefaultCnameTTL)
          [defaultEndpointRaw lbName entry.1]
        simp [geoEndpointOf, defaultEndpointRaw] at this ⊢
        exact ⟨by omega, this⟩
      · simp only [hd, if_false]
        have := mutate_append_length (fun e => e.SetProviderSpecific ProviderSpecificGeoCode entry.1)
          (st.heap ++ ce) (mkEndpoint lbName [geoLbNameOf entry.1 lbName] CNAMERecordType entry.1 DefaultCnameTTL)
          []
        simp [geoEndpointOf] at this ⊢
        exact this

theorem map_deref_listed (heap ce more : Heap) (E : List Nat) (vals : List Endpoint)
    (hl : E.map (deref heap) = vals) (hb : ∀ p ∈ E, p < heap.length) :
    (E ++ List.range' heap.length ce.length).map (deref (heap ++ ce ++ more)) = vals ++ ce := by
  rw [List.map_append, map_deref_range', List.append_assoc, map_deref_append _ _ _ hb, hl]

theorem geoStep_fresh (mcgTarget : MultiClusterGatewayTarget) (lbName : String) (st : LoopState)
    (vals : List Endpoint) (d : Option String) (entry : String × List ClusterGatewayTarget)
    (hinv : FreshInv lbName st vals d) :
    FreshInv lbName (geoStep mcgTarget lbName [] st entry) (vals ++ groupOut lbName entry)
      (defaultGeoStep mcgTarget.GetDefaultGeo lbName d entry) := by
  obtain ⟨hl, hb, hn, hs⟩ := hinv
  rw [geoStep_nil]
  unfold groupOut defaultGeoStep
  simp only
  generalize groupClusterOut lbName entry = ce
  by_cases h0 : ce.length = 0
  · simp only [h0, if_true, List.append_nil]
    exact ⟨hl, hb, hn, hs⟩
  · simp only [h0, if_false]
    by_cases hdc : IsDefaultCode entry.1 = true
    · simp only [hdc, if_true]
      refine ⟨?_, ?_, ?_, ?_⟩
      · simpa using map_deref_listed st.heap ce _ st.endpoints vals hl hb
      · intro p hp
        simp only [List.mem_append, List.mem_range'_1] at hp
        simp only [List.length_append, List.length_singleton]
        rcases hp with hp | hp
        · have := hb p hp; omega
        · omega
      · simp
      · intro p hp
        simp only [Option.some.injEq] at hp
        subst hp
        refine ⟨by simp, ?_, entry.1, rfl, ?_⟩
        · simp only [List.mem_append, List.mem_range'_1, List.length_append, not_or]
          exact ⟨fun hm => by have := hb _ hm; omega, by omega⟩
        · exact deref_append_length _ _ _
    · simp only [hdc, Bool.false_eq_true, if_false]
      have hlist : ∀ more : Heap, (st.endpoints ++ List.range' st.heap.length ce.length ++ [(st.heap ++ ce).length]).map
          (deref (st.heap ++ ce ++ geoEndpointOf lbName entry.1 :: more)) =
          vals ++ (ce ++ [geoEndpointOf lbName entry.1]) := by
        intro more
        rw [List.map_append, map_deref_listed st.heap ce _ st.endpoints vals hl hb]
        simp only [List.map_cons, List.map_nil, deref_append_length]
        simp only [List.append_assoc]
      have hbound : ∀ p ∈ st.endpoints ++ List.range' st.heap.length ce.length ++ [(st.heap ++ ce).length],
          p < st.heap.length + ce.length + 1 := by
        intro p hp
        simp only [List.mem_append, List.mem_range'_1, List.mem_singleton, List.length_append] at hp
        rcases hp with (hp | hp) | hp
        · have := hb p hp; omega
        · omega
        · omega
      by_cases hd : entry.1 = mcgTarget.GetDefaultGeo ∨ st.defaultEndpoint = none
      · have hd2 : entry.1 = mcgTarget.GetDefaultGeo ∨ d = none := by
          rcases hd with h | h
          · exact Or.inl h
          · exact Or.inr (hn.mp h)
        simp only [hd, hd2, if_true]
        refine ⟨by simpa using hlist _, ?_, by simp, ?_⟩
        · intro p hp
          have := hbound p hp
          simp only [List.length_append, List.length_cons, List.length_nil]
          omega
        · intro p hp
          simp only [Option.some.injEq] at hp
          subst hp
          refine ⟨by simp; omega, ?_, entry.1, rfl, ?_⟩
          · intro hm
            have := hbound _ hm
            simp only [List.length_append] at this
            omega
          · have := deref_append_length (st.heap ++ ce ++ [geoEndpointOf lbName entry.1])
              (defaultEndpointRaw lbName entry.1) []
            simpa using this
      · have hd2 : ¬ (entry.1 = mcgTarget.GetDefaultGeo ∨ d = none) := by
          intro h
          rcases h with h | h
          · exact hd (Or.inl h)
          · exact hd (Or.inr (hn.mpr h))
        simp only [hd, hd2, if_false]
        refine ⟨by simpa using hlist [], ?_, hn, ?_⟩
        · intro p hp
          have := hbound p hp
          simp only [List.length_append, List.length_cons, List.length_nil]
          omega
        · intro p hp
          obtain ⟨h1, h2, g, h3, h4⟩ := hs p hp
          refine ⟨by simp only [List.length_append]; omega, ?_, g, h3, ?_⟩
          · simp only [List.mem_append, List.mem_range'_1, List.mem_singleton, List.length_append, not_or]
            exact ⟨⟨h2, by omega⟩, by omega⟩
          · show deref (st.heap ++ ce ++ [geoEndpointOf lbName entry.1]) p = _
            rw [List.append_assoc, deref_append_left _ _ _ h1, h4]

theorem foldl_geoStep_fresh (mcgTarget : MultiClusterGatewayTarget) (lbName : String)
    (gs : List (String × List ClusterGatewayTarget)) (st : LoopState)
    (vals : List Endpoint) (d : Option String) (hinv : FreshInv lbName st vals d) :
    FreshInv lbName (gs.foldl (geoStep mcgTarget lbName []) st) (vals ++ gs.flatMap (groupOut lbName))
      (gs.foldl (defaultGeoStep mcgTarget.GetDefaultGeo lbName) d) := by
  induction gs generalizing st vals d with
  | nil => simpa using hinv
  | cons g gs ih =>
    have := ih _ _ _ (geoStep_fresh mcgTarget lbName st vals d g hinv)
    simpa [List.flatMap_cons] using this

theorem groupOut_eq_nil_iff (lbName : String) (entry : String × List ClusterGatewayTarget) :
    groupOut lbName entry = [] ↔ (groupClusterOut lbName entry).length = 0 := by
  unfold groupOut
  by_cases h : (groupClusterOut lbName entry).length = 0
  · simp [h]
  · simp only [h, if_false, iff_false]
    intro hc
    have := congrArg List.length hc
    simp at this
    exact h (by simp [this.1])

theorem foldl_defaultGeoStep_ne_none (defaultGeo lbName : String)
    (gs : List (String × List ClusterGatewayTarget)) (d : Option String)
    (h : d ≠ none ∨ gs.flatMap (groupOut lbName) ≠ []) :
    gs.foldl (defaultGeoStep defaultGeo lbName) d ≠ none := by
  induction gs generalizing d with
  | nil => simpa using h
  | cons g gs ih =>
    rw [List.foldl_cons]
    apply ih
    by_cases hg : (groupClusterOut lbName g).length = 0
    · rcases h with h | h
      · left; simpa [defaultGeoStep, hg] using h
      · right
        simpa [List.flatMap_cons, (groupOut_eq_nil_iff lbName g).mpr hg] using h
    · left
      unfold defaultGeoStep
      simp only [hg, if_false]
      split_ifs <;> simp_all

theorem getLoadBalancedEndpoints_fresh (mcgTarget : MultiClusterGatewayTarget) (hostname : String)
    (h : Heap) :
    ∃ ptrs h', getLoadBalancedEndpoints mcgTarget hostname [] h = some (ptrs, h') ∧
      ptrs.map (deref h') = loadBalancedOut mcgTarget hostname := by
  have hinit : FreshInv (lbNameOf mcgTarget hostname)
      { endpoints := [], defaultEndpoint := none, heap := h } [] none := by
    refine ⟨rfl, by simp, by simp, by simp⟩
  have hinv := foldl_geoStep_fresh mcgTarget (lbNameOf mcgTarget hostname) mcgTarget.GroupTargetsByGeo _ _ _ hinit
  have hne := foldl_defaultGeoStep_ne_none mcgTarget.GetDefaultGeo (lbNameOf mcgTarget hostname)
    mcgTarget.GroupTargetsByGeo none
  unfold getLoadBalancedEndpoints loadBalancedOut defaultGeoOf
  simp only [List.nil_append] at hinv
  simp only
  generalize mcgTarget.GroupTargetsByGeo.foldl (geoStep mcgTarget (lbNameOf mcgTarget hostname) [])
    { endpoints := [], defaultEndpoint := none, heap := h } = st at hinv ⊢
  generalize mcgTarget.GroupTargetsByGeo.foldl (defaultGeoStep mcgTarget.GetDefaultGeo (lbNameOf mcgTarget hostname)) none
    = d at hinv hne ⊢
  generalize mcgTarget.GroupTargetsByGeo.flatMap (groupOut (lbNameOf mcgTarget hostname)) = vals at hinv hne ⊢
  obtain ⟨hl, hb, hn, hs⟩ := hinv
  have hlen : st.endpoints.length = vals.length := by rw [← hl, List.length_map]
  by_cases h0 : vals.length > 0
  · have hd : d ≠ none := hne (Or.inr (List.ne_nil_of_length_pos h0))
    have hde : st.defaultEndpoint ≠ none := fun hc => hd (hn.mp hc)
    obtain ⟨pd, hpd⟩ := Option.ne_none_iff_exists'.mp hde
    obtain ⟨h1, h2, g, h3, h4⟩ := hs pd hpd
    simp only [hlen, h0, if_true, hpd, h3, createOrUpdateEndpoint_nil]
    refine ⟨_, _, rfl, ?_⟩
    have hlenm := length_mutate (fun e => e.SetProviderSpecific ProviderSpecificGeoCode WildcardGeo) st.heap pd
    have hE : st.endpoints.map (deref (mutate (fun e => e.SetProviderSpecific ProviderSpecificGeoCode WildcardGeo)
        st.heap pd ++ [rootEndpointOf hostname (lbNameOf mcgTarget hostname)])) = vals := by
      rw [← hl]
      apply List.map_congr_left
      intro p hp
      rw [deref_append_left _ _ _ (by rw [hlenm]; exact hb p hp)]
      exact deref_mutate_ne _ _ _ _ (fun hc => h2 (hc ▸ hp))
    have hD : deref (mutate (fun e => e.SetProviderSpecific ProviderSpecificGeoCode WildcardGeo)
        st.heap pd ++ [rootEndpointOf hostname (lbNameOf mcgTarget hostname)]) pd =
        defaultEndpointOf (lbNameOf mcgTarget hostname) g := by
      rw [deref_append_left _ _ _ (by rw [hlenm]; exact h1), deref_mutate_eq _ _ _ h1, h4]
      rfl
    have hR := deref_append_length (mutate (fun e => e.SetProviderSpecific ProviderSpecificGeoCode WildcardGeo)
        st.heap pd) (rootEndpointOf hostname (lbNameOf mcgTarget hostname)) []
    simp only [List.map_append, List.map_cons, List.map_nil]
    rw [show mkEndpoint hostname [lbNameOf mcgTarget hostname] CNAMERecordType "" DefaultCnameTTL =
      rootEndpointOf hostname (lbNameOf mcgTarget hostname) from rfl, hE, hD, hR]
    simp
  · simp only [hlen, h0, if_false]
    refine ⟨_, _, rfl, ?_⟩
    rw [hl]
    have : vals = [] := by
      cases vals with
      | nil => rfl
      | cons a l => simp at h0
    rw [this]

theorem synthesize_loadbalanced_nil (mcgTarget : MultiClusterGatewayTarget) (hostname : String) :
    synthesize mcgTarget hostname .loadbalanced [] = .ok (loadBalancedOut mcgTarget hostname) := by
  obtain ⟨ptrs, h', h1, h2⟩ := getLoadBalancedEndpoints_fresh mcgTarget hostname []
  have hc : currentEndpointsOf [] = [] := rfl
  simp only [synthesize, hc, h1, h2]

theorem getSimpleEndpoints_nil (mcgTarget : MultiClusterGatewayTarget) (hostname : String) (h : Heap) :
    ((getSimpleEndpoints mcgTarget hostname [] h).1.map (deref (getSimpleEndpoints mcgTarget hostname [] h).2)) =
      simpleOut mcgTarget hostname := by
  unfold getSimpleEndpoints simpleOut
  simp only [createOrUpdateEndpoint_nil]
  split_ifs with h1 h2
  · have := deref_append_length (h ++ [mkEndpoint hostname
        (mcgTarget.ClusterGatewayTargets.flatMap fun c => ipValuesOf c.Addresses) ARecordType "" DefaultTTL])
        (mkEndpoint hostname (mcgTarget.ClusterGatewayTargets.flatMap fun c => hostValuesOf c.Addresses)
          CNAMERecordType "" DefaultTTL) []
    have h3 := deref_append_length h (mkEndpoint hostname
        (mcgTarget.ClusterGatewayTargets.flatMap fun c => ipValuesOf c.Addresses) ARecordType "" DefaultTTL)
        [mkEndpoint hostname (mcgTarget.ClusterGatewayTargets.flatMap fun c => hostValuesOf c.Addresses)
          CNAMERecordType "" DefaultTTL]
    simp only [List.length_append, List.length_singleton, List.append_assoc, List.singleton_append] at this
    simp [this, h3]
  · simp [deref_append_length]
  · simp [deref_append_length]
  · simp

theorem synthesize_simple_nil (mcgTarget : MultiClusterGatewayTarget) (hostname : String) :
    synthesize mcgTarget hostname .simple [] = .ok (simpleOut mcgTarget hostname) := by
  have hc : currentEndpointsOf [] = [] := rfl
  simp only [synthesize, hc]
  rw [getSimpleEndpoints_nil]

/-! ## Weighted and geo CNAMEs of a first synthesis (C9, C10) -/

theorem mem_loadBalancedOut_of_group (mcgTarget : MultiClusterGatewayTarget) (hostname : String)
    (entry : String × List ClusterGatewayTarget) (e : Endpoint)
    (hg : entry ∈ mcgTarget.GroupTargetsByGeo) (he : e ∈ groupOut (lbNameOf mcgTarget hostname) entry) :
    e ∈ loadBalancedOut mcgTarget hostname := by
  have hmem : e ∈ mcgTarget.GroupTargetsByGeo.flatMap (groupOut (lbNameOf mcgTarget hostname)) :=
    List.mem_flatMap.mpr ⟨entry, hg, he⟩
  have hne : mcgTarget.GroupTargetsByGeo.flatMap (groupOut (lbNameOf mcgTarget hostname)) ≠ [] :=
    List.ne_nil_of_mem hmem
  have hd := foldl_defaultGeoStep_ne_none mcgTarget.GetDefaultGeo (lbNameOf mcgTarget hostname)
    mcgTarget.GroupTargetsByGeo none (Or.inr hne)
  obtain ⟨g, hg'⟩ := Option.ne_none_iff_exists'.mp hd
  unfold loadBalancedOut defaultGeoOf
  simp only [List.length_pos.mpr hne, if_true, hg']
  exact List.mem_append_left _ hmem

theorem mem_groupOut_of_cluster (lbName : String) (entry : String × List ClusterGatewayTarget)
    (c : ClusterGatewayTarget) (e : Endpoint) (hc : c ∈ entry.2)
    (he : e ∈ clusterOut lbName (geoLbNameOf entry.1 lbName) c) : e ∈ groupOut lbName entry := by
  have hmem : e ∈ groupClusterOut lbName entry := List.mem_flatMap.mpr ⟨c, hc, he⟩
  unfold groupOut
  have hne : (groupClusterOut lbName entry).length ≠ 0 := by
    intro h0
    rw [List.length_eq_zero.mp h0] at hmem
    simp at hmem
  simp only [hne, if_false]
  exact List.mem_append_left _ hmem

/-- C9: on a record without prior endpoints, for every cluster `c` of a geo
group `G` and every value `v` that is a hostname address of `c`, or the cluster
LB name of `c` when `c` has an IP address, the load-balanced output contains a
CNAME endpoint at the geo LB name of `G` with set-identifier `v`, the single
target `v`, TTL 60, and the only provider specific attribute `weight`, equal to
the decimal string of the weight of `c`. -/
theorem C9_weighted_cname_per_value (mcgTarget : MultiClusterGatewayTarget) (hostname geoCode : String)
    (cgwTargets : List ClusterGatewayTarget) (c : ClusterGatewayTarget) (v : String)
    (hg : (geoCode, cgwTargets) ∈ mcgTarget.GroupTargetsByGeo) (hc : c ∈ cgwTargets)
    (hv : v ∈ hostValuesOf c.Addresses ∨
      (0 < (ipValuesOf c.Addresses).length ∧ v = clusterLbNameOf c (lbNameOf mcgTarget hostname))) :
    ∃ out, synthesize mcgTarget hostname .loadbalanced [] = .ok out ∧
      ∃ e ∈ out, e.RecordType = "CNAME" ∧
        e.DNSName = toLower (geoCode ++ "." ++ lbNameOf mcgTarget hostname) ∧
        e.SetIdentifier = v ∧ e.Targets = [v] ∧ e.RecordTTL = 60 ∧
        e.ProviderSpecific = [{ Name := "weight", Value := Itoa c.GetWeight }] := by
  refine ⟨_, synthesize_loadbalanced_nil mcgTarget hostname,
    weightedEndpointOf c (geoLbNameOf geoCode (lbNameOf mcgTarget hostname)) v, ?_, rfl, rfl, rfl, rfl, rfl, rfl⟩
  apply mem_loadBalancedOut_of_group mcgTarget hostname (geoCode, cgwTargets) _ hg
  apply mem_groupOut_of_cluster _ _ c _ hc
  unfold clusterOut clusterValues
  apply List.mem_append_right
  apply List.mem_map_of_mem
  rcases hv with hv | ⟨h1, h2⟩
  · exact List.mem_append_left _ hv
  · apply List.mem_append_right
    simp [h1, h2]

theorem C9_weighted_cname_per_value_witness :
    (("ES", [clusterTwo 160]) ∈ customWeightsTarget.GroupTargetsByGeo ∧ clusterTwo 160 ∈ [clusterTwo 160] ∧
      0 < (ipValuesOf (clusterTwo 160).Addresses).length) ∧
    ∃ out, synthesize customWeightsTarget "test.example.com" .loadbalanced [] = .ok out ∧
      ∃ e ∈ out, e.RecordType = "CNAME" ∧
        e.DNSName = toLower ("ES" ++ "." ++ lbNameOf customWeightsTarget "test.example.com") ∧
        e.SetIdentifier = "2w705o.lb-abc123.test.example.com" ∧
        e.Targets = ["2w705o.lb-abc123.test.example.com"] ∧ e.RecordTTL = 60 ∧
        e.ProviderSpecific = [{ Name := "weight", Value := Itoa (clusterTwo 160).GetWeight }] :=
  ⟨by decide,
    C9_weighted_cname_per_value customWeightsTarget "test.example.com" "ES" [clusterTwo 160] (clusterTwo 160)
      "2w705o.lb-abc123.test.example.com" (by decide) (by decide) (Or.inr ⟨by decide, by decide⟩)⟩

theorem length_ipValuesOf_add_hostValuesOf (addresses : List GatewayAddress) :
    (ipValuesOf addresses).length + (hostValuesOf addresses).length = addresses.length := by
  unfold ipValuesOf hostValuesOf
  induction addresses with
  | nil => rfl
  | cons a l ih =>
    by_cases h : (a.AddressType == IPAddressType) = true
    · simp only [List.filter_cons, h, if_true, List.map_cons, List.length_cons, Bool.not_true,
        Bool.false_eq_true, if_false] at ih ⊢
      omega
    · simp only [List.filter_cons, h, if_false, List.map_cons, List.length_cons, Bool.not_eq_true,
        Bool.not_false, if_true] at ih ⊢
      simp only [Bool.not_eq_true] at h
      simp only [h, Bool.not_false, if_true, Bool.false_eq_true, if_false, List.length_cons, List.map_cons]
      omega

theorem clusterOut_ne_nil (lbName geoLbName : String) (c : ClusterGatewayTarget)
    (hc : c.Addresses ≠ []) : clusterOut lbName geoLbName c ≠ [] := by
  unfold clusterOut clusterValues
  by_cases h : (ipValuesOf c.Addresses).length > 0
  · simp [h]
  · have h1 := length_ipValuesOf_add_hostValuesOf c.Addresses
    have h2 : c.Addresses.length ≠ 0 := fun h0 => hc (List.length_eq_zero.mp h0)
    have h3 : (hostValuesOf c.Addresses) ≠ [] := by
      intro h4
      rw [h4] at h1
      simp at h1
      omega
    simp [h, h3]

theorem groupClusterOut_length_pos (lbName : String) (entry : String × List ClusterGatewayTarget)
    (h : ∃ c ∈ entry.2, c.Addresses ≠ []) : (groupClusterOut lbName entry).length ≠ 0 := by
  obtain ⟨c, hc, ha⟩ := h
  obtain ⟨e, l, he⟩ := List.exists_cons_of_ne_nil (clusterOut_ne_nil lbName (geoLbNameOf entry.1 lbName) c ha)
  have hmem : e ∈ groupClusterOut lbName entry :=
    List.mem_flatMap.mpr ⟨c, hc, by rw [he]; exact List.mem_cons_self _ _⟩
  intro h0
  rw [List.length_eq_zero.mp h0] at hmem
  simp at hmem

/-- On a record without prior endpoints, for every geo group `G` other
than the synthetic `default` that has a cluster with an address, the
load-balanced output contains a CNAME endpoint at the LB name with
set-identifier `G`, the attribute `geo-code` equal to `G`, TTL 300 and the
single target `lowercase(G).lbName`. -/
theorem geo_cname_of_first_synthesis (mcgTarget : MultiClusterGatewayTarget) (hostname geoCode : String)
    (cgwTargets : List ClusterGatewayTarget)
    (hg : (geoCode, cgwTargets) ∈ mcgTarget.GroupTargetsByGeo) (hd : geoCode ≠ "default")
    (ha : ∃ c ∈ cgwTargets, c.Addresses ≠ []) :
    ∃ out, synthesize mcgTarget hostname .loadbalanced [] = .ok out ∧
      ∃ e ∈ out, e.RecordType = "CNAME" ∧ e.DNSName = lbNameOf mcgTarget hostname ∧
        e.SetIdentifier = geoCode ∧ e.ProviderSpecific = [{ Name := "geo-code", Value := geoCode }] ∧
        e.RecordTTL = 300 ∧ e.Targets = [toLower (geoCode ++ "." ++ lbNameOf mcgTarget hostname)] := by
  refine ⟨_, synthesize_loadbalanced_nil mcgTarget hostname,
    geoEndpointOf (lbNameOf mcgTarget hostname) geoCode, ?_, rfl, rfl, rfl, rfl, rfl, rfl⟩
  apply mem_loadBalancedOut_of_group mcgTarget hostname (geoCode, cgwTargets) _ hg
  unfold groupOut
  have h1 := groupClusterOut_length_pos (lbNameOf mcgTarget hostname) (geoCode, cgwTargets) ha
  have h2 : IsDefaultCode geoCode = false := by simpa [IsDefaultCode, DefaultGeo] using hd
  simp [h1, h2]

theorem geo_cname_of_first_synthesis_example :
    (("ES", [clusterTwo 160]) ∈ customWeightsTarget.GroupTargetsByGeo ∧ "ES" ≠ "default" ∧
      ∃ c ∈ [clusterTwo 160], c.Addresses ≠ []) ∧
    ∃ out, synthesize customWeightsTarget "test.example.com" .loadbalanced [] = .ok out ∧
      ∃ e ∈ out, e.RecordType = "CNAME" ∧ e.DNSName = lbNameOf customWeightsTarget "test.example.com" ∧
        e.SetIdentifier = "ES" ∧ e.ProviderSpecific = [{ Name := "geo-code", Value := "ES" }] ∧
        e.RecordTTL = 300 ∧ e.Targets = [toLower ("ES" ++ "." ++ lbNameOf customWeightsTarget "test.example.com")] :=
  ⟨⟨by decide, by decide, clusterTwo 160, by decide, by decide⟩,
    geo_cname_of_first_synthesis customWeightsTarget "test.example.com" "ES" [clusterTwo 160] (by decide) (by decide)
      ⟨clusterTwo 160, by decide, by decide⟩⟩

/-! ## The `default` endpoint is unique (C5) -/

theorem isDefaultWildcard_clusterOut (lbName geoLbName : String) (c : ClusterGatewayTarget)
    (e : Endpoint) (he : e ∈ clusterOut lbName geoLbName c) : isDefaultWildcard e = false := by
  unfold clusterOut at he
  rcases List.mem_append.mp he with h | h
  · split_ifs at h
    · simp only [List.mem_singleton] at h
      subst h
      simp [isDefaultWildcard, aEndpointOf, mkEndpoint]
    · simp at h
  · obtain ⟨v, _, rfl⟩ := List.mem_map.mp h
    simp [isDefaultWildcard, weightedEndpointOf, Endpoint.GetProviderSpecific, Endpoint.SetProviderSpecific,
      mkEndpoint, setProperty, ProviderSpecificWeight, ProviderSpecificGeoCode]

theorem isDefaultWildcard_groupOut (lbName : String) (entry : String × List ClusterGatewayTarget)
    (e : Endpoint) (he : e ∈ groupOut lbName entry) : isDefaultWildcard e = false := by
  unfold groupOut at he
  split_ifs at he with h0 hd
  · simp at he
  · simp only [List.append_nil] at he
    obtain ⟨c, _, hc⟩ := List.mem_flatMap.mp he
    exact isDefaultWildcard_clusterOut _ _ c e hc
  · rcases List.mem_append.mp he with h | h
    · obtain ⟨c, _, hc⟩ := List.mem_flatMap.mp h
      exact isDefaultWildcard_clusterOut _ _ c e hc
    · simp only [List.mem_singleton] at h
      subst h
      have : ¬ entry.1 = "default" := by simpa [IsDefaultCode, DefaultGeo] using hd
      simp [isDefaultWildcard, geoEndpointOf, mkEndpoint, Endpoint.SetProviderSpecific, this]

/-- Whenever the load-balanced synthesis on a record without prior
endpoints publishes a non-empty list, exactly one endpoint of the list has the
set-identifier `default` together with the attribute `geo-code = *`. -/
theorem exactly_one_default_of_first_synthesis (mcgTarget : MultiClusterGatewayTarget) (hostname : String)
    (out : List Endpoint) (hout : synthesize mcgTarget hostname .loadbalanced [] = .ok out)
    (hne : out ≠ []) : (out.filter isDefaultWildcard).length = 1 := by
  rw [synthesize_loadbalanced_nil] at hout
  injection hout with hout
  subst hout
  unfold loadBalancedOut at hne ⊢
  simp only at hne ⊢
  split_ifs at hne ⊢ with h0
  · cases hd : defaultGeoOf mcgTarget (lbNameOf mcgTarget hostname) with
    | none => simp [hd] at hne
    | some g =>
      simp only [List.filter_append]
      have : (mcgTarget.GroupTargetsByGeo.flatMap (groupOut (lbNameOf mcgTarget hostname))).filter
          isDefaultWildcard = [] := by
        apply List.filter_eq_nil_iff.mpr
        intro e he
        obtain ⟨entry, _, h2⟩ := List.mem_flatMap.mp he
        simp [isDefaultWildcard_groupOut _ entry e h2]
      rw [this]
      have h3 : isDefaultWildcard (defaultEndpointOf (lbNameOf mcgTarget hostname) g) = true := by
        simp [isDefaultWildcard, defaultEndpointOf, defaultEndpointRaw, mkEndpoint, Endpoint.SetProviderSpecific,
          Endpoint.GetProviderSpecific, setProperty]
      have h4 : isDefaultWildcard (rootEndpointOf hostname (lbNameOf mcgTarget hostname)) = false := by
        simp [isDefaultWildcard, rootEndpointOf, mkEndpoint]
      simp [List.filter_cons, h3, h4]
  · exact absurd rfl hne

theorem exactly_one_default_of_first_synthesis_example :
    (synthesize customWeightsTarget "test.example.com" .loadbalanced [] =
        .ok (loadBalancedOut customWeightsTarget "test.example.com") ∧
      loadBalancedOut customWeightsTarget "test.example.com" ≠ []) ∧
    ((loadBalancedOut customWeightsTarget "test.example.com").filter isDefaultWildcard).length = 1 :=
  ⟨⟨synthesize_loadbalanced_nil _ _, by decide⟩,
    exactly_one_default_of_first_synthesis customWeightsTarget "test.example.com" _
      (synthesize_loadbalanced_nil _ _) (by decide)⟩

/-! ## Internal closure of the graph (C4) -/

theorem foldl_defaultGeoStep_some (defaultGeo lbName : String)
    (gs : List (String × List ClusterGatewayTarget)) (d : Option String) (g : String)
    (h : gs.foldl (defaultGeoStep defaultGeo lbName) d = some g) :
    d = some g ∨ ∃ entry ∈ gs, entry.1 = g ∧ (groupClusterOut lbName entry).length ≠ 0 := by
  induction gs generalizing d with
  | nil => left; simpa using h
  | cons e gs ih =>
    rw [List.foldl_cons] at h
    rcases ih _ h with h1 | ⟨entry, hm, h2, h3⟩
    · unfold defaultGeoStep at h1
      split_ifs at h1 with h0 hd hd2
      · exact Or.inl h1
      · right; exact ⟨e, List.mem_cons_self _ _, by simpa using h1, h0⟩
      · right; exact ⟨e, List.mem_cons_self _ _, by simpa using h1, h0⟩
      · exact Or.inl h1
    · right; exact ⟨entry, List.mem_cons_of_mem _ hm, h2, h3⟩

theorem exists_weighted_of_groupClusterOut (lbName : String) (entry : String × List ClusterGatewayTarget)
    (h : (groupClusterOut lbName entry).length ≠ 0) :
    ∃ c ∈ entry.2, ∃ v ∈ clusterValues c lbName,
      weightedEndpointOf c (geoLbNameOf entry.1 lbName) v ∈ groupOut lbName entry := by
  have hne : groupClusterOut lbName entry ≠ [] := fun hc => h (by rw [hc]; rfl)
  obtain ⟨e, l, he⟩ := List.exists_cons_of_ne_nil hne
  have hmem : e ∈ groupClusterOut lbName entry := by rw [he]; exact List.mem_cons_self _ _
  obtain ⟨c, hc, hec⟩ := List.mem_flatMap.mp hmem
  have hv : clusterValues c lbName ≠ [] := by
    intro hnil
    unfold clusterOut at hec
    unfold clusterValues at hnil
    by_cases hip : (ipValuesOf c.Addresses).length > 0
    · simp [hip] at hnil
    · simp only [hip, if_false, List.append_nil, List.nil_append] at hec hnil
      simp [clusterValues, hip, hnil] at hec
  obtain ⟨v, l', hv'⟩ := List.exists_cons_of_ne_nil hv
  have hvm : v ∈ clusterValues c lbName := by rw [hv']; exact List.mem_cons_self _ _
  refine ⟨c, hc, v, hvm, ?_⟩
  apply mem_groupOut_of_cluster _ _ c _ hc
  unfold clusterOut
  exact List.mem_append_right _ (List.mem_map_of_mem _ hvm)

theorem loadBalancedOut_cases (mcgTarget : MultiClusterGatewayTarget) (hostname : String) (e : Endpoint)
    (he : e ∈ loadBalancedOut mcgTarget hostname) :
    ∃ g, defaultGeoOf mcgTarget (lbNameOf mcgTarget hostname) = some g ∧
      loadBalancedOut mcgTarget hostname =
        mcgTarget.GroupTargetsByGeo.flatMap (groupOut (lbNameOf mcgTarget hostname)) ++
          [defaultEndpointOf (lbNameOf mcgTarget hostname) g,
            rootEndpointOf hostname (lbNameOf mcgTarget hostname)] := by
  unfold loadBalancedOut at he ⊢
  simp only at he ⊢
  split_ifs at he ⊢ with h0
  · cases hd : defaultGeoOf mcgTarget (lbNameOf mcgTarget hostname) with
    | none => simp [hd] at he
    | some g => exact ⟨g, rfl, rfl⟩
  · simp at he

theorem hostValues_subset_status_of_group (mcgTarget : MultiClusterGatewayTarget)
    (entry : String × List ClusterGatewayTarget) (c : ClusterGatewayTarget) (v : String)
    (hg : entry ∈ mcgTarget.GroupTargetsByGeo) (hc : c ∈ entry.2) (hv : v ∈ hostValuesOf c.Addresses) :
    v ∈ statusHostValues mcgTarget := by
  unfold statusHostValues
  refine List.mem_flatMap.mpr ⟨c, List.mem_append_right _ (List.mem_flatMap.mpr ⟨entry, hg, hc⟩), hv⟩

theorem closure_clusterOut (lbName geoLbName : String) (c : ClusterGatewayTarget) (e : Endpoint)
    (he : e ∈ clusterOut lbName geoLbName c) (hty : e.RecordType = "CNAME") (target : String)
    (htg : target ∈ e.Targets) :
    target ∈ hostValuesOf c.Addresses ∨
      ∃ e' ∈ clusterOut lbName geoLbName c, e'.DNSName = target := by
  have he' := he
  unfold clusterOut at he
  rcases List.mem_append.mp he with h | h
  · split_ifs at h
    · simp only [List.mem_singleton] at h
      subst h
      simp [aEndpointOf, mkEndpoint, ARecordType] at hty
    · simp at h
  · obtain ⟨v, hv, rfl⟩ := List.mem_map.mp h
    simp only [weightedEndpointOf, mkEndpoint, Endpoint.SetProviderSpecific, List.mem_singleton] at htg
    subst htg
    unfold clusterValues at hv
    rcases List.mem_append.mp hv with hv | hv
    · exact Or.inl hv
    · right
      split_ifs at hv with hip
      · simp only [List.mem_singleton] at hv
        refine ⟨aEndpointOf c lbName, ?_, ?_⟩
        · unfold clusterOut
          simp [hip]
        · rw [hv]; rfl
      · simp at hv

theorem closure_group (lbName : String) (entry : String × List ClusterGatewayTarget) (e : Endpoint)
    (he : e ∈ groupClusterOut lbName entry) (hty : e.RecordType = "CNAME") (target : String)
    (htg : target ∈ e.Targets) :
    (∃ c ∈ entry.2, target ∈ hostValuesOf c.Addresses) ∨
      ∃ e' ∈ groupOut lbName entry, e'.DNSName = target := by
  obtain ⟨c, hc, hec⟩ := List.mem_flatMap.mp he
  rcases closure_clusterOut _ _ c e hec hty target htg with h | ⟨e', h1, h2⟩
  · exact Or.inl ⟨c, hc, h⟩
  · exact Or.inr ⟨e', mem_groupOut_of_cluster _ _ c _ hc h1, h2⟩

/-- In the output of a synthesis on a record without prior endpoints, with
either strategy, every target of a CNAME endpoint is a hostname address carried
by the gateway status or the DNS name of an endpoint of the same output. -/
theorem internal_closure_of_first_synthesis (mcgTarget : MultiClusterGatewayTarget) (hostname : String)
    (strategy : RoutingStrategy) (out : List Endpoint)
    (hout : synthesize mcgTarget hostname strategy [] = .ok out) :
    ∀ e ∈ out, e.RecordType = "CNAME" → ∀ target ∈ e.Targets,
      target ∈ statusHostValues mcgTarget ∨ ∃ e' ∈ out, e'.DNSName = target := by
  cases strategy with
  | other name => simp [synthesize] at hout
  | simple =>
    rw [synthesize_simple_nil] at hout
    injection hout with hout
    subst hout
    intro e he hty target htg
    left
    unfold simpleOut at he
    simp only [List.mem_append] at he
    rcases he with he | he
    · split_ifs at he
      · simp only [List.mem_singleton] at he
        subst he
        simp [mkEndpoint, ARecordType] at hty
      · simp at he
    · split_ifs at he
      · simp only [List.mem_singleton] at he
        subst he
        simp only [mkEndpoint] at htg
        obtain ⟨c, hc, hv⟩ := List.mem_flatMap.mp htg
        exact List.mem_flatMap.mpr ⟨c, List.mem_append_left _ hc, hv⟩
      · simp at he
  | loadbalanced =>
    rw [synthesize_loadbalanced_nil] at hout
    injection hout with hout
    subst hout
    intro e he hty target htg
    obtain ⟨g, hg, hout⟩ := loadBalancedOut_cases mcgTarget hostname e he
    rw [hout] at he ⊢
    rcases List.mem_append.mp he with he | he
    · obtain ⟨entry, hen, heg⟩ := List.mem_flatMap.mp he
      have heg' := heg
      unfold groupOut at heg
      split_ifs at heg with h0 hd
      · simp at heg
      · simp only [List.append_nil] at heg
        rcases closure_group _ entry e heg hty target htg with ⟨c, hc, hv⟩ | ⟨e', h1, h2⟩
        · exact Or.inl (hostValues_subset_status_of_group mcgTarget entry c target hen hc hv)
        · exact Or.inr ⟨e', List.mem_append_left _ (List.mem_flatMap.mpr ⟨entry, hen, h1⟩), h2⟩
      · rcases List.mem_append.mp heg with heg | heg
        · rcases closure_group _ entry e heg hty target htg with ⟨c, hc, hv⟩ | ⟨e', h1, h2⟩
          · exact Or.inl (hostValues_subset_status_of_group mcgTarget entry c target hen hc hv)
          · exact Or.inr ⟨e', List.mem_append_left _ (List.mem_flatMap.mpr ⟨entry, hen, h1⟩), h2⟩
        · simp only [List.mem_singleton] at heg
          subst heg
          simp only [geoEndpointOf, mkEndpoint, Endpoint.SetProviderSpecific, List.mem_singleton] at htg
          subst htg
          obtain ⟨c, _, v, _, hw⟩ := exists_weighted_of_groupClusterOut _ entry h0
          exact Or.inr ⟨weightedEndpointOf c _ v,
            List.mem_append_left _ (List.mem_flatMap.mpr ⟨entry, hen, hw⟩), rfl⟩
    · right
      simp only [List.mem_cons, List.mem_singleton, List.not_mem_nil, or_false] at he
      rcases he with he | he
      · subst he
        simp only [defaultEndpointOf, defaultEndpointRaw, mkEndpoint, Endpoint.SetProviderSpecific,
          List.mem_singleton] at htg
        subst htg
        rcases foldl_defaultGeoStep_some _ _ _ none g hg with h | ⟨entry, hen, h1, h2⟩
        · simp at h
        · obtain ⟨c, _, v, _, hw⟩ := exists_weighted_of_groupClusterOut _ entry h2
          refine ⟨weightedEndpointOf c _ v, List.mem_append_left _ (List.mem_flatMap.mpr ⟨entry, hen, hw⟩), ?_⟩
          rw [← h1]; rfl
      · subst he
        simp only [rootEndpointOf, mkEndpoint, List.mem_singleton] at htg
        subst htg
        exact ⟨defaultEndpointOf (lbNameOf mcgTarget hostname) g, by simp, rfl⟩

theorem internal_closure_of_first_synthesis_example :
    synthesize mixedTarget "test.example.com" .loadbalanced [] =
        .ok (loadBalancedOut mixedTarget "test.example.com") ∧
      ∀ e ∈ loadBalancedOut mixedTarget "test.example.com", e.RecordType = "CNAME" → ∀ target ∈ e.Targets,
        target ∈ statusHostValues mixedTarget ∨
          ∃ e' ∈ loadBalancedOut mixedTarget "test.example.com", e'.DNSName = target :=
  ⟨synthesize_loadbalanced_nil _ _,
    internal_closure_of_first_synthesis mixedTarget "test.example.com" .loadbalanced _ (synthesize_loadbalanced_nil _ _)⟩

/-! ## The group the `default` endpoint points at -/

theorem defaultGeoStep_designated_keep (G lbName : String) (e : String × List ClusterGatewayTarget)
    (hDe : e.1 = "default" → (groupClusterOut lbName e).length ≠ 0 → G = "default") :
    defaultGeoStep G lbName (some G) e = some G := by
  unfold defaultGeoStep
  by_cases h0 : (groupClusterOut lbName e).length = 0
  · simp [h0]
  · simp only [h0, if_false]
    by_cases hdc : IsDefaultCode e.1 = true
    · have : e.1 = "default" := by simpa [IsDefaultCode, DefaultGeo] using hdc
      simp only [hdc, if_true]
      rw [hDe this h0, this]
    · simp only [hdc, Bool.false_eq_true, if_false]
      by_cases he : e.1 = G
      · simp [he]
      · simp [he]

theorem defaultGeoStep_designated_set (G lbName : String) (d : Option String)
    (e : String × List ClusterGatewayTarget) (h1 : e.1 = G) (h0 : (groupClusterOut lbName e).length ≠ 0) :
    defaultGeoStep G lbName d e = some G := by
  unfold defaultGeoStep
  simp only [h0, if_false]
  by_cases hdc : IsDefaultCode e.1 = true
  · simp [hdc, h1]
  · simp [hdc, h1]

theorem foldl_defaultGeoStep_designated (G lbName : String)
    (gs : List (String × List ClusterGatewayTarget)) (d : Option String)
    (hD : ∀ entry ∈ gs, entry.1 = "default" → (groupClusterOut lbName entry).length ≠ 0 → G = "default")
    (h : d = some G ∨ ∃ entry ∈ gs, entry.1 = G ∧ (groupClusterOut lbName entry).length ≠ 0) :
    gs.foldl (defaultGeoStep G lbName) d = some G := by
  induction gs generalizing d with
  | nil => simpa using h
  | cons e gs ih =>
    rw [List.foldl_cons]
    apply ih _ (fun entry hm => hD entry (List.mem_cons_of_mem _ hm))
    rcases h with h | ⟨entry, hm, h1, h2⟩
    · left
      rw [h]
      exact defaultGeoStep_designated_keep G lbName e (hD e (List.mem_cons_self _ _))
    · rcases List.mem_cons.mp hm with rfl | hm
      · left
        exact defaultGeoStep_designated_set G lbName d entry h1 h2
      · right
        exact ⟨entry, hm, h1, h2⟩

theorem filter_isDefaultWildcard_loadBalancedOut (mcgTarget : MultiClusterGatewayTarget)
    (hostname g : String) (hg : defaultGeoOf mcgTarget (lbNameOf mcgTarget hostname) = some g)
    (hne : (mcgTarget.GroupTargetsByGeo.flatMap (groupOut (lbNameOf mcgTarget hostname))).length > 0) :
    (loadBalancedOut mcgTarget hostname).filter isDefaultWildcard =
      [defaultEndpointOf (lbNameOf mcgTarget hostname) g] := by
  unfold loadBalancedOut
  simp only [hne, if_true, hg, List.filter_append]
  have : (mcgTarget.GroupTargetsByGeo.flatMap (groupOut (lbNameOf mcgTarget hostname))).filter
      isDefaultWildcard = [] := by
    apply List.filter_eq_nil_iff.mpr
    intro e he
    obtain ⟨entry, _, h2⟩ := List.mem_flatMap.mp he
    simp [isDefaultWildcard_groupOut _ entry e h2]
  rw [this]
  have h3 : isDefaultWildcard (defaultEndpointOf (lbNameOf mcgTarget hostname) g) = true := by
    simp [isDefaultWildcard, defaultEndpointOf, defaultEndpointRaw, mkEndpoint, Endpoint.SetProviderSpecific,
      Endpoint.GetProviderSpecific, setProperty]
  have h4 : isDefaultWildcard (rootEndpointOf hostname (lbNameOf mcgTarget hostname)) = false := by
    simp [isDefaultWildcard, rootEndpointOf, mkEndpoint]
  simp [List.filter_cons, h3, h4]

theorem exists_address_of_groupClusterOut (lbName : String) (entry : String × List ClusterGatewayTarget)
    (h : (groupClusterOut lbName entry).length ≠ 0) : ∃ c ∈ entry.2, c.Addresses ≠ [] := by
  have hne : groupClusterOut lbName entry ≠ [] := fun hc => h (by rw [hc]; rfl)
  obtain ⟨e, l, he⟩ := List.exists_cons_of_ne_nil hne
  have hmem : e ∈ groupClusterOut lbName entry := by rw [he]; exact List.mem_cons_self _ _
  obtain ⟨c, hc, hec⟩ := List.mem_flatMap.mp hmem
  refine ⟨c, hc, ?_⟩
  intro hnil
  simp [clusterOut, clusterValues, ipValuesOf, hostValuesOf, hnil] at hec

/-! ## The number of endpoints, for any current endpoints (C8) -/

theorem hostValueStep_length (c : ClusterGatewayTarget) (geoLbName : String) (cur : EndpointMap)
    (st : List Nat × Heap) (v : String) :
    (hostValueStep c geoLbName cur st v).1.length = st.1.length + 1 := by
  simp [hostValueStep]

theorem foldl_hostValueStep_length (c : ClusterGatewayTarget) (geoLbName : String) (cur : EndpointMap)
    (vs : List String) (st : List Nat × Heap) :
    (vs.foldl (hostValueStep c geoLbName cur) st).1.length = st.1.length + vs.length := by
  induction vs generalizing st with
  | nil => simp
  | cons v vs ih =>
    rw [List.foldl_cons, ih, hostValueStep_length]
    simp
    omega

theorem clusterStep_length (lbName geoLbName : String) (cur : EndpointMap) (st : List Nat × Heap)
    (c : ClusterGatewayTarget) :
    (clusterStep lbName geoLbName cur st c).1.length =
      st.1.length + (clusterOut lbName geoLbName c).length := by
  unfold clusterStep clusterOut clusterValues
  by_cases hip : (ipValuesOf c.Addresses).length > 0
  · simp only [hip, if_true, foldl_hostValueStep_length]
    simp
    omega
  · simp only [hip, if_false, foldl_hostValueStep_length]
    simp

theorem foldl_clusterStep_length (lbName geoLbName : String) (cur : EndpointMap)
    (cs : List ClusterGatewayTarget) (st : List Nat × Heap) :
    (cs.foldl (clusterStep lbName geoLbName cur) st).1.length =
      st.1.length + (cs.flatMap (clusterOut lbName geoLbName)).length := by
  induction cs generalizing st with
  | nil => simp
  | cons c cs ih =>
    rw [List.foldl_cons, ih, clusterStep_length]
    simp [List.flatMap_cons]
    omega

theorem geoStep_shape (mcgTarget : MultiClusterGatewayTarget) (lbName : String) (cur : EndpointMap)
    (st : LoopState) (d : Option String) (entry : String × List ClusterGatewayTarget)
    (hn : st.defaultEndpoint = none ↔ d = none) :
    (geoStep mcgTarget lbName cur st entry).endpoints.length =
        st.endpoints.length + (groupOut lbName entry).length ∧
      ((geoStep mcgTarget lbName cur st entry).defaultEndpoint = none ↔
        defaultGeoStep mcgTarget.GetDefaultGeo lbName d entry = none) := by
  have hlen := foldl_clusterStep_length lbName (geoLbNameOf entry.1 lbName) cur entry.2 ([], st.heap)
  have hce : entry.2.flatMap (clusterOut lbName (geoLbNameOf entry.1 lbName)) = groupClusterOut lbName entry := rfl
  rw [hce] at hlen
  simp only [List.length_nil, Nat.zero_add] at hlen
  unfold geoStep groupOut defaultGeoStep
  simp only
  generalize entry.2.foldl (clusterStep lbName (geoLbNameOf entry.1 lbName) cur) ([], st.heap) = r at hlen
  obtain ⟨ce, h⟩ := r
  simp only at hlen
  simp only [hlen]
  by_cases h0 : (groupClusterOut lbName entry).length = 0
  · simp [h0, hn]
  · simp only [h0, if_false]
    by_cases hdc : IsDefaultCode entry.1 = true
    · simp [hdc, hlen]
    · simp only [hdc, Bool.false_eq_true, if_false]
      by_cases hd : entry.1 = mcgTarget.GetDefaultGeo ∨ st.defaultEndpoint = none
      · have hd2 : entry.1 = mcgTarget.GetDefaultGeo ∨ d = none := by
          rcases hd with h | h
          · exact Or.inl h
          · exact Or.inr (hn.mp h)
        simp only [hd, hd2, if_true]
        simp [hlen]
      · have hd2 : ¬ (entry.1 = mcgTarget.GetDefaultGeo ∨ d = none) := by
          intro h
          rcases h with h | h
          · exact hd (Or.inl h)
          · exact hd (Or.inr (hn.mpr h))
        simp only [hd, hd2, if_false]
        simp [hlen, hn]

theorem foldl_geoStep_shape (mcgTarget : MultiClusterGatewayTarget) (lbName : String) (cur : EndpointMap)
    (gs : List (String × List ClusterGatewayTarget)) (st : LoopState) (d : Option String)
    (hn : st.defaultEndpoint = none ↔ d = none) :
    (gs.foldl (geoStep mcgTarget lbName cur) st).endpoints.length =
        st.endpoints.length + (gs.flatMap (groupOut lbName)).length ∧
      ((gs.foldl (geoStep mcgTarget lbName cur) st).defaultEndpoint = none ↔
        gs.foldl (defaultGeoStep mcgTarget.GetDefaultGeo lbName) d = none) := by
  induction gs generalizing st d with
  | nil => simpa using hn
  | cons g gs ih =>
    obtain ⟨h1, h2⟩ := geoStep_shape mcgTarget lbName cur st d g hn
    obtain ⟨h3, h4⟩ := ih _ _ h2
    rw [List.foldl_cons, List.foldl_cons]
    refine ⟨?_, h4⟩
    rw [h3, h1]
    simp [List.flatMap_cons]
    omega

theorem length_loadBalancedOut (mcgTarget : MultiClusterGatewayTarget) (hostname : String) :
    (loadBalancedOut mcgTarget hostname).length =
      if (mcgTarget.GroupTargetsByGeo.flatMap (groupOut (lbNameOf mcgTarget hostname))).length > 0 then
        (mcgTarget.GroupTargetsByGeo.flatMap (groupOut (lbNameOf mcgTarget hostname))).length + 2
      else 0 := by
  unfold loadBalancedOut
  simp only
  split_ifs with h0
  · have hd := foldl_defaultGeoStep_ne_none mcgTarget.GetDefaultGeo (lbNameOf mcgTarget hostname)
      mcgTarget.GroupTargetsByGeo none (Or.inr (List.ne_nil_of_length_pos h0))
    obtain ⟨g, hg⟩ := Option.ne_none_iff_exists'.mp hd
    unfold defaultGeoOf
    simp [hg]
  · rfl

theorem getLoadBalancedEndpoints_length (mcgTarget : MultiClusterGatewayTarget) (hostname : String)
    (cur : EndpointMap) (h : Heap) :
    ∃ ptrs h', getLoadBalancedEndpoints mcgTarget hostname cur h = some (ptrs, h') ∧
      ptrs.length = (loadBalancedOut mcgTarget hostname).length := by
  obtain ⟨h1, h2⟩ := foldl_geoStep_shape mcgTarget (lbNameOf mcgTarget hostname) cur
    mcgTarget.GroupTargetsByGeo { endpoints := [], defaultEndpoint := none, heap := h } none (by simp)
  have hne := foldl_defaultGeoStep_ne_none mcgTarget.GetDefaultGeo (lbNameOf mcgTarget hostname)
    mcgTarget.GroupTargetsByGeo none
  rw [length_loadBalancedOut]
  unfold getLoadBalancedEndpoints
  simp only
  generalize mcgTarget.GroupTargetsByGeo.foldl (geoStep mcgTarget (lbNameOf mcgTarget hostname) cur)
    { endpoints := [], defaultEndpoint := none, heap := h } = st at h1 h2 ⊢
  simp only [List.length_nil, Nat.zero_add] at h1
  rw [h1]
  by_cases h0 : (mcgTarget.GroupTargetsByGeo.flatMap (groupOut (lbNameOf mcgTarget hostname))).length > 0
  · simp only [h0, if_true]
    have hd : st.defaultEndpoint ≠ none :=
      fun hc => hne (Or.inr (List.ne_nil_of_length_pos h0)) (h2.mp hc)
    obtain ⟨pd, hpd⟩ := Option.ne_none_iff_exists'.mp hd
    simp only [hpd]
    refine ⟨_, _, rfl, ?_⟩
    simp [h1]
  · simp only [h0, if_false]
    exact ⟨_, _, rfl, by omega⟩

theorem length_clusterOut_ip_only (lbName geoLbName : String) (c : ClusterGatewayTarget)
    (hip : 0 < (ipValuesOf c.Addresses).length) (hh : hostValuesOf c.Addresses = []) :
    (clusterOut lbName geoLbName c).length = 2 := by
  simp [clusterOut, clusterValues, hip, hh]

theorem length_flatMap_clusterOut_ip_only (lbName geoLbName : String) (cs : List ClusterGatewayTarget)
    (h : ∀ c ∈ cs, 0 < (ipValuesOf c.Addresses).length ∧ hostValuesOf c.Addresses = []) :
    (cs.flatMap (clusterOut lbName geoLbName)).length = 2 * cs.length := by
  induction cs with
  | nil => rfl
  | cons c cs ih =>
    have h1 := length_clusterOut_ip_only lbName geoLbName c (h c (List.mem_cons_self _ _)).1
      (h c (List.mem_cons_self _ _)).2
    have h2 := ih (fun c' hc' => h c' (List.mem_cons_of_mem _ hc'))
    simp only [List.flatMap_cons, List.length_append, List.length_cons, h1, h2]
    omega

theorem length_groupOut_ip_only (lbName : String) (entry : String × List ClusterGatewayTarget)
    (hne : entry.2 ≠ [])
    (h : ∀ c ∈ entry.2, 0 < (ipValuesOf c.Addresses).length ∧ hostValuesOf c.Addresses = []) :
    (groupOut lbName entry).length = 2 * entry.2.length + (if IsDefaultCode entry.1 then 0 else 1) := by
  have h1 : (groupClusterOut lbName entry).length = 2 * entry.2.length :=
    length_flatMap_clusterOut_ip_only lbName _ entry.2 h
  have h2 : entry.2.length ≠ 0 := fun h0 => hne (List.length_eq_zero.mp h0)
  unfold groupOut
  have h3 : (groupClusterOut lbName entry).length ≠ 0 := by omega
  rw [if_neg h3, List.length_append, h1]
  by_cases hd : IsDefaultCode entry.1 = true
  · simp [hd]
  · simp [hd]

theorem length_flatMap_groupOut_ip_only (lbName : String) (gs : List (String × List ClusterGatewayTarget))
    (hne : ∀ entry ∈ gs, entry.2 ≠ [])
    (h : ∀ entry ∈ gs, ∀ c ∈ entry.2,
      0 < (ipValuesOf c.Addresses).length ∧ hostValuesOf c.Addresses = []) :
    (gs.flatMap (groupOut lbName)).length =
      2 * (gs.map (fun entry => entry.2.length)).sum +
        (gs.filter (fun entry => !IsDefaultCode entry.1)).length := by
  induction gs with
  | nil => rfl
  | cons g gs ih =>
    have h1 := length_groupOut_ip_only lbName g (hne g (List.mem_cons_self _ _)) (h g (List.mem_cons_self _ _))
    have h2 := ih (fun e he => hne e (List.mem_cons_of_mem _ he)) (fun e he => h e (List.mem_cons_of_mem _ he))
    simp only [List.flatMap_cons, List.length_append, h1, h2, List.map_cons, List.sum_cons, List.filter_cons]
    by_cases hd : IsDefaultCode g.1 = true
    · simp [hd]; omega
    · simp [hd]; omega

/-- For every load-balanced target with at least one cluster, whose geo
groups are non-empty and whose clusters each expose at least one IP address and
no hostname address, `getLoadBalancedEndpoints` returns, for any current
endpoints, exactly `2n + g + 2` endpoints, where `n` is the number of clusters
and `g` the number of geo groups whose code is not the synthetic `default`. -/
theorem load_balanced_endpoint_count (mcgTarget : MultiClusterGatewayTarget) (hostname : String)
    (currentEndpoints : EndpointMap) (h : Heap)
    (hn : 1 ≤ clusterCount mcgTarget)
    (hne : ∀ entry ∈ mcgTarget.GroupTargetsByGeo, entry.2 ≠ [])
    (hip : ∀ entry ∈ mcgTarget.GroupTargetsByGeo, ∀ c ∈ entry.2,
      0 < (ipValuesOf c.Addresses).length ∧ hostValuesOf c.Addresses = []) :
    ∃ endpoints h', getLoadBalancedEndpoints mcgTarget hostname currentEndpoints h = some (endpoints, h') ∧
      endpoints.length = 2 * clusterCount mcgTarget + geoCount mcgTarget + 2 := by
  obtain ⟨ptrs, h', h1, h2⟩ := getLoadBalancedEndpoints_length mcgTarget hostname currentEndpoints h
  refine ⟨ptrs, h', h1, ?_⟩
  rw [h2, length_loadBalancedOut,
    length_flatMap_groupOut_ip_only (lbNameOf mcgTarget hostname) mcgTarget.GroupTargetsByGeo hne hip]
  unfold clusterCount at hn
  unfold clusterCount geoCount
  have : 2 * (mcgTarget.GroupTargetsByGeo.map (fun entry => entry.2.length)).sum +
      (mcgTarget.GroupTargetsByGeo.filter (fun entry => !IsDefaultCode entry.1)).length > 0 := by omega
  simp only [this, if_true]

theorem load_balanced_endpoint_count_example :
    (1 ≤ clusterCount customWeightsTarget ∧
      (∀ entry ∈ customWeightsTarget.GroupTargetsByGeo, entry.2 ≠ []) ∧
      (∀ entry ∈ customWeightsTarget.GroupTargetsByGeo, ∀ c ∈ entry.2,
        0 < (ipValuesOf c.Addresses).length ∧ hostValuesOf c.Addresses = [])) ∧
    (∃ endpoints h', getLoadBalancedEndpoints customWeightsTarget "test.example.com" [] [] =
        some (endpoints, h') ∧
      endpoints.length = 2 * clusterCount customWeightsTarget + geoCount customWeightsTarget + 2) ∧
    2 * clusterCount customWeightsTarget + geoCount customWeightsTarget + 2 = 8 ∧
    2 * clusterCount geoTarget + geoCount geoTarget + 2 = 7 ∧
    2 * clusterCount weightedTarget + geoCount weightedTarget + 2 = 6 :=
  ⟨⟨by decide, by decide, by decide⟩,
    load_balanced_endpoint_count customWeightsTarget "test.example.com" [] [] (by decide) (by decide)
      (by decide),
    by decide, by decide, by decide⟩

/-! ## Reuse of stored endpoints with the simple strategy (C7, C2) -/

/-- C7 at its failing input: the target has one IP address and one hostname
address and the record already holds the two endpoints of the first
reconciliation.  `getSimpleEndpoints` returns the same object twice, a CNAME:
no A endpoint is emitted although an IP address exists. -/
theorem C7_simple_endpoints_alias_on_second_run :
    (mixedTarget.ClusterGatewayTargets.flatMap (fun c => ipValuesOf c.Addresses) = ["172.0.0.1"]) ∧
    (mixedTarget.ClusterGatewayTargets.flatMap (fun c => hostValuesOf c.Addresses) = ["lb.example.org"]) ∧
    (getSimpleEndpoints mixedTarget "test.example.com" [] []).2 = mixedSimpleRecord ∧
    (getSimpleEndpoints mixedTarget "test.example.com" (currentEndpointsOf mixedSimpleRecord)
        mixedSimpleRecord).1 = [1, 1] ∧
    ((getSimpleEndpoints mixedTarget "test.example.com" (currentEndpointsOf mixedSimpleRecord)
        mixedSimpleRecord).1.map
      (deref (getSimpleEndpoints mixedTarget "test.example.com" (currentEndpointsOf mixedSimpleRecord)
        mixedSimpleRecord).2)).map (fun e => (e.DNSName, e.RecordType, e.Targets)) =
      [("test.example.com", "CNAME", ["lb.example.org"]), ("test.example.com", "CNAME", ["lb.example.org"])] := by
  decide

/-- C2 at its failing input: for the target with one IP address and one
hostname address and the simple strategy, the first run of `setEndpoints` on an
empty record stores an A record and a CNAME, and the second run, started on
that output, stores two CNAMEs. -/
theorem C2_second_run_differs :
    (setEndpoints mixedTarget "test.example.com" .simple []).toOption.map (fun r => r.endpoints) =
      some mixedSimpleRecord ∧
    (setEndpoints mixedTarget "test.example.com" .simple mixedSimpleRecord).toOption.map
        (fun r => (r.endpoints.map (fun e => (e.RecordType, e.Targets)), r.updated)) =
      some ([("CNAME", ["lb.example.org"]), ("CNAME", ["lb.example.org"])], true) := by
  decide

/-! ## Sorting and the order of the geo groups (C3) -/

theorem Char_eq_of_toNat_eq (a b : Char) (h : a.toNat = b.toNat) : a = b := by
  rw [← Char.ofNat_toNat a, ← Char.ofNat_toNat b, h]

theorem ltChars_asymm (a b : List Char) (h : ltChars a b = true) : ltChars b a = false := by
  induction a generalizing b with
  | nil => cases b <;> simp [ltChars] at h ⊢
  | cons x a ih =>
    cases b with
    | nil => simp [ltChars] at h
    | cons y b =>
      simp only [ltChars, Bool.or_eq_true, Bool.and_eq_true, decide_eq_true_eq] at h
      simp only [ltChars, Bool.or_eq_false_iff, Bool.and_eq_false_imp, decide_eq_false_iff_not,
        decide_eq_true_eq]
      rcases h with h | ⟨h1, h2⟩
      · exact ⟨by omega, fun hc => by omega⟩
      · exact ⟨by omega, fun _ => ih b h2⟩

theorem ltChars_le_trans (a b c : List Char) (hab : ltChars b a = false) (hbc : ltChars c b = false) :
    ltChars c a = false := by
  induction a generalizing b c with
  | nil => cases c <;> simp [ltChars]
  | cons x a ih =>
    cases b with
    | nil => simp [ltChars] at hab
    | cons y b =>
      cases c with
      | nil => simp [ltChars] at hbc
      | cons z c =>
        simp only [ltChars, Bool.or_eq_false_iff, Bool.and_eq_false_imp, decide_eq_false_iff_not,
          decide_eq_true_eq] at hab hbc ⊢
        refine ⟨by omega, fun hzx => ?_⟩
        have hyx : y.toNat = x.toNat := by omega
        have hzy : z.toNat = y.toNat := by omega
        exact ih b c (hab.2 hyx) (hbc.2 hzy)

theorem ltChars_total (a b : List Char) : ltChars b a = false ∨ ltChars a b = false := by
  by_cases h : ltChars a b = true
  · exact Or.inl (ltChars_asymm a b h)
  · exact Or.inr (by simpa using h)

theorem sorted_sortEndpoints (l : List Endpoint) :
    (sortEndpoints l).Sorted (fun a b => less b a = false) := by
  haveI : IsTotal Endpoint (fun a b => less b a = false) :=
    ⟨fun a b => ltChars_total a.SetID.data b.SetID.data⟩
  haveI : IsTrans Endpoint (fun a b => less b a = false) :=
    ⟨fun a b c hab hbc => ltChars_le_trans a.SetID.data b.SetID.data c.SetID.data hab hbc⟩
  exact List.sorted_insertionSort _ l

theorem perm_sortEndpoints (l : List Endpoint) : (sortEndpoints l).Perm l :=
  List.perm_insertionSort _ l

theorem loadBalancedOut_of_designated (mcgTarget : MultiClusterGatewayTarget) (hostname : String)
    (cgwTargets : List ClusterGatewayTarget)
    (hg : (mcgTarget.GetDefaultGeo, cgwTargets) ∈ mcgTarget.GroupTargetsByGeo)
    (ha : ∃ c ∈ cgwTargets, c.Addresses ≠ [])
    (hD : ∀ entry ∈ mcgTarget.GroupTargetsByGeo, entry.1 = "default" →
      (∃ c ∈ entry.2, c.Addresses ≠ []) → mcgTarget.GetDefaultGeo = "default") :
    loadBalancedOut mcgTarget hostname =
      mcgTarget.GroupTargetsByGeo.flatMap (groupOut (lbNameOf mcgTarget hostname)) ++
        [defaultEndpointOf (lbNameOf mcgTarget hostname) mcgTarget.GetDefaultGeo,
          rootEndpointOf hostname (lbNameOf mcgTarget hostname)] := by
  have h1 := groupClusterOut_length_pos (lbNameOf mcgTarget hostname) (mcgTarget.GetDefaultGeo, cgwTargets) ha
  have hd : defaultGeoOf mcgTarget (lbNameOf mcgTarget hostname) = some mcgTarget.GetDefaultGeo := by
    unfold defaultGeoOf
    apply foldl_defaultGeoStep_designated
    · intro entry hm hc h0
      exact hD entry hm hc (exists_address_of_groupClusterOut _ entry h0)
    · exact Or.inr ⟨_, hg, rfl, h1⟩
  have hne : (mcgTarget.GroupTargetsByGeo.flatMap (groupOut (lbNameOf mcgTarget hostname))).length > 0 := by
    obtain ⟨c, _, v, _, hw⟩ := exists_weighted_of_groupClusterOut _ _ h1
    exact List.length_pos_of_mem (List.mem_flatMap.mpr ⟨_, hg, hw⟩)
  unfold loadBalancedOut
  simp only [hne, if_true, hd]

theorem Char_toLower_eq_hyphen (c : Char) : (c.toLower == '-') = (c == '-') := by
  have key : c.toLower = '-' ↔ c = '-' := by
    unfold Char.toLower
    simp only
    by_cases h : c.toNat ≥ 65 ∧ c.toNat ≤ 90
    · rw [if_pos h]
      constructor
      · intro hc
        exfalso
        obtain ⟨h1, h2⟩ := h
        generalize c.toNat = n at h1 h2 hc
        interval_cases n <;> revert hc <;> decide
      · intro hc
        subst hc
        exact absurd h (by decide)
    · rw [if_neg h]
  by_cases hc : c = '-'
  · subst hc; rfl
  · have h1 : ¬ c.toLower = '-' := fun h => hc (key.mp h)
    simp [hc, h1]

theorem hyphens_toLower (s : String) : hyphens (toLower s) = hyphens s := by
  unfold hyphens toLower
  simp only
  induction s.data with
  | nil => rfl
  | cons c l ih =>
    simp only [List.map_cons, List.count_cons, ih, Char_toLower_eq_hyphen]

theorem hyphens_append (a b : String) : hyphens (a ++ b) = hyphens a + hyphens b := by
  unfold hyphens
  rw [String.data_append, List.count_append]

theorem count_hyphen_removeWildcards (pending : Bool) (l : List Char) :
    (removeWildcards pending l).count '-' = l.count '-' := by
  induction l generalizing pending with
  | nil => cases pending <;> simp [removeWildcards]
  | cons c l ih =>
    cases pending
    · by_cases hc : c = '*'
      · subst hc
        simp [removeWildcards, ih]
      · simp [removeWildcards, hc, ih, List.count_cons]
    · by_cases hd : c = '.'
      · subst hd
        simp [removeWildcards, ih]
      · by_cases hc : c = '*'
        · subst hc
          simp [removeWildcards, ih]
        · simp [removeWildcards, hc, hd, ih, List.count_cons]

theorem hyphens_replaceWildcards (s : String) : hyphens (replaceWildcards s) = hyphens s :=
  count_hyphen_removeWildcards false s.data

theorem hyphens_lbNameOf (mcgTarget : MultiClusterGatewayTarget) (hostname : String) :
    hyphens (lbNameOf mcgTarget hostname) = 1 + hyphens mcgTarget.GetShortCode + hyphens hostname := by
  unfold lbNameOf
  simp only [hyphens_toLower, hyphens_append]
  have h1 : hyphens "lb-" = 1 := by decide
  have h2 : hyphens "." = 0 := by decide
  split_ifs
  · rw [hyphens_replaceWildcards, h1, h2]; omega
  · rw [h1, h2]; omega

theorem lbNameOf_ne_hostname (mcgTarget : MultiClusterGatewayTarget) (hostname : String) :
    lbNameOf mcgTarget hostname ≠ hostname := by
  intro h
  have := hyphens_lbNameOf mcgTarget hostname
  rw [h] at this
  omega

theorem prefixed_ne_hostname (mcgTarget : MultiClusterGatewayTarget) (hostname x : String) :
    toLower (x ++ "." ++ lbNameOf mcgTarget hostname) ≠ hostname := by
  intro h
  have h1 : hyphens (toLower (x ++ "." ++ lbNameOf mcgTarget hostname)) =
      hyphens x + hyphens (lbNameOf mcgTarget hostname) := by
    simp only [hyphens_toLower, hyphens_append]
    have h2 : hyphens "." = 0 := by decide
    rw [h2]; omega
  rw [h, hyphens_lbNameOf] at h1
  omega

theorem prefixed_ne_self (x lbName : String) : toLower (x ++ "." ++ lbName) ≠ lbName := by
  intro h
  have h1 := congrArg (fun s => s.data.length) h
  simp only [toLower, String.data_append, List.length_map, List.length_append] at h1
  simp only [List.length_singleton] at h1
  omega

theorem prefixed_ne_empty (x lbName : String) : toLower (x ++ "." ++ lbName) ≠ "" := by
  intro h
  have h1 := congrArg (fun s => s.data.length) h
  simp only [toLower, String.data_append, List.length_map, List.length_append] at h1
  simp only [List.length_singleton, List.length_nil] at h1
  omega

/-! ## Uniqueness of endpoint identities (C1) -/

theorem mem_clusterOut_cases (lbName geoLbName : String) (c : ClusterGatewayTarget) (x : Endpoint)
    (hx : x ∈ clusterOut lbName geoLbName c) :
    (x = aEndpointOf c lbName ∧ clusterLbNameOf c lbName ∈ clusterValues c lbName) ∨
      ∃ v ∈ clusterValues c lbName, x = weightedEndpointOf c geoLbName v := by
  unfold clusterOut at hx
  rcases List.mem_append.mp hx with h | h
  · split_ifs at h with hip
    · left
      simp only [List.mem_singleton] at h
      refine ⟨h, ?_⟩
      unfold clusterValues
      simp [hip]
    · simp at h
  · right
    obtain ⟨v, hv, rfl⟩ := List.mem_map.mp h
    exact ⟨v, hv, rfl⟩

theorem clusterValues_ne_empty (lbName : String) (c : ClusterGatewayTarget)
    (h3 : "" ∉ hostValuesOf c.Addresses) : ∀ v ∈ clusterValues c lbName, v ≠ "" := by
  intro v hv
  unfold clusterValues at hv
  rcases List.mem_append.mp hv with h | h
  · intro hc; exact h3 (hc ▸ h)
  · split_ifs at h
    · simp only [List.mem_singleton] at h
      rw [h]
      exact prefixed_ne_empty _ _
    · simp at h

theorem DNSName_clusterOut (lbName geoCode : String) (c : ClusterGatewayTarget) (x : Endpoint)
    (hx : x ∈ clusterOut lbName (geoLbNameOf geoCode lbName) c) :
    ∃ y, x.DNSName = toLower (y ++ "." ++ lbName) := by
  rcases mem_clusterOut_cases _ _ c x hx with ⟨rfl, _⟩ | ⟨v, _, rfl⟩
  · exact ⟨c.GetShortCode, rfl⟩
  · exact ⟨geoCode, rfl⟩

theorem cross_clusterOut (lbName g₁ g₂ : String) (c₁ c₂ : ClusterGatewayTarget)
    (hd : List.Disjoint (clusterValues c₁ lbName) (clusterValues c₂ lbName))
    (h1 : ∀ v ∈ clusterValues c₁ lbName, v ≠ "") (h2 : ∀ v ∈ clusterValues c₂ lbName, v ≠ "")
    (x y : Endpoint) (hx : x ∈ clusterOut lbName g₁ c₁) (hy : y ∈ clusterOut lbName g₂ c₂) :
    x.identity ≠ y.identity := by
  rcases mem_clusterOut_cases _ _ c₁ x hx with ⟨rfl, hm1⟩ | ⟨v1, hv1, rfl⟩ <;>
    rcases mem_clusterOut_cases _ _ c₂ y hy with ⟨rfl, hm2⟩ | ⟨v2, hv2, rfl⟩
  · intro h
    have : clusterLbNameOf c₁ lbName = clusterLbNameOf c₂ lbName := congrArg Prod.fst h
    exact hd hm1 (this ▸ hm2)
  · intro h
    have : "" = v2 := congrArg Prod.snd h
    exact h2 v2 hv2 this.symm
  · intro h
    have : v1 = "" := congrArg Prod.snd h
    exact h1 v1 hv1 this
  · intro h
    have : v1 = v2 := congrArg Prod.snd h
    exact hd hv1 (this ▸ hv2)

theorem pairwise_clusterOut (lbName geoLbName : String) (c : ClusterGatewayTarget)
    (hn : (clusterValues c lbName).Nodup) (h1 : ∀ v ∈ clusterValues c lbName, v ≠ "") :
    (clusterOut lbName geoLbName c).Pairwise (fun x y => x.identity ≠ y.identity) := by
  unfold clusterOut
  rw [List.pairwise_append]
  refine ⟨?_, ?_, ?_⟩
  · split_ifs <;> simp
  · rw [List.pairwise_map]
    exact hn.imp (fun hne h => hne (congrArg Prod.snd h))
  · intro x hx y hy
    split_ifs at hx
    · simp only [List.mem_singleton] at hx
      obtain ⟨v, hv, rfl⟩ := List.mem_map.mp hy
      subst hx
      intro h
      have : "" = v := congrArg Prod.snd h
      exact h1 v hv this.symm
    · simp at hx

theorem mem_groupOut_cases (lbName : String) (entry : String × List ClusterGatewayTarget) (x : Endpoint)
    (hx : x ∈ groupOut lbName entry) :
    (∃ c ∈ entry.2, x ∈ clusterOut lbName (geoLbNameOf entry.1 lbName) c) ∨
      (x = geoEndpointOf lbName entry.1 ∧ entry.1 ≠ "default") := by
  unfold groupOut at hx
  split_ifs at hx with h0 hd
  · simp at hx
  · simp only [List.append_nil] at hx
    exact Or.inl (List.mem_flatMap.mp hx)
  · rcases List.mem_append.mp hx with h | h
    · exact Or.inl (List.mem_flatMap.mp h)
    · right
      simp only [List.mem_singleton] at h
      exact ⟨h, by simpa [IsDefaultCode, DefaultGeo] using hd⟩

theorem clusterOut_ne_geoEndpoint (lbName geoCode geoCode' : String) (c : ClusterGatewayTarget)
    (x : Endpoint) (hx : x ∈ clusterOut lbName (geoLbNameOf geoCode lbName) c) :
    x.identity ≠ (geoEndpointOf lbName geoCode').identity := by
  obtain ⟨y, hy⟩ := DNSName_clusterOut lbName geoCode c x hx
  intro h
  have : x.DNSName = lbName := congrArg Prod.fst h
  rw [hy] at this
  exact prefixed_ne_self _ _ this

theorem pairwise_groupOut (lbName : String) (entry : String × List ClusterGatewayTarget)
    (hn : (groupValues lbName entry).Nodup)
    (h3 : ∀ c ∈ entry.2, "" ∉ hostValuesOf c.Addresses) :
    (groupOut lbName entry).Pairwise (fun x y => x.identity ≠ y.identity) := by
  obtain ⟨hn1, hn2⟩ := List.nodup_flatMap.mp hn
  have hce : (groupClusterOut lbName entry).Pairwise (fun x y => x.identity ≠ y.identity) := by
    unfold groupClusterOut
    rw [List.pairwise_flatMap]
    refine ⟨fun c hc => pairwise_clusterOut _ _ c (hn1 c hc) (clusterValues_ne_empty _ c (h3 c hc)), ?_⟩
    refine hn2.imp_of_mem ?_
    intro c₁ c₂ hc1 hc2 hd x hx y hy
    exact cross_clusterOut lbName _ _ c₁ c₂ hd (clusterValues_ne_empty _ c₁ (h3 c₁ hc1))
      (clusterValues_ne_empty _ c₂ (h3 c₂ hc2)) x y hx hy
  unfold groupOut
  split_ifs with h0 hd
  · exact List.Pairwise.nil
  · simpa using hce
  · rw [List.pairwise_append]
    refine ⟨hce, by simp, ?_⟩
    intro x hx y hy
    simp only [List.mem_singleton] at hy
    subst hy
    obtain ⟨c, _, hxc⟩ := List.mem_flatMap.mp hx
    exact clusterOut_ne_geoEndpoint lbName entry.1 entry.1 c x hxc

theorem cross_groupOut (lbName : String) (e₁ e₂ : String × List ClusterGatewayTarget)
    (hne : e₁.1 ≠ e₂.1) (hd : List.Disjoint (groupValues lbName e₁) (groupValues lbName e₂))
    (h1 : ∀ c ∈ e₁.2, "" ∉ hostValuesOf c.Addresses) (h2 : ∀ c ∈ e₂.2, "" ∉ hostValuesOf c.Addresses)
    (x y : Endpoint) (hx : x ∈ groupOut lbName e₁) (hy : y ∈ groupOut lbName e₂) :
    x.identity ≠ y.identity := by
  rcases mem_groupOut_cases lbName e₁ x hx with ⟨c1, hc1, hx1⟩ | ⟨rfl, _⟩ <;>
    rcases mem_groupOut_cases lbName e₂ y hy with ⟨c2, hc2, hy2⟩ | ⟨rfl, _⟩
  · apply cross_clusterOut lbName _ _ c1 c2 _ (clusterValues_ne_empty _ c1 (h1 c1 hc1))
      (clusterValues_ne_empty _ c2 (h2 c2 hc2)) x y hx1 hy2
    intro v hv1 hv2
    exact hd (List.mem_flatMap.mpr ⟨c1, hc1, hv1⟩) (List.mem_flatMap.mpr ⟨c2, hc2, hv2⟩)
  · exact clusterOut_ne_geoEndpoint lbName e₁.1 e₂.1 c1 x hx1
  · exact fun h => clusterOut_ne_geoEndpoint lbName e₂.1 e₁.1 c2 y hy2 h.symm
  · intro h
    exact hne (congrArg Prod.snd h)

theorem pairwise_flatMap_groupOut (lbName : String) (gs : List (String × List ClusterGatewayTarget))
    (h1 : (gs.map (fun entry => entry.1)).Nodup)
    (h2 : (gs.flatMap (groupValues lbName)).Nodup)
    (h3 : ∀ entry ∈ gs, ∀ c ∈ entry.2, "" ∉ hostValuesOf c.Addresses) :
    (gs.flatMap (groupOut lbName)).Pairwise (fun x y => x.identity ≠ y.identity) := by
  obtain ⟨hn1, hn2⟩ := List.nodup_flatMap.mp h2
  have hcodes : gs.Pairwise (fun a b => a.1 ≠ b.1) := List.pairwise_map.mp h1
  rw [List.pairwise_flatMap]
  refine ⟨fun e he => pairwise_groupOut lbName e (hn1 e he) (h3 e he), ?_⟩
  refine (hcodes.and hn2).imp_of_mem ?_
  intro e₁ e₂ he1 he2 h x hx y hy
  exact cross_groupOut lbName e₁ e₂ h.1 h.2 (h3 e₁ he1) (h3 e₂ he2) x y hx hy

theorem nodup_identity_loadBalancedOut (mcgTarget : MultiClusterGatewayTarget) (hostname : String)
    (h1 : (mcgTarget.GroupTargetsByGeo.map (fun entry => entry.1)).Nodup)
    (h2 : (weightedValues mcgTarget hostname).Nodup)
    (h3 : ∀ entry ∈ mcgTarget.GroupTargetsByGeo, ∀ c ∈ entry.2, "" ∉ hostValuesOf c.Addresses) :
    ((loadBalancedOut mcgTarget hostname).map Endpoint.identity).Nodup := by
  have hX := pairwise_flatMap_groupOut (lbNameOf mcgTarget hostname) mcgTarget.GroupTargetsByGeo h1 h2 h3
  unfold List.Nodup
  rw [List.pairwise_map]
  unfold loadBalancedOut
  simp only
  split_ifs with h0
  · cases hd : defaultGeoOf mcgTarget (lbNameOf mcgTarget hostname) with
    | none => exact List.Pairwise.nil
    | some g =>
      simp only
      rw [List.pairwise_append]
      refine ⟨hX, ?_, ?_⟩
      · simp only [List.pairwise_cons, List.mem_singleton, List.not_mem_nil, forall_eq,
          List.Pairwise.nil, and_true, false_implies, implies_true]
        intro h
        have : "default" = "" := congrArg Prod.snd h
        exact absurd this (by decide)
      · intro x hx y hy
        obtain ⟨entry, _, hxe⟩ := List.mem_flatMap.mp hx
        simp only [List.mem_cons, List.mem_singleton, List.not_mem_nil, or_false] at hy
        rcases mem_groupOut_cases _ entry x hxe with ⟨c, _, hxc⟩ | ⟨rfl, hnd⟩
        · obtain ⟨z, hz⟩ := DNSName_clusterOut _ entry.1 c x hxc
          rcases hy with rfl | rfl
          · intro h
            have : x.DNSName = lbNameOf mcgTarget hostname := congrArg Prod.fst h
            rw [hz] at this
            exact prefixed_ne_self _ _ this
          · intro h
            have : x.DNSName = hostname := congrArg Prod.fst h
            rw [hz] at this
            exact prefixed_ne_hostname mcgTarget hostname z this
        · rcases hy with rfl | rfl
          · intro h
            exact hnd (congrArg Prod.snd h)
          · intro h
            exact lbNameOf_ne_hostname mcgTarget hostname (congrArg Prod.fst h)
  · exact List.Pairwise.nil

theorem nodup_identity_simpleOut (mcgTarget : MultiClusterGatewayTarget) (hostname : String)
    (h : mcgTarget.ClusterGatewayTargets.flatMap (fun c => ipValuesOf c.Addresses) = [] ∨
      mcgTarget.ClusterGatewayTargets.flatMap (fun c => hostValuesOf c.Addresses) = []) :
    ((simpleOut mcgTarget hostname).map Endpoint.identity).Nodup := by
  unfold simpleOut
  rcases h with h | h
  · simp only [h, List.length_nil, gt_iff_lt, lt_self_iff_false, if_false, List.nil_append]
    split_ifs <;> simp
  · simp only [h, List.length_nil, gt_iff_lt, lt_self_iff_false, if_false, List.append_nil]
    split_ifs <;> simp

theorem getSimpleEndpoints_length_le_one (mcgTarget : MultiClusterGatewayTarget) (hostname : String)
    (cur : EndpointMap) (h : Heap)
    (hone : mcgTarget.ClusterGatewayTargets.flatMap (fun c => ipValuesOf c.Addresses) = [] ∨
      mcgTarget.ClusterGatewayTargets.flatMap (fun c => hostValuesOf c.Addresses) = []) :
    (getSimpleEndpoints mcgTarget hostname cur h).1.length ≤ 1 := by
  unfold getSimpleEndpoints
  rcases hone with h1 | h1
  · simp only [h1, List.length_nil, gt_iff_lt, lt_self_iff_false, if_false]
    split_ifs <;> simp
  · simp only [h1, List.length_nil, gt_iff_lt, lt_self_iff_false, if_false]
    split_ifs <;> simp

theorem nodup_of_length_le_one (l : List (String × String)) (h : l.length ≤ 1) : l.Nodup := by
  match l, h with
  | [], _ => exact List.nodup_nil
  | [a], _ => exact List.nodup_singleton a
  | _ :: _ :: _, h => simp at h

/-- No two endpoints of the synthesized list share the same
(DNSName, SetIdentifier) pair, provided that, with the simple strategy, the
target does not expose both IP and hostname addresses (whatever the current
endpoints), and that, with the load-balanced strategy, the record holds no
prior endpoints, the geo codes of the groups are pairwise distinct, no hostname
address is empty and the values the weighted CNAMEs point at (hostname
addresses and cluster LB names) are pairwise distinct over the target. -/
theorem identities_unique_of_distinct_values (mcgTarget : MultiClusterGatewayTarget) (hostname : String)
    (strategy : RoutingStrategy) (recordEndpoints out : List Endpoint)
    (hout : synthesize mcgTarget hostname strategy recordEndpoints = .ok out)
    (hsimple : strategy = .simple →
      mcgTarget.ClusterGatewayTargets.flatMap (fun c => ipValuesOf c.Addresses) = [] ∨
      mcgTarget.ClusterGatewayTargets.flatMap (fun c => hostValuesOf c.Addresses) = [])
    (hlb : strategy = .loadbalanced → recordEndpoints = [] ∧
      (mcgTarget.GroupTargetsByGeo.map (fun entry => entry.1)).Nodup ∧
      (weightedValues mcgTarget hostname).Nodup ∧
      ∀ entry ∈ mcgTarget.GroupTargetsByGeo, ∀ c ∈ entry.2, "" ∉ hostValuesOf c.Addresses) :
    (out.map Endpoint.identity).Nodup := by
  cases strategy with
  | other name => simp [synthesize] at hout
  | simple =>
    simp only [synthesize] at hout
    injection hout with hout
    subst hout
    apply nodup_of_length_le_one
    rw [List.length_map, List.length_map]
    exact getSimpleEndpoints_length_le_one mcgTarget hostname _ _ (hsimple rfl)
  | loadbalanced =>
    obtain ⟨h0, h1, h2, h3⟩ := hlb rfl
    subst h0
    rw [synthesize_loadbalanced_nil] at hout
    injection hout with hout
    subst hout
    exact nodup_identity_loadBalancedOut mcgTarget hostname h1 h2 h3

theorem identities_unique_of_distinct_values_example :
    (synthesize mixedTarget "test.example.com" .loadbalanced [] =
        .ok (loadBalancedOut mixedTarget "test.example.com") ∧
      (mixedTarget.GroupTargetsByGeo.map (fun entry => entry.1)).Nodup ∧
      (weightedValues mixedTarget "test.example.com").Nodup ∧
      ∀ entry ∈ mixedTarget.GroupTargetsByGeo, ∀ c ∈ entry.2, "" ∉ hostValuesOf c.Addresses) ∧
    ((loadBalancedOut mixedTarget "test.example.com").map Endpoint.identity).Nodup :=
  ⟨⟨synthesize_loadbalanced_nil _ _, by decide, by decide, by decide⟩,
    identities_unique_of_distinct_values mixedTarget "test.example.com" .loadbalanced [] _
      (synthesize_loadbalanced_nil _ _)
      (fun h => by cases h) (fun _ => ⟨rfl, by decide, by decide, by decide⟩)⟩

/-- C1 at its failing input: for the target with one IP address and one
hostname address, the simple strategy on an empty record publishes an A record
and a CNAME that share the DNS name `test.example.com` and the empty
set-identifier, so the two have the one key `test.example.com` in the map
`currentEndpoints` of the next run. -/
theorem C1_simple_endpoints_share_identity :
    (synthesize mixedTarget "test.example.com" .simple []).toOption.map
        (fun out => out.map (fun e => (e.DNSName, e.SetIdentifier, e.RecordType))) =
      some [("test.example.com", "", "A"), ("test.example.com", "", "CNAME")] ∧
    (synthesize mixedTarget "test.example.com" .simple []).toOption.map
        (fun out => decide (out.map Endpoint.identity).Nodup) = some false := by
  decide

/-! ## The `default` endpoint and the designated default geo (C6) -/

/-- On a record without prior endpoints, when the policy
designates the default geo `G`, some cluster with an address belongs to the geo
group `G`, and no geo group with a cluster address carries the synthetic code
`default` (unless `G` is that code), then, whatever the order of the geo groups
and however many there are, the output has an endpoint with set-identifier
`default` at the LB name, and every such endpoint has the single target
`lowercase(G).lbName`. -/
theorem default_endpoint_targets_designated_geo (mcgTarget : MultiClusterGatewayTarget)
    (hostname : String) (cgwTargets : List ClusterGatewayTarget)
    (hg : (mcgTarget.GetDefaultGeo, cgwTargets) ∈ mcgTarget.GroupTargetsByGeo)
    (ha : ∃ c ∈ cgwTargets, c.Addresses ≠ [])
    (hD : ∀ entry ∈ mcgTarget.GroupTargetsByGeo, entry.1 = "default" →
      (∃ c ∈ entry.2, c.Addresses ≠ []) → mcgTarget.GetDefaultGeo = "default") :
    ∃ out, synthesize mcgTarget hostname .loadbalanced [] = .ok out ∧
      (∃ e ∈ out, e.DNSName = lbNameOf mcgTarget hostname ∧ e.SetIdentifier = "default") ∧
      ∀ e ∈ out, e.DNSName = lbNameOf mcgTarget hostname → e.SetIdentifier = "default" →
        e.Targets = [toLower (mcgTarget.GetDefaultGeo ++ "." ++ lbNameOf mcgTarget hostname)] := by
  refine ⟨_, synthesize_loadbalanced_nil mcgTarget hostname, ?_, ?_⟩
  · rw [loadBalancedOut_of_designated mcgTarget hostname cgwTargets hg ha hD]
    exact ⟨defaultEndpointOf (lbNameOf mcgTarget hostname) mcgTarget.GetDefaultGeo, by simp, rfl, rfl⟩
  · rw [loadBalancedOut_of_designated mcgTarget hostname cgwTargets hg ha hD]
    intro e he hname hset
    rcases List.mem_append.mp he with he | he
    · obtain ⟨entry, _, hee⟩ := List.mem_flatMap.mp he
      rcases mem_groupOut_cases _ entry e hee with ⟨c, _, hec⟩ | ⟨rfl, hnd⟩
      · obtain ⟨y, hy⟩ := DNSName_clusterOut _ entry.1 c e hec
        rw [hy] at hname
        exact absurd hname (prefixed_ne_self _ _)
      · exact absurd hset hnd
    · simp only [List.mem_cons, List.mem_singleton, List.not_mem_nil, or_false] at he
      rcases he with rfl | rfl
      · rfl
      · simp [rootEndpointOf, mkEndpoint] at hset

theorem default_endpoint_targets_designated_geo_example :
    (("IE", [clusterOne 100]) ∈ customWeightsTarget.GroupTargetsByGeo ∧
      (∃ c ∈ [clusterOne 100], c.Addresses ≠ []) ∧
      (∀ entry ∈ customWeightsTarget.GroupTargetsByGeo, entry.1 = "default" →
        (∃ c ∈ entry.2, c.Addresses ≠ []) → customWeightsTarget.GetDefaultGeo = "default")) ∧
    ∃ out, synthesize customWeightsTarget "test.example.com" .loadbalanced [] = .ok out ∧
      (∃ e ∈ out, e.DNSName = lbNameOf customWeightsTarget "test.example.com" ∧
        e.SetIdentifier = "default") ∧
      ∀ e ∈ out, e.DNSName = lbNameOf customWeightsTarget "test.example.com" →
        e.SetIdentifier = "default" →
        e.Targets = [toLower (customWeightsTarget.GetDefaultGeo ++ "." ++
          lbNameOf customWeightsTarget "test.example.com")] :=
  ⟨⟨by decide, ⟨clusterOne 100, by decide, by decide⟩, by decide⟩,
    default_endpoint_targets_designated_geo customWeightsTarget "test.example.com" [clusterOne 100]
      (by decide) ⟨clusterOne 100, by decide, by decide⟩ (by decide)⟩

/-- C6 at its failing input: with the designated default geo `IE`, a cluster in
`IE` and a group carrying the code `default` that is visited later, the
`default` endpoint points at `default.lb-abc123.test.example.com`, not at
`ie.lb-abc123.test.example.com`; with the same two groups visited in the other
order it points at `ie.lb-abc123.test.example.com`. -/
theorem C6_default_group_overrides_designated_geo :
    defaultLabelTarget.GetDefaultGeo = "IE" ∧
    ("IE", [clusterOne 120]) ∈ defaultLabelTarget.GroupTargetsByGeo ∧
    (clusterOne 120).Addresses ≠ [] ∧
    (synthesize defaultLabelTarget "test.example.com" .loadbalanced []).toOption.map
        (fun out => (out.filter (fun e => e.SetIdentifier == "default")).map
          (fun e => (e.DNSName, e.Targets))) =
      some [("lb-abc123.test.example.com", ["default.lb-abc123.test.example.com"])] ∧
    toLower ("IE" ++ "." ++ lbNameOf defaultLabelTarget "test.example.com") =
      "ie.lb-abc123.test.example.com" ∧
    defaultLabelFirstTarget.GroupTargetsByGeo = defaultLabelTarget.GroupTargetsByGeo.reverse ∧
    (synthesize defaultLabelFirstTarget "test.example.com" .loadbalanced []).toOption.map
        (fun out => (out.filter (fun e => e.SetIdentifier == "default")).map
          (fun e => (e.DNSName, e.Targets))) =
      some [("lb-abc123.test.example.com", ["ie.lb-abc123.test.example.com"])] := by
  decide

/-! ## The stored list: order, unknown strategies, empty output (C13, C15, C16) -/

theorem synthesize_known (mcgTarget : MultiClusterGatewayTarget) (hostname : String)
    (strategy : RoutingStrategy) (recordEndpoints : List Endpoint)
    (hs : strategy = .simple ∨ strategy = .loadbalanced) :
    ∃ out, synthesize mcgTarget hostname strategy recordEndpoints = .ok out := by
  rcases hs with hs | hs
  · subst hs
    exact ⟨_, rfl⟩
  · subst hs
    obtain ⟨ptrs, h', h1, _⟩ := getLoadBalancedEndpoints_length mcgTarget hostname
      (currentEndpointsOf recordEndpoints) recordEndpoints
    exact ⟨ptrs.map (deref h'), by simp only [synthesize, h1]⟩

theorem Char_lt_iff_toNat (x y : Char) : x < y ↔ x.toNat < y.toNat := by
  rw [Char.lt_def]
  exact Iff.rfl

theorem ltChars_iff_lt (a b : List Char) : ltChars a b = true ↔ a < b := by
  induction a generalizing b with
  | nil =>
    cases b with
    | nil => simp [ltChars]
    | cons y b => simp only [ltChars, true_iff]; exact List.Lex.nil
  | cons x a ih =>
    cases b with
    | nil => simp [ltChars]
    | cons y b =>
      simp only [ltChars, Bool.or_eq_true, Bool.and_eq_true, decide_eq_true_eq, ih]
      constructor
      · rintro (h | ⟨h1, h2⟩)
        · exact List.Lex.rel ((Char_lt_iff_toNat x y).mpr h)
        · have := Char_eq_of_toNat_eq _ _ h1
          subst this
          exact List.Lex.cons h2
      · intro h
        cases h with
        | rel h => left; exact (Char_lt_iff_toNat x y).mp h
        | cons h => right; exact ⟨rfl, h⟩

theorem less_false_iff_le (a b : Endpoint) : less b a = false ↔ a.SetID ≤ b.SetID := by
  rw [String.le_iff_toList_le, ← not_lt, ← ltChars_iff_lt]
  unfold less
  simp [String.toList]

/-- C13: for either known strategy and any record, the builder returns a list
and `setEndpoints` stores a permutation of it in which, for every adjacent
pair, the identity string `DNSName + SetIdentifier` of the earlier endpoint is
less than or equal to that of the later one. -/
theorem C13_stored_list_sorted_permutation (mcgTarget : MultiClusterGatewayTarget) (hostname : String)
    (strategy : RoutingStrategy) (recordEndpoints : List Endpoint)
    (hs : strategy = .simple ∨ strategy = .loadbalanced) :
    ∃ out r, synthesize mcgTarget hostname strategy recordEndpoints = .ok out ∧
      setEndpoints mcgTarget hostname strategy recordEndpoints = .ok r ∧
      r.endpoints.Perm out ∧
      r.endpoints.Chain' (fun a b => a.SetID ≤ b.SetID) := by
  obtain ⟨out, hout⟩ := synthesize_known mcgTarget hostname strategy recordEndpoints hs
  refine ⟨out, { endpoints := sortEndpoints out, updated := decide (sortEndpoints out ≠ recordEndpoints) },
    hout, by simp only [setEndpoints, hout], perm_sortEndpoints out, ?_⟩
  exact (List.Pairwise.chain' (sorted_sortEndpoints out)).imp (fun a b h => (less_false_iff_le a b).mp h)

theorem C13_stored_list_sorted_permutation_witness :
    ∃ out r, synthesize customWeightsTarget "test.example.com" .loadbalanced simpleRecord = .ok out ∧
      setEndpoints customWeightsTarget "test.example.com" .loadbalanced simpleRecord = .ok r ∧
      r.endpoints.Perm out ∧
      r.endpoints.Chain' (fun a b => a.SetID ≤ b.SetID) :=
  C13_stored_list_sorted_permutation customWeightsTarget "test.example.com" .loadbalanced simpleRecord
    (Or.inr rfl)

/-- C16: for every routing strategy other than the two known ones and every
record, `setEndpoints` returns the error that wraps `ErrUnknownRoutingStrategy`,
and the record holds the endpoints it held before, with no update written. -/
theorem C16_unknown_strategy_is_atomic (mcgTarget : MultiClusterGatewayTarget) (hostname name : String)
    (recordEndpoints : List Endpoint) :
    setEndpoints mcgTarget hostname (.other name) recordEndpoints = .error (.unknownRoutingStrategy name) ∧
      recordAfterSetEndpoints mcgTarget hostname (.other name) recordEndpoints = (recordEndpoints, false) :=
  ⟨rfl, rfl⟩

theorem loadBalancedOut_no_address (mcgTarget : MultiClusterGatewayTarget) (hostname : String)
    (hg : ∀ entry ∈ mcgTarget.GroupTargetsByGeo, ∀ c ∈ entry.2, c.Addresses = []) :
    loadBalancedOut mcgTarget hostname = [] := by
  have h0 : mcgTarget.GroupTargetsByGeo.flatMap (groupOut (lbNameOf mcgTarget hostname)) = [] := by
    apply List.flatMap_eq_nil_iff.mpr
    intro entry he
    rw [groupOut_eq_nil_iff]
    by_contra hne
    obtain ⟨c, hc, ha⟩ := exists_address_of_groupClusterOut _ entry hne
    exact ha (hg entry he c hc)
  apply List.length_eq_zero.mp
  rw [length_loadBalancedOut, h0]
  simp

theorem synthesize_no_address (mcgTarget : MultiClusterGatewayTarget) (hostname : String)
    (strategy : RoutingStrategy) (recordEndpoints : List Endpoint)
    (hs : strategy = .simple ∨ strategy = .loadbalanced)
    (hc : ∀ c ∈ mcgTarget.ClusterGatewayTargets, c.Addresses = [])
    (hg : ∀ entry ∈ mcgTarget.GroupTargetsByGeo, ∀ c ∈ entry.2, c.Addresses = []) :
    synthesize mcgTarget hostname strategy recordEndpoints = .ok [] := by
  rcases hs with hs | hs
  · subst hs
    have h1 : mcgTarget.ClusterGatewayTargets.flatMap (fun c => ipValuesOf c.Addresses) = [] := by
      apply List.flatMap_eq_nil_iff.mpr
      intro c hmem
      rw [hc c hmem]
      rfl
    have h2 : mcgTarget.ClusterGatewayTargets.flatMap (fun c => hostValuesOf c.Addresses) = [] := by
      apply List.flatMap_eq_nil_iff.mpr
      intro c hmem
      rw [hc c hmem]
      rfl
    simp [synthesize, getSimpleEndpoints, h1, h2]
  · subst hs
    obtain ⟨ptrs, h', h1, h2⟩ := getLoadBalancedEndpoints_length mcgTarget hostname
      (currentEndpointsOf recordEndpoints) recordEndpoints
    rw [loadBalancedOut_no_address mcgTarget hostname hg] at h2
    have h3 : ptrs = [] := List.length_eq_zero.mp h2
    subst h3
    simp only [synthesize, h1, List.map_nil]

/-- C15 (amended): for either known strategy, every record and every target
none of whose clusters has an address, the synthesis emits no endpoints and
`setEndpoints` stores the empty list; `Update` is called exactly when the
record held endpoints before, so the record is left untouched exactly when it
held none. -/
theorem C15_no_address_stores_empty_list (mcgTarget : MultiClusterGatewayTarget) (hostname : String)
    (strategy : RoutingStrategy) (recordEndpoints : List Endpoint)
    (hs : strategy = .simple ∨ strategy = .loadbalanced)
    (hc : ∀ c ∈ mcgTarget.ClusterGatewayTargets, c.Addresses = [])
    (hg : ∀ entry ∈ mcgTarget.GroupTargetsByGeo, ∀ c ∈ entry.2, c.Addresses = []) :
    synthesize mcgTarget hostname strategy recordEndpoints = .ok [] ∧
      recordAfterSetEndpoints mcgTarget hostname strategy recordEndpoints =
        ([], decide (recordEndpoints ≠ [])) ∧
      (recordAfterSetEndpoints mcgTarget hostname strategy recordEndpoints = (recordEndpoints, false) ↔
        recordEndpoints = []) := by
  have h := synthesize_no_address mcgTarget hostname strategy recordEndpoints hs hc hg
  have h2 : recordAfterSetEndpoints mcgTarget hostname strategy recordEndpoints =
      ([], decide (recordEndpoints ≠ [])) := by
    simp only [recordAfterSetEndpoints, setEndpoints, h, sortEndpoints, List.insertionSort]
    congr 2
    exact propext ⟨fun hh => fun e => hh e.symm, fun hh => fun e => hh e.symm⟩
  refine ⟨h, h2, ?_⟩
  rw [h2]
  constructor
  · intro he
    exact (congrArg Prod.fst he).symm
  · intro he
    subst he
    rfl

theorem C15_no_address_stores_empty_list_witness :
    synthesize pendingTarget "test.example.com" .loadbalanced simpleRecord = .ok [] ∧
      recordAfterSetEndpoints pendingTarget "test.example.com" .loadbalanced simpleRecord =
        ([], decide (simpleRecord ≠ [])) ∧
      (recordAfterSetEndpoints pendingTarget "test.example.com" .loadbalanced simpleRecord =
        (simpleRecord, false) ↔ simpleRecord = []) :=
  C15_no_address_stores_empty_list pendingTarget "test.example.com" .loadbalanced simpleRecord
    (Or.inr rfl) (by decide) (by decide)

/-- C15 as stated fails: the record holds the A record of an earlier
reconciliation and the only cluster of the target has no address; with either
strategy the synthesis emits nothing, the record ends up without endpoints and
the update is written. -/
theorem C15_counterexample :
    (∀ c ∈ pendingTarget.ClusterGatewayTargets, c.Addresses = []) ∧
    (∀ entry ∈ pendingTarget.GroupTargetsByGeo, ∀ c ∈ entry.2, c.Addresses = []) ∧
    recordAfterSetEndpoints pendingTarget "test.example.com" .simple simpleRecord = ([], true) ∧
    recordAfterSetEndpoints pendingTarget "test.example.com" .loadbalanced simpleRecord = ([], true) ∧
    simpleRecord ≠ [] := by
  decide

/-! ## The A records of the load-balanced output (C11) -/

theorem mem_ipValuesOf (addresses : List GatewayAddress) (t : String) (ht : t ∈ ipValuesOf addresses) :
    ∃ a ∈ addresses, a.AddressType = "IPAddress" ∧ a.Value = t := by
  unfold ipValuesOf at ht
  obtain ⟨a, ha, hv⟩ := List.mem_map.mp ht
  obtain ⟨hmem, hty⟩ := List.mem_filter.mp ha
  exact ⟨a, hmem, by simpa [IPAddressType] using hty, hv⟩

theorem recordType_A_clusterOut (lbName geoLbName : String) (c : ClusterGatewayTarget) (e : Endpoint)
    (he : e ∈ clusterOut lbName geoLbName c) (hA : e.RecordType = "A") :
    0 < (ipValuesOf c.Addresses).length ∧ e = aEndpointOf c lbName := by
  unfold clusterOut at he
  rcases List.mem_append.mp he with h | h
  · split_ifs at h with hip
    · exact ⟨hip, List.mem_singleton.mp h⟩
    · simp at h
  · obtain ⟨v, _, hv⟩ := List.mem_map.mp h
    subst hv
    simp [weightedEndpointOf, mkEndpoint, Endpoint.SetProviderSpecific, CNAMERecordType] at hA

/-- In the load-balanced output for a record without prior endpoints,
every A endpoint belongs to a cluster `c` with at least one IP address: its
DNS name is `lowercase(c.shortCode.lbName)`, its targets are the values of the
IP addresses of `c` in order (so each target is the value of an address of type
`IPAddress`, never of a hostname address), its TTL is 60 and its set-identifier
is empty; and every cluster with at least one IP address has such an endpoint. -/
theorem a_records_of_first_synthesis (mcgTarget : MultiClusterGatewayTarget) (hostname : String) :
    ∃ out, synthesize mcgTarget hostname .loadbalanced [] = .ok out ∧
      (∀ e ∈ out, e.RecordType = "A" →
        ∃ entry ∈ mcgTarget.GroupTargetsByGeo, ∃ c ∈ entry.2,
          (∃ a ∈ c.Addresses, a.AddressType = "IPAddress") ∧
          e.DNSName = toLower (c.GetShortCode ++ "." ++ lbNameOf mcgTarget hostname) ∧
          e.Targets = (c.Addresses.filter (fun a => a.AddressType == "IPAddress")).map (fun a => a.Value) ∧
          e.RecordTTL = 60 ∧ e.SetIdentifier = "" ∧
          ∀ t ∈ e.Targets, ∃ a ∈ c.Addresses, a.AddressType = "IPAddress" ∧ a.Value = t) ∧
      (∀ entry ∈ mcgTarget.GroupTargetsByGeo, ∀ c ∈ entry.2,
        (∃ a ∈ c.Addresses, a.AddressType = "IPAddress") →
          ∃ e ∈ out, e.RecordType = "A" ∧
            e.DNSName = toLower (c.GetShortCode ++ "." ++ lbNameOf mcgTarget hostname) ∧
            e.Targets = (c.Addresses.filter (fun a => a.AddressType == "IPAddress")).map (fun a => a.Value) ∧
            e.RecordTTL = 60 ∧ e.SetIdentifier = "") := by
  refine ⟨_, synthesize_loadbalanced_nil mcgTarget hostname, ?_, ?_⟩
  · intro e he hA
    obtain ⟨g, _, hout⟩ := loadBalancedOut_cases mcgTarget hostname e he
    rw [hout] at he
    rcases List.mem_append.mp he with he | he
    · obtain ⟨entry, hentry, hg⟩ := List.mem_flatMap.mp he
      rcases mem_groupOut_cases _ entry e hg with ⟨c, hc, hec⟩ | ⟨hgeo, _⟩
      · obtain ⟨hip, hea⟩ := recordType_A_clusterOut _ _ c e hec hA
        subst hea
        obtain ⟨t, l, hl⟩ := List.exists_cons_of_ne_nil (List.ne_nil_of_length_pos hip)
        obtain ⟨a, ha, hty, _⟩ := mem_ipValuesOf c.Addresses t (by rw [hl]; exact List.mem_cons_self _ _)
        exact ⟨entry, hentry, c, hc, ⟨a, ha, hty⟩, rfl, rfl, rfl, rfl,
          fun t ht => mem_ipValuesOf c.Addresses t ht⟩
      · subst hgeo
        simp [geoEndpointOf, mkEndpoint, Endpoint.SetProviderSpecific, CNAMERecordType] at hA
    · simp only [List.mem_cons, List.mem_singleton, List.not_mem_nil, or_false] at he
      rcases he with he | he
      · subst he
        simp [defaultEndpointOf, defaultEndpointRaw, mkEndpoint, Endpoint.SetProviderSpecific,
          CNAMERecordType] at hA
      · subst he
        simp [rootEndpointOf, mkEndpoint, CNAMERecordType] at hA
  · intro entry hentry c hc ⟨a, ha, hty⟩
    have hip : 0 < (ipValuesOf c.Addresses).length := by
      apply List.length_pos_of_mem (a := a.Value)
      unfold ipValuesOf
      exact List.mem_map_of_mem _ (List.mem_filter.mpr ⟨ha, by simp [IPAddressType, hty]⟩)
    refine ⟨aEndpointOf c (lbNameOf mcgTarget hostname), ?_, rfl, rfl, rfl, rfl, rfl⟩
    apply mem_loadBalancedOut_of_group mcgTarget hostname entry _ hentry
    apply mem_groupOut_of_cluster _ _ c _ hc
    unfold clusterOut
    apply List.mem_append_left
    simp [hip]

/-! ## Wildcard hosts (C12) -/

theorem Char_toLower_toLower (c : Char) : c.toLower.toLower = c.toLower := by
  by_cases h : c.toNat ≥ 65 ∧ c.toNat ≤ 90
  · have h1 : c.toLower = Char.ofNat (c.toNat + 32) := by
      unfold Char.toLower
      simp only
      rw [if_pos h]
    rw [h1]
    obtain ⟨h2, h3⟩ := h
    generalize c.toNat = n at h2 h3
    interval_cases n <;> decide
  · have h1 : c.toLower = c := by
      unfold Char.toLower
      simp only
      rw [if_neg h]
    rw [h1, h1]

theorem toLower_toLower (s : String) : toLower (toLower s) = toLower s := by
  unfold toLower
  simp only [List.map_map]
  congr 1
  apply List.map_congr_left
  intro c _
  exact Char_toLower_toLower c

theorem rootedAt_iff (host domain : String) :
    rootedAt host domain ↔ ∃ x : List Char, host.data = x ++ '.' :: domain.data := by
  unfold rootedAt
  constructor
  · rintro ⟨p, hp⟩
    refine ⟨p.data, ?_⟩
    rw [hp]
    simp [String.data_append]
  · rintro ⟨x, hx⟩
    refine ⟨⟨x⟩, ?_⟩
    apply String.ext
    rw [hx]
    simp [String.data_append]

theorem length_toLower (s : String) : (toLower s).length = s.length := by
  show (s.data.map Char.toLower).length = s.data.length
  exact List.length_map _ _

theorem rootedAt_length_lt (host domain : String) (h : rootedAt host domain) :
    domain.length < host.length := by
  obtain ⟨x, hx⟩ := (rootedAt_iff host domain).mp h
  show domain.data.length < host.data.length
  rw [hx]
  simp only [List.length_append, List.length_cons]
  omega

theorem afterFirstDot_some (l p : List Char) (h : afterFirstDot l = some p) :
    ∃ x, l = x ++ '.' :: p ∧ '.' ∉ x := by
  induction l with
  | nil => simp [afterFirstDot] at h
  | cons c l ih =>
    simp only [afterFirstDot] at h
    split_ifs at h with hc
    · injection h with h
      subst h
      subst hc
      exact ⟨[], rfl, by simp⟩
    · obtain ⟨x, hx, hn⟩ := ih h
      refine ⟨c :: x, by rw [hx]; rfl, ?_⟩
      intro hmem
      rcases List.mem_cons.mp hmem with e | e
      · exact hc e.symm
      · exact hn e

theorem afterFirstDot_of_mem (l : List Char) (h : '.' ∈ l) : ∃ p, afterFirstDot l = some p := by
  induction l with
  | nil => simp at h
  | cons c l ih =>
    simp only [afterFirstDot]
    by_cases hc : c = '.'
    · exact ⟨l, by simp [hc]⟩
    · rcases List.mem_cons.mp h with e | e
      · exact absurd e.symm hc
      · obtain ⟨p, hp⟩ := ih e
        exact ⟨p, by simp [hc, hp]⟩

theorem afterFirstDot_length (l p : List Char) (h : afterFirstDot l = some p) : p.length < l.length := by
  obtain ⟨x, hx, _⟩ := afterFirstDot_some l p h
  rw [hx]
  simp only [List.length_append, List.length_cons]
  omega

/-- A label-boundary suffix of a host is its parent domain or a label-boundary
suffix of the parent domain. -/
theorem suffix_of_parent (l p d y : List Char) (hp : afterFirstDot l = some p)
    (hd : l = y ++ '.' :: d) : d = p ∨ ∃ y', p = y' ++ '.' :: d := by
  obtain ⟨x, hx, hn⟩ := afterFirstDot_some l p hp
  rw [hx] at hd
  rcases List.append_eq_append_iff.mp hd with ⟨a, ha, hb⟩ | ⟨a, ha, hb⟩
  · -- y = x ++ a
    cases a with
    | nil =>
      simp only [List.nil_append] at hb
      injection hb with _ hb
      exact Or.inl hb.symm
    | cons c a =>
      simp only [List.cons_append] at hb
      injection hb with _ hb
      exact Or.inr ⟨a, hb⟩
  · -- x = y ++ a
    cases a with
    | nil =>
      simp only [List.nil_append] at hb
      injection hb with _ hb
      exact Or.inl hb
    | cons c a =>
      simp only [List.cons_append] at hb
      injection hb with hc _
      exfalso
      apply hn
      rw [ha, ← hc]
      simp

/-- Of two label-boundary suffixes of a host, the shorter one is a
label-boundary suffix of the longer one, and two of the same length are equal. -/
theorem suffix_of_suffix (l h d x y : List Char) (hh : l = x ++ '.' :: h) (hd : l = y ++ '.' :: d)
    (hlen : d.length ≤ h.length) : d = h ∨ ∃ y', h = y' ++ '.' :: d := by
  rw [hh] at hd
  rcases List.append_eq_append_iff.mp hd with ⟨a, ha, hb⟩ | ⟨a, ha, hb⟩
  · cases a with
    | nil =>
      simp only [List.nil_append] at hb
      injection hb with _ hb
      exact Or.inl hb.symm
    | cons c a =>
      simp only [List.cons_append] at hb
      injection hb with _ hb
      exact Or.inr ⟨a, hb⟩
  · cases a with
    | nil =>
      simp only [List.nil_append] at hb
      injection hb with _ hb
      exact Or.inl hb
    | cons c a =>
      simp only [List.cons_append] at hb
      injection hb with _ hb
      exfalso
      have := congrArg List.length hb
      simp only [List.length_append, List.length_cons] at this
      omega

theorem toLower_suffix (x y : List Char) (h : toLower ⟨x ++ y⟩ = ⟨x ++ y⟩) : toLower ⟨y⟩ = ⟨y⟩ := by
  unfold toLower at h ⊢
  have h1 : (x ++ y).map Char.toLower = x ++ y := congrArg String.data h
  rw [List.map_append] at h1
  exact congrArg String.mk (List.append_inj h1 (by simp)).2

/-! ## The managed zone resolver: the zone returned (C17, C18) -/

theorem findMatchingManagedZoneAux_found (publicSuffix : String → String) (originalHost : String)
    (zones : List ManagedZone) (Z : ManagedZone) (s : String) (fuel : Nat) (host : String)
    (h : findMatchingManagedZoneAux publicSuffix originalHost zones fuel host = some (.ok (Z, s))) :
    Z ∈ zones ∧ toLower Z.DomainName ≠ originalHost ∧
      s = replaceFirst (toLower originalHost) ("." ++ toLower Z.DomainName) := by
  induction fuel generalizing host with
  | zero => simp [findMatchingManagedZoneAux] at h
  | succ fuel ih =>
    rw [findMatchingManagedZoneAux] at h
    by_cases hz : zones.length = 0
    · simp [hz] at h
    by_cases ht : toLower host = publicSuffix (toLower host)
    · simp [hz, ← ht] at h
    cases hp : afterFirstDot (toLower host).data with
    | none => simp [hz, ht, hp] at h
    | some parentDomain =>
      by_cases ho : toLower host = originalHost
      · simp only [hz, ht, hp, if_false] at h
        rw [if_pos ho] at h
        exact ih _ h
      · cases hf : zones.find? (fun zone => toLower zone.DomainName == toLower host) with
        | none =>
          simp only [hz, ht, hp, ho, hf, if_false] at h
          exact ih _ h
        | some zone =>
          simp only [hz, ht, hp, ho, hf, if_false, Option.some.injEq, Except.ok.injEq,
            Prod.mk.injEq] at h
          obtain ⟨h1, h2⟩ := h
          subst h1
          have hm := List.find?_some hf
          have hmem := List.mem_of_find?_eq_some hf
          simp only [beq_iff_eq] at hm
          refine ⟨hmem, ?_, h2.symm⟩
          rw [hm]
          exact ho

theorem parent_props (H h : String) (p : List Char) (hlow : toLower h = h)
    (hpos : h = H ∨ rootedAt H h) (hp : afterFirstDot h.data = some p) :
    toLower ⟨p⟩ = ⟨p⟩ ∧ rootedAt H ⟨p⟩ := by
  obtain ⟨x, hx, _⟩ := afterFirstDot_some h.data p hp
  constructor
  · apply toLower_suffix (x ++ ['.']) p
    have : x ++ ['.'] ++ p = h.data := by rw [hx]; simp
    rw [this]
    exact hlow
  · rw [rootedAt_iff]
    rcases hpos with e | e
    · subst e
      exact ⟨x, hx⟩
    · obtain ⟨y, hy⟩ := (rootedAt_iff H h).mp e
      refine ⟨y ++ '.' :: x, ?_⟩
      rw [hy, hx]
      simp

theorem findMatchingManagedZoneAux_longest (publicSuffix : String → String) (H : String)
    (zones : List ManagedZone) (Z : ManagedZone) (s : String) (fuel : Nat) (h : String)
    (hlow : toLower h = h) (hpos : h = H ∨ rootedAt H h)
    (hcand : ∀ Z' ∈ zones, rootedAt H (toLower Z'.DomainName) →
      (toLower Z'.DomainName).length ≤ h.length)
    (hret : findMatchingManagedZoneAux publicSuffix H zones fuel h = some (.ok (Z, s))) :
    rootedAt H (toLower Z.DomainName) ∧
      ∀ Z' ∈ zones, rootedAt H (toLower Z'.DomainName) →
        (toLower Z'.DomainName).length ≤ (toLower Z.DomainName).length := by
  induction fuel generalizing h with
  | zero => simp [findMatchingManagedZoneAux] at hret
  | succ fuel ih =>
    rw [findMatchingManagedZoneAux] at hret
    simp only [hlow] at hret
    by_cases hz : zones.length = 0
    · simp [hz] at hret
    by_cases ht : h = publicSuffix h
    · simp [hz, ← ht] at hret
    cases hp : afterFirstDot h.data with
    | none => simp [hz, ht, hp] at hret
    | some p =>
      obtain ⟨hplow, hproot⟩ := parent_props H h p hlow hpos hp
      by_cases ho : h = H
      · simp only [hz, ht, hp, if_false] at hret
        rw [if_pos ho] at hret
        apply ih ⟨p⟩ hplow (Or.inr hproot) _ hret
        intro Z' hZ' hroot
        obtain ⟨w, hw⟩ := (rootedAt_iff H _).mp hroot
        rw [← ho] at hw
        show (toLower Z'.DomainName).data.length ≤ p.length
        rcases suffix_of_parent h.data p _ w hp hw with e | ⟨y', e⟩
        · rw [e]
        · rw [e]
          simp only [List.length_append, List.length_cons]
          omega
      · have hroot_h : rootedAt H h := by
          rcases hpos with e | e
          · exact absurd e ho
          · exact e
        cases hf : zones.find? (fun zone => toLower zone.DomainName == h) with
        | none =>
          simp only [hz, ht, hp, ho, hf, if_false] at hret
          apply ih ⟨p⟩ hplow (Or.inr hproot) _ hret
          intro Z' hZ' hroot
          have hne : toLower Z'.DomainName ≠ h := by
            intro e
            have := List.find?_eq_none.mp hf Z' hZ'
            simp [e] at this
          obtain ⟨w, hw⟩ := (rootedAt_iff H _).mp hroot
          obtain ⟨x, hx⟩ := (rootedAt_iff H h).mp hroot_h
          show (toLower Z'.DomainName).data.length ≤ p.length
          rcases suffix_of_suffix H.data h.data _ x w hx hw (hcand Z' hZ' hroot) with e | ⟨y', e⟩
          · exact absurd (String.ext e) hne
          · rcases suffix_of_parent h.data p _ y' hp e with e2 | ⟨y2, e2⟩
            · rw [e2]
            · rw [e2]
              simp only [List.length_append, List.length_cons]
              omega
        | some zone =>
          simp only [hz, ht, hp, ho, hf, if_false, Option.some.injEq, Except.ok.injEq,
            Prod.mk.injEq] at hret
          obtain ⟨h1, _⟩ := hret
          subst h1
          have hm := List.find?_some hf
          simp only [beq_iff_eq] at hm
          rw [hm]
          exact ⟨hroot_h, hcand⟩

/-- For every lower-case hostname `H` and every catalog, the zone `Z` that
`findMatchingManagedZone` returns is a zone of the catalog whose lower-cased
domain name is a proper suffix of `H` at a label boundary (`H = sub.domain`),
and no zone of the catalog whose lower-cased domain name is such a proper
suffix of `H` has a longer domain name than `Z`. -/
theorem findMatchingManagedZone_longest_of_lowercase (publicSuffix : String → String) (H : String)
    (zones : List ManagedZone) (Z : ManagedZone) (s : String) (hlow : toLower H = H)
    (hret : findMatchingManagedZone publicSuffix H H zones = some (.ok (Z, s))) :
    Z ∈ zones ∧ (∃ sub : String, H = sub ++ "." ++ toLower Z.DomainName) ∧
      ∀ Z' ∈ zones, (∃ sub : String, H = sub ++ "." ++ toLower Z'.DomainName) →
        Z'.DomainName.length ≤ Z.DomainName.length := by
  unfold findMatchingManagedZone at hret
  have h1 := findMatchingManagedZoneAux_found publicSuffix H zones Z s _ _ hret
  have h2 := findMatchingManagedZoneAux_longest publicSuffix H zones Z s _ H hlow (Or.inl rfl)
    (fun Z' _ hroot => le_of_lt (rootedAt_length_lt H _ hroot)) hret
  refine ⟨h1.1, h2.1, ?_⟩
  intro Z' hZ' hroot
  have := h2.2 Z' hZ' hroot
  rwa [length_toLower, length_toLower] at this

theorem findMatchingManagedZone_longest_of_lowercase_example :
    exampleZone ∈ [leZone, exampleZone] ∧
      (∃ sub : String, "api.test.example.com" = sub ++ "." ++ toLower exampleZone.DomainName) ∧
      ∀ Z' ∈ [leZone, exampleZone],
        (∃ sub : String, "api.test.example.com" = sub ++ "." ++ toLower Z'.DomainName) →
          Z'.DomainName.length ≤ exampleZone.DomainName.length :=
  findMatchingManagedZone_longest_of_lowercase lastLabel "api.test.example.com" [leZone, exampleZone] exampleZone
    "api.test" (by decide) (by decide)

/-- C17 at its failing input: for the hostname `Example.com` and a catalog
holding the zone `example.com`, the resolver returns that zone, whose domain
name equals the hostname case-insensitively and so is no proper suffix of it. -/
theorem C17_apex_zone_returned_for_mixed_case :
    findMatchingManagedZone lastLabel "Example.com" "Example.com" [exampleZone] =
      some (.ok (exampleZone, "example.com")) ∧
    toLower exampleZone.DomainName = toLower "Example.com" ∧
    ¬ ∃ sub : String, toLower "Example.com" = sub ++ "." ++ toLower exampleZone.DomainName := by
  refine ⟨by decide, by decide, ?_⟩
  intro hex
  have h := rootedAt_length_lt _ _ hex
  revert h
  decide

/-! ## The managed zone resolver: depth of the recursion -/

theorem findMatchingManagedZoneAux_succ (publicSuffix : String → String) (originalHost : String)
    (zones : List ManagedZone) (fuel : Nat) (host : String) (hlen : host.length < fuel) :
    findMatchingManagedZoneAux publicSuffix originalHost zones fuel host =
      findMatchingManagedZoneAux publicSuffix originalHost zones (fuel + 1) host := by
  induction fuel generalizing host with
  | zero => omega
  | succ fuel ih =>
    conv_lhs => rw [findMatchingManagedZoneAux]
    conv_rhs => rw [findMatchingManagedZoneAux]
    by_cases hz : zones.length = 0
    · simp [hz]
    by_cases ht : toLower host = publicSuffix (toLower host)
    · simp [hz, ← ht]
    cases hp : afterFirstDot (toLower host).data with
    | none => simp [hz, ht, hp]
    | some p =>
      have hlt : (⟨p⟩ : String).length < fuel := by
        have h1 := afterFirstDot_length _ p hp
        have h2 := length_toLower host
        have h3 : (⟨p⟩ : String).length = p.length := rfl
        have h4 : (toLower host).length = (toLower host).data.length := rfl
        omega
      simp only [hz, ht, hp, if_false, ih ⟨p⟩ hlt]

theorem findMatchingManagedZoneAux_add (publicSuffix : String → String) (originalHost : String)
    (zones : List ManagedZone) (host : String) (k : Nat) :
    findMatchingManagedZoneAux publicSuffix originalHost zones (host.length + 1 + k) host =
      findMatchingManagedZone publicSuffix originalHost host zones := by
  induction k with
  | zero => rfl
  | succ k ih =>
    rw [← ih]
    have hlt : host.length < host.length + 1 + k := by omega
    exact (findMatchingManagedZoneAux_succ publicSuffix originalHost zones _ host hlt).symm

theorem findMatchingManagedZoneAux_of_lt (publicSuffix : String → String) (originalHost : String)
    (zones : List ManagedZone) (host : String) (fuel : Nat) (h : host.length < fuel) :
    findMatchingManagedZoneAux publicSuffix originalHost zones fuel host =
      findMatchingManagedZone publicSuffix originalHost host zones := by
  have := findMatchingManagedZoneAux_add publicSuffix originalHost zones host (fuel - (host.length + 1))
  rwa [show host.length + 1 + (fuel - (host.length + 1)) = fuel by omega] at this

/-! ## The managed zone resolver: apex, subdomain, success (C18, C19, C20) -/

/-- For every lower-case hostname `H` and every catalog,
`findMatchingManagedZone(H, H, zones)` never returns a zone whose lower-cased
domain name equals `H`; and when the catalog is not empty and `H` is not its own
public suffix, the search on `H` is the search on the parent domain of `H`. -/
theorem findMatchingManagedZone_skips_apex_of_lowercase (publicSuffix : String → String) (H : String)
    (zones : List ManagedZone) (hlow : toLower H = H) :
    (∀ Z s, findMatchingManagedZone publicSuffix H H zones = some (.ok (Z, s)) →
      toLower Z.DomainName ≠ toLower H) ∧
    (∀ parentDomain, zones ≠ [] → H ≠ publicSuffix H → afterFirstDot H.data = some parentDomain →
      findMatchingManagedZone publicSuffix H H zones =
        findMatchingManagedZone publicSuffix H ⟨parentDomain⟩ zones) := by
  constructor
  · intro Z s hret
    rw [hlow]
    exact (findMatchingManagedZoneAux_found publicSuffix H zones Z s _ _ hret).2.1
  · intro p hz ht hp
    have hz2 : ¬ zones.length = 0 := fun h0 => hz (List.length_eq_zero.mp h0)
    have hlt : (⟨p⟩ : String).length < H.length := afterFirstDot_length _ p hp
    conv_lhs => rw [findMatchingManagedZone, findMatchingManagedZoneAux]
    simp only [hlow, hz2, ht, hp, if_false, if_true]
    exact findMatchingManagedZoneAux_of_lt publicSuffix H zones ⟨p⟩ _ hlt

theorem findMatchingManagedZone_skips_apex_of_lowercase_example :
    (∀ Z s, findMatchingManagedZone lastLabel "test.example.com" "test.example.com"
        [testZone, exampleZone] = some (.ok (Z, s)) →
      toLower Z.DomainName ≠ toLower "test.example.com") ∧
    (∀ parentDomain, [testZone, exampleZone] ≠ [] → "test.example.com" ≠ lastLabel "test.example.com" →
      afterFirstDot "test.example.com".data = some parentDomain →
      findMatchingManagedZone lastLabel "test.example.com" "test.example.com" [testZone, exampleZone] =
        findMatchingManagedZone lastLabel "test.example.com" ⟨parentDomain⟩ [testZone, exampleZone]) :=
  findMatchingManagedZone_skips_apex_of_lowercase lastLabel "test.example.com" [testZone, exampleZone] (by decide)

/-- C18 at its failing input: for the hostname `Test.example.com` and a catalog
holding the zones `test.example.com` and `example.com`, the resolver returns
the zone `test.example.com`, whose domain name equals the hostname after
lowercasing both; for the lower-case hostname the same catalog yields the zone
`example.com`. -/
theorem C18_apex_zone_not_skipped_for_mixed_case :
    findMatchingManagedZone lastLabel "Test.example.com" "Test.example.com" [testZone, exampleZone] =
      some (.ok (testZone, "test.example.com")) ∧
    toLower testZone.DomainName = toLower "Test.example.com" ∧
    findMatchingManagedZone lastLabel "test.example.com" "test.example.com" [testZone, exampleZone] =
      some (.ok (exampleZone, "test")) := by
  decide

/-- C19 at its failing input: for the hostname `a.example.com.b.example.com` and
the zone `example.com` the resolver returns the subdomain `a.b.example.com`,
the hostname without the first occurrence of `.example.com`; the hostname
stripped of the zone suffix is `a.example.com.b`. -/
theorem C19_subdomain_first_occurrence_removed :
    findMatchingManagedZone lastLabel "a.example.com.b.example.com" "a.example.com.b.example.com"
        [exampleZone] = some (.ok (exampleZone, "a.b.example.com")) ∧
    "a.b.example.com" ++ "." ++ toLower exampleZone.DomainName ≠ toLower "a.example.com.b.example.com" ∧
    "a.example.com.b" ++ "." ++ toLower exampleZone.DomainName = toLower "a.example.com.b.example.com" := by
  decide

theorem findMatchingManagedZoneAux_succeeds (publicSuffix : String → String) (H : String)
    (zones : List ManagedZone) (Z : ManagedZone) (hZ : Z ∈ zones)
    (hparent : rootedAt (toLower H) (toLower Z.DomainName))
    (hdot : '.' ∈ (toLower Z.DomainName).data)
    (hguard : ∀ h : String, (h = toLower H ∨ rootedAt (toLower H) h) →
      (h = toLower Z.DomainName ∨ rootedAt h (toLower Z.DomainName)) → publicSuffix h ≠ h)
    (fuel : Nat) (host : String) (hlen : host.length < fuel)
    (hpos : toLower host = toLower H ∨ rootedAt (toLower H) (toLower host))
    (habove : toLower host = toLower Z.DomainName ∨ rootedAt (toLower host) (toLower Z.DomainName)) :
    ∃ Z' s, findMatchingManagedZoneAux publicSuffix H zones fuel host = some (.ok (Z', s)) := by
  induction fuel generalizing host with
  | zero => omega
  | succ fuel ih =>
    rw [findMatchingManagedZoneAux]
    have hz : ¬ zones.length = 0 := fun h0 => by
      rw [List.length_eq_zero.mp h0] at hZ
      simp at hZ
    have ht : ¬ toLower host = publicSuffix (toLower host) :=
      fun e => hguard (toLower host) hpos habove e.symm
    have hmem : '.' ∈ (toLower host).data := by
      rcases habove with e | e
      · rw [e]
        exact hdot
      · obtain ⟨x, hx⟩ := (rootedAt_iff _ _).mp e
        rw [hx]
        simp
    obtain ⟨p, hp⟩ := afterFirstDot_of_mem _ hmem
    obtain ⟨hplow, hproot⟩ := parent_props (toLower H) (toLower host) p (toLower_toLower host) hpos hp
    have hlt : (⟨p⟩ : String).length < fuel := by
      have h1 := afterFirstDot_length _ p hp
      have h2 := length_toLower host
      have h3 : (⟨p⟩ : String).length = p.length := rfl
      have h4 : (toLower host).length = (toLower host).data.length := rfl
      omega
    have hrec : rootedAt (toLower host) (toLower Z.DomainName) →
        ∃ Z' s, findMatchingManagedZoneAux publicSuffix H zones fuel ⟨p⟩ = some (.ok (Z', s)) := by
      intro e
      obtain ⟨y, hy⟩ := (rootedAt_iff _ _).mp e
      apply ih ⟨p⟩ hlt
      · rw [hplow]
        exact Or.inr hproot
      · rw [hplow]
        rcases suffix_of_parent _ p _ y hp hy with e2 | ⟨y2, e2⟩
        · left
          exact String.ext e2.symm
        · right
          exact (rootedAt_iff _ _).mpr ⟨y2, e2⟩
    simp only [hz, ht, hp, if_false]
    by_cases ho : toLower host = H
    · rw [if_pos ho]
      apply hrec
      rcases habove with e | e
      · exfalso
        have h1 := rootedAt_length_lt _ _ hparent
        rw [← e, ho, length_toLower] at h1
        omega
      · exact e
    · rw [if_neg ho]
      cases hf : zones.find? (fun zone => toLower zone.DomainName == toLower host) with
      | some zone => exact ⟨zone, _, rfl⟩
      | none =>
        apply hrec
        rcases habove with e | e
        · exfalso
          have := List.find?_eq_none.mp hf Z hZ
          simp [e] at this
        · exact e

theorem lastLabelChars_append (x d : List Char) (hd : '.' ∈ d) :
    lastLabelChars (x ++ d) = lastLabelChars d := by
  induction x with
  | nil => rfl
  | cons c x ih =>
    have hmem : '.' ∈ x ++ d := List.mem_append_right _ hd
    show lastLabelChars (c :: (x ++ d)) = lastLabelChars d
    rw [lastLabelChars, if_pos hmem, ih]

theorem lastLabel_rootedAt (h d : String) (hr : rootedAt h d) (hd : '.' ∈ d.data) :
    lastLabel h = lastLabel d := by
  obtain ⟨x, hx⟩ := (rootedAt_iff h d).mp hr
  unfold lastLabel
  rw [hx, show x ++ '.' :: d.data = (x ++ ['.']) ++ d.data by simp, lastLabelChars_append _ _ hd]

/-- C20 (amended): for every hostname `H` and every catalog that contains a zone
whose lower-cased domain name `P` has at least two labels and is a proper
parent domain of `lowercase(H)`, such that neither `lowercase(H)` nor any of its
parent domains down to `P` is its own public suffix, `findMatchingManagedZone`
succeeds and returns a zone of the catalog. -/
theorem C20_reachable_parent_zone_is_found (publicSuffix : String → String) (H : String)
    (zones : List ManagedZone) (Z : ManagedZone) (hZ : Z ∈ zones)
    (hparent : ∃ sub : String, toLower H = sub ++ "." ++ toLower Z.DomainName)
    (hdot : '.' ∈ (toLower Z.DomainName).toList)
    (hguard : ∀ h : String, (h = toLower H ∨ ∃ sub : String, toLower H = sub ++ "." ++ h) →
      (h = toLower Z.DomainName ∨ ∃ sub : String, h = sub ++ "." ++ toLower Z.DomainName) →
      publicSuffix h ≠ h) :
    ∃ Z' s, findMatchingManagedZone publicSuffix H H zones = some (.ok (Z', s)) ∧ Z' ∈ zones := by
  obtain ⟨Z', s, h⟩ := findMatchingManagedZoneAux_succeeds publicSuffix H zones Z hZ hparent hdot hguard
    (H.length + 1) H (Nat.lt_succ_self _) (Or.inl rfl) (Or.inr hparent)
  exact ⟨Z', s, h, (findMatchingManagedZoneAux_found publicSuffix H zones Z' s _ _ h).1⟩

theorem C20_reachable_parent_zone_is_found_witness :
    ∃ Z' s, findMatchingManagedZone lastLabel "api.test.example.com" "api.test.example.com"
      [exampleZone] = some (.ok (Z', s)) ∧ Z' ∈ [exampleZone] :=
  C20_reachable_parent_zone_is_found lastLabel "api.test.example.com" [exampleZone] exampleZone
    (by decide) ⟨"api.test", by decide⟩ (by decide)
    (by
      intro h _ habove
      have hcom : lastLabel (toLower exampleZone.DomainName) = "com" := by decide
      rcases habove with e | e
      · rw [e]
        decide
      · rw [lastLabel_rootedAt h _ e (by decide), hcom]
        intro hc
        have hlen := rootedAt_length_lt h _ e
        rw [← hc] at hlen
        revert hlen
        decide)

/-- C20 as stated fails: the catalog holds a zone for `com`, a proper parent
domain of `example.com`, and the resolver fails: the parent domain `com` is its
own public suffix, so the search stops before the zones are compared. -/
theorem C20_counterexample :
    comZone ∈ [comZone] ∧
    toLower "example.com" = "example" ++ "." ++ toLower comZone.DomainName ∧
    lastLabel "com" = "com" ∧
    findMatchingManagedZone lastLabel "example.com" "example.com" [comZone] =
      some (.error (.noValidZone "example.com")) := by
  decide

/-! ## Provider specific attributes of reused endpoints (C14) -/

/-- C14 at its failing input: the record holds an A record and a CNAME at
`test.example.com`, each with its own health check identifier.  Both endpoints
emitted by the simple strategy have the identity of the stored A record, and
neither carries its health check identifier `hc-a`: both are the stored CNAME
object. -/
theorem C14_attribute_of_shadowed_endpoint_lost :
    mixedCheckedRecord.map (fun e => (e.identity, e.RecordType, e.GetProviderSpecific "health-check-id")) =
      [(("test.example.com", ""), "A", some "hc-a"),
       (("test.example.com", ""), "CNAME", some "hc-cname")] ∧
    (synthesize mixedTarget "test.example.com" .simple mixedCheckedRecord).toOption.map
        (fun out => out.map
          (fun e => (e.identity, e.RecordType, e.GetProviderSpecific "health-check-id"))) =
      some [(("test.example.com", ""), "CNAME", some "hc-cname"),
            (("test.example.com", ""), "CNAME", some "hc-cname")] := by
  decide

/-! ## Attributes the builders do not set -/

theorem KeepsAttributes.refl (h : Heap) : KeepsAttributes h h :=
  ⟨le_refl _, fun _ _ _ _ _ => rfl⟩

theorem KeepsAttributes.trans {h₁ h₂ h₃ : Heap} (h12 : KeepsAttributes h₁ h₂)
    (h23 : KeepsAttributes h₂ h₃) : KeepsAttributes h₁ h₃ :=
  ⟨le_trans h12.1 h23.1, fun p hp name hw hg =>
    (h23.2 p (lt_of_lt_of_le hp h12.1) name hw hg).trans (h12.2 p hp name hw hg)⟩

theorem find?_setProperty_ne (n v name : String) (hne : name ≠ n) (ps : List ProviderSpecificProperty) :
    ((setProperty n v ps).find? (fun p => p.Name = name)).map (fun p => p.Value) =
      (ps.find? (fun p => p.Name = name)).map (fun p => p.Value) := by
  induction ps with
  | nil =>
    have : ¬ n = name := fun e => hne e.symm
    simp [setProperty, List.find?, this]
  | cons q ps ih =>
    unfold setProperty
    by_cases hq : q.Name = n
    · have h3 : ¬ n = name := fun e => hne e.symm
      simp [hq, List.find?, h3]
    · simp only [hq, if_false, List.find?]
      by_cases h2 : q.Name = name
      · simp [h2]
      · simp only [h2, decide_False]
        exact ih

theorem getProviderSpecific_set_ne (e : Endpoint) (n v name : String) (hne : name ≠ n) :
    (e.SetProviderSpecific n v).GetProviderSpecific name = e.GetProviderSpecific name :=
  find?_setProperty_ne n v name hne e.ProviderSpecific

theorem keeps_mutate (f : Endpoint → Endpoint) (h : Heap) (p : Nat)
    (hf : ∀ e name, name ≠ ProviderSpecificWeight → name ≠ ProviderSpecificGeoCode →
      (f e).GetProviderSpecific name = e.GetProviderSpecific name) :
    KeepsAttributes h (mutate f h p) := by
  refine ⟨le_of_eq (length_mutate f h p).symm, ?_⟩
  intro q hq name hw hg
  by_cases hqp : q = p
  · subst hqp
    rw [deref_mutate_eq f h q hq]
    exact hf _ name hw hg
  · rw [deref_mutate_ne f h q p hqp]

theorem keeps_append (h x : Heap) : KeepsAttributes h (h ++ x) :=
  ⟨by simp, fun p hp _ _ _ => by rw [deref_append_left h x p hp]⟩

theorem keeps_createOrUpdateEndpoint (dnsName : String) (targets : List String) (recordType : String)
    (setIdentifier : String) (recordTTL : Int) (cur : EndpointMap) (h : Heap) :
    KeepsAttributes h (createOrUpdateEndpoint dnsName targets recordType setIdentifier recordTTL cur h).2 := by
  unfold createOrUpdateEndpoint
  simp only
  cases cur.lookup (dnsName ++ setIdentifier) with
  | none => exact keeps_append h _
  | some p => exact keeps_mutate _ h p (fun _ _ _ _ => rfl)

theorem keeps_setWeight (h : Heap) (p : Nat) (v : String) :
    KeepsAttributes h (mutate (fun e => e.SetProviderSpecific ProviderSpecificWeight v) h p) :=
  keeps_mutate _ h p (fun e name hw _ => getProviderSpecific_set_ne e _ v name hw)

theorem keeps_setGeoCode (h : Heap) (p : Nat) (v : String) :
    KeepsAttributes h (mutate (fun e => e.SetProviderSpecific ProviderSpecificGeoCode v) h p) :=
  keeps_mutate _ h p (fun e name _ hg => getProviderSpecific_set_ne e _ v name hg)

theorem keeps_hostValueStep (c : ClusterGatewayTarget) (geoLbName : String) (cur : EndpointMap)
    (st : List Nat × Heap) (v : String) :
    KeepsAttributes st.2 (hostValueStep c geoLbName cur st v).2 := by
  unfold hostValueStep
  exact (keeps_createOrUpdateEndpoint _ _ _ _ _ cur st.2).trans (keeps_setWeight _ _ _)

theorem keeps_foldl_hostValueStep (c : ClusterGatewayTarget) (geoLbName : String) (cur : EndpointMap)
    (vs : List String) (st : List Nat × Heap) :
    KeepsAttributes st.2 (vs.foldl (hostValueStep c geoLbName cur) st).2 := by
  induction vs generalizing st with
  | nil => exact KeepsAttributes.refl _
  | cons v vs ih => exact (keeps_hostValueStep c geoLbName cur st v).trans (ih _)

theorem keeps_clusterStep (lbName geoLbName : String) (cur : EndpointMap) (st : List Nat × Heap)
    (c : ClusterGatewayTarget) : KeepsAttributes st.2 (clusterStep lbName geoLbName cur st c).2 := by
  unfold clusterStep
  by_cases hip : (ipValuesOf c.Addresses).length > 0
  · simp only [hip, if_true]
    exact (keeps_createOrUpdateEndpoint _ _ _ _ _ cur st.2).trans
      (keeps_foldl_hostValueStep c geoLbName cur _ (_, _))
  · simp only [hip, if_false]
    exact keeps_foldl_hostValueStep _ _ _ _ _

theorem keeps_foldl_clusterStep (lbName geoLbName : String) (cur : EndpointMap)
    (cs : List ClusterGatewayTarget) (st : List Nat × Heap) :
    KeepsAttributes st.2 (cs.foldl (clusterStep lbName geoLbName cur) st).2 := by
  induction cs generalizing st with
  | nil => exact KeepsAttributes.refl _
  | cons c cs ih => exact (keeps_clusterStep lbName geoLbName cur st c).trans (ih _)

theorem keeps_geoStep (mcgTarget : MultiClusterGatewayTarget) (lbName : String) (cur : EndpointMap)
    (st : LoopState) (entry : String × List ClusterGatewayTarget) :
    KeepsAttributes st.heap (geoStep mcgTarget lbName cur st entry).heap := by
  have h1 := keeps_foldl_clusterStep lbName (geoLbNameOf entry.1 lbName) cur entry.2 ([], st.heap)
  unfold geoStep
  simp only
  split_ifs with h0 hd hg
  · exact h1
  · exact h1.trans (keeps_createOrUpdateEndpoint _ _ _ _ _ cur _)
  · exact ((h1.trans (keeps_createOrUpdateEndpoint _ _ _ _ _ cur _)).trans
      (keeps_createOrUpdateEndpoint _ _ _ _ _ cur _)).trans (keeps_setGeoCode _ _ _)
  · exact (h1.trans (keeps_createOrUpdateEndpoint _ _ _ _ _ cur _)).trans (keeps_setGeoCode _ _ _)

theorem keeps_foldl_geoStep (mcgTarget : MultiClusterGatewayTarget) (lbName : String) (cur : EndpointMap)
    (gs : List (String × List ClusterGatewayTarget)) (st : LoopState) :
    KeepsAttributes st.heap (gs.foldl (geoStep mcgTarget lbName cur) st).heap := by
  induction gs generalizing st with
  | nil => exact KeepsAttributes.refl _
  | cons g gs ih => exact (keeps_geoStep mcgTarget lbName cur st g).trans (ih _)

/-- Every endpoint object of the record keeps, through `getLoadBalancedEndpoints`,
the value of each attribute other than `weight` and `geo-code`. -/
theorem keeps_getLoadBalancedEndpoints (mcgTarget : MultiClusterGatewayTarget) (hostname : String)
    (cur : EndpointMap) (h : Heap) (ptrs : List Nat) (h' : Heap)
    (hres : getLoadBalancedEndpoints mcgTarget hostname cur h = some (ptrs, h')) :
    KeepsAttributes h h' := by
  have h1 := keeps_foldl_geoStep mcgTarget (lbNameOf mcgTarget hostname) cur mcgTarget.GroupTargetsByGeo
    { endpoints := [], defaultEndpoint := none, heap := h }
  unfold getLoadBalancedEndpoints at hres
  simp only at hres
  split_ifs at hres with h0
  · split at hres
    · simp at hres
    · simp only [Option.some.injEq, Prod.mk.injEq] at hres
      rw [← hres.2]
      exact (h1.trans (keeps_setGeoCode _ _ _)).trans (keeps_createOrUpdateEndpoint _ _ _ _ _ cur _)
  · simp only [Option.some.injEq, Prod.mk.injEq] at hres
    rw [← hres.2]
    exact h1

/-- Every endpoint object of the record keeps, through `getSimpleEndpoints`, the
value of each attribute other than `weight` and `geo-code`. -/
theorem keeps_getSimpleEndpoints (mcgTarget : MultiClusterGatewayTarget) (hostname : String)
    (cur : EndpointMap) (h : Heap) :
    KeepsAttributes h (getSimpleEndpoints mcgTarget hostname cur h).2 := by
  unfold getSimpleEndpoints
  simp only
  split_ifs
  · exact (keeps_createOrUpdateEndpoint _ _ _ _ _ cur h).trans (keeps_createOrUpdateEndpoint _ _ _ _ _ cur _)
  · exact keeps_createOrUpdateEndpoint _ _ _ _ _ cur h
  · exact keeps_createOrUpdateEndpoint _ _ _ _ _ cur h
  · exact KeepsAttributes.refl _

/-! ## The managed zone resolver: errors (C21) -/

theorem findMatchingManagedZoneAux_ne_none (publicSuffix : String → String) (originalHost : String)
    (zones : List ManagedZone) (fuel : Nat) (host : String) (hlen : host.length < fuel) :
    findMatchingManagedZoneAux publicSuffix originalHost zones fuel host ≠ none := by
  induction fuel generalizing host with
  | zero => omega
  | succ fuel ih =>
    intro h
    rw [findMatchingManagedZoneAux] at h
    by_cases hz : zones.length = 0
    · simp [hz] at h
    by_cases ht : toLower host = publicSuffix (toLower host)
    · simp [hz, ← ht] at h
    cases hp : afterFirstDot (toLower host).data with
    | none => simp [hz, ht, hp] at h
    | some p =>
      have hlt : (⟨p⟩ : String).length < fuel := by
        have h1 := afterFirstDot_length _ p hp
        have h2 := length_toLower host
        have h3 : (⟨p⟩ : String).length = p.length := rfl
        have h4 : (toLower host).length = (toLower host).data.length := rfl
        omega
      simp only [hz, ht, hp, if_false] at h
      by_cases ho : toLower host = originalHost
      · rw [if_pos ho] at h
        exact ih _ hlt h
      · rw [if_neg ho] at h
        cases hf : zones.find? (fun zone => toLower zone.DomainName == toLower host) with
        | some zone => simp [hf] at h
        | none =>
          simp only [hf] at h
          exact ih _ hlt h

theorem findMatchingManagedZoneAux_isSome (publicSuffix : String → String) (originalHost : String)
    (zones : List ManagedZone) (fuel : Nat) (host : String) (hlen : host.length < fuel) :
    ∃ r, findMatchingManagedZoneAux publicSuffix originalHost zones fuel host = some r :=
  Option.ne_none_iff_exists'.mp
    (findMatchingManagedZoneAux_ne_none publicSuffix originalHost zones fuel host hlen)

theorem findMatchingManagedZoneAux_error (publicSuffix : String → String) (originalHost : String)
    (zones : List ManagedZone) (hz : zones ≠ []) (e : ZoneError) (fuel : Nat) (host : String)
    (h : findMatchingManagedZoneAux publicSuffix originalHost zones fuel host = some (.error e)) :
    e = .noValidZone originalHost := by
  have hz0 : ¬ zones.length = 0 := fun h0 => hz (List.length_eq_zero.mp h0)
  induction fuel generalizing host with
  | zero => simp [findMatchingManagedZoneAux] at h
  | succ fuel ih =>
    rw [findMatchingManagedZoneAux] at h
    by_cases ht : toLower host = publicSuffix (toLower host)
    · simp [hz0, ← ht] at h
      exact h.symm
    cases hp : afterFirstDot (toLower host).data with
    | none =>
      simp [hz0, ht, hp] at h
      exact h.symm
    | some p =>
      simp only [hz0, ht, hp, if_false] at h
      by_cases ho : toLower host = originalHost
      · rw [if_pos ho] at h
        exact ih _ h
      · rw [if_neg ho] at h
        cases hf : zones.find? (fun zone => toLower zone.DomainName == toLower host) with
        | some zone => simp [hf] at h
        | none =>
          simp only [hf] at h
          exact ih _ h

/-- For every hostname `H` and every catalog,
`findMatchingManagedZone(H, H, zones)` returns.  When the catalog is empty the
error wraps `ErrNoManagedZoneForHost`; when the catalog is not empty, every
error it returns is the plain error `no valid zone found for host: H`, which
does not wrap `ErrNoManagedZoneForHost`. -/
theorem findMatchingManagedZone_error_kinds (publicSuffix : String → String) (H : String)
    (zones : List ManagedZone) :
    (∃ r, findMatchingManagedZone publicSuffix H H zones = some r) ∧
    (zones = [] →
      findMatchingManagedZone publicSuffix H H zones = some (.error (.noManagedZoneForHost H)) ∧
      (ZoneError.noManagedZoneForHost H).IsNoManagedZoneForHost = true) ∧
    (zones ≠ [] → ∀ e, findMatchingManagedZone publicSuffix H H zones = some (.error e) →
      e = .noValidZone H ∧ e.IsNoManagedZoneForHost = false) := by
  refine ⟨findMatchingManagedZoneAux_isSome publicSuffix H zones _ H (Nat.lt_succ_self _), ?_, ?_⟩
  · intro hz
    subst hz
    exact ⟨rfl, rfl⟩
  · intro hz e he
    have := findMatchingManagedZoneAux_error publicSuffix H zones hz e _ H he
    subst this
    exact ⟨rfl, rfl⟩

/-- C21 at its failing input: for the hostname `test.example.com` and a catalog
holding only a zone for `example.org`, the parent domains are exhausted without
a match and the error returned does not wrap `ErrNoManagedZoneForHost`, while
for the same hostname and the empty catalog the error returned wraps it. -/
theorem C21_exhausted_search_error_not_wrapped :
    findMatchingManagedZone lastLabel "test.example.com" "test.example.com" [orgZone] =
      some (.error (.noValidZone "test.example.com")) ∧
    (ZoneError.noValidZone "test.example.com").IsNoManagedZoneForHost = false ∧
    findMatchingManagedZone lastLabel "test.example.com" "test.example.com" [] =
      some (.error (.noManagedZoneForHost "test.example.com")) ∧
    (ZoneError.noManagedZoneForHost "test.example.com").IsNoManagedZoneForHost = true := by
  decide

/-! ## The record built for a listener (C30) -/

theorem ne_append_suffix (a b : String) (hb : b ≠ "") : a ≠ a ++ b := by
  intro h
  have h1 := congrArg String.length h
  rw [String.length_append] at h1
  have h2 : b.length ≠ 0 := by
    intro h0
    apply hb
    apply String.ext
    exact List.length_eq_zero.mp h0
  omega

/-- C30: for every gateway, policy key, listener and managed zone, when the
policy back-reference key and its `-namespace` companion are none of the three
`kuadrant.io` gateway and listener labels, `buildDNSRecordForListener` returns a
record named `gateway-listener` in the namespace of the zone, without
endpoints, referring to the zone by name, whose labels are exactly the five
pairs: back-reference and companion with the name and namespace of the policy,
gateway namespace and gateway name, and the listener name. -/
theorem C30_record_built_for_listener (backRef : String) (gateway : Gateway) (dnsPolicy : ObjectKey)
    (targetListener : Listener) (managedZone : ManagedZone)
    (h1 : backRef ∉ [LabelGatewayReference, LabelGatewayNSRef, LabelListenerReference])
    (h2 : backRef ++ "-namespace" ∉ [LabelGatewayReference, LabelGatewayNSRef, LabelListenerReference]) :
    (buildDNSRecordForListener backRef gateway dnsPolicy targetListener managedZone).Name =
      gateway.Name ++ "-" ++ targetListener.Name ∧
    (buildDNSRecordForListener backRef gateway dnsPolicy targetListener managedZone).Namespace =
      managedZone.Namespace ∧
    (buildDNSRecordForListener backRef gateway dnsPolicy targetListener managedZone).Endpoints = [] ∧
    (buildDNSRecordForListener backRef gateway dnsPolicy targetListener managedZone).ManagedZoneRef =
      some managedZone.Name ∧
    (buildDNSRecordForListener backRef gateway dnsPolicy targetListener managedZone).Labels =
      [(backRef, dnsPolicy.Name), (backRef ++ "-namespace", dnsPolicy.Namespace),
       ("kuadrant.io/gateway-namespace", gateway.Namespace), ("kuadrant.io/gateway", gateway.Name),
       ("kuadrant.io/listener-name", targetListener.Name)] ∧
    ((buildDNSRecordForListener backRef gateway dnsPolicy targetListener managedZone).Labels.map
      Prod.fst).Nodup := by
  simp only [List.mem_cons, List.mem_singleton, List.not_mem_nil, or_false, not_or,
    LabelGatewayReference, LabelGatewayNSRef, LabelListenerReference] at h1 h2
  obtain ⟨a1, a2, a3⟩ := h1
  obtain ⟨b1, b2, b3⟩ := h2
  have hn : backRef ≠ backRef ++ "-namespace" := ne_append_suffix backRef "-namespace" (by decide)
  have hl : (buildDNSRecordForListener backRef gateway dnsPolicy targetListener managedZone).Labels =
      [(backRef, dnsPolicy.Name), (backRef ++ "-namespace", dnsPolicy.Namespace),
       ("kuadrant.io/gateway-namespace", gateway.Namespace), ("kuadrant.io/gateway", gateway.Name),
       ("kuadrant.io/listener-name", targetListener.Name)] := by
    simp [buildDNSRecordForListener, commonDNSRecordLabels, policyDNSRecordLabels,
      gatewayDNSRecordLabels, setLabel, LabelGatewayReference, LabelGatewayNSRef,
      LabelListenerReference, a1, a2, a3, b1, b2, b3, hn]
  refine ⟨rfl, rfl, rfl, rfl, hl, ?_⟩
  rw [hl]
  simp only [List.map_cons, List.map_nil, List.nodup_cons, List.mem_cons, List.mem_singleton,
    List.not_mem_nil, or_false, not_or, List.nodup_nil, and_true]
  refine ⟨⟨hn, a2, a1, a3⟩, ⟨b2, b1, b3⟩, ⟨by decide, by decide⟩, by decide⟩

theorem C30_record_built_for_listener_witness :
    (buildDNSRecordForListener "kuadrant.io/dnspolicy" testGateway testPolicyKey
        { Name := "test-listener", Hostname := some "test.example.com" } exampleZone).Name =
      testGateway.Name ++ "-" ++ "test-listener" ∧
    (buildDNSRecordForListener "kuadrant.io/dnspolicy" testGateway testPolicyKey
        { Name := "test-listener", Hostname := some "test.example.com" } exampleZone).Labels =
      [("kuadrant.io/dnspolicy", "test-dns-policy"), ("kuadrant.io/dnspolicy-namespace", "test-namespace"),
       ("kuadrant.io/gateway-namespace", "test-namespace"), ("kuadrant.io/gateway", "test-placed-gateway"),
       ("kuadrant.io/listener-name", "test-listener")] :=
  have h := C30_record_built_for_listener "kuadrant.io/dnspolicy" testGateway testPolicyKey
    { Name := "test-listener", Hostname := some "test.example.com" } exampleZone (by decide) (by decide)
  ⟨h.1, h.2.2.2.2.1⟩

/-! ## Records of deleted listeners (C22) -/

theorem removeLoop_no_errors (upstreamGateway : Gateway) (items store : List DNSRecord) :
    removeLoop (fun _ => none) upstreamGateway items store =
      (store.filter (fun r => items.all (fun d => listenerExists upstreamGateway d ||
        !(r.Namespace == d.Namespace && r.Name == d.Name))), none) := by
  induction items generalizing store with
  | nil => simp [removeLoop]
  | cons d items ih =>
    rw [removeLoop]
    by_cases hd : listenerExists upstreamGateway d = true
    · simp only [hd, if_true, ih, List.all_cons, Bool.true_or, Bool.true_and]
    · simp only [Bool.not_eq_true] at hd
      simp only [hd, Bool.false_eq_true, if_false, ih, deleteRecord, List.filter_filter, List.all_cons,
        Bool.false_or]
      congr 1
      apply List.filter_congr
      intro r _
      rw [Bool.and_comm]

theorem eq_of_key_eq (store : List DNSRecord)
    (hkeys : (store.map (fun r => (r.Namespace, r.Name))).Nodup) (r d : DNSRecord)
    (hr : r ∈ store) (hd : d ∈ store) (hns : r.Namespace = d.Namespace) (hn : r.Name = d.Name) :
    r = d :=
  List.inj_on_of_nodup_map hkeys hr hd (by simp [hns, hn])

/-- C22: for every gateway and every store whose records have pairwise distinct
keys, when neither `List` nor `Delete` reports an error,
`removeDNSForDeletedListeners` returns no error and leaves in the store exactly
the records that are not listed for the gateway or whose listener label is the
name of a listener of the gateway: the records deleted are the listed ones
whose listener label names no current listener. -/
theorem C22_records_of_deleted_listeners_removed (store : List DNSRecord) (upstreamGateway : Gateway)
    (hkeys : (store.map (fun r => (r.Namespace, r.Name))).Nodup) :
    removeDNSForDeletedListeners none (fun _ => none) store upstreamGateway =
      (store.filter (fun r => !(listedFor upstreamGateway r &&
        !upstreamGateway.Listeners.any (fun listener =>
          listener.Name == (r.Labels.lookup "kuadrant.io/listener-name").getD ""))), none) := by
  unfold removeDNSForDeletedListeners
  simp only [removeLoop_no_errors]
  congr 1
  apply List.filter_congr
  intro r hr
  have hdef : ∀ d : DNSRecord, upstreamGateway.Listeners.any (fun listener =>
      listener.Name == (d.Labels.lookup "kuadrant.io/listener-name").getD "") =
      listenerExists upstreamGateway d := fun _ => rfl
  rw [hdef]
  by_cases hdel : listedFor upstreamGateway r = true ∧ listenerExists upstreamGateway r = false
  · obtain ⟨h1, h2⟩ := hdel
    simp only [h1, h2, Bool.not_false, Bool.and_self, Bool.not_true]
    apply List.all_eq_false.mpr
    exact ⟨r, List.mem_filter.mpr ⟨hr, h1⟩, by simp [h2]⟩
  · have hrhs : (!(listedFor upstreamGateway r && !listenerExists upstreamGateway r)) = true := by
      cases h1 : listedFor upstreamGateway r <;> cases h2 : listenerExists upstreamGateway r <;>
        simp_all
    rw [hrhs]
    apply List.all_eq_true.mpr
    intro d hd
    obtain ⟨hd1, hd2⟩ := List.mem_filter.mp hd
    by_cases hex : listenerExists upstreamGateway d = true
    · simp [hex]
    · by_cases hkey : r.Namespace = d.Namespace ∧ r.Name = d.Name
      · exfalso
        have := eq_of_key_eq store hkeys r d hr hd1 hkey.1 hkey.2
        subst this
        exact hdel ⟨hd2, by simpa using hex⟩
      · simp only [Bool.or_eq_true, Bool.not_eq_true', Bool.and_eq_false_iff, beq_eq_false_iff_ne]
        right
        by_cases hns : r.Namespace = d.Namespace
        · right
          exact fun hn => hkey ⟨hns, hn⟩
        · left
          exact hns

theorem C22_records_of_deleted_listeners_removed_witness :
    removeDNSForDeletedListeners none (fun _ => none)
        [staleRecord, buildDNSRecordForListener "kuadrant.io/dnspolicy" testGateway testPolicyKey
          { Name := "test-listener", Hostname := some "test.example.com" } exampleZone] testGateway =
      ([staleRecord, buildDNSRecordForListener "kuadrant.io/dnspolicy" testGateway testPolicyKey
          { Name := "test-listener", Hostname := some "test.example.com" } exampleZone].filter
        (fun r => !(listedFor testGateway r &&
          !testGateway.Listeners.any (fun listener =>
            listener.Name == (r.Labels.lookup "kuadrant.io/listener-name").getD ""))), none) :=
  C22_records_of_deleted_listeners_removed _ testGateway (by decide)

/-! ## Additional headers of a probe (C23, C24, C25, C26) -/

theorem headersLoop_clean (probeObj : DNSHealthCheckProbe) (data : List (String × String))
    (acc : List AdditionalHeader)
    (h : ∀ kv ∈ data, ContainsAny (TrimSpace kv.1) " \t" = false) :
    headersLoop probeObj acc data =
      (probeObj, acc ++ data.map (fun kv => { Name := TrimSpace kv.1, Value := kv.2 }), none) := by
  induction data generalizing acc with
  | nil => simp [headersLoop]
  | cons kv data ih =>
    obtain ⟨k, v⟩ := kv
    have hk : ContainsAny (TrimSpace k) " \t" = false := h (k, v) (List.mem_cons_self _ _)
    rw [headersLoop]
    simp only [hk, Bool.false_eq_true, if_false]
    rw [ih _ (fun kv hkv => h kv (List.mem_cons_of_mem _ hkv))]
    simp

theorem headersLoop_rejects (probeObj : DNSHealthCheckProbe) (data : List (String × String))
    (acc : List AdditionalHeader)
    (h : ∃ kv ∈ data, ContainsAny (TrimSpace kv.1) " \t" = true) :
    ∃ k ∈ data.map Prod.fst, ContainsAny (TrimSpace k) " \t" = true ∧
      headersLoop probeObj acc data =
        ({ probeObj with Status := { probeObj.Status with
            Healthy := false, ConsecutiveFailures := 0, Reason := "invalid header found: " ++ k } },
          [], some (.invalidHeader k)) := by
  induction data generalizing acc with
  | nil => simp at h
  | cons kv data ih =>
    obtain ⟨k, v⟩ := kv
    by_cases hk : ContainsAny (TrimSpace k) " \t" = true
    · refine ⟨k, by simp, hk, ?_⟩
      rw [headersLoop]
      simp only [hk, if_true]
    · have h' : ∃ kv ∈ data, ContainsAny (TrimSpace kv.1) " \t" = true := by
        obtain ⟨kv, hmem, hkv⟩ := h
        rcases List.mem_cons.mp hmem with e | e
        · subst e
          exact absurd hkv hk
        · exact ⟨kv, e, hkv⟩
      obtain ⟨k', hk'mem, hk', hres⟩ := ih (acc ++ [{ Name := TrimSpace k, Value := v }]) h'
      refine ⟨k', List.mem_cons_of_mem _ hk'mem, hk', ?_⟩
      rw [headersLoop]
      simp only [hk, if_false]
      exact hres

theorem headersLoop_ok (probeObj probeObj' : DNSHealthCheckProbe) (data : List (String × String))
    (acc headers : List AdditionalHeader)
    (h : headersLoop probeObj acc data = (probeObj', headers, none)) :
    ∀ kv ∈ data, ContainsAny (TrimSpace kv.1) " \t" = false := by
  intro kv hkv
  by_contra hc
  obtain ⟨k, _, _, hres⟩ := headersLoop_rejects probeObj data acc ⟨kv, hkv, by simpa using hc⟩
  rw [hres] at h
  simp at h

theorem dropWhile_eq_self_of_none (l : List Char) (h : ∀ c ∈ l, isSpace c = false) :
    l.dropWhile isSpace = l := by
  cases l with
  | nil => rfl
  | cons c l => simp [List.dropWhile, h c (List.mem_cons_self _ _)]

theorem TrimSpace_of_no_space (s : String) (h : ∀ c ∈ s.toList, isSpace c = false) :
    TrimSpace s = s := by
  have h1 : ∀ c ∈ s.data, isSpace c = false := h
  unfold TrimSpace
  rw [dropWhile_eq_self_of_none _ h1,
    dropWhile_eq_self_of_none _ (fun c hc => h1 c (List.mem_reverse.mp hc)), List.reverse_reverse]

theorem ContainsAny_of_no_space (s : String) (h : ∀ c ∈ s.toList, isSpace c = false) :
    ContainsAny s " \t" = false := by
  unfold ContainsAny
  apply List.any_eq_false.mpr
  intro c hc hcon
  have hsp := h c hc
  have : c = ' ' ∨ c = '\t' := by
    have h1 : (" \t" : String).data = [' ', '\t'] := rfl
    rw [h1] at hcon
    simpa using hcon
  rcases this with e | e <;> subst e <;> revert hsp <;> decide

/-- The headers `getAdditionalHeaders` returns without an error have names
without a space and without a tab. -/
theorem getAdditionalHeaders_names (getSecret : ObjectKey → Except StoreError (List (String × String)))
    (probeObj probeObj' : DNSHealthCheckProbe) (headers : List AdditionalHeader)
    (h : getAdditionalHeaders getSecret probeObj = (probeObj', headers, none)) :
    ∀ header ∈ headers, ContainsAny header.Name " \t" = false := by
  unfold getAdditionalHeaders at h
  cases href : probeObj.Spec.AdditionalHeadersRef with
  | none =>
    simp only [href, Prod.mk.injEq] at h
    rw [← h.2.1]
    simp
  | some name =>
    simp only [href] at h
    cases hget : getSecret { Namespace := probeObj.Namespace, Name := name } with
    | error err =>
      simp only [hget] at h
      split_ifs at h <;> simp at h
    | ok data =>
      simp only [hget] at h
      have hclean := headersLoop_ok _ _ _ _ _ h
      rw [headersLoop_clean _ _ _ hclean] at h
      simp only [Prod.mk.injEq, List.nil_append] at h
      rw [← h.2.1]
      intro header hmem
      obtain ⟨kv, hkv, e⟩ := List.mem_map.mp hmem
      subst e
      exact hclean kv hkv

/-- C23 at its failing input: the secret of the probe has the one key `X-Probe`,
line feed, `X-Injected`.  `getAdditionalHeaders` succeeds and returns a header
whose name is that key, which contains the white space character line feed:
only spaces and tabs are looked for. -/
theorem C23_line_feed_in_header_name :
    getAdditionalHeaders (fun _ => .ok [("X-Probe\nX-Injected", "1")]) testProbeWithHeaders =
      (testProbeWithHeaders, [{ Name := "X-Probe\nX-Injected", Value := "1" }], none) ∧
    '\n' ∈ ("X-Probe\nX-Injected" : String).toList ∧ isSpace '\n' = true ∧
    ContainsAny "X-Probe\nX-Injected" " \t" = false := by
  decide

/-- C24 (amended): for every probe whose referenced secret is read and has a
key that, with its surrounding white space trimmed, contains a space or a tab,
`getAdditionalHeaders` returns an error wrapping `ErrInvalidHeader` and no
headers, and sets the status to `healthy=false`, `consecutiveFailures=0` and the
reason `invalid header found: ` followed by such a key. -/
theorem C24_key_with_inner_blank_rejected
    (getSecret : ObjectKey → Except StoreError (List (String × String)))
    (probeObj : DNSHealthCheckProbe) (name : String) (data : List (String × String))
    (href : probeObj.Spec.AdditionalHeadersRef = some name)
    (hget : getSecret { Namespace := probeObj.Namespace, Name := name } = .ok data)
    (hkey : ∃ kv ∈ data, ContainsAny (TrimSpace kv.1) " \t" = true) :
    ∃ k ∈ data.map Prod.fst, ContainsAny (TrimSpace k) " \t" = true ∧
      (HeadersError.invalidHeader k).IsInvalidHeader = true ∧
      getAdditionalHeaders getSecret probeObj =
        ({ probeObj with Status := { probeObj.Status with
            Healthy := false, ConsecutiveFailures := 0, Reason := "invalid header found: " ++ k } },
          [], some (.invalidHeader k)) := by
  obtain ⟨k, hk, hc, hres⟩ := headersLoop_rejects probeObj data [] hkey
  refine ⟨k, hk, hc, rfl, ?_⟩
  unfold getAdditionalHeaders
  simp only [href, hget]
  exact hres

theorem C24_key_with_inner_blank_rejected_witness :
    ∃ k ∈ [("X-Probe", "1"), ("X Invalid", "2")].map Prod.fst, ContainsAny (TrimSpace k) " \t" = true ∧
      (HeadersError.invalidHeader k).IsInvalidHeader = true ∧
      getAdditionalHeaders (fun _ => .ok [("X-Probe", "1"), ("X Invalid", "2")]) testProbeWithHeaders =
        ({ testProbeWithHeaders with Status := { testProbeWithHeaders.Status with
            Healthy := false, ConsecutiveFailures := 0, Reason := "invalid header found: " ++ k } },
          [], some (.invalidHeader k)) :=
  C24_key_with_inner_blank_rejected (fun _ => .ok [("X-Probe", "1"), ("X Invalid", "2")])
    testProbeWithHeaders "probe-headers" [("X-Probe", "1"), ("X Invalid", "2")] rfl rfl
    ⟨("X Invalid", "2"), by decide, by decide⟩

/-- C24 as stated fails: the key `X-Probe ` ends with a space, so it contains
white space, yet the secret is accepted: the header `X-Probe` is returned
without an error and the status is left as it was. -/
theorem C24_counterexample :
    ' ' ∈ ("X-Probe " : String).toList ∧ isSpace ' ' = true ∧
    getAdditionalHeaders (fun _ => .ok [("X-Probe ", "1")]) testProbeWithHeaders =
      (testProbeWithHeaders, [{ Name := "X-Probe", Value := "1" }], none) := by
  decide

/-- C25: for every probe with a secret reference, when the read of the secret
reports `not found`, `getAdditionalHeaders` returns an error and no headers and
sets the status to `healthy=false`, `consecutiveFailures=0` and the reason
`additional headers secret not found`; when the read reports any other error,
it returns an error and leaves the probe object as it was. -/
theorem C25_secret_read_failures
    (getSecret : ObjectKey → Except StoreError (List (String × String)))
    (probeObj : DNSHealthCheckProbe) (name : String)
    (href : probeObj.Spec.AdditionalHeadersRef = some name) :
    (getSecret { Namespace := probeObj.Namespace, Name := name } = .error .notFound →
      getAdditionalHeaders getSecret probeObj =
        ({ probeObj with Status := { probeObj.Status with
            Healthy := false, ConsecutiveFailures := 0,
            Reason := "additional headers secret not found" } },
          [], some (.retrieving { Namespace := probeObj.Namespace, Name := name } .notFound))) ∧
    (∀ message, getSecret { Namespace := probeObj.Namespace, Name := name } = .error (.other message) →
      getAdditionalHeaders getSecret probeObj =
        (probeObj, [],
          some (.unusualRetrieving { Namespace := probeObj.Namespace, Name := name } (.other message)))) := by
  constructor
  · intro hget
    unfold getAdditionalHeaders
    simp [href, hget, IgnoreNotFound]
  · intro message hget
    unfold getAdditionalHeaders
    simp [href, hget, IgnoreNotFound]

theorem C25_secret_read_failures_witness :
    ((fun _ => .error .notFound : ObjectKey → Except StoreError (List (String × String)))
        { Namespace := testProbeWithHeaders.Namespace, Name := "probe-headers" } = .error .notFound →
      getAdditionalHeaders (fun _ => .error .notFound) testProbeWithHeaders =
        ({ testProbeWithHeaders with Status := { testProbeWithHeaders.Status with
            Healthy := false, ConsecutiveFailures := 0,
            Reason := "additional headers secret not found" } },
          [], some (.retrieving { Namespace := testProbeWithHeaders.Namespace, Name := "probe-headers" }
            .notFound))) ∧
    (∀ message, (fun _ => .error .notFound : ObjectKey → Except StoreError (List (String × String)))
        { Namespace := testProbeWithHeaders.Namespace, Name := "probe-headers" } =
          .error (.other message) →
      getAdditionalHeaders (fun _ => .error .notFound) testProbeWithHeaders =
        (testProbeWithHeaders, [],
          some (.unusualRetrieving { Namespace := testProbeWithHeaders.Namespace, Name := "probe-headers" }
            (.other message)))) :=
  C25_secret_read_failures (fun _ => .error .notFound) testProbeWithHeaders "probe-headers" rfl

/-- C26: for every probe whose referenced secret is read and has no key with a
white space character, `getAdditionalHeaders` returns no error, leaves the
probe object as it was, and returns one header per key of the secret, in the
order of the keys, whose name is the key with surrounding white space trimmed
(the key itself) and whose value is the value of the key; without a secret
reference it returns no header and no error. -/
theorem C26_headers_of_clean_secret
    (getSecret : ObjectKey → Except StoreError (List (String × String)))
    (probeObj : DNSHealthCheckProbe) :
    (∀ name data, probeObj.Spec.AdditionalHeadersRef = some name →
      getSecret { Namespace := probeObj.Namespace, Name := name } = .ok data →
      (∀ kv ∈ data, ∀ c ∈ kv.1.toList, isSpace c = false) →
        getAdditionalHeaders getSecret probeObj =
          (probeObj, data.map (fun kv => { Name := TrimSpace kv.1, Value := kv.2 }), none) ∧
        ∀ kv ∈ data, TrimSpace kv.1 = kv.1) ∧
    (probeObj.Spec.AdditionalHeadersRef = none →
      getAdditionalHeaders getSecret probeObj = (probeObj, [], none)) := by
  constructor
  · intro name data href hget hclean
    constructor
    · unfold getAdditionalHeaders
      simp only [href, hget]
      rw [headersLoop_clean]
      · simp
      · intro kv hkv
        rw [TrimSpace_of_no_space _ (hclean kv hkv)]
        exact ContainsAny_of_no_space _ (hclean kv hkv)
    · intro kv hkv
      exact TrimSpace_of_no_space _ (hclean kv hkv)
  · intro href
    unfold getAdditionalHeaders
    simp only [href]

/-! ## The probe reconciler (C27, C28, C29) -/

/-- C27 at its failing input: whatever error the read of the probe object
reports, `not found` or any other, `Reconcile` returns the nil error and leaves
the registry as it was; for the error `connection refused` in particular. -/
theorem C27_read_errors_are_swallowed (NewHealthProtocol : String → String) (err : StoreError)
    (update : DNSHealthCheckProbe → Option StoreError)
    (getSecret : ObjectKey → Except StoreError (List (String × String))) (monitor : Monitor) :
    (Reconcile NewHealthProtocol { get := .error err, update := update, getSecret := getSecret }
      monitor).err = none ∧
    (Reconcile NewHealthProtocol { get := .error err, update := update, getSecret := getSecret }
      monitor).monitor = monitor ∧
    (Reconcile NewHealthProtocol
      { get := .error (.other "connection refused"), update := update, getSecret := getSecret }
      monitor).err = none ∧
    IgnoreNotFound (some (.other "connection refused")) ≠ none := by
  refine ⟨?_, ?_, rfl, by decide⟩
  · cases err <;> rfl
  · cases err <;> rfl

theorem headersLoop_finalizers (probeObj : DNSHealthCheckProbe) (data : List (String × String))
    (acc : List AdditionalHeader) :
    (headersLoop probeObj acc data).1.Finalizers = probeObj.Finalizers := by
  induction data generalizing acc with
  | nil => rfl
  | cons kv data ih =>
    obtain ⟨k, v⟩ := kv
    rw [headersLoop]
    split_ifs
    · rfl
    · exact ih _

theorem getAdditionalHeaders_finalizers
    (getSecret : ObjectKey → Except StoreError (List (String × String)))
    (probeObj : DNSHealthCheckProbe) :
    (getAdditionalHeaders getSecret probeObj).1.Finalizers = probeObj.Finalizers := by
  unfold getAdditionalHeaders
  cases probeObj.Spec.AdditionalHeadersRef with
  | none => rfl
  | some name =>
    simp only
    cases getSecret { Namespace := probeObj.Namespace, Name := name } with
    | error err =>
      simp only
      split_ifs <;> rfl
    | ok data => exact headersLoop_finalizers _ _ _

theorem registerProbe_probeObj (NewHealthProtocol : String → String) (c : ProbeClient)
    (monitor : Monitor) (previous probeObj : DNSHealthCheckProbe) (updates : List DNSHealthCheckProbe) :
    (registerProbe NewHealthProtocol c monitor previous probeObj updates).probeObj =
        some (getAdditionalHeaders c.getSecret probeObj).1 ∧
      (registerProbe NewHealthProtocol c monitor previous probeObj updates).updates = updates := by
  unfold registerProbe
  simp only
  rcases hres : getAdditionalHeaders c.getSecret probeObj with ⟨p, hs, e⟩
  cases e with
  | some err => exact ⟨rfl, rfl⟩
  | none =>
    simp only
    split_ifs <;> exact ⟨rfl, rfl⟩

theorem mem_AddFinalizer (o : DNSHealthCheckProbe) (finalizer : String) :
    finalizer ∈ (AddFinalizer o finalizer).Finalizers := by
  unfold AddFinalizer
  split_ifs with h
  · simpa using h
  · simp

/-- C28 (amended): for every probe object read from the store, when its deletion
timestamp is set `Reconcile` removes the registry entry of id
`namespace/name` and touches no other entry, hands to `Update` the object
without the finalizer, and returns the error of that write; when the object is
not being deleted, the object `Reconcile` holds at its return has the
finalizer, when the finalizer was missing the object with the finalizer was
handed to `Update`, and the object in the store afterwards has the finalizer
when it had it before or that write is accepted. -/
theorem C28_finalizer_and_removal (NewHealthProtocol : String → String) (c : ProbeClient)
    (monitor : Monitor) (probeObj : DNSHealthCheckProbe) (hget : c.get = .ok probeObj) :
    (beingDeleted probeObj = true →
      (Reconcile NewHealthProtocol c monitor).monitor =
        monitor.filter (fun p => !(p.ID == probeObj.Namespace ++ "/" ++ probeObj.Name)) ∧
      (∀ p ∈ (Reconcile NewHealthProtocol c monitor).monitor,
        p.ID ≠ probeObj.Namespace ++ "/" ++ probeObj.Name ∧ p ∈ monitor) ∧
      (∀ p ∈ monitor, p.ID ≠ probeObj.Namespace ++ "/" ++ probeObj.Name →
        p ∈ (Reconcile NewHealthProtocol c monitor).monitor) ∧
      (Reconcile NewHealthProtocol c monitor).updates =
        [RemoveFinalizer probeObj "kuadrant.io/dns-health-check-probe"] ∧
      "kuadrant.io/dns-health-check-probe" ∉
        (RemoveFinalizer probeObj "kuadrant.io/dns-health-check-probe").Finalizers ∧
      (Reconcile NewHealthProtocol c monitor).err =
        (c.update (RemoveFinalizer probeObj "kuadrant.io/dns-health-check-probe")).map .store) ∧
    (beingDeleted probeObj = false →
      (∃ p, (Reconcile NewHealthProtocol c monitor).probeObj = some p ∧
        "kuadrant.io/dns-health-check-probe" ∈ p.Finalizers) ∧
      ("kuadrant.io/dns-health-check-probe" ∉ probeObj.Finalizers →
        (Reconcile NewHealthProtocol c monitor).updates =
          [AddFinalizer probeObj "kuadrant.io/dns-health-check-probe"] ∧
        "kuadrant.io/dns-health-check-probe" ∈
          (AddFinalizer probeObj "kuadrant.io/dns-health-check-probe").Finalizers) ∧
      ("kuadrant.io/dns-health-check-probe" ∈ probeObj.Finalizers →
        (Reconcile NewHealthProtocol c monitor).updates = []) ∧
      (("kuadrant.io/dns-health-check-probe" ∈ probeObj.Finalizers ∨
          c.update (AddFinalizer probeObj "kuadrant.io/dns-health-check-probe") = none) →
        "kuadrant.io/dns-health-check-probe" ∈
          (storedAfter c probeObj (Reconcile NewHealthProtocol c monitor).updates).Finalizers)) := by
  constructor
  · intro hdel
    have hr : Reconcile NewHealthProtocol c monitor =
        { err := (c.update (RemoveFinalizer probeObj DNSHealthCheckProbeFinalizer)).map .store,
          monitor := RemoveProbe monitor (probeId probeObj),
          updates := [RemoveFinalizer probeObj DNSHealthCheckProbeFinalizer],
          statusUpdates := [],
          probeObj := some (RemoveFinalizer probeObj DNSHealthCheckProbeFinalizer) } := by
      unfold Reconcile
      simp only [hget, hdel, if_true]
    rw [hr]
    refine ⟨rfl, ?_, ?_, rfl, ?_, rfl⟩
    · intro p hp
      obtain ⟨h1, h2⟩ := List.mem_filter.mp hp
      exact ⟨by simpa [probeId] using h2, h1⟩
    · intro p hp hne
      exact List.mem_filter.mpr ⟨hp, by simpa [probeId] using hne⟩
    · simp [RemoveFinalizer]
  · intro hlive
    by_cases hfin : ContainsFinalizer probeObj DNSHealthCheckProbeFinalizer = true
    · have hmem : "kuadrant.io/dns-health-check-probe" ∈ probeObj.Finalizers := by
        simpa [ContainsFinalizer, DNSHealthCheckProbeFinalizer] using hfin
      have hr : Reconcile NewHealthProtocol c monitor =
          registerProbe NewHealthProtocol c monitor probeObj probeObj [] := by
        unfold Reconcile
        simp [hget, hlive, hfin]
      rw [hr]
      obtain ⟨h1, h2⟩ := registerProbe_probeObj NewHealthProtocol c monitor probeObj probeObj []
      refine ⟨⟨_, h1, ?_⟩, fun hn => absurd hmem hn, fun _ => h2, fun _ => ?_⟩
      · rw [getAdditionalHeaders_finalizers]
        exact hmem
      · rw [h2]
        exact hmem
    · have hnmem : "kuadrant.io/dns-health-check-probe" ∉ probeObj.Finalizers := by
        simpa [ContainsFinalizer, DNSHealthCheckProbeFinalizer] using hfin
      have hadd := mem_AddFinalizer probeObj "kuadrant.io/dns-health-check-probe"
      simp only [Bool.not_eq_true] at hfin
      cases hup : c.update (AddFinalizer probeObj DNSHealthCheckProbeFinalizer) with
      | some err =>
        have hr : Reconcile NewHealthProtocol c monitor =
            { err := some (.store err), monitor := monitor,
              updates := [AddFinalizer probeObj DNSHealthCheckProbeFinalizer], statusUpdates := [],
              probeObj := some (AddFinalizer probeObj DNSHealthCheckProbeFinalizer) } := by
          unfold Reconcile
          simp [hget, hlive, hfin, hup]
        rw [hr]
        refine ⟨⟨_, rfl, hadd⟩, fun _ => ⟨rfl, hadd⟩, fun hm => absurd hm hnmem, fun hor => ?_⟩
        rcases hor with hm | hw
        · exact absurd hm hnmem
        · have hw' : c.update (AddFinalizer probeObj DNSHealthCheckProbeFinalizer) = none := hw
          rw [hup] at hw'
          exact absurd hw' (by simp)
      | none =>
        have hr : Reconcile NewHealthProtocol c monitor =
            registerProbe NewHealthProtocol c monitor probeObj
              (AddFinalizer probeObj DNSHealthCheckProbeFinalizer)
              [AddFinalizer probeObj DNSHealthCheckProbeFinalizer] := by
          unfold Reconcile
          simp [hget, hlive, hfin, hup]
        rw [hr]
        obtain ⟨h1, h2⟩ := registerProbe_probeObj NewHealthProtocol c monitor probeObj
          (AddFinalizer probeObj DNSHealthCheckProbeFinalizer)
          [AddFinalizer probeObj DNSHealthCheckProbeFinalizer]
        refine ⟨⟨_, h1, ?_⟩, fun _ => ⟨h2, hadd⟩, fun hm => absurd hm hnmem, fun _ => ?_⟩
        · rw [getAdditionalHeaders_finalizers]
          exact hadd
        · rw [h2]
          have hs : storedAfter c probeObj [AddFinalizer probeObj DNSHealthCheckProbeFinalizer] =
              AddFinalizer probeObj DNSHealthCheckProbeFinalizer := by
            simp [storedAfter, hup]
          rw [hs]
          exact hadd

theorem C28_finalizer_and_removal_witness :
    (Reconcile id (healthyClient deletedProbe) [testEntry, otherEntry]).monitor =
        [testEntry, otherEntry].filter
          (fun p => !(p.ID == deletedProbe.Namespace ++ "/" ++ deletedProbe.Name)) ∧
      (Reconcile id (healthyClient deletedProbe) [testEntry, otherEntry]).updates =
        [RemoveFinalizer deletedProbe "kuadrant.io/dns-health-check-probe"] ∧
      ((Reconcile id (healthyClient testProbe) [testEntry, otherEntry]).updates =
          [AddFinalizer testProbe "kuadrant.io/dns-health-check-probe"] ∧
        "kuadrant.io/dns-health-check-probe" ∈
          (AddFinalizer testProbe "kuadrant.io/dns-health-check-probe").Finalizers) ∧
      "kuadrant.io/dns-health-check-probe" ∈
        (storedAfter (healthyClient testProbe) testProbe
          (Reconcile id (healthyClient testProbe) [testEntry, otherEntry]).updates).Finalizers :=
  have h1 := (C28_finalizer_and_removal id (healthyClient deletedProbe) [testEntry, otherEntry]
    deletedProbe rfl).1 (by decide)
  have h2 := (C28_finalizer_and_removal id (healthyClient testProbe) [testEntry, otherEntry]
    testProbe rfl).2 (by decide)
  ⟨h1.1, h1.2.2.2.1, h2.2.1 (by decide), h2.2.2.2 (Or.inr rfl)⟩

/-- C28 as stated fails: the probe object is not being deleted and has no
finalizer, and the write of the object with the finalizer fails with a
conflict; `Reconcile` returns that error and the object in the store has no
finalizer afterwards. -/
theorem C28_counterexample :
    beingDeleted testProbe = false ∧
    (Reconcile id (conflictClient testProbe) [testEntry, otherEntry]).err =
      some (.store (.other "the object has been modified")) ∧
    storedAfter (conflictClient testProbe) testProbe
      (Reconcile id (conflictClient testProbe) [testEntry, otherEntry]).updates = testProbe ∧
    "kuadrant.io/dns-health-check-probe" ∉
      (storedAfter (conflictClient testProbe) testProbe
        (Reconcile id (conflictClient testProbe) [testEntry, otherEntry]).updates).Finalizers := by
  decide

theorem headersLoop_snd (p q : DNSHealthCheckProbe) (data : List (String × String))
    (acc : List AdditionalHeader) : (headersLoop p acc data).2 = (headersLoop q acc data).2 := by
  induction data generalizing acc with
  | nil => rfl
  | cons kv data ih =>
    obtain ⟨k, v⟩ := kv
    rw [headersLoop, headersLoop]
    split_ifs
    · rfl
    · exact ih _

theorem getAdditionalHeaders_snd (getSecret : ObjectKey → Except StoreError (List (String × String)))
    (p q : DNSHealthCheckProbe) (hspec : p.Spec = q.Spec) (hns : p.Namespace = q.Namespace) :
    (getAdditionalHeaders getSecret p).2 = (getAdditionalHeaders getSecret q).2 := by
  unfold getAdditionalHeaders
  rw [hspec, hns]
  cases q.Spec.AdditionalHeadersRef with
  | none => rfl
  | some name =>
    simp only
    cases getSecret { Namespace := q.Namespace, Name := name } with
    | error err =>
      simp only
      split_ifs <;> rfl
    | ok data => exact headersLoop_snd _ _ _ _

/-- A run that ends before the registration: the probe object is not being
deleted, has no finalizer yet and refers to no secret, and the write of the
finalizer fails with a conflict; `Reconcile` returns that error and the
registry, empty before, holds no entry afterwards. -/
theorem Reconcile_returns_on_failed_finalizer_write :
    beingDeleted testProbe = false ∧
    (getAdditionalHeaders (conflictClient testProbe).getSecret testProbe).2 = ([], none) ∧
    (Reconcile id (conflictClient testProbe) []).monitor = [] ∧
    (Reconcile id (conflictClient testProbe) []).err =
      some (.store (.other "the object has been modified")) := by
  decide

theorem TrimSpace_data (s : String) :
    (TrimSpace s).data = (s.data.dropWhile isSpace).rdropWhile isSpace := rfl

theorem TrimSpace_head (s : String) (c : Char) (h : (TrimSpace s).toList.head? = some c) :
    isSpace c = false := by
  have hd : (TrimSpace s).toList = (s.data.dropWhile isSpace).rdropWhile isSpace := rfl
  rw [hd] at h
  obtain ⟨t, ht⟩ := List.rdropWhile_prefix isSpace (l := s.data.dropWhile isSpace)
  cases hr : (s.data.dropWhile isSpace).rdropWhile isSpace with
  | nil => rw [hr] at h; simp at h
  | cons x r =>
    rw [hr] at h ht
    simp only [List.head?_cons, Option.some.injEq] at h
    subst h
    have hne : s.data.dropWhile isSpace ≠ [] := by
      rw [← ht]
      simp
    have h1 := List.head_dropWhile_not isSpace s.data hne
    have h2 : (s.data.dropWhile isSpace).head hne = x := by
      simp only [← ht, List.cons_append, List.head_cons]
    rw [h2] at h1
    exact h1

theorem TrimSpace_last (s : String) (c : Char) (h : (TrimSpace s).toList.getLast? = some c) :
    isSpace c = false := by
  have hd : (TrimSpace s).toList = (s.data.dropWhile isSpace).rdropWhile isSpace := rfl
  rw [hd] at h
  have hne : (s.data.dropWhile isSpace).rdropWhile isSpace ≠ [] := by
    intro e
    rw [e] at h
    simp at h
  have h1 := List.rdropWhile_last_not isSpace (s.data.dropWhile isSpace) hne
  rw [List.getLast?_eq_getLast _ hne] at h
  simp only [Option.some.injEq] at h
  rw [h] at h1
  simpa using h1

/-- For every secret, if `getAdditionalHeaders` succeeds then no
header name of the returned list contains a space or a tab, and no header name
begins or ends with a white space character. -/
theorem getAdditionalHeaders_names_without_blanks
    (getSecret : ObjectKey → Except StoreError (List (String × String)))
    (probeObj probeObj' : DNSHealthCheckProbe) (headers : List AdditionalHeader)
    (h : getAdditionalHeaders getSecret probeObj = (probeObj', headers, none)) :
    ∀ header ∈ headers,
      (∀ c ∈ header.Name.toList, c ≠ ' ' ∧ c ≠ '\t') ∧
      (∀ c, header.Name.toList.head? = some c → isSpace c = false) ∧
      (∀ c, header.Name.toList.getLast? = some c → isSpace c = false) := by
  intro header hmem
  have h1 := getAdditionalHeaders_names getSecret probeObj probeObj' headers h header hmem
  refine ⟨?_, ?_, ?_⟩
  · intro c hc
    unfold ContainsAny at h1
    have h2 := List.any_eq_false.mp h1 c hc
    have h3 : (" \t" : String).data = [' ', '\t'] := rfl
    rw [h3] at h2
    constructor
    · intro e
      subst e
      simp at h2
    · intro e
      subst e
      simp at h2
  · unfold getAdditionalHeaders at h
    cases href : probeObj.Spec.AdditionalHeadersRef with
    | none =>
      simp only [href, Prod.mk.injEq] at h
      rw [← h.2.1] at hmem
      simp at hmem
    | some name =>
      simp only [href] at h
      cases hget : getSecret { Namespace := probeObj.Namespace, Name := name } with
      | error err =>
        simp only [hget] at h
        split_ifs at h <;> simp at h
      | ok data =>
        simp only [hget] at h
        have hclean := headersLoop_ok _ _ _ _ _ h
        rw [headersLoop_clean _ _ _ hclean] at h
        simp only [Prod.mk.injEq, List.nil_append] at h
        rw [← h.2.1] at hmem
        obtain ⟨kv, _, e⟩ := List.mem_map.mp hmem
        subst e
        exact fun c hc => TrimSpace_head kv.1 c hc
  · unfold getAdditionalHeaders at h
    cases href : probeObj.Spec.AdditionalHeadersRef with
    | none =>
      simp only [href, Prod.mk.injEq] at h
      rw [← h.2.1] at hmem
      simp at hmem
    | some name =>
      simp only [href] at h
      cases hget : getSecret { Namespace := probeObj.Namespace, Name := name } with
      | error err =>
        simp only [hget] at h
        split_ifs at h <;> simp at h
      | ok data =>
        simp only [hget] at h
        have hclean := headersLoop_ok _ _ _ _ _ h
        rw [headersLoop_clean _ _ _ hclean] at h
        simp only [Prod.mk.injEq, List.nil_append] at h
        rw [← h.2.1] at hmem
        obtain ⟨kv, _, e⟩ := List.mem_map.mp hmem
        subst e
        exact fun c hc => TrimSpace_last kv.1 c hc

theorem getAdditionalHeaders_names_without_blanks_example :
    (∀ c ∈ ("X-Probe" : String).toList, c ≠ ' ' ∧ c ≠ '\t') ∧
      (∀ c, ("X-Probe" : String).toList.head? = some c → isSpace c = false) ∧
      (∀ c, ("X-Probe" : String).toList.getLast? = some c → isSpace c = false) :=
  getAdditionalHeaders_names_without_blanks (fun _ => .ok [(" X-Probe\t", "1")]) testProbeWithHeaders
    testProbeWithHeaders [{ Name := "X-Probe", Value := "1" }] (by decide)
    { Name := "X-Probe", Value := "1" } (List.mem_singleton.mpr rfl)

theorem C26_headers_of_clean_secret_witness :
    getAdditionalHeaders (fun _ => .ok [("X-Probe", "1"), ("X-Token", "abc")]) testProbeWithHeaders =
      (testProbeWithHeaders,
        [("X-Probe", "1"), ("X-Token", "abc")].map (fun kv => { Name := TrimSpace kv.1, Value := kv.2 }),
        none) ∧
    getAdditionalHeaders (fun _ => .ok [("X-Probe", "1"), ("X-Token", "abc")]) testProbe =
      (testProbe, [], none) :=
  ⟨((C26_headers_of_clean_secret (fun _ => .ok [("X-Probe", "1"), ("X-Token", "abc")])
      testProbeWithHeaders).1 "probe-headers" [("X-Probe", "1"), ("X-Token", "abc")] rfl rfl
      (by decide)).1,
    (C26_headers_of_clean_secret (fun _ => .ok [("X-Probe", "1"), ("X-Token", "abc")]) testProbe).2 rfl⟩

/-! ## The update of the record (C32) -/

/-- C32: for every record, target and known strategy, `setEndpoints` returns no
error and calls `Update` exactly when the sorted list it stores differs from
the endpoints the record held before the call; when the two are equal, nothing
is written and the record is as before. -/
theorem C32_update_iff_record_differs (mcgTarget : MultiClusterGatewayTarget) (hostname : String)
    (strategy : RoutingStrategy) (recordEndpoints : List Endpoint)
    (hs : strategy = .simple ∨ strategy = .loadbalanced) :
    ∃ out r, synthesize mcgTarget hostname strategy recordEndpoints = .ok out ∧
      setEndpoints mcgTarget hostname strategy recordEndpoints = .ok r ∧
      r.endpoints = sortEndpoints out ∧
      (r.updated = true ↔ r.endpoints ≠ recordEndpoints) ∧
      (sortEndpoints out = recordEndpoints →
        r.updated = false ∧
        recordAfterSetEndpoints mcgTarget hostname strategy recordEndpoints = (recordEndpoints, false)) := by
  obtain ⟨out, hout⟩ := synthesize_known mcgTarget hostname strategy recordEndpoints hs
  refine ⟨out, { endpoints := sortEndpoints out, updated := decide (sortEndpoints out ≠ recordEndpoints) },
    hout, by simp only [setEndpoints, hout], rfl, by simp, ?_⟩
  intro heq
  refine ⟨by simp [heq], ?_⟩
  simp only [recordAfterSetEndpoints, setEndpoints, hout, heq]
  simp

theorem C32_update_iff_record_differs_witness :
    ∃ out r, synthesize weightedTarget "test.example.com" .loadbalanced simpleRecord = .ok out ∧
      setEndpoints weightedTarget "test.example.com" .loadbalanced simpleRecord = .ok r ∧
      r.endpoints = sortEndpoints out ∧
      (r.updated = true ↔ r.endpoints ≠ simpleRecord) ∧
      (sortEndpoints out = simpleRecord →
        r.updated = false ∧
        recordAfterSetEndpoints weightedTarget "test.example.com" .loadbalanced simpleRecord =
          (simpleRecord, false)) :=
  C32_update_iff_record_differs weightedTarget "test.example.com" .loadbalanced simpleRecord (Or.inr rfl)

/-! ## The loop over the geo groups (C33, C34) -/

theorem foldl_clusterStep_no_address (lbName geoLbName : String) (cur : EndpointMap)
    (cs : List ClusterGatewayTarget) (st : List Nat × Heap) (h : ∀ c ∈ cs, c.Addresses = []) :
    cs.foldl (clusterStep lbName geoLbName cur) st = st := by
  induction cs generalizing st with
  | nil => rfl
  | cons c cs ih =>
    rw [List.foldl_cons]
    have hc : c.Addresses = [] := h c (List.mem_cons_self _ _)
    have h1 : clusterStep lbName geoLbName cur st c = st := by
      unfold clusterStep
      simp [hc, ipValuesOf, hostValuesOf]
    rw [h1]
    exact ih st (fun c hm => h c (List.mem_cons_of_mem _ hm))

theorem geoStep_no_address (mcgTarget : MultiClusterGatewayTarget) (lbName : String) (cur : EndpointMap)
    (st : LoopState) (entry : String × List ClusterGatewayTarget)
    (h : ∀ c ∈ entry.2, c.Addresses = []) : geoStep mcgTarget lbName cur st entry = st := by
  unfold geoStep
  simp only [foldl_clusterStep_no_address lbName _ cur entry.2 ([], st.heap) h, List.length_nil, if_true]

/-- C34: for every target, hostname, current endpoints and heap, after the loop
over the geo groups of `getLoadBalancedEndpoints` a non-empty endpoint list comes
with an assigned `defaultEndpoint`, so the function returns a result and never
reads through a nil pointer; and a geo group none of whose clusters has an
address leaves the loop state as it was: it adds no endpoint. -/
theorem C34_default_endpoint_assigned (mcgTarget : MultiClusterGatewayTarget) (hostname : String)
    (currentEndpoints : EndpointMap) (h : Heap) :
    ((mcgTarget.GroupTargetsByGeo.foldl
        (geoStep mcgTarget (lbNameOf mcgTarget hostname) currentEndpoints)
        { endpoints := [], defaultEndpoint := none, heap := h }).endpoints.length > 0 →
      (mcgTarget.GroupTargetsByGeo.foldl
        (geoStep mcgTarget (lbNameOf mcgTarget hostname) currentEndpoints)
        { endpoints := [], defaultEndpoint := none, heap := h }).defaultEndpoint ≠ none) ∧
    (∃ endpoints h', getLoadBalancedEndpoints mcgTarget hostname currentEndpoints h =
      some (endpoints, h')) ∧
    (∀ (st : LoopState) (entry : String × List ClusterGatewayTarget),
      (∀ c ∈ entry.2, c.Addresses = []) →
        geoStep mcgTarget (lbNameOf mcgTarget hostname) currentEndpoints st entry = st) := by
  refine ⟨?_, ?_, fun st entry he => geoStep_no_address mcgTarget _ currentEndpoints st entry he⟩
  · obtain ⟨h1, h2⟩ := foldl_geoStep_shape mcgTarget (lbNameOf mcgTarget hostname) currentEndpoints
      mcgTarget.GroupTargetsByGeo { endpoints := [], defaultEndpoint := none, heap := h } none (by simp)
    intro hpos hnone
    simp only [List.length_nil, Nat.zero_add] at h1
    rw [h1] at hpos
    exact foldl_defaultGeoStep_ne_none mcgTarget.GetDefaultGeo (lbNameOf mcgTarget hostname)
      mcgTarget.GroupTargetsByGeo none (Or.inr (List.ne_nil_of_length_pos hpos)) (h2.mp hnone)
  · obtain ⟨ptrs, h', hres, _⟩ := getLoadBalancedEndpoints_length mcgTarget hostname currentEndpoints h
    exact ⟨ptrs, h', hres⟩

theorem foldl_defaultGeoStep_first (defaultGeo lbName : String)
    (pre post : List (String × List ClusterGatewayTarget)) (first : String × List ClusterGatewayTarget)
    (hpre : ∀ entry ∈ pre, (groupClusterOut lbName entry).length = 0)
    (hfirst : (groupClusterOut lbName first).length ≠ 0)
    (hno : ∀ entry ∈ pre ++ first :: post, (groupClusterOut lbName entry).length ≠ 0 →
      entry.1 ≠ defaultGeo ∧ entry.1 ≠ "default") :
    (pre ++ first :: post).foldl (defaultGeoStep defaultGeo lbName) none = some first.1 := by
  have hpre' : pre.foldl (defaultGeoStep defaultGeo lbName) none = none := by
    clear hno
    induction pre with
    | nil => rfl
    | cons e pre ih =>
      rw [List.foldl_cons]
      have : defaultGeoStep defaultGeo lbName none e = none := by
        simp [defaultGeoStep, hpre e (List.mem_cons_self _ _)]
      rw [this]
      exact ih (fun entry hm => hpre entry (List.mem_cons_of_mem _ hm))
  have hf : defaultGeoStep defaultGeo lbName none first = some first.1 := by
    unfold defaultGeoStep
    simp only [hfirst, if_false]
    split_ifs <;> simp_all
  have hpost : ∀ (l : List (String × List ClusterGatewayTarget)),
      (∀ entry ∈ l, (groupClusterOut lbName entry).length ≠ 0 →
        entry.1 ≠ defaultGeo ∧ entry.1 ≠ "default") →
      l.foldl (defaultGeoStep defaultGeo lbName) (some first.1) = some first.1 := by
    intro l
    induction l with
    | nil => intro _; rfl
    | cons e l ih =>
      intro hl
      rw [List.foldl_cons]
      have : defaultGeoStep defaultGeo lbName (some first.1) e = some first.1 := by
        unfold defaultGeoStep
        by_cases h0 : (groupClusterOut lbName e).length = 0
        · simp [h0]
        · obtain ⟨h1, h2⟩ := hl e (List.mem_cons_self _ _) h0
          have h3 : IsDefaultCode e.1 = false := by simpa [IsDefaultCode, DefaultGeo] using h2
          simp [h0, h1, h3]
      rw [this]
      exact ih (fun entry hm => hl entry (List.mem_cons_of_mem _ hm))
  rw [List.foldl_append, hpre', List.foldl_cons, hf]
  exact hpost post (fun entry hm => hno entry (by simp [hm]))

theorem loadBalancedOut_of_first (mcgTarget : MultiClusterGatewayTarget) (hostname : String)
    (pre post : List (String × List ClusterGatewayTarget)) (first : String × List ClusterGatewayTarget)
    (hgroups : mcgTarget.GroupTargetsByGeo = pre ++ first :: post)
    (hpre : ∀ entry ∈ pre, ∀ c ∈ entry.2, c.Addresses = [])
    (hfirst : ∃ c ∈ first.2, c.Addresses ≠ [])
    (hno : ∀ entry ∈ mcgTarget.GroupTargetsByGeo, (∃ c ∈ entry.2, c.Addresses ≠ []) →
      entry.1 ≠ mcgTarget.GetDefaultGeo)
    (hnd : ∀ entry ∈ mcgTarget.GroupTargetsByGeo, entry.1 ≠ "default") :
    loadBalancedOut mcgTarget hostname =
      mcgTarget.GroupTargetsByGeo.flatMap (groupOut (lbNameOf mcgTarget hostname)) ++
        [defaultEndpointOf (lbNameOf mcgTarget hostname) first.1,
          rootEndpointOf hostname (lbNameOf mcgTarget hostname)] := by
  have h1 := groupClusterOut_length_pos (lbNameOf mcgTarget hostname) first hfirst
  have hmem : first ∈ mcgTarget.GroupTargetsByGeo := by rw [hgroups]; simp
  have hd : defaultGeoOf mcgTarget (lbNameOf mcgTarget hostname) = some first.1 := by
    unfold defaultGeoOf
    rw [hgroups]
    apply foldl_defaultGeoStep_first
    · intro entry hm
      by_contra h0
      obtain ⟨c, hc, ha⟩ := exists_address_of_groupClusterOut _ entry h0
      exact ha (hpre entry hm c hc)
    · exact h1
    · intro entry hm h0
      rw [← hgroups] at hm
      exact ⟨hno entry hm (exists_address_of_groupClusterOut _ entry h0), hnd entry hm⟩
  have hne : (mcgTarget.GroupTargetsByGeo.flatMap (groupOut (lbNameOf mcgTarget hostname))).length > 0 := by
    obtain ⟨c, _, v, _, hw⟩ := exists_weighted_of_groupClusterOut _ _ h1
    exact List.length_pos_of_mem (List.mem_flatMap.mpr ⟨_, hmem, hw⟩)
  unfold loadBalancedOut
  simp only [hne, if_true, hd]

/-- On a record without prior endpoints, when the geo groups of the target
are `pre ++ first :: post`, no group of `pre` has a cluster address, `first` has
one, no geo group with an address carries the policy's default geo code and no
group carries the synthetic code `default`, then the output has an endpoint
with set-identifier `default` at the LB name, and every such endpoint has the
single target `lowercase(first).lbName`, whatever the groups of `post` are. -/
theorem default_of_first_group_of_first_synthesis (mcgTarget : MultiClusterGatewayTarget) (hostname : String)
    (pre post : List (String × List ClusterGatewayTarget)) (first : String × List ClusterGatewayTarget)
    (hgroups : mcgTarget.GroupTargetsByGeo = pre ++ first :: post)
    (hpre : ∀ entry ∈ pre, ∀ c ∈ entry.2, c.Addresses = [])
    (hfirst : ∃ c ∈ first.2, c.Addresses ≠ [])
    (hno : ∀ entry ∈ mcgTarget.GroupTargetsByGeo, (∃ c ∈ entry.2, c.Addresses ≠ []) →
      entry.1 ≠ mcgTarget.GetDefaultGeo)
    (hnd : ∀ entry ∈ mcgTarget.GroupTargetsByGeo, entry.1 ≠ "default") :
    ∃ out, synthesize mcgTarget hostname .loadbalanced [] = .ok out ∧
      (∃ e ∈ out, e.DNSName = lbNameOf mcgTarget hostname ∧ e.SetIdentifier = "default") ∧
      ∀ e ∈ out, e.DNSName = lbNameOf mcgTarget hostname → e.SetIdentifier = "default" →
        e.Targets = [toLower (first.1 ++ "." ++ lbNameOf mcgTarget hostname)] := by
  refine ⟨_, synthesize_loadbalanced_nil mcgTarget hostname, ?_, ?_⟩
  · rw [loadBalancedOut_of_first mcgTarget hostname pre post first hgroups hpre hfirst hno hnd]
    exact ⟨defaultEndpointOf (lbNameOf mcgTarget hostname) first.1, by simp, rfl, rfl⟩
  · rw [loadBalancedOut_of_first mcgTarget hostname pre post first hgroups hpre hfirst hno hnd]
    intro e he hname hset
    rcases List.mem_append.mp he with he | he
    · obtain ⟨entry, _, hee⟩ := List.mem_flatMap.mp he
      rcases mem_groupOut_cases _ entry e hee with ⟨c, _, hec⟩ | ⟨rfl, hnd'⟩
      · obtain ⟨y, hy⟩ := DNSName_clusterOut _ entry.1 c e hec
        rw [hy] at hname
        exact absurd hname (prefixed_ne_self _ _)
      · exact absurd hset hnd'
    · simp only [List.mem_cons, List.mem_singleton, List.not_mem_nil, or_false] at he
      rcases he with rfl | rfl
      · rfl
      · simp [rootEndpointOf, mkEndpoint] at hset

theorem default_of_first_group_of_first_synthesis_example :
    ((unmatchedDefaultTarget [("NA", [clusterPending]), ("IE", [clusterOne 120]),
        ("ES", [clusterTwo 120])]).GroupTargetsByGeo =
      [("NA", [clusterPending])] ++ ("IE", [clusterOne 120]) :: [("ES", [clusterTwo 120])]) ∧
    ∃ out, synthesize (unmatchedDefaultTarget [("NA", [clusterPending]), ("IE", [clusterOne 120]),
        ("ES", [clusterTwo 120])]) "test.example.com" .loadbalanced [] = .ok out ∧
      (∃ e ∈ out, e.DNSName = lbNameOf (unmatchedDefaultTarget [("NA", [clusterPending]),
          ("IE", [clusterOne 120]), ("ES", [clusterTwo 120])]) "test.example.com" ∧
        e.SetIdentifier = "default") ∧
      ∀ e ∈ out, e.DNSName = lbNameOf (unmatchedDefaultTarget [("NA", [clusterPending]),
          ("IE", [clusterOne 120]), ("ES", [clusterTwo 120])]) "test.example.com" →
        e.SetIdentifier = "default" →
        e.Targets = [toLower (("IE", [clusterOne 120]).1 ++ "." ++
          lbNameOf (unmatchedDefaultTarget [("NA", [clusterPending]), ("IE", [clusterOne 120]),
            ("ES", [clusterTwo 120])]) "test.example.com")] :=
  ⟨rfl, default_of_first_group_of_first_synthesis _ "test.example.com" [("NA", [clusterPending])]
    [("ES", [clusterTwo 120])] ("IE", [clusterOne 120]) rfl (by decide)
    ⟨clusterOne 120, by decide, by decide⟩ (by decide) (by decide)⟩

/-! ## Termination of the zone resolver (C35) -/

theorem Char_toLower_eq_dot (c : Char) : c.toLower = '.' ↔ c = '.' := by
  unfold Char.toLower
  simp only
  by_cases h : c.toNat ≥ 65 ∧ c.toNat ≤ 90
  · rw [if_pos h]
    constructor
    · intro hc
      exfalso
      obtain ⟨h1, h2⟩ := h
      generalize c.toNat = n at h1 h2 hc
      interval_cases n <;> revert hc <;> decide
    · intro hc
      subst hc
      exact absurd h (by decide)
  · rw [if_neg h]

theorem count_dot_map_toLower (l : List Char) : (l.map Char.toLower).count '.' = l.count '.' := by
  induction l with
  | nil => rfl
  | cons c l ih =>
    rw [List.map_cons, List.count_cons, List.count_cons, ih]
    by_cases hc : c = '.'
    · subst hc
      rfl
    · have h1 : ¬ c.toLower = '.' := fun h => hc ((Char_toLower_eq_dot c).mp h)
      simp [hc, h1]

theorem labelCount_toLower (host : String) : labelCount (toLower host) = labelCount host := by
  unfold labelCount
  show (host.data.map Char.toLower).count '.' + 1 = host.data.count '.' + 1
  rw [count_dot_map_toLower]

theorem labelCount_afterFirstDot (host : String) (p : List Char)
    (h : afterFirstDot (toLower host).data = some p) : labelCount ⟨p⟩ < labelCount host := by
  obtain ⟨x, hx, _⟩ := afterFirstDot_some _ p h
  rw [← labelCount_toLower host]
  unfold labelCount
  rw [hx]
  simp only [List.count_append, List.count_cons_self]
  omega

theorem mem_dot_toLower (host : String) : '.' ∈ (toLower host).data ↔ '.' ∈ host.data := by
  show '.' ∈ host.data.map Char.toLower ↔ '.' ∈ host.data
  rw [List.mem_map]
  constructor
  · rintro ⟨c, hc, hd⟩
    rwa [(Char_toLower_eq_dot c).mp hd] at hc
  · intro h
    exact ⟨'.', h, rfl⟩

theorem afterFirstDot_none (l : List Char) (h : '.' ∉ l) : afterFirstDot l = none := by
  induction l with
  | nil => rfl
  | cons c l ih =>
    simp only [List.mem_cons, not_or] at h
    have hc : ¬ c = '.' := fun e => h.1 e.symm
    simp only [afterFirstDot, hc, if_false]
    exact ih h.2

theorem findMatchingManagedZoneAux_step (publicSuffix : String → String) (originalHost : String)
    (zones : List ManagedZone) (host : String) :
    (∃ r, ∀ fuel, findMatchingManagedZoneAux publicSuffix originalHost zones (fuel + 1) host = some r) ∨
    (∃ p, afterFirstDot (toLower host).data = some p ∧ labelCount ⟨p⟩ < labelCount host ∧
      ∀ fuel, findMatchingManagedZoneAux publicSuffix originalHost zones (fuel + 1) host =
        findMatchingManagedZoneAux publicSuffix originalHost zones fuel ⟨p⟩) := by
  by_cases hz : zones.length = 0
  · exact Or.inl ⟨.error (.noManagedZoneForHost host),
      fun fuel => by rw [findMatchingManagedZoneAux]; simp only [hz, if_true]⟩
  by_cases ht : toLower host = publicSuffix (toLower host)
  · exact Or.inl ⟨.error (.noValidZone originalHost),
      fun fuel => by rw [findMatchingManagedZoneAux]; simp [hz, ← ht]⟩
  cases hp : afterFirstDot (toLower host).data with
  | none =>
    exact Or.inl ⟨.error (.noValidZone originalHost),
      fun fuel => by rw [findMatchingManagedZoneAux]; simp [hz, ht, hp]⟩
  | some p =>
    by_cases ho : toLower host = originalHost
    · refine Or.inr ⟨p, rfl, labelCount_afterFirstDot host p hp, fun fuel => ?_⟩
      rw [findMatchingManagedZoneAux]
      simp only [hz, ht, hp, if_false]
      rw [if_pos ho]
    · cases hf : zones.find? (fun zone => toLower zone.DomainName == toLower host) with
      | some zone =>
        refine Or.inl ⟨.ok (zone, replaceFirst (toLower originalHost) ("." ++ toLower zone.DomainName)),
          fun fuel => ?_⟩
        rw [findMatchingManagedZoneAux]
        simp only [hz, ht, hp, if_false]
        rw [if_neg ho]
        simp only [hf]
      | none =>
        refine Or.inr ⟨p, rfl, labelCount_afterFirstDot host p hp, fun fuel => ?_⟩
        rw [findMatchingManagedZoneAux]
        simp only [hz, ht, hp, if_false]
        rw [if_neg ho]
        simp only [hf]

theorem findMatchingManagedZoneAux_no_dot (publicSuffix : String → String) (originalHost : String)
    (zones : List ManagedZone) (host : String) (hdot : '.' ∉ host.data) (fuel : Nat) :
    ∃ e, findMatchingManagedZoneAux publicSuffix originalHost zones (fuel + 1) host = some (.error e) := by
  have hp : afterFirstDot (toLower host).data = none :=
    afterFirstDot_none _ (fun h => hdot ((mem_dot_toLower host).mp h))
  rw [findMatchingManagedZoneAux]
  by_cases hz : zones.length = 0
  · exact ⟨.noManagedZoneForHost host, by simp only [hz, if_true]⟩
  by_cases ht : toLower host = publicSuffix (toLower host)
  · exact ⟨.noValidZone originalHost, by simp [hz, ← ht]⟩
  · exact ⟨.noValidZone originalHost, by simp [hz, ht, hp]⟩

/-- C35: `findMatchingManagedZone` terminates for every public suffix function,
original host, host and catalog: it returns a result, the same at every depth
bound above the length of the host; each call either returns without a
recursive call, or makes its one recursive call on the part of the lower-cased
host after its first dot, which has strictly fewer labels than the host; and a
host without a dot returns an error without any recursive call. -/
theorem C35_resolver_terminates (publicSuffix : String → String) (originalHost host : String)
    (zones : List ManagedZone) :
    (∃ r, findMatchingManagedZone publicSuffix originalHost host zones = some r ∧
      ∀ fuel, host.length < fuel →
        findMatchingManagedZoneAux publicSuffix originalHost zones fuel host = some r) ∧
    ((∃ r, ∀ fuel, findMatchingManagedZoneAux publicSuffix originalHost zones (fuel + 1) host = some r) ∨
      (∃ p, afterFirstDot (toLower host).data = some p ∧ labelCount ⟨p⟩ < labelCount host ∧
        ∀ fuel, findMatchingManagedZoneAux publicSuffix originalHost zones (fuel + 1) host =
          findMatchingManagedZoneAux publicSuffix originalHost zones fuel ⟨p⟩)) ∧
    ('.' ∉ host.data →
      ∃ e, findMatchingManagedZoneAux publicSuffix originalHost zones 1 host = some (.error e) ∧
        findMatchingManagedZone publicSuffix originalHost host zones = some (.error e)) := by
  refine ⟨?_, findMatchingManagedZoneAux_step publicSuffix originalHost zones host, ?_⟩
  · obtain ⟨r, hr⟩ := findMatchingManagedZoneAux_isSome publicSuffix originalHost zones
      (host.length + 1) host (Nat.lt_succ_self _)
    refine ⟨r, hr, fun fuel hlt => ?_⟩
    rw [findMatchingManagedZoneAux_of_lt publicSuffix originalHost zones host fuel hlt]
    exact hr
  · intro hdot
    obtain ⟨e, he⟩ := findMatchingManagedZoneAux_no_dot publicSuffix originalHost zones host hdot 0
    refine ⟨e, he, ?_⟩
    rcases findMatchingManagedZoneAux_step publicSuffix originalHost zones host with ⟨r, hr⟩ | ⟨p, hp, _, _⟩
    · have h0 := hr 0
      rw [he] at h0
      unfold findMatchingManagedZone
      rw [hr host.length, ← h0]
    · rw [afterFirstDot_none _ (fun h => hdot ((mem_dot_toLower host).mp h))] at hp
      exact absurd hp (by simp)

/-! ## The endpoint returned by `createOrUpdateEndpoint` (C37) -/

theorem String_append_left_cancel (a b c : String) (h : a ++ b = a ++ c) : b = c := by
  have h1 := congrArg String.data h
  simp only [String.data_append] at h1
  have h2 := List.append_cancel_left h1
  cases b
  cases c
  simp only at h2
  rw [h2]

theorem lookup_singleton (key k : String) (p q : Nat) (h : List.lookup k [(key, q)] = some p) :
    k = key ∧ p = q := by
  simp only [List.lookup] at h
  by_cases hk : k = key
  · subst hk
    simp at h
    exact ⟨rfl, h.symm⟩
  · have : (k == key) = false := by simpa using hk
    simp [this] at h

/-- C37 (amended): for every DNS name, targets, record type, set-identifier,
TTL and every map of current endpoints in which each value is stored under the
key DNSName+SetIdentifier of that value, `createOrUpdateEndpoint` returns an
endpoint whose DNSName, RecordType, Targets and RecordTTL equal the arguments.
When the key is absent the returned endpoint is fresh: a new object with the
set-identifier of the argument, no provider-specific attributes and no labels,
and the stored objects are as before.  When the key is present the returned
endpoint is the stored object with its stored set-identifier, which is the
argument when the stored DNS name is the argument `dnsName`. -/
theorem C37_returned_endpoint_fields (dnsName : String) (targets : List String) (recordType : String)
    (setIdentifier : String) (recordTTL : Int) (currentEndpoints : EndpointMap) (h : Heap)
    (hinv : ∀ k p, currentEndpoints.lookup k = some p → p < h.length ∧ (deref h p).SetID = k) :
    ∃ p h', createOrUpdateEndpoint dnsName targets recordType setIdentifier recordTTL
        currentEndpoints h = (p, h') ∧
      (deref h' p).DNSName = dnsName ∧ (deref h' p).RecordType = recordType ∧
      (deref h' p).Targets = targets ∧ (deref h' p).RecordTTL = recordTTL ∧
      (currentEndpoints.lookup (dnsName ++ setIdentifier) = none →
        p = h.length ∧ (deref h' p).SetIdentifier = setIdentifier ∧
        (deref h' p).ProviderSpecific = [] ∧ (deref h' p).Labels = [] ∧
        ∀ q, q < h.length → deref h' q = deref h q) ∧
      (∀ q, currentEndpoints.lookup (dnsName ++ setIdentifier) = some q →
        p = q ∧ (deref h' p).SetIdentifier = (deref h q).SetIdentifier ∧
        (deref h' p).ProviderSpecific = (deref h q).ProviderSpecific ∧
        (deref h' p).Labels = (deref h q).Labels ∧
        ((deref h q).DNSName = dnsName → (deref h' p).SetIdentifier = setIdentifier)) := by
  cases hl : currentEndpoints.lookup (dnsName ++ setIdentifier) with
  | none =>
    have hres : createOrUpdateEndpoint dnsName targets recordType setIdentifier recordTTL
        currentEndpoints h = (h.length, h ++ [mkEndpoint dnsName targets recordType setIdentifier recordTTL]) := by
      unfold createOrUpdateEndpoint mkEndpoint
      simp only [hl]
      by_cases hs : setIdentifier = ""
      · simp [hs]
      · simp [hs]
    refine ⟨_, _, hres, ?_⟩
    rw [deref_append_length]
    refine ⟨rfl, rfl, rfl, rfl, fun _ => ⟨rfl, rfl, rfl, rfl, fun q hq => deref_append_left h _ q hq⟩, ?_⟩
    intro q hq
    simp at hq
  | some q =>
    obtain ⟨hq, hid⟩ := hinv _ q hl
    refine ⟨q, _, by unfold createOrUpdateEndpoint; simp only [hl]; rfl, ?_⟩
    rw [deref_mutate_eq _ h q hq]
    refine ⟨rfl, rfl, rfl, rfl, fun hn => by simp at hn, ?_⟩
    intro q' hq'
    have hqq : q = q' := by simpa using hq'
    subst hqq
    refine ⟨rfl, rfl, rfl, rfl, fun hd => ?_⟩
    show (deref h q).SetIdentifier = setIdentifier
    unfold Endpoint.SetID at hid
    rw [hd] at hid
    exact String_append_left_cancel _ _ _ hid

theorem C37_returned_endpoint_fields_witness :
    (∀ k p, (currentEndpointsOf simpleRecord).lookup k = some p →
      p < simpleRecord.length ∧ (deref simpleRecord p).SetID = k) ∧
    ∃ p h', createOrUpdateEndpoint "test.example.com" ["172.0.0.3"] "A" "" 60
        (currentEndpointsOf simpleRecord) simpleRecord = (p, h') ∧
      (deref h' p).DNSName = "test.example.com" ∧ (deref h' p).RecordType = "A" ∧
      (deref h' p).Targets = ["172.0.0.3"] ∧ (deref h' p).RecordTTL = 60 ∧
      ((currentEndpointsOf simpleRecord).lookup ("test.example.com" ++ "") = none →
        p = simpleRecord.length ∧ (deref h' p).SetIdentifier = "" ∧
        (deref h' p).ProviderSpecific = [] ∧ (deref h' p).Labels = [] ∧
        ∀ q, q < simpleRecord.length → deref h' q = deref simpleRecord q) ∧
      (∀ q, (currentEndpointsOf simpleRecord).lookup ("test.example.com" ++ "") = some q →
        p = q ∧ (deref h' p).SetIdentifier = (deref simpleRecord q).SetIdentifier ∧
        (deref h' p).ProviderSpecific = (deref simpleRecord q).ProviderSpecific ∧
        (deref h' p).Labels = (deref simpleRecord q).Labels ∧
        ((deref simpleRecord q).DNSName = "test.example.com" → (deref h' p).SetIdentifier = "")) :=
  ⟨fun k p hk => by
      obtain ⟨rfl, rfl⟩ := lookup_singleton "test.example.com" k p 0 hk
      exact ⟨by decide, by decide⟩,
    C37_returned_endpoint_fields "test.example.com" ["172.0.0.3"] "A" "" 60
      (currentEndpointsOf simpleRecord) simpleRecord (fun k p hk => by
        obtain ⟨rfl, rfl⟩ := lookup_singleton "test.example.com" k p 0 hk
        exact ⟨by decide, by decide⟩)⟩

/-- C37 as stated fails: the record holds one endpoint with the DNS name `a`
and the set-identifier `bc`, stored under its key `abc`; the call with the DNS
name `ab` and the set-identifier `c` finds it under the same key and returns it
with the set-identifier `bc`, not `c`. -/
theorem C37_counterexample :
    (∀ k p, (currentEndpointsOf splitRecord).lookup k = some p →
      p < splitRecord.length ∧ (deref splitRecord p).SetID = k) ∧
    (deref (createOrUpdateEndpoint "ab" ["172.0.0.1"] "A" "c" 60
        (currentEndpointsOf splitRecord) splitRecord).2
      (createOrUpdateEndpoint "ab" ["172.0.0.1"] "A" "c" 60
        (currentEndpointsOf splitRecord) splitRecord).1).SetIdentifier = "bc" ∧
    (deref (createOrUpdateEndpoint "ab" ["172.0.0.1"] "A" "c" 60
        (currentEndpointsOf splitRecord) splitRecord).2
      (createOrUpdateEndpoint "ab" ["172.0.0.1"] "A" "c" 60
        (currentEndpointsOf splitRecord) splitRecord).1).SetIdentifier ≠ "c" := by
  refine ⟨fun k p hk => ?_, by decide, by decide⟩
  obtain ⟨rfl, rfl⟩ := lookup_singleton "abc" k p 0 hk
  exact ⟨by decide, by decide⟩

/-! ## A failure to resolve the headers (C36) -/

theorem registerProbe_headers_error (NewHealthProtocol : String → String) (c : ProbeClient)
    (monitor : Monitor) (previous probeObj : DNSHealthCheckProbe) (updates : List DNSHealthCheckProbe)
    (err : HeadersError) (h : (getAdditionalHeaders c.getSecret probeObj).2.2 = some err) :
    (registerProbe NewHealthProtocol c monitor previous probeObj updates).err = some (.headers err) ∧
      (registerProbe NewHealthProtocol c monitor previous probeObj updates).monitor = monitor := by
  unfold registerProbe
  simp only
  rcases hres : getAdditionalHeaders c.getSecret probeObj with ⟨p, hs, e⟩
  rw [hres] at h
  simp only at h
  subst h
  exact ⟨rfl, rfl⟩

/-- For every probe object read from the store that is not being deleted and
whose additional headers fail to resolve with the error `err`, `Reconcile`
leaves the probe registry exactly as it was and returns an error; that error
is `err` when the finalizer is on the object or is written to the store
without an error. -/
theorem Reconcile_headers_failure (NewHealthProtocol : String → String) (c : ProbeClient)
    (monitor : Monitor) (probeObj : DNSHealthCheckProbe) (err : HeadersError)
    (hget : c.get = .ok probeObj) (hlive : beingDeleted probeObj = false)
    (hheaders : (getAdditionalHeaders c.getSecret probeObj).2.2 = some err) :
    (Reconcile NewHealthProtocol c monitor).monitor = monitor ∧
    (Reconcile NewHealthProtocol c monitor).err ≠ none ∧
    (("kuadrant.io/dns-health-check-probe" ∈ probeObj.Finalizers ∨
        c.update (AddFinalizer probeObj "kuadrant.io/dns-health-check-probe") = none) →
      (Reconcile NewHealthProtocol c monitor).err = some (.headers err)) := by
  by_cases hcf : ContainsFinalizer probeObj DNSHealthCheckProbeFinalizer = true
  · have hr : Reconcile NewHealthProtocol c monitor =
        registerProbe NewHealthProtocol c monitor probeObj probeObj [] := by
      unfold Reconcile
      simp [hget, hlive, hcf]
    rw [hr]
    obtain ⟨h1, h2⟩ := registerProbe_headers_error NewHealthProtocol c monitor probeObj probeObj [] err hheaders
    exact ⟨h2, by rw [h1]; simp, fun _ => h1⟩
  · have hnmem : "kuadrant.io/dns-health-check-probe" ∉ probeObj.Finalizers := by
      simpa [ContainsFinalizer, DNSHealthCheckProbeFinalizer] using hcf
    have hadd : AddFinalizer probeObj DNSHealthCheckProbeFinalizer =
        { probeObj with Finalizers := probeObj.Finalizers ++ [DNSHealthCheckProbeFinalizer] } := by
      unfold AddFinalizer
      have : ContainsFinalizer probeObj DNSHealthCheckProbeFinalizer = false := by simpa using hcf
      unfold ContainsFinalizer at this
      simp only [this, Bool.false_eq_true, if_false]
    have hh : (getAdditionalHeaders c.getSecret (AddFinalizer probeObj DNSHealthCheckProbeFinalizer)).2.2 =
        some err := by
      rw [getAdditionalHeaders_snd c.getSecret _ probeObj (by rw [hadd]) (by rw [hadd])]
      exact hheaders
    cases hup : c.update (AddFinalizer probeObj DNSHealthCheckProbeFinalizer) with
    | some e =>
      have hr : Reconcile NewHealthProtocol c monitor =
          { err := some (.store e), monitor := monitor,
            updates := [AddFinalizer probeObj DNSHealthCheckProbeFinalizer], statusUpdates := [],
            probeObj := some (AddFinalizer probeObj DNSHealthCheckProbeFinalizer) } := by
        unfold Reconcile
        simp [hget, hlive, hcf, hup]
      rw [hr]
      refine ⟨rfl, by simp, fun hfin => ?_⟩
      rcases hfin with h | h
      · exact absurd h hnmem
      · have h' : c.update (AddFinalizer probeObj DNSHealthCheckProbeFinalizer) = none := h
        rw [hup] at h'
        exact absurd h' (by simp)
    | none =>
      have hr : Reconcile NewHealthProtocol c monitor =
          registerProbe NewHealthProtocol c monitor probeObj
            (AddFinalizer probeObj DNSHealthCheckProbeFinalizer)
            [AddFinalizer probeObj DNSHealthCheckProbeFinalizer] := by
        unfold Reconcile
        simp [hget, hlive, hcf, hup]
      rw [hr]
      obtain ⟨h1, h2⟩ := registerProbe_headers_error NewHealthProtocol c monitor probeObj
        (AddFinalizer probeObj DNSHealthCheckProbeFinalizer)
        [AddFinalizer probeObj DNSHealthCheckProbeFinalizer] err hh
      exact ⟨h2, by rw [h1]; simp, fun _ => h1⟩

/-- C36: for every probe object read from the store that is not being deleted,
if the resolution of its additional headers in `Reconcile` fails with the error
`err` (the secret is missing, the secret cannot be read, or a key is rejected;
the resolution is reached when the finalizer is on the object or is written
without an error), `Reconcile` returns that error and leaves the probe registry
exactly as it was: no entry is added, updated or removed. -/
theorem C36_headers_failure_keeps_registry (NewHealthProtocol : String → String) (c : ProbeClient)
    (monitor : Monitor) (probeObj : DNSHealthCheckProbe) (err : HeadersError)
    (hget : c.get = .ok probeObj) (hlive : beingDeleted probeObj = false)
    (hfin : "kuadrant.io/dns-health-check-probe" ∈ probeObj.Finalizers ∨
      c.update (AddFinalizer probeObj "kuadrant.io/dns-health-check-probe") = none)
    (hheaders : (getAdditionalHeaders c.getSecret probeObj).2.2 = some err) :
    (Reconcile NewHealthProtocol c monitor).err = some (.headers err) ∧
    (Reconcile NewHealthProtocol c monitor).monitor = monitor := by
  have h := Reconcile_headers_failure NewHealthProtocol c monitor probeObj err hget hlive hheaders
  exact ⟨h.2.2 hfin, h.1⟩

theorem C36_headers_failure_keeps_registry_witness :
    (Reconcile id (healthyClient testProbeWithHeaders) [testEntry, otherEntry]).err =
      some (.headers (.retrieving { Name := "probe-headers", Namespace := "test-namespace" } .notFound)) ∧
    (Reconcile id (healthyClient testProbeWithHeaders) [testEntry, otherEntry]).monitor =
      [testEntry, otherEntry] :=
  C36_headers_failure_keeps_registry id (healthyClient testProbeWithHeaders) [testEntry, otherEntry]
    testProbeWithHeaders (.retrieving { Name := "probe-headers", Namespace := "test-namespace" } .notFound)
    rfl (by decide) (Or.inr rfl) (by decide)

/-- A run that ends before the resolution of the headers: the probe object is
not being deleted, has no finalizer yet and refers to a secret that does not
exist; the write of the finalizer fails with a conflict, and `Reconcile`
returns that conflict without a call of `getAdditionalHeaders`. -/
theorem Reconcile_returns_before_headers :
    beingDeleted testProbeWithHeaders = false ∧
    (Reconcile id (conflictClient testProbeWithHeaders) [testEntry, otherEntry]).err =
      some (.store (.other "the object has been modified")) ∧
    (Reconcile id (conflictClient testProbeWithHeaders) [testEntry, otherEntry]).monitor =
      [testEntry, otherEntry] := by
  decide

/-! ## The safety floor of the health feedback (C31) -/

theorem mem_zip_map_self {α β : Type} (f : α → β) (l : List α) (p : α × β)
    (h : p ∈ l.zip (l.map f)) : p.1 ∈ l ∧ p.2 = f p.1 := by
  induction l with
  | nil => simp at h
  | cons a l ih =>
    simp only [List.map_cons, List.zip_cons_cons, List.mem_cons] at h
    rcases h with h | h
    · subst h
      exact ⟨List.mem_cons_self _ _, rfl⟩
    · exact ⟨List.mem_cons_of_mem _ (ih h).1, (ih h).2⟩

theorem mem_zip_map_of_mem {α β : Type} (f : α → β) (l : List α) (a : α) (h : a ∈ l) :
    (a, f a) ∈ l.zip (l.map f) := by
  induction l with
  | nil => simp at h
  | cons b l ih =>
    simp only [List.map_cons, List.zip_cons_cons, List.mem_cons]
    rcases List.mem_cons.mp h with h | h
    · subst h
      exact Or.inl rfl
    · exact Or.inr (ih h)

theorem retainHealthy_floor (unhealthy : ClusterGatewayTarget → GatewayAddress → Bool)
    (cgwTargets : List ClusterGatewayTarget)
    (h : ∀ c ∈ cgwTargets, (omitUnhealthy unhealthy c).Addresses = []) :
    retainHealthy unhealthy cgwTargets = cgwTargets := by
  unfold retainHealthy
  have : (cgwTargets.map (omitUnhealthy unhealthy)).all (fun c => c.Addresses.isEmpty) = true := by
    rw [List.all_eq_true]
    intro c hc
    obtain ⟨c0, hc0, rfl⟩ := List.mem_map.mp hc
    rw [h c0 hc0]
    rfl
  simp only [this, if_true]

theorem retainHealthy_omits (unhealthy : ClusterGatewayTarget → GatewayAddress → Bool)
    (cgwTargets : List ClusterGatewayTarget)
    (h : ¬ ∀ c ∈ cgwTargets, (omitUnhealthy unhealthy c).Addresses = []) :
    retainHealthy unhealthy cgwTargets = cgwTargets.map (omitUnhealthy unhealthy) := by
  unfold retainHealthy
  have : (cgwTargets.map (omitUnhealthy unhealthy)).all (fun c => c.Addresses.isEmpty) = false := by
    rw [Bool.eq_false_iff]
    intro hall
    rw [List.all_eq_true] at hall
    apply h
    intro c hc
    have := hall _ (List.mem_map_of_mem _ hc)
    simpa using this
  simp only [this, Bool.false_eq_true, if_false]

/-- C31: with the health feedback of 4.G, for every geo group and every answer
of the probe registry: when omitting the unhealthy addresses would leave every
cluster of the group without address, the group is retained as it is, with all
its addresses; the group keeps its clusters in every case, and an address of a
cluster that is missing afterwards is unhealthy and some healthy address of the
group remains; with every probe of the two clusters of the scenario `weighted`
unhealthy, the geo groups are unchanged and the record carries 6 endpoints. -/
theorem C31_safety_floor (unhealthy : ClusterGatewayTarget → GatewayAddress → Bool)
    (cgwTargets : List ClusterGatewayTarget) :
    ((∀ c ∈ cgwTargets, (omitUnhealthy unhealthy c).Addresses = []) →
      retainHealthy unhealthy cgwTargets = cgwTargets) ∧
    (retainHealthy unhealthy cgwTargets).length = cgwTargets.length ∧
    (∀ p ∈ cgwTargets.zip (retainHealthy unhealthy cgwTargets),
      p.2.GetShortCode = p.1.GetShortCode ∧ p.2.GetWeight = p.1.GetWeight ∧
      (∀ a ∈ p.2.Addresses, a ∈ p.1.Addresses) ∧
      ∀ a ∈ p.1.Addresses, a ∉ p.2.Addresses →
        unhealthy p.1 a = true ∧
        ∃ q ∈ cgwTargets.zip (retainHealthy unhealthy cgwTargets),
          ∃ b ∈ q.2.Addresses, unhealthy q.1 b = false) ∧
    (∀ mcgTarget : MultiClusterGatewayTarget,
      (withHealthFeedback (fun _ _ => true) mcgTarget).GroupTargetsByGeo =
        mcgTarget.GroupTargetsByGeo) ∧
    (∃ out, synthesize (withHealthFeedback (fun _ _ => true) weightedTarget) "test.example.com"
        .loadbalanced [] = .ok out ∧ out.length = 6) := by
  refine ⟨retainHealthy_floor unhealthy cgwTargets, ?_, ?_, ?_, ?_⟩
  · by_cases h : ∀ c ∈ cgwTargets, (omitUnhealthy unhealthy c).Addresses = []
    · rw [retainHealthy_floor unhealthy cgwTargets h]
    · rw [retainHealthy_omits unhealthy cgwTargets h, List.length_map]
  · by_cases h : ∀ c ∈ cgwTargets, (omitUnhealthy unhealthy c).Addresses = []
    · rw [retainHealthy_floor unhealthy cgwTargets h]
      intro p hp
      have hid : cgwTargets.zip cgwTargets = cgwTargets.zip (cgwTargets.map id) := by rw [List.map_id]
      rw [hid] at hp
      obtain ⟨_, h2⟩ := mem_zip_map_self id cgwTargets p hp
      simp only [id] at h2
      rw [h2]
      exact ⟨rfl, rfl, fun a ha => ha, fun a ha hna => absurd ha hna⟩
    · rw [retainHealthy_omits unhealthy cgwTargets h]
      intro p hp
      obtain ⟨h1, h2⟩ := mem_zip_map_self (omitUnhealthy unhealthy) cgwTargets p hp
      rw [h2]
      refine ⟨rfl, rfl, fun a ha => (List.mem_filter.mp ha).1, fun a ha hna => ?_⟩
      constructor
      · by_contra hu
        apply hna
        exact List.mem_filter.mpr ⟨ha, by simpa using hu⟩
      · push_neg at h
        obtain ⟨c, hc, hne⟩ := h
        obtain ⟨b, l, hb⟩ := List.exists_cons_of_ne_nil hne
        have hbm : b ∈ (omitUnhealthy unhealthy c).Addresses := by rw [hb]; exact List.mem_cons_self _ _
        refine ⟨(c, omitUnhealthy unhealthy c), mem_zip_map_of_mem _ cgwTargets c hc, b, hbm, ?_⟩
        have := (List.mem_filter.mp hbm).2
        simpa using this
  · intro mcgTarget
    show mcgTarget.GroupTargetsByGeo.map
        (fun entry => (entry.1, retainHealthy (fun _ _ => true) entry.2)) = mcgTarget.GroupTargetsByGeo
    have : ∀ entry : String × List ClusterGatewayTarget,
        (entry.1, retainHealthy (fun _ _ => true) entry.2) = entry := by
      intro entry
      rw [retainHealthy_floor (fun _ _ => true) entry.2 (fun c _ => by simp [omitUnhealthy])]
    simp only [this, List.map_id_fun', id_eq]
  · exact ⟨_, synthesize_loadbalanced_nil _ _, by decide⟩

/-- Spec 8.6, first half: with the probe of the first cluster of the scenario
`weighted` unhealthy and the other healthy, the address of the first cluster is
omitted and the record carries the 4 endpoints of the second cluster. -/
theorem withHealthFeedback_one_unhealthy :
    (withHealthFeedback (fun c _ => c.GetShortCode == "s07c46") weightedTarget).GroupTargetsByGeo =
      [("default", [{ clusterOne 120 with Addresses := [] }, clusterTwo 120])] ∧
    (synthesize (withHealthFeedback (fun c _ => c.GetShortCode == "s07c46") weightedTarget)
      "test.example.com" .loadbalanced []).toOption.map List.length = some 4 := by
  decide

/-! ## Synthesis on a record with prior endpoints -/

theorem SetID_SetProviderSpecific (o : Endpoint) (n v : String) :
    (o.SetProviderSpecific n v).SetID = o.SetID := rfl

theorem reuseEndpoint_SetProviderSpecific (s o : Endpoint) (n v : String)
    (hps : o.ProviderSpecific = []) :
    reuseEndpoint s (o.SetProviderSpecific n v) = (reuseEndpoint s o).SetProviderSpecific n v := by
  simp [reuseEndpoint, Endpoint.SetProviderSpecific, hps, setProperty]

theorem holds_setProperty (cur : EndpointMap) (a c : Heap) (p : Nat) (o : Endpoint) (n v : String)
    (hh : Holds cur a c p o) (hps : o.ProviderSpecific = []) :
    Holds cur a (mutate (fun e => e.SetProviderSpecific n v) c p) p (o.SetProviderSpecific n v) := by
  obtain ⟨hp, hs, hnone⟩ := hh
  have heq := deref_mutate_eq (fun e => e.SetProviderSpecific n v) c p hp
  refine ⟨by rw [length_mutate]; exact hp, fun q hq => ?_, fun hq => ?_⟩
  · rw [SetID_SetProviderSpecific] at hq
    refine ⟨(hs q hq).1, ?_⟩
    rw [heq, (hs q hq).2, reuseEndpoint_SetProviderSpecific _ _ _ _ hps]
  · rw [SetID_SetProviderSpecific] at hq
    refine ⟨(hnone hq).1, ?_⟩
    rw [heq, (hnone hq).2]

theorem frame_mutate (cur : EndpointMap) (ks : List String) (a c : Heap) (p : Nat)
    (f : Endpoint → Endpoint) (hf : Frame cur ks a c)
    (hp : p < a.length → ∃ k ∈ ks, cur.lookup k = some p) : Frame cur ks a (mutate f c p) := by
  refine ⟨by rw [length_mutate]; exact hf.1, fun p' hp' hk => ?_⟩
  have hne : p' ≠ p := by
    intro e
    subst e
    obtain ⟨k, hkm, hl⟩ := hp hp'
    exact hk k hkm hl
  rw [deref_mutate_ne f c p' p hne]
  exact hf.2 p' hp' hk

theorem create_emits (cur : EndpointMap) (n0 : Nat) (hok : MapOK cur n0) (dnsName : String)
    (targets : List String) (recordType setIdentifier : String) (recordTTL : Int) (heap : Heap)
    (hn : n0 ≤ heap.length) :
    Frame cur [dnsName ++ setIdentifier] heap
        (createOrUpdateEndpoint dnsName targets recordType setIdentifier recordTTL cur heap).2 ∧
      Holds cur heap (createOrUpdateEndpoint dnsName targets recordType setIdentifier recordTTL cur heap).2
        (createOrUpdateEndpoint dnsName targets recordType setIdentifier recordTTL cur heap).1
        (mkEndpoint dnsName targets recordType setIdentifier recordTTL) := by
  have hkey : (mkEndpoint dnsName targets recordType setIdentifier recordTTL).SetID =
      dnsName ++ setIdentifier := rfl
  cases hl : cur.lookup (dnsName ++ setIdentifier) with
  | none =>
    have hres : createOrUpdateEndpoint dnsName targets recordType setIdentifier recordTTL cur heap =
        (heap.length, heap ++ [mkEndpoint dnsName targets recordType setIdentifier recordTTL]) := by
      unfold createOrUpdateEndpoint mkEndpoint
      simp only [hl]
      by_cases hs : setIdentifier = ""
      · simp [hs]
      · simp [hs]
    rw [hres]
    refine ⟨⟨by simp, fun p hp _ => deref_append_left heap _ p hp⟩, by simp, fun q hq => ?_, fun _ => ?_⟩
    · rw [hkey, hl] at hq
      exact absurd hq (by simp)
    · exact ⟨le_refl _, deref_append_length heap _ []⟩
  | some q =>
    have hq := hok.1 _ q hl
    have hres : (createOrUpdateEndpoint dnsName targets recordType setIdentifier recordTTL cur heap).1 = q ∧
        deref (createOrUpdateEndpoint dnsName targets recordType setIdentifier recordTTL cur heap).2 q =
          reuseEndpoint (deref heap q) (mkEndpoint dnsName targets recordType setIdentifier recordTTL) ∧
        (createOrUpdateEndpoint dnsName targets recordType setIdentifier recordTTL cur heap).2.length =
          heap.length ∧
        ∀ p, p ≠ q →
          deref (createOrUpdateEndpoint dnsName targets recordType setIdentifier recordTTL cur heap).2 p =
            deref heap p := by
      unfold createOrUpdateEndpoint
      simp only [hl]
      refine ⟨trivial, ?_, length_mutate _ _ _, fun p hp => deref_mutate_ne _ _ _ _ hp⟩
      rw [deref_mutate_eq _ heap q (by omega)]
      rfl
    obtain ⟨h1, h2, h3, h4⟩ := hres
    rw [h1]
    refine ⟨⟨by rw [h3], fun p _ hk => h4 p ?_⟩, by rw [h3]; omega, fun q' hq' => ?_, fun hnone => ?_⟩
    · intro e
      subst e
      exact hk _ (List.mem_singleton.mpr rfl) hl
    · rw [hkey, hl] at hq'
      have : q = q' := by simpa using hq'
      subst this
      exact ⟨rfl, h2⟩
    · rw [hkey, hl] at hnone
      exact absurd hnone (by simp)

theorem forall₂_imp_mem {α β : Type} {R S : α → β → Prop} {l1 : List α} {l2 : List β}
    (h : List.Forall₂ R l1 l2) (himp : ∀ a b, a ∈ l1 → b ∈ l2 → R a b → S a b) :
    List.Forall₂ S l1 l2 := by
  induction h with
  | nil => exact List.Forall₂.nil
  | cons hab _ ih =>
    refine List.Forall₂.cons (himp _ _ (List.mem_cons_self _ _) (List.mem_cons_self _ _) hab) (ih ?_)
    intro a b ha hb hr
    exact himp a b (List.mem_cons_of_mem _ ha) (List.mem_cons_of_mem _ hb) hr

theorem emits_create (cur : EndpointMap) (n0 : Nat) (hok : MapOK cur n0) (dnsName : String)
    (targets : List String) (recordType setIdentifier : String) (recordTTL : Int) (heap : Heap)
    (hn : n0 ≤ heap.length) :
    Emits cur heap
      [(createOrUpdateEndpoint dnsName targets recordType setIdentifier recordTTL cur heap).1]
      (createOrUpdateEndpoint dnsName targets recordType setIdentifier recordTTL cur heap).2
      [mkEndpoint dnsName targets recordType setIdentifier recordTTL] := by
  obtain ⟨hf, hh⟩ := create_emits cur n0 hok dnsName targets recordType setIdentifier recordTTL heap hn
  exact ⟨hf, List.Forall₂.cons hh List.Forall₂.nil⟩

theorem emits_setProperty (cur : EndpointMap) (heap heap' : Heap) (p : Nat) (o : Endpoint)
    (n v : String) (h : Emits cur heap [p] heap' [o]) (hps : o.ProviderSpecific = []) :
    Emits cur heap [p] (mutate (fun e => e.SetProviderSpecific n v) heap' p)
      [o.SetProviderSpecific n v] := by
  obtain ⟨hf, hl⟩ := h
  have hh : Holds cur heap heap' p o := by
    cases hl with
    | cons h _ => exact h
  refine ⟨?_, List.Forall₂.cons (holds_setProperty cur heap heap' p o n v hh hps) List.Forall₂.nil⟩
  apply frame_mutate cur _ heap heap' p _ hf
  intro hp
  cases hlo : cur.lookup o.SetID with
  | some q =>
    have := (hh.2.1 q hlo).1
    subst this
    exact ⟨o.SetID, by simp, hlo⟩
  | none =>
    have := (hh.2.2 hlo).1
    omega

theorem hostValueStep_emits (cur : EndpointMap) (n0 : Nat) (hok : MapOK cur n0)
    (c : ClusterGatewayTarget) (geoLbName : String) (ptrs : List Nat) (heap : Heap) (v : String)
    (hn : n0 ≤ heap.length) :
    ∃ p heap', hostValueStep c geoLbName cur (ptrs, heap) v = (ptrs ++ [p], heap') ∧
      Emits cur heap [p] heap' [weightedEndpointOf c geoLbName v] := by
  refine ⟨_, _, rfl, ?_⟩
  exact emits_setProperty cur heap _ _ _ _ _
    (emits_create cur n0 hok geoLbName [v] CNAMERecordType v DefaultTTL heap hn) rfl

theorem forall₂_mem_left {α β : Type} {R : α → β → Prop} {l1 : List α} {l2 : List β}
    (h : List.Forall₂ R l1 l2) (a : α) (ha : a ∈ l1) : ∃ b ∈ l2, R a b := by
  induction h with
  | nil => simp at ha
  | @cons x y xs ys hxy _ ih =>
    rcases List.mem_cons.mp ha with e | hm
    · subst e
      exact ⟨y, List.mem_cons_self _ _, hxy⟩
    · obtain ⟨b, hb, hr⟩ := ih hm
      exact ⟨b, List.mem_cons_of_mem _ hb, hr⟩

theorem mem_of_lookup (l : List (String × Nat)) (k : String) (p : Nat)
    (h : l.lookup k = some p) : (k, p) ∈ l := by
  induction l with
  | nil => simp [List.lookup] at h
  | cons a l ih =>
    obtain ⟨a1, a2⟩ := a
    simp only [List.lookup] at h
    by_cases hk : k = a1
    · subst hk
      simp at h
      subst h
      exact List.mem_cons_self _ _
    · have : (k == a1) = false := by simpa using hk
      simp only [this] at h
      exact List.mem_cons_of_mem _ (ih h)

theorem currentEndpointsOf_valid (recordEndpoints : List Endpoint) (k : String) (p : Nat)
    (h : (currentEndpointsOf recordEndpoints).lookup k = some p) :
    p < recordEndpoints.length ∧ (deref recordEndpoints p).SetID = k := by
  have hm := mem_of_lookup _ k p h
  unfold currentEndpointsOf at hm
  rw [List.mem_reverse, List.mem_map] at hm
  obtain ⟨⟨i, e⟩, hie, heq⟩ := hm
  simp only [Prod.mk.injEq] at heq
  obtain ⟨h1, h2⟩ := heq
  subst h1 h2
  have hget := List.mk_mem_enum_iff_getElem?.mp hie
  obtain ⟨hlt, hval⟩ := List.getElem?_eq_some_iff.mp hget
  refine ⟨hlt, ?_⟩
  unfold deref
  rw [List.getD_eq_getElem _ _ hlt, hval]

theorem mapOK_currentEndpointsOf (recordEndpoints : List Endpoint) :
    MapOK (currentEndpointsOf recordEndpoints) recordEndpoints.length := by
  refine ⟨fun k q h => (currentEndpointsOf_valid recordEndpoints k q h).1, fun k k' q h h' => ?_⟩
  rw [← (currentEndpointsOf_valid recordEndpoints k q h).2,
    ← (currentEndpointsOf_valid recordEndpoints k' q h').2]

/-! ## Attributes of a reused endpoint -/

theorem find?_setProperty_eq (n v : String) (ps : List ProviderSpecificProperty) :
    ((setProperty n v ps).find? (fun p => p.Name = n)).map (fun p => p.Value) = some v := by
  induction ps with
  | nil => simp [setProperty, List.find?]
  | cons q ps ih =>
    unfold setProperty
    by_cases hq : q.Name = n
    · simp [hq, List.find?]
    · simp only [hq, if_false, List.find?]
      simp only [hq, decide_False]
      exact ih

theorem getProviderSpecific_reuse_set (s o : Endpoint) (n v : String)
    (hps : o.ProviderSpecific = [{ Name := n, Value := v }]) :
    (reuseEndpoint s o).GetProviderSpecific n = some v := by
  unfold Endpoint.GetProviderSpecific reuseEndpoint
  simp only [hps, List.foldl_cons, List.foldl_nil]
  exact find?_setProperty_eq n v s.ProviderSpecific

theorem find?_foldl_setProperty_ne (name : String) (as ps : List ProviderSpecificProperty)
    (h : ∀ a ∈ as, a.Name ≠ name) :
    ((as.foldl (fun ps a => setProperty a.Name a.Value ps) ps).find? (fun p => p.Name = name)).map
        (fun p => p.Value) =
      (ps.find? (fun p => p.Name = name)).map (fun p => p.Value) := by
  induction as generalizing ps with
  | nil => rfl
  | cons a as ih =>
    rw [List.foldl_cons, ih _ (fun b hb => h b (List.mem_cons_of_mem _ hb))]
    exact find?_setProperty_ne a.Name a.Value name
      (fun e => h a (List.mem_cons_self _ _) e.symm) ps

theorem getProviderSpecific_reuse_other (s o : Endpoint) (name : String)
    (hps : ∀ a ∈ o.ProviderSpecific, a.Name ≠ name) :
    (reuseEndpoint s o).GetProviderSpecific name = s.GetProviderSpecific name :=
  find?_foldl_setProperty_ne name o.ProviderSpecific s.ProviderSpecific hps

/-! ## The CNAME of the simple strategy on a record with prior endpoints -/

theorem replay_append (ws1 ws2 : List Write) (e : Endpoint) :
    replay (ws1 ++ ws2) e = replay ws2 (replay ws1 e) := by
  unfold replay
  rw [List.foldl_append]

theorem writesTo_append (lbName k : String) (ws1 ws2 : List Write) :
    writesTo lbName k (ws1 ++ ws2) = writesTo lbName k ws1 ++ writesTo lbName k ws2 := by
  unfold writesTo
  rw [List.filter_append]

theorem writesTo_value_eq (lbName : String) (o : Endpoint) :
    writesTo lbName o.SetID [Write.value o] = [Write.value o] := by
  simp [writesTo, Write.key]

theorem writesTo_value_ne (lbName k : String) (o : Endpoint) (h : o.SetID ≠ k) :
    writesTo lbName k [Write.value o] = [] := by
  simp [writesTo, Write.key, h]

theorem storedUpd_trans (cur : EndpointMap) (lbName : String) (ws1 ws2 : List Write) (a b c : Heap)
    (h1 : StoredUpd cur lbName ws1 a b) (h2 : StoredUpd cur lbName ws2 b c) :
    StoredUpd cur lbName (ws1 ++ ws2) a c := by
  intro k q hl
  rw [h2 k q hl, h1 k q hl, writesTo_append, replay_append]

theorem freshKeep_refl (n0 : Nat) (a : Heap) : FreshKeep n0 a a := ⟨le_refl _, fun _ _ _ => rfl⟩

theorem freshKeep_trans (n0 : Nat) (a b c : Heap) (h1 : FreshKeep n0 a b) (h2 : FreshKeep n0 b c) :
    FreshKeep n0 a c :=
  ⟨le_trans h1.1 h2.1, fun p hp hlt => by
    rw [h2.2 p hp (lt_of_lt_of_le hlt h1.1), h1.2 p hp hlt]⟩

theorem pin_keep (cur : EndpointMap) (n0 n : Nat) (a b : Heap) (p : Nat) (o : Endpoint)
    (hn : n0 ≤ n) (hp : Pin cur n a p o) (hf : FreshKeep n0 a b) : Pin cur n b p o := by
  obtain ⟨h1, h2, h3⟩ := hp
  refine ⟨lt_of_lt_of_le h1 hf.1, h2, fun hl => ?_⟩
  obtain ⟨h4, h5⟩ := h3 hl
  exact ⟨h4, by rw [hf.2 p (le_trans hn h4) h1]; exact h5⟩

theorem pin_mono (cur : EndpointMap) (n n' : Nat) (a : Heap) (p : Nat) (o : Endpoint)
    (hn : n' ≤ n) (hp : Pin cur n a p o) : Pin cur n' a p o :=
  ⟨hp.1, hp.2.1, fun hl => ⟨le_trans hn (hp.2.2 hl).1, (hp.2.2 hl).2⟩⟩

theorem pin_cases (cur : EndpointMap) (n0 n : Nat) (hok : MapOK cur n0) (a : Heap) (p : Nat)
    (o : Endpoint) (hp : Pin cur n a p o) : p < n0 ∨ n ≤ p := by
  cases hl : cur.lookup o.SetID with
  | some q =>
    left
    rw [hp.2.1 q hl]
    exact hok.1 _ q hl
  | none => exact Or.inr (hp.2.2 hl).1

theorem runs_nil (cur : EndpointMap) (n0 : Nat) (lbName : String) (a : Heap) :
    Runs cur n0 lbName a [] a [] :=
  ⟨fun _ _ _ => rfl, freshKeep_refl n0 a, List.Forall₂.nil⟩

theorem runs_append (cur : EndpointMap) (n0 : Nat) (lbName : String) (a b c : Heap)
    (ps1 ps2 : List Nat) (o1 o2 : List Endpoint) (hn : n0 ≤ a.length)
    (h1 : Runs cur n0 lbName a ps1 b o1) (h2 : Runs cur n0 lbName b ps2 c o2) :
    Runs cur n0 lbName a (ps1 ++ ps2) c (o1 ++ o2) := by
  obtain ⟨s1, f1, l1⟩ := h1
  obtain ⟨s2, f2, l2⟩ := h2
  refine ⟨by rw [List.map_append]; exact storedUpd_trans cur lbName _ _ a b c s1 s2,
    freshKeep_trans n0 a b c f1 f2, ?_⟩
  apply List.rel_append
  · exact forall₂_imp_mem l1 (fun p o _ _ hp => pin_keep cur n0 _ b c p o hn hp f2)
  · exact forall₂_imp_mem l2 (fun p o _ _ hp => pin_mono cur _ _ c p o f1.1 hp)

theorem runs_of_emits (cur : EndpointMap) (n0 : Nat) (hok : MapOK cur n0) (lbName : String)
    (a b : Heap) (p : Nat) (o : Endpoint) (hn : n0 ≤ a.length) (h : Emits cur a [p] b [o]) :
    Runs cur n0 lbName a [p] b [o] := by
  obtain ⟨hf, hl⟩ := h
  have hh : Holds cur a b p o := by
    cases hl with
    | cons h _ => exact h
  refine ⟨fun k q hk => ?_, ⟨hf.1, fun p' hp' hlt => ?_⟩,
    List.Forall₂.cons ⟨hh.1, fun q hq => (hh.2.1 q hq).1, hh.2.2⟩ List.Forall₂.nil⟩
  · by_cases hko : o.SetID = k
    · subst hko
      rw [List.map_singleton, writesTo_value_eq]
      obtain ⟨e1, e2⟩ := hh.2.1 q hk
      subst e1
      exact e2
    · rw [List.map_singleton, writesTo_value_ne lbName k o hko]
      apply hf.2 q (lt_of_lt_of_le (hok.1 k q hk) hn)
      intro k' hk' hl'
      simp only [List.map_singleton, List.mem_singleton] at hk'
      subst hk'
      exact hko (hok.2 _ _ _ hl' hk)
  · apply hf.2 p' hlt
    intro k' _ hl'
    have := hok.1 k' p' hl'
    omega

theorem foldl_hostValueStep_runs (cur : EndpointMap) (n0 : Nat) (hok : MapOK cur n0)
    (lbName : String) (c : ClusterGatewayTarget) (geoLbName : String) (vs : List String)
    (ptrs : List Nat) (heap : Heap) (hn : n0 ≤ heap.length) :
    ∃ new heap', vs.foldl (hostValueStep c geoLbName cur) (ptrs, heap) = (ptrs ++ new, heap') ∧
      Runs cur n0 lbName heap new heap' (vs.map (weightedEndpointOf c geoLbName)) := by
  induction vs generalizing ptrs heap with
  | nil => exact ⟨[], heap, by simp, runs_nil cur n0 lbName heap⟩
  | cons v vs ih =>
    obtain ⟨p, heap1, hstep, hem⟩ := hostValueStep_emits cur n0 hok c geoLbName ptrs heap v hn
    have hr := runs_of_emits cur n0 hok lbName heap heap1 p _ hn hem
    obtain ⟨new, heap2, hfold, hr2⟩ := ih (ptrs ++ [p]) heap1 (le_trans hn hem.1.1)
    refine ⟨p :: new, heap2, ?_, ?_⟩
    · rw [List.foldl_cons, hstep, hfold]
      simp
    · have := runs_append cur n0 lbName heap heap1 heap2 [p] new _ _ hn hr hr2
      simpa using this

theorem clusterStep_runs (cur : EndpointMap) (n0 : Nat) (hok : MapOK cur n0)
    (lbName geoLbName : String) (ptrs : List Nat) (heap : Heap) (c : ClusterGatewayTarget)
    (hn : n0 ≤ heap.length) :
    ∃ new heap', clusterStep lbName geoLbName cur (ptrs, heap) c = (ptrs ++ new, heap') ∧
      Runs cur n0 lbName heap new heap' (clusterOut lbName geoLbName c) := by
  unfold clusterStep clusterOut clusterValues
  by_cases hip : (ipValuesOf c.Addresses).length > 0
  · simp only [hip, if_true]
    have hA := emits_create cur n0 hok (clusterLbNameOf c lbName) (ipValuesOf c.Addresses)
      ARecordType "" DefaultTTL heap hn
    generalize createOrUpdateEndpoint (clusterLbNameOf c lbName) (ipValuesOf c.Addresses)
      ARecordType "" DefaultTTL cur heap = r at hA ⊢
    obtain ⟨pA, heapA⟩ := r
    simp only at hA ⊢
    have hrA := runs_of_emits cur n0 hok lbName heap heapA pA _ hn hA
    obtain ⟨new, heap2, hfold, hr2⟩ := foldl_hostValueStep_runs cur n0 hok lbName c geoLbName
      (hostValuesOf c.Addresses ++ [clusterLbNameOf c lbName]) (ptrs ++ [pA]) heapA
      (le_trans hn hA.1.1)
    refine ⟨pA :: new, heap2, ?_, ?_⟩
    · rw [hfold]
      simp
    · have := runs_append cur n0 lbName heap heapA heap2 [pA] new _ _ hn hrA hr2
      simpa [aEndpointOf] using this
  · simp only [hip, if_false, List.append_nil, List.nil_append]
    exact foldl_hostValueStep_runs cur n0 hok lbName c geoLbName _ ptrs heap hn

theorem foldl_clusterStep_runs (cur : EndpointMap) (n0 : Nat) (hok : MapOK cur n0)
    (lbName geoLbName : String) (cs : List ClusterGatewayTarget) (ptrs : List Nat) (heap : Heap)
    (hn : n0 ≤ heap.length) :
    ∃ new heap', cs.foldl (clusterStep lbName geoLbName cur) (ptrs, heap) = (ptrs ++ new, heap') ∧
      Runs cur n0 lbName heap new heap' (cs.flatMap (clusterOut lbName geoLbName)) := by
  induction cs generalizing ptrs heap with
  | nil => exact ⟨[], heap, by simp, runs_nil cur n0 lbName heap⟩
  | cons c cs ih =>
    obtain ⟨new1, heap1, hstep, hr⟩ := clusterStep_runs cur n0 hok lbName geoLbName ptrs heap c hn
    obtain ⟨new2, heap2, hfold, hr2⟩ := ih (ptrs ++ new1) heap1 (le_trans hn hr.2.1.1)
    refine ⟨new1 ++ new2, heap2, ?_, ?_⟩
    · rw [List.foldl_cons, hstep, hfold]
      simp
    · rw [List.flatMap_cons]
      exact runs_append cur n0 lbName heap heap1 heap2 new1 new2 _ _ hn hr hr2

theorem writesTo_cons (lbName k : String) (w : Write) (ws : List Write) :
    writesTo lbName k (w :: ws) =
      if w.key lbName = k then w :: writesTo lbName k ws else writesTo lbName k ws := by
  unfold writesTo
  by_cases h : w.key lbName = k
  · simp [List.filter_cons, h]
  · simp [List.filter_cons, h]

theorem writesTo_values_none (lbName k : String) (os : List Endpoint)
    (h : ∀ o ∈ os, o.SetID ≠ k) : writesTo lbName k (os.map Write.value) = [] := by
  unfold writesTo
  apply List.filter_eq_nil_iff.mpr
  intro w hw
  obtain ⟨o, ho, rfl⟩ := List.mem_map.mp hw
  simpa [Write.key] using h o ho

theorem pin_ptr_ne (cur : EndpointMap) (n0 n : Nat) (hok : MapOK cur n0) (b : Heap) (p p' : Nat)
    (o o' : Endpoint) (hn : n0 ≤ n) (h1 : Pin cur n b p o) (h2 : Pin cur n b p' o')
    (hk : o'.SetID ≠ o.SetID) : p' ≠ p := by
  intro hpp
  subst hpp
  cases hl : cur.lookup o.SetID with
  | some q =>
    have hpq := h1.2.1 q hl
    subst hpq
    cases hl' : cur.lookup o'.SetID with
    | some q' =>
      have := h2.2.1 q' hl'
      subst this
      exact hk (hok.2 _ _ _ hl' hl)
    | none =>
      have h3 := (h2.2.2 hl').1
      have h4 := hok.1 _ _ hl
      omega
  | none =>
    cases hl' : cur.lookup o'.SetID with
    | some q' =>
      have := h2.2.1 q' hl'
      subst this
      have h3 := (h1.2.2 hl).1
      have h4 := hok.1 _ _ hl'
      omega
    | none =>
      have e1 := (h1.2.2 hl).2
      have e2 := (h2.2.2 hl').2
      rw [e1] at e2
      exact hk (by rw [e2])

theorem runs_set_head (cur : EndpointMap) (n0 : Nat) (hok : MapOK cur n0) (lbName : String)
    (a b : Heap) (p : Nat) (ps : List Nat) (o : Endpoint) (os : List Endpoint) (n v : String)
    (hn : n0 ≤ a.length) (h : Runs cur n0 lbName a (p :: ps) b (o :: os))
    (hps : o.ProviderSpecific = []) (hne : ∀ o' ∈ os, o'.SetID ≠ o.SetID) :
    Runs cur n0 lbName a (p :: ps) (mutate (fun e => e.SetProviderSpecific n v) b p)
      (o.SetProviderSpecific n v :: os) := by
  obtain ⟨hs, hf, hl⟩ := h
  have hpin : Pin cur a.length b p o ∧ List.Forall₂ (Pin cur a.length b) ps os := by
    cases hl with
    | cons h1 h2 => exact ⟨h1, h2⟩
  obtain ⟨hp, hrest⟩ := hpin
  have hnone : writesTo lbName o.SetID (os.map Write.value) = [] :=
    writesTo_values_none lbName _ os hne
  refine ⟨fun k q hk => ?_, ⟨by rw [length_mutate]; exact hf.1, fun p' hp' hlt => ?_⟩,
    List.Forall₂.cons ?_ ?_⟩
  · have hb := hs k q hk
    rw [List.map_cons, writesTo_cons] at hb ⊢
    by_cases hko : o.SetID = k
    · have hpq : p = q := hp.2.1 q (hko ▸ hk)
      subst hpq
      have e1 : (Write.value o).key lbName = k := hko
      have e2 : (Write.value (o.SetProviderSpecific n v)).key lbName = k := hko
      rw [if_pos e1] at hb
      rw [if_pos e2, deref_mutate_eq _ b p hp.1, hb]
      subst hko
      rw [hnone]
      show (reuseEndpoint (deref a p) o).SetProviderSpecific n v =
        reuseEndpoint (deref a p) (o.SetProviderSpecific n v)
      rw [reuseEndpoint_SetProviderSpecific _ _ _ _ hps]
    · have e1 : ¬ (Write.value o).key lbName = k := hko
      have e2 : ¬ (Write.value (o.SetProviderSpecific n v)).key lbName = k := hko
      rw [if_neg e1] at hb
      rw [if_neg e2, ← hb]
      apply deref_mutate_ne
      intro hqp
      subst hqp
      cases hlo : cur.lookup o.SetID with
      | some q' =>
        have := hp.2.1 q' hlo
        subst this
        exact hko (hok.2 _ _ _ hlo hk)
      | none =>
        have h3 := (hp.2.2 hlo).1
        have h4 := hok.1 _ _ hk
        omega
  · rw [deref_mutate_ne _ b p' p, hf.2 p' hp' hlt]
    intro e
    subst e
    rcases pin_cases cur n0 a.length hok b p' o hp with h1 | h1
    · omega
    · omega
  · refine ⟨by rw [length_mutate]; exact hp.1, hp.2.1, fun hlo => ⟨(hp.2.2 hlo).1, ?_⟩⟩
    rw [deref_mutate_eq _ b p hp.1, (hp.2.2 hlo).2]
  · refine forall₂_imp_mem hrest (fun p' o' _ ho' hp' => ?_)
    have hpp : p' ≠ p := pin_ptr_ne cur n0 a.length hok b p p' o o' hn hp hp' (hne o' ho')
    refine ⟨by rw [length_mutate]; exact hp'.1, hp'.2.1, fun hlo => ⟨(hp'.2.2 hlo).1, ?_⟩⟩
    rw [deref_mutate_ne _ b p' p hpp]
    exact (hp'.2.2 hlo).2

theorem geoStep_eq_runs (cur : EndpointMap) (n0 : Nat) (hok : MapOK cur n0)
    (mcgTarget : MultiClusterGatewayTarget) (lbName : String) (st : LoopState)
    (entry : String × List ClusterGatewayTarget) (hn : n0 ≤ st.heap.length) :
    ∃ cptrs heap1, Runs cur n0 lbName st.heap cptrs heap1 (groupClusterOut lbName entry) ∧
      geoStep mcgTarget lbName cur st entry =
        if (groupClusterOut lbName entry).length = 0 then { st with heap := heap1 }
        else if IsDefaultCode entry.1 then
          { endpoints := st.endpoints ++ cptrs,
            defaultEndpoint := some (createOrUpdateEndpoint lbName [geoLbNameOf entry.1 lbName]
              CNAMERecordType entry.1 DefaultCnameTTL cur heap1).1,
            heap := (createOrUpdateEndpoint lbName [geoLbNameOf entry.1 lbName]
              CNAMERecordType entry.1 DefaultCnameTTL cur heap1).2 }
        else if entry.1 = mcgTarget.GetDefaultGeo ∨ st.defaultEndpoint = none then
          { endpoints := st.endpoints ++ cptrs ++ [(createOrUpdateEndpoint lbName
              [geoLbNameOf entry.1 lbName] CNAMERecordType entry.1 DefaultCnameTTL cur heap1).1],
            defaultEndpoint := some (createOrUpdateEndpoint lbName [geoLbNameOf entry.1 lbName]
              CNAMERecordType "default" DefaultCnameTTL cur
              (createOrUpdateEndpoint lbName [geoLbNameOf entry.1 lbName]
                CNAMERecordType entry.1 DefaultCnameTTL cur heap1).2).1,
            heap := mutate (fun e => e.SetProviderSpecific ProviderSpecificGeoCode entry.1)
              (createOrUpdateEndpoint lbName [geoLbNameOf entry.1 lbName]
                CNAMERecordType "default" DefaultCnameTTL cur
                (createOrUpdateEndpoint lbName [geoLbNameOf entry.1 lbName]
                  CNAMERecordType entry.1 DefaultCnameTTL cur heap1).2).2
              (createOrUpdateEndpoint lbName [geoLbNameOf entry.1 lbName]
                CNAMERecordType entry.1 DefaultCnameTTL cur heap1).1 }
        else
          { endpoints := st.endpoints ++ cptrs ++ [(createOrUpdateEndpoint lbName
              [geoLbNameOf entry.1 lbName] CNAMERecordType entry.1 DefaultCnameTTL cur heap1).1],
            defaultEndpoint := st.defaultEndpoint,
            heap := mutate (fun e => e.SetProviderSpecific ProviderSpecificGeoCode entry.1)
              (createOrUpdateEndpoint lbName [geoLbNameOf entry.1 lbName]
                CNAMERecordType entry.1 DefaultCnameTTL cur heap1).2
              (createOrUpdateEndpoint lbName [geoLbNameOf entry.1 lbName]
                CNAMERecordType entry.1 DefaultCnameTTL cur heap1).1 } := by
  obtain ⟨cptrs, heap1, hfold, hr⟩ := foldl_clusterStep_runs cur n0 hok lbName
    (geoLbNameOf entry.1 lbName) entry.2 [] st.heap hn
  refine ⟨cptrs, heap1, hr, ?_⟩
  have hlen : cptrs.length = (groupClusterOut lbName entry).length := hr.2.2.length_eq
  unfold geoStep
  simp only [hfold, List.nil_append, hlen]
  by_cases h0 : (groupClusterOut lbName entry).length = 0
  · simp only [h0, if_true]
  · simp only [h0, if_false]
    by_cases hdc : IsDefaultCode entry.1 = true
    · simp only [hdc, if_true]
    · simp only [hdc, Bool.false_eq_true, if_false]
      by_cases hd : entry.1 = mcgTarget.GetDefaultGeo ∨ st.defaultEndpoint = none
      · simp only [hd, if_true]
      · simp only [hd, if_false]

theorem pin_lt_of_forall₂ (cur : EndpointMap) (n : Nat) (heap : Heap) (ptrs : List Nat)
    (vals : List Endpoint) (h : List.Forall₂ (Pin cur n heap) ptrs vals) (p : Nat) (hp : p ∈ ptrs) :
    p < heap.length := by
  obtain ⟨o, _, ho⟩ := forall₂_mem_left h p hp
  exact ho.1

theorem pin_cases_of_forall₂ (cur : EndpointMap) (n0 n : Nat) (hok : MapOK cur n0) (heap : Heap)
    (ptrs : List Nat) (vals : List Endpoint) (h : List.Forall₂ (Pin cur n heap) ptrs vals) (p : Nat)
    (hp : p ∈ ptrs) : p < n0 ∨ n ≤ p := by
  obtain ⟨o, _, ho⟩ := forall₂_mem_left h p hp
  exact pin_cases cur n0 n hok heap p o ho

theorem writeInv_runs (cur : EndpointMap) (n0 : Nat) (hok : MapOK cur n0) (lbName : String)
    (h : Heap) (st : LoopState) (vals : List Endpoint) (d : Option String) (ws : List Write)
    (ptrs : List Nat) (heap' : Heap) (outs : List Endpoint) (hn : n0 ≤ h.length)
    (hinv : WriteInv cur n0 lbName h st vals d ws)
    (hr : Runs cur n0 lbName st.heap ptrs heap' outs) :
    WriteInv cur n0 lbName h
      { endpoints := st.endpoints ++ ptrs, defaultEndpoint := st.defaultEndpoint, heap := heap' }
      (vals ++ outs) d (ws ++ outs.map Write.value) := by
  obtain ⟨hs, hf, hl, hiff, hd⟩ := hinv
  obtain ⟨rs, rf, rl⟩ := hr
  refine ⟨storedUpd_trans cur lbName _ _ h st.heap heap' hs rs, freshKeep_trans n0 h st.heap heap' hf rf,
    ?_, hiff, ?_⟩
  · apply List.rel_append
    · exact forall₂_imp_mem hl (fun p o _ _ hp => pin_keep cur n0 _ st.heap heap' p o hn hp rf)
    · exact forall₂_imp_mem rl (fun p o _ _ hp => pin_mono cur _ _ heap' p o hf.1 hp)
  · intro pd hpd
    obtain ⟨g, hg, hpin, hnot⟩ := hd pd hpd
    refine ⟨g, hg, pin_keep cur n0 _ st.heap heap' pd _ hn hpin rf, fun hnone => ?_⟩
    simp only [List.mem_append, not_or]
    refine ⟨hnot hnone, fun hm => ?_⟩
    have h1 := (hpin.2.2 hnone).1
    have h2 := hpin.1
    rcases pin_cases_of_forall₂ cur n0 _ hok heap' ptrs outs rl pd hm with h3 | h3
    · omega
    · omega

theorem writeInv_default (cur : EndpointMap) (n0 : Nat) (hok : MapOK cur n0) (lbName : String)
    (h : Heap) (st : LoopState) (vals : List Endpoint) (d : Option String) (ws : List Write)
    (g : String) (hn : n0 ≤ h.length) (hinv : WriteInv cur n0 lbName h st vals d ws) :
    WriteInv cur n0 lbName h
      { endpoints := st.endpoints,
        defaultEndpoint := some (createOrUpdateEndpoint lbName [geoLbNameOf g lbName]
          CNAMERecordType "default" DefaultCnameTTL cur st.heap).1,
        heap := (createOrUpdateEndpoint lbName [geoLbNameOf g lbName]
          CNAMERecordType "default" DefaultCnameTTL cur st.heap).2 }
      vals (some g) (ws ++ [Write.value (defaultEndpointRaw lbName g)]) := by
  obtain ⟨hs, hf, hl, hiff, hd⟩ := hinv
  have hn1 : n0 ≤ st.heap.length := le_trans hn hf.1
  have hr := runs_of_emits cur n0 hok lbName st.heap _ _ _ hn1
    (emits_create cur n0 hok lbName [geoLbNameOf g lbName] CNAMERecordType "default"
      DefaultCnameTTL st.heap hn1)
  obtain ⟨rs, rf, rl⟩ := hr
  have hpin : Pin cur st.heap.length
      (createOrUpdateEndpoint lbName [geoLbNameOf g lbName] CNAMERecordType "default"
        DefaultCnameTTL cur st.heap).2
      (createOrUpdateEndpoint lbName [geoLbNameOf g lbName] CNAMERecordType "default"
        DefaultCnameTTL cur st.heap).1 (defaultEndpointRaw lbName g) := by
    cases rl with
    | cons h1 _ => exact h1
  refine ⟨storedUpd_trans cur lbName _ _ h st.heap _ hs rs, freshKeep_trans n0 h st.heap _ hf rf,
    forall₂_imp_mem hl (fun p o _ _ hp => pin_keep cur n0 _ st.heap _ p o hn hp rf),
    ⟨fun hc => by simp at hc, fun hc => by simp at hc⟩, ?_⟩
  intro pd hpd
  simp only [Option.some.injEq] at hpd
  subst hpd
  refine ⟨g, rfl, pin_mono cur _ _ _ _ _ hf.1 hpin, fun hnone hm => ?_⟩
  have h1 := (hpin.2.2 hnone).1
  have h2 := pin_lt_of_forall₂ cur _ _ _ _ hl _ hm
  omega

theorem writeInv_geo (cur : EndpointMap) (n0 : Nat) (hok : MapOK cur n0) (lbName : String)
    (h : Heap) (st : LoopState) (vals : List Endpoint) (d : Option String) (ws : List Write)
    (geoCode : String) (hn : n0 ≤ h.length) (hinv : WriteInv cur n0 lbName h st vals d ws) :
    WriteInv cur n0 lbName h
      { endpoints := st.endpoints ++ [(createOrUpdateEndpoint lbName [geoLbNameOf geoCode lbName]
          CNAMERecordType geoCode DefaultCnameTTL cur st.heap).1],
        defaultEndpoint := st.defaultEndpoint,
        heap := mutate (fun e => e.SetProviderSpecific ProviderSpecificGeoCode geoCode)
          (createOrUpdateEndpoint lbName [geoLbNameOf geoCode lbName]
            CNAMERecordType geoCode DefaultCnameTTL cur st.heap).2
          (createOrUpdateEndpoint lbName [geoLbNameOf geoCode lbName]
            CNAMERecordType geoCode DefaultCnameTTL cur st.heap).1 }
      (vals ++ [geoEndpointOf lbName geoCode]) d (ws ++ [Write.value (geoEndpointOf lbName geoCode)]) := by
  have hn1 : n0 ≤ st.heap.length := le_trans hn hinv.2.1.1
  have hr := runs_of_emits cur n0 hok lbName st.heap _ _ _ hn1
    (emits_create cur n0 hok lbName [geoLbNameOf geoCode lbName] CNAMERecordType geoCode
      DefaultCnameTTL st.heap hn1)
  have hr2 := runs_set_head cur n0 hok lbName st.heap _ _ [] _ [] ProviderSpecificGeoCode geoCode
    hn1 hr rfl (by simp)
  exact writeInv_runs cur n0 hok lbName h st vals d ws _ _ _ hn hinv hr2

theorem writeInv_geo_default (cur : EndpointMap) (n0 : Nat) (hok : MapOK cur n0) (lbName : String)
    (h : Heap) (st : LoopState) (vals : List Endpoint) (d : Option String) (ws : List Write)
    (geoCode : String) (hne : geoCode ≠ "default") (hn : n0 ≤ h.length)
    (hinv : WriteInv cur n0 lbName h st vals d ws) :
    WriteInv cur n0 lbName h
      { endpoints := st.endpoints ++ [(createOrUpdateEndpoint lbName [geoLbNameOf geoCode lbName]
          CNAMERecordType geoCode DefaultCnameTTL cur st.heap).1],
        defaultEndpoint := some (createOrUpdateEndpoint lbName [geoLbNameOf geoCode lbName]
          CNAMERecordType "default" DefaultCnameTTL cur
          (createOrUpdateEndpoint lbName [geoLbNameOf geoCode lbName]
            CNAMERecordType geoCode DefaultCnameTTL cur st.heap).2).1,
        heap := mutate (fun e => e.SetProviderSpecific ProviderSpecificGeoCode geoCode)
          (createOrUpdateEndpoint lbName [geoLbNameOf geoCode lbName]
            CNAMERecordType "default" DefaultCnameTTL cur
            (createOrUpdateEndpoint lbName [geoLbNameOf geoCode lbName]
              CNAMERecordType geoCode DefaultCnameTTL cur st.heap).2).2
          (createOrUpdateEndpoint lbName [geoLbNameOf geoCode lbName]
            CNAMERecordType geoCode DefaultCnameTTL cur st.heap).1 }
      (vals ++ [geoEndpointOf lbName geoCode]) (some geoCode)
      (ws ++ [Write.value (geoEndpointOf lbName geoCode),
        Write.value (defaultEndpointRaw lbName geoCode)]) := by
  obtain ⟨hs, hf, hl, hiff, hd⟩ := hinv
  have hn1 : n0 ≤ st.heap.length := le_trans hn hf.1
  have hr1 := runs_of_emits cur n0 hok lbName st.heap _ _ _ hn1
    (emits_create cur n0 hok lbName [geoLbNameOf geoCode lbName] CNAMERecordType geoCode
      DefaultCnameTTL st.heap hn1)
  generalize createOrUpdateEndpoint lbName [geoLbNameOf geoCode lbName] CNAMERecordType geoCode
    DefaultCnameTTL cur st.heap = r1 at hr1 ⊢
  obtain ⟨pG, heap2⟩ := r1
  simp only at hr1 ⊢
  have hn2 : n0 ≤ heap2.length := le_trans hn1 hr1.2.1.1
  have hr2 := runs_of_emits cur n0 hok lbName heap2 _ _ _ hn2
    (emits_create cur n0 hok lbName [geoLbNameOf geoCode lbName] CNAMERecordType "default"
      DefaultCnameTTL heap2 hn2)
  generalize createOrUpdateEndpoint lbName [geoLbNameOf geoCode lbName] CNAMERecordType "default"
    DefaultCnameTTL cur heap2 = r2 at hr2 ⊢
  obtain ⟨pd, heap3⟩ := r2
  simp only at hr2 ⊢
  have hpd2 : Pin cur heap2.length heap3 pd (defaultEndpointRaw lbName geoCode) := by
    cases hr2.2.2 with
    | cons h1 _ => exact h1
  have hpG1 : Pin cur st.heap.length heap2 pG
      (mkEndpoint lbName [geoLbNameOf geoCode lbName] CNAMERecordType geoCode DefaultCnameTTL) := by
    cases hr1.2.2 with
    | cons h1 _ => exact h1
  have hr12 := runs_append cur n0 lbName st.heap heap2 heap3 [pG] [pd] _ _ hn1 hr1 hr2
  have hkey : ∀ o' ∈ [mkEndpoint lbName [geoLbNameOf geoCode lbName] CNAMERecordType "default"
      DefaultCnameTTL], o'.SetID ≠ (mkEndpoint lbName [geoLbNameOf geoCode lbName] CNAMERecordType
        geoCode DefaultCnameTTL).SetID := by
    intro o' ho' e
    simp only [List.mem_singleton] at ho'
    subst ho'
    exact hne (String_append_left_cancel lbName _ _ e).symm
  have hr3 := runs_set_head cur n0 hok lbName st.heap heap3 pG [pd] _ _ ProviderSpecificGeoCode
    geoCode hn1 hr12 rfl hkey
  obtain ⟨rs, rf, rl⟩ := hr3
  have hpins : Pin cur st.heap.length
        (mutate (fun e => e.SetProviderSpecific ProviderSpecificGeoCode geoCode) heap3 pG) pG
        (geoEndpointOf lbName geoCode) ∧
      Pin cur st.heap.length
        (mutate (fun e => e.SetProviderSpecific ProviderSpecificGeoCode geoCode) heap3 pG) pd
        (defaultEndpointRaw lbName geoCode) := by
    cases rl with
    | cons h1 h2 =>
      cases h2 with
      | cons h3 _ => exact ⟨h1, h3⟩
  refine ⟨storedUpd_trans cur lbName _ _ h st.heap _ hs rs, freshKeep_trans n0 h st.heap _ hf rf,
    ?_, ⟨fun hc => by simp at hc, fun hc => by simp at hc⟩, ?_⟩
  · apply List.rel_append
    · exact forall₂_imp_mem hl (fun p o _ _ hp => pin_keep cur n0 _ st.heap _ p o hn hp rf)
    · exact List.Forall₂.cons (pin_mono cur _ _ _ _ _ hf.1 hpins.1) List.Forall₂.nil
  · intro pd' hpd'
    simp only [Option.some.injEq] at hpd'
    subst hpd'
    refine ⟨geoCode, rfl, pin_mono cur _ _ _ _ _ hf.1 hpins.2, fun hnone hm => ?_⟩
    have h1 := (hpd2.2.2 hnone).1
    rcases List.mem_append.mp hm with hm | hm
    · have h2 := pin_lt_of_forall₂ cur _ _ _ _ hl _ hm
      have h3 := hr1.2.1.1
      omega
    · simp only [List.mem_singleton] at hm
      subst hm
      have h2 := hpG1.1
      omega

theorem geoStep_writes (cur : EndpointMap) (n0 : Nat) (hok : MapOK cur n0)
    (mcgTarget : MultiClusterGatewayTarget) (lbName : String) (h : Heap) (st : LoopState)
    (vals : List Endpoint) (d : Option String) (ws : List Write)
    (entry : String × List ClusterGatewayTarget)
    (hn : n0 ≤ h.length) (hinv : WriteInv cur n0 lbName h st vals d ws) :
    WriteInv cur n0 lbName h (geoStep mcgTarget lbName cur st entry) (vals ++ groupOut lbName entry)
      (defaultGeoStep mcgTarget.GetDefaultGeo lbName d entry)
      (ws ++ groupWrites mcgTarget.GetDefaultGeo lbName d entry) := by
  have hn1 : n0 ≤ st.heap.length := le_trans hn hinv.2.1.1
  obtain ⟨geoCode, cgwTargets⟩ := entry
  obtain ⟨cptrs, heap1, hr, heq⟩ := geoStep_eq_runs cur n0 hok mcgTarget lbName st
    (geoCode, cgwTargets) hn1
  rw [heq]
  unfold groupOut defaultGeoStep groupWrites
  have hA := writeInv_runs cur n0 hok lbName h st vals d ws cptrs heap1 _ hn hinv hr
  by_cases h0 : (groupClusterOut lbName (geoCode, cgwTargets)).length = 0
  · have hce : groupClusterOut lbName (geoCode, cgwTargets) = [] := List.length_eq_zero.mp h0
    simp only [h0, if_true, List.append_nil]
    rw [hce] at hr hA
    have hc : cptrs = [] := by
      cases hr.2.2
      rfl
    subst hc
    simpa using hA
  · simp only [h0, if_false]
    by_cases hdc : IsDefaultCode geoCode = true
    · simp only [hdc, if_true, List.append_nil]
      have he : geoCode = "default" := by simpa [IsDefaultCode, DefaultGeo] using hdc
      subst he
      have hB := writeInv_default cur n0 hok lbName h _ _ d _ "default" hn hA
      simpa [List.append_assoc] using hB
    · simp only [hdc, Bool.false_eq_true, if_false]
      have hne : geoCode ≠ "default" := by simpa [IsDefaultCode, DefaultGeo] using hdc
      by_cases hd : geoCode = mcgTarget.GetDefaultGeo ∨ st.defaultEndpoint = none
      · have hd2 : geoCode = mcgTarget.GetDefaultGeo ∨ d = none := by
          rcases hd with hd | hd
          · exact Or.inl hd
          · exact Or.inr (hinv.2.2.2.1.mp hd)
        simp only [hd, hd2, if_true]
        have hB := writeInv_geo_default cur n0 hok lbName h _ _ d _ geoCode hne hn hA
        simpa [List.append_assoc] using hB
      · have hd2 : ¬ (geoCode = mcgTarget.GetDefaultGeo ∨ d = none) := by
          intro hc
          rcases hc with hc | hc
          · exact hd (Or.inl hc)
          · exact hd (Or.inr (hinv.2.2.2.1.mpr hc))
        simp only [hd, hd2, if_false]
        have hB := writeInv_geo cur n0 hok lbName h _ _ d _ geoCode hn hA
        simpa [List.append_assoc] using hB

theorem foldl_geoStep_writes (cur : EndpointMap) (n0 : Nat) (hok : MapOK cur n0)
    (mcgTarget : MultiClusterGatewayTarget) (lbName : String) (h : Heap) (hn : n0 ≤ h.length)
    (gs : List (String × List ClusterGatewayTarget)) (st : LoopState)
    (vals : List Endpoint) (d : Option String) (ws : List Write)
    (hinv : WriteInv cur n0 lbName h st vals d ws) :
    WriteInv cur n0 lbName h (gs.foldl (geoStep mcgTarget lbName cur) st)
      (vals ++ gs.flatMap (groupOut lbName))
      (gs.foldl (defaultGeoStep mcgTarget.GetDefaultGeo lbName) d)
      (ws ++ loopWrites mcgTarget.GetDefaultGeo lbName d gs) := by
  induction gs generalizing st vals d ws with
  | nil => simpa [loopWrites] using hinv
  | cons entry gs ih =>
    have h1 := geoStep_writes cur n0 hok mcgTarget lbName h st vals d ws entry hn hinv
    have h2 := ih _ _ _ _ h1
    simpa [loopWrites, List.flatMap_cons, List.append_assoc] using h2

theorem getLoadBalancedEndpoints_writes (cur : EndpointMap) (n0 : Nat) (hok : MapOK cur n0)
    (mcgTarget : MultiClusterGatewayTarget) (hostname : String) (h : Heap) (hn : n0 ≤ h.length) :
    ∃ ptrs h', getLoadBalancedEndpoints mcgTarget hostname cur h = some (ptrs, h') ∧
      StoredUpd cur (lbNameOf mcgTarget hostname) (allWrites mcgTarget hostname) h h' ∧
      List.Forall₂ (Pin cur h.length h') ptrs (loadBalancedOut mcgTarget hostname) := by
  have hne := foldl_defaultGeoStep_ne_none mcgTarget.GetDefaultGeo (lbNameOf mcgTarget hostname)
    mcgTarget.GroupTargetsByGeo none
  have hinit : WriteInv cur n0 (lbNameOf mcgTarget hostname) h
      { endpoints := [], defaultEndpoint := none, heap := h } [] none [] :=
    ⟨fun _ _ _ => rfl, freshKeep_refl n0 h, List.Forall₂.nil, by simp, by simp⟩
  have hinv := foldl_geoStep_writes cur n0 hok mcgTarget (lbNameOf mcgTarget hostname) h hn
    mcgTarget.GroupTargetsByGeo _ [] none [] hinit
  simp only [List.nil_append] at hinv
  unfold getLoadBalancedEndpoints allWrites loadBalancedOut
  simp only
  by_cases h0 : (mcgTarget.GroupTargetsByGeo.flatMap (groupOut (lbNameOf mcgTarget hostname))).length > 0
  · have hd : defaultGeoOf mcgTarget (lbNameOf mcgTarget hostname) ≠ none :=
      hne (Or.inr (List.ne_nil_of_length_pos h0))
    obtain ⟨g, hg⟩ := Option.ne_none_iff_exists'.mp hd
    have hg' : mcgTarget.GroupTargetsByGeo.foldl
        (defaultGeoStep mcgTarget.GetDefaultGeo (lbNameOf mcgTarget hostname)) none = some g := hg
    rw [hg'] at hinv
    simp only [h0, if_true, hg]
    generalize mcgTarget.GroupTargetsByGeo.foldl (geoStep mcgTarget (lbNameOf mcgTarget hostname) cur)
      { endpoints := [], defaultEndpoint := none, heap := h } = st at hinv ⊢
    generalize mcgTarget.GroupTargetsByGeo.flatMap (groupOut (lbNameOf mcgTarget hostname)) = flat
      at hinv h0 ⊢
    generalize loopWrites mcgTarget.GetDefaultGeo (lbNameOf mcgTarget hostname) none
      mcgTarget.GroupTargetsByGeo = ws at hinv ⊢
    obtain ⟨hS, hF, hL, hiff, hdef⟩ := hinv
    have hlen : st.endpoints.length = flat.length := hL.length_eq
    have hde : st.defaultEndpoint ≠ none := fun e => by simpa using hiff.mp e
    obtain ⟨pd, hpd⟩ := Option.ne_none_iff_exists'.mp hde
    obtain ⟨g', hg2, hpin, hnot⟩ := hdef pd hpd
    have hgg : g = g' := by
      simp only [Option.some.injEq] at hg2
      exact hg2
    subst hgg
    have hpos : st.endpoints.length > 0 := by omega
    simp only [hpos, if_true, hpd]
    have hn1 : n0 ≤ st.heap.length := le_trans hn hF.1
    -- the attribute `geo-code = *` on the `default` endpoint
    have hSs : StoredUpd cur (lbNameOf mcgTarget hostname) (ws ++ [Write.star]) h
        (mutate (fun e => e.SetProviderSpecific ProviderSpecificGeoCode WildcardGeo) st.heap pd) := by
      intro k q hk
      rw [writesTo_append, replay_append, writesTo_cons]
      by_cases hkd : lbNameOf mcgTarget hostname ++ "default" = k
      · have hpq : pd = q := hpin.2.1 q (by rw [← hkd] at hk; exact hk)
        subst hpq
        have e1 : Write.star.key (lbNameOf mcgTarget hostname) = k := hkd
        rw [if_pos e1, deref_mutate_eq _ st.heap pd hpin.1, hS k pd hk]
        rfl
      · have e1 : ¬ Write.star.key (lbNameOf mcgTarget hostname) = k := hkd
        rw [if_neg e1, ← hS k q hk]
        apply deref_mutate_ne
        intro hqp
        subst hqp
        cases hlo : cur.lookup (lbNameOf mcgTarget hostname ++ "default") with
        | some q' =>
          have := hpin.2.1 q' hlo
          subst this
          exact hkd (hok.2 _ _ _ hlo hk)
        | none =>
          have h3 := (hpin.2.2 hlo).1
          have h4 := hok.1 _ _ hk
          omega
    have hLs : List.Forall₂ (Pin cur h.length
        (mutate (fun e => e.SetProviderSpecific ProviderSpecificGeoCode WildcardGeo) st.heap pd))
        st.endpoints flat := by
      refine forall₂_imp_mem hL (fun p o hp _ hpo => ?_)
      refine ⟨by rw [length_mutate]; exact hpo.1, hpo.2.1, fun hlo => ⟨(hpo.2.2 hlo).1, ?_⟩⟩
      rw [deref_mutate_ne _ st.heap p pd, (hpo.2.2 hlo).2]
      intro e
      subst e
      cases hld : cur.lookup (lbNameOf mcgTarget hostname ++ "default") with
      | some q' =>
        have := hpin.2.1 q' hld
        subst this
        have h3 := (hpo.2.2 hlo).1
        have h4 := hok.1 _ _ hld
        omega
      | none => exact hnot hld hp
    have hPd : Pin cur h.length
        (mutate (fun e => e.SetProviderSpecific ProviderSpecificGeoCode WildcardGeo) st.heap pd) pd
        (defaultEndpointOf (lbNameOf mcgTarget hostname) g) := by
      refine ⟨by rw [length_mutate]; exact hpin.1, hpin.2.1, fun hlo => ⟨(hpin.2.2 hlo).1, ?_⟩⟩
      rw [deref_mutate_eq _ st.heap pd hpin.1, (hpin.2.2 hlo).2]
      rfl
    have hlm : n0 ≤ (mutate (fun e => e.SetProviderSpecific ProviderSpecificGeoCode WildcardGeo)
        st.heap pd).length := by
      rw [length_mutate]
      exact hn1
    have hlh : h.length ≤ (mutate (fun e => e.SetProviderSpecific ProviderSpecificGeoCode WildcardGeo)
        st.heap pd).length := by
      rw [length_mutate]
      exact hF.1
    generalize mutate (fun e => e.SetProviderSpecific ProviderSpecificGeoCode WildcardGeo)
      st.heap pd = heapS at hSs hLs hPd hlm hlh ⊢
    have hr := runs_of_emits cur n0 hok (lbNameOf mcgTarget hostname) heapS _ _ _ hlm
      (emits_create cur n0 hok hostname [lbNameOf mcgTarget hostname] CNAMERecordType ""
        DefaultCnameTTL heapS hlm)
    generalize createOrUpdateEndpoint hostname [lbNameOf mcgTarget hostname] CNAMERecordType ""
      DefaultCnameTTL cur heapS = r at hr ⊢
    obtain ⟨pr, h'⟩ := r
    simp only at hr ⊢
    obtain ⟨rs, rf, rl⟩ := hr
    have hPr : Pin cur heapS.length h' pr (rootEndpointOf hostname (lbNameOf mcgTarget hostname)) := by
      cases rl with
      | cons h1 _ => exact h1
    refine ⟨_, _, rfl, ?_, ?_⟩
    · have := storedUpd_trans cur (lbNameOf mcgTarget hostname) _ _ h heapS h' hSs rs
      simpa [List.append_assoc] using this
    · have h1 : List.Forall₂ (Pin cur h.length h') st.endpoints flat :=
        forall₂_imp_mem hLs (fun p o _ _ hp => pin_keep cur n0 _ heapS h' p o hn hp rf)
      have h2 : Pin cur h.length h' pd (defaultEndpointOf (lbNameOf mcgTarget hostname) g) :=
        pin_keep cur n0 _ heapS h' pd _ hn hPd rf
      have h3 : Pin cur h.length h' pr (rootEndpointOf hostname (lbNameOf mcgTarget hostname)) :=
        pin_mono cur _ _ h' pr _ hlh hPr
      rw [show flat ++ [defaultEndpointOf (lbNameOf mcgTarget hostname) g,
          rootEndpointOf hostname (lbNameOf mcgTarget hostname)] =
        flat ++ [defaultEndpointOf (lbNameOf mcgTarget hostname) g] ++
          [rootEndpointOf hostname (lbNameOf mcgTarget hostname)] by simp]
      exact List.rel_append (List.rel_append h1 (List.Forall₂.cons h2 List.Forall₂.nil))
        (List.Forall₂.cons h3 List.Forall₂.nil)
  · simp only [h0, if_false]
    generalize mcgTarget.GroupTargetsByGeo.foldl (geoStep mcgTarget (lbNameOf mcgTarget hostname) cur)
      { endpoints := [], defaultEndpoint := none, heap := h } = st at hinv ⊢
    obtain ⟨hS, hF, hL, _, _⟩ := hinv
    have hflat : mcgTarget.GroupTargetsByGeo.flatMap (groupOut (lbNameOf mcgTarget hostname)) = [] := by
      apply List.length_eq_zero.mp
      omega
    rw [hflat] at hL
    have hend : st.endpoints = [] := List.forall₂_nil_right_iff.mp hL
    simp only [hend, List.length_nil, gt_iff_lt, lt_self_iff_false, if_false]
    exact ⟨_, _, rfl, hS, List.Forall₂.nil⟩

theorem synthesize_loadbalanced_final (mcgTarget : MultiClusterGatewayTarget) (hostname : String)
    (recordEndpoints : List Endpoint) :
    synthesize mcgTarget hostname .loadbalanced recordEndpoints =
      .ok ((loadBalancedOut mcgTarget hostname).map
        (finalIn recordEndpoints (lbNameOf mcgTarget hostname) (allWrites mcgTarget hostname))) := by
  obtain ⟨ptrs, h', h1, hS, hL⟩ := getLoadBalancedEndpoints_writes (currentEndpointsOf recordEndpoints)
    recordEndpoints.length (mapOK_currentEndpointsOf recordEndpoints) mcgTarget hostname
    recordEndpoints (le_refl _)
  simp only [synthesize, h1]
  congr 1
  clear h1
  generalize loadBalancedOut mcgTarget hostname = outs at hL
  induction hL with
  | nil => rfl
  | @cons p o ps os hpo _ ih =>
    rw [List.map_cons, List.map_cons, ih]
    congr 1
    unfold finalIn
    cases hl : (currentEndpointsOf recordEndpoints).lookup o.SetID with
    | some q =>
      have := hpo.2.1 q hl
      subst this
      exact hS _ _ hl
    | none => exact (hpo.2.2 hl).2

/-! ## What a sequence of writes leaves in a stored endpoint -/

theorem mem_writesTo (lbName k : String) (ws : List Write) (w : Write) :
    w ∈ writesTo lbName k ws ↔ w ∈ ws ∧ w.key lbName = k := by
  unfold writesTo
  rw [List.mem_filter]
  simp

theorem replay_snoc (ws : List Write) (w : Write) (e : Endpoint) :
    replay (ws ++ [w]) e = w.apply (replay ws e) := by
  rw [replay_append]
  rfl

theorem replay_SetIdentifier (ws : List Write) (e : Endpoint) :
    (replay ws e).SetIdentifier = e.SetIdentifier := by
  induction ws using List.reverseRecOn with
  | nil => rfl
  | append_singleton ws w ih =>
    rw [replay_snoc]
    cases w with
    | value o => exact ih
    | star => exact ih

theorem replay_fields (ws : List Write) (e : Endpoint) (h : ∃ o, Write.value o ∈ ws) :
    ∃ o, Write.value o ∈ ws ∧ (replay ws e).DNSName = o.DNSName ∧
      (replay ws e).RecordType = o.RecordType ∧ (replay ws e).Targets = o.Targets ∧
      (replay ws e).RecordTTL = o.RecordTTL := by
  induction ws using List.reverseRecOn with
  | nil =>
    obtain ⟨o, ho⟩ := h
    simp at ho
  | append_singleton ws w ih =>
    rw [replay_snoc]
    cases w with
    | value o => exact ⟨o, by simp, rfl, rfl, rfl, rfl⟩
    | star =>
      have h1 : ∃ o, Write.value o ∈ ws := by
        obtain ⟨o, ho⟩ := h
        simp only [List.mem_append, List.mem_singleton] at ho
        rcases ho with ho | ho
        · exact ⟨o, ho⟩
        · cases ho
      obtain ⟨o, ho, h2⟩ := ih h1
      exact ⟨o, List.mem_append_left _ ho, h2⟩

theorem getProviderSpecific_star (e : Endpoint) :
    (Write.star.apply e).GetProviderSpecific "geo-code" = some "*" :=
  find?_setProperty_eq "geo-code" "*" e.ProviderSpecific

theorem getProviderSpecific_star_ne (e : Endpoint) (n : String) (hn : n ≠ "geo-code") :
    (Write.star.apply e).GetProviderSpecific n = e.GetProviderSpecific n :=
  getProviderSpecific_set_ne e "geo-code" "*" n hn

theorem replay_getProviderSpecific_keep (ws : List Write) (e : Endpoint) (n : String)
    (hv : ∀ o, Write.value o ∈ ws → ∀ a ∈ o.ProviderSpecific, a.Name ≠ n)
    (hs : Write.star ∈ ws → n ≠ "geo-code") :
    (replay ws e).GetProviderSpecific n = e.GetProviderSpecific n := by
  induction ws using List.reverseRecOn with
  | nil => rfl
  | append_singleton ws w ih =>
    rw [replay_snoc]
    have ih1 := ih (fun o ho => hv o (List.mem_append_left _ ho))
      (fun h => hs (List.mem_append_left _ h))
    cases w with
    | value o =>
      rw [← ih1]
      exact getProviderSpecific_reuse_other _ o n (hv o (by simp))
    | star =>
      rw [← ih1]
      exact getProviderSpecific_star_ne _ n (hs (by simp))

theorem replay_getProviderSpecific_set (ws : List Write) (e : Endpoint) (n v : String)
    (hv : ∀ o, Write.value o ∈ ws →
      (∀ a ∈ o.ProviderSpecific, a.Name ≠ n) ∨ o.ProviderSpecific = [{ Name := n, Value := v }])
    (hs : Write.star ∈ ws → n ≠ "geo-code" ∨ (n = "geo-code" ∧ v = "*"))
    (hex : (∃ o, Write.value o ∈ ws ∧ o.ProviderSpecific = [{ Name := n, Value := v }]) ∨
      (Write.star ∈ ws ∧ n = "geo-code" ∧ v = "*")) :
    (replay ws e).GetProviderSpecific n = some v := by
  induction ws using List.reverseRecOn with
  | nil =>
    rcases hex with ⟨o, ho, _⟩ | ⟨ho, _⟩
    · simp at ho
    · simp at ho
  | append_singleton ws w ih =>
    rw [replay_snoc]
    have hv1 : ∀ o, Write.value o ∈ ws →
        (∀ a ∈ o.ProviderSpecific, a.Name ≠ n) ∨ o.ProviderSpecific = [{ Name := n, Value := v }] :=
      fun o ho => hv o (List.mem_append_left _ ho)
    have hs1 : Write.star ∈ ws → n ≠ "geo-code" ∨ (n = "geo-code" ∧ v = "*") :=
      fun h => hs (List.mem_append_left _ h)
    cases w with
    | value o =>
      rcases hv o (by simp) with hk | hset
      · have hex1 : (∃ o, Write.value o ∈ ws ∧ o.ProviderSpecific = [{ Name := n, Value := v }]) ∨
            (Write.star ∈ ws ∧ n = "geo-code" ∧ v = "*") := by
          rcases hex with ⟨o', ho', hp⟩ | ⟨ho, h2⟩
          · simp only [List.mem_append, List.mem_singleton] at ho'
            rcases ho' with ho' | ho'
            · exact Or.inl ⟨o', ho', hp⟩
            · injection ho' with ho'
              subst ho'
              rw [hp] at hk
              exact absurd rfl (hk _ (List.mem_singleton_self _))
          · simp only [List.mem_append, List.mem_singleton] at ho
            rcases ho with ho | ho
            · exact Or.inr ⟨ho, h2⟩
            · cases ho
        rw [← ih hv1 hs1 hex1]
        exact getProviderSpecific_reuse_other _ o n hk
      · exact getProviderSpecific_reuse_set _ o n v hset
    | star =>
      rcases hs (by simp) with hne | ⟨h1, h2⟩
      · have hex1 : (∃ o, Write.value o ∈ ws ∧ o.ProviderSpecific = [{ Name := n, Value := v }]) ∨
            (Write.star ∈ ws ∧ n = "geo-code" ∧ v = "*") := by
          rcases hex with ⟨o', ho', hp⟩ | ⟨_, h2, _⟩
          · simp only [List.mem_append, List.mem_singleton] at ho'
            rcases ho' with ho' | ho'
            · exact Or.inl ⟨o', ho', hp⟩
            · cases ho'
          · exact absurd h2 hne
        rw [← ih hv1 hs1 hex1]
        exact getProviderSpecific_star_ne _ n hne
      · subst h1 h2
        exact getProviderSpecific_star _

theorem mem_groupWrites (defaultGeo lbName : String) (d : Option String)
    (entry : String × List ClusterGatewayTarget) (w : Write)
    (hw : w ∈ groupWrites defaultGeo lbName d entry) :
    groupClusterOut lbName entry ≠ [] ∧
      (w = Write.value (defaultEndpointRaw lbName entry.1) ∨
        ∃ o ∈ groupOut lbName entry, w = Write.value o) := by
  unfold groupWrites at hw
  unfold groupOut
  by_cases h0 : (groupClusterOut lbName entry).length = 0
  · simp [h0] at hw
  · simp only [h0, if_false] at hw ⊢
    refine ⟨fun h => h0 (by rw [h]; rfl), ?_⟩
    rcases List.mem_append.mp hw with h1 | h1
    · obtain ⟨o, ho, rfl⟩ := List.mem_map.mp h1
      exact Or.inr ⟨o, List.mem_append_left _ ho, rfl⟩
    · cases hd : IsDefaultCode entry.1 with
      | true =>
        simp only [hd, if_true, List.mem_singleton] at h1
        exact Or.inl h1
      | false =>
        simp only [hd, Bool.false_eq_true, if_false, List.mem_cons] at h1 ⊢
        rcases h1 with h1 | h1
        · exact Or.inr ⟨_, List.mem_append_right _ (List.mem_singleton_self _), h1⟩
        · by_cases hc : entry.1 = defaultGeo ∨ d = none
          · simp only [hc, if_true, List.mem_singleton] at h1
            exact Or.inl h1
          · simp only [hc, if_false, List.not_mem_nil] at h1

theorem value_mem_groupWrites (defaultGeo lbName : String) (d : Option String)
    (entry : String × List ClusterGatewayTarget) (o : Endpoint) (ho : o ∈ groupOut lbName entry) :
    Write.value o ∈ groupWrites defaultGeo lbName d entry := by
  unfold groupOut at ho
  unfold groupWrites
  by_cases h0 : (groupClusterOut lbName entry).length = 0
  · simp [h0] at ho
  · simp only [h0, if_false] at ho ⊢
    rcases List.mem_append.mp ho with h1 | h1
    · exact List.mem_append_left _ (List.mem_map_of_mem _ h1)
    · apply List.mem_append_right
      cases hd : IsDefaultCode entry.1 with
      | true => simp [hd] at h1
      | false =>
        simp only [hd, Bool.false_eq_true, if_false, List.mem_singleton] at h1 ⊢
        subst h1
        exact List.mem_cons_self _ _

theorem mem_loopWrites (defaultGeo lbName : String) (gs : List (String × List ClusterGatewayTarget))
    (d : Option String) (w : Write) (hw : w ∈ loopWrites defaultGeo lbName d gs) :
    (∃ entry ∈ gs, groupClusterOut lbName entry ≠ [] ∧
        w = Write.value (defaultEndpointRaw lbName entry.1)) ∨
      ∃ o ∈ gs.flatMap (groupOut lbName), w = Write.value o := by
  induction gs generalizing d with
  | nil => simp [loopWrites] at hw
  | cons entry gs ih =>
    simp only [loopWrites, List.mem_append] at hw
    rcases hw with hw | hw
    · obtain ⟨hne, h | ⟨o, ho, h⟩⟩ := mem_groupWrites defaultGeo lbName d entry w hw
      · exact Or.inl ⟨entry, List.mem_cons_self _ _, hne, h⟩
      · exact Or.inr ⟨o, by rw [List.flatMap_cons]; exact List.mem_append_left _ ho, h⟩
    · rcases ih _ hw with ⟨e, he, hne, h⟩ | ⟨o, ho, h⟩
      · exact Or.inl ⟨e, List.mem_cons_of_mem _ he, hne, h⟩
      · exact Or.inr ⟨o, by rw [List.flatMap_cons]; exact List.mem_append_right _ ho, h⟩

theorem value_mem_loopWrites (defaultGeo lbName : String) (gs : List (String × List ClusterGatewayTarget))
    (d : Option String) (o : Endpoint) (ho : o ∈ gs.flatMap (groupOut lbName)) :
    Write.value o ∈ loopWrites defaultGeo lbName d gs := by
  induction gs generalizing d with
  | nil => simp at ho
  | cons entry gs ih =>
    rw [List.flatMap_cons] at ho
    simp only [loopWrites, List.mem_append]
    rcases List.mem_append.mp ho with ho | ho
    · exact Or.inl (value_mem_groupWrites defaultGeo lbName d entry o ho)
    · exact Or.inr (ih _ ho)

theorem raw_mem_loopWrites (defaultGeo lbName : String) (gs : List (String × List ClusterGatewayTarget))
    (h : gs.flatMap (groupOut lbName) ≠ []) :
    ∃ g, Write.value (defaultEndpointRaw lbName g) ∈ loopWrites defaultGeo lbName none gs := by
  induction gs with
  | nil => exact absurd rfl h
  | cons entry gs ih =>
    simp only [loopWrites, List.mem_append]
    by_cases h0 : (groupClusterOut lbName entry).length = 0
    · have hg : groupOut lbName entry = [] := by simp [groupOut, h0]
      have hd : defaultGeoStep defaultGeo lbName none entry = none := by simp [defaultGeoStep, h0]
      rw [List.flatMap_cons, hg, List.nil_append] at h
      obtain ⟨g, hg⟩ := ih h
      exact ⟨g, Or.inr (by rw [hd]; exact hg)⟩
    · refine ⟨entry.1, Or.inl ?_⟩
      unfold groupWrites
      simp only [h0, if_false]
      apply List.mem_append_right
      cases hd : IsDefaultCode entry.1 with
      | true => simp
      | false => simp

theorem loadBalancedOut_of_flat (mcgTarget : MultiClusterGatewayTarget) (hostname : String)
    (h : mcgTarget.GroupTargetsByGeo.flatMap (groupOut (lbNameOf mcgTarget hostname)) ≠ []) :
    ∃ g, defaultGeoOf mcgTarget (lbNameOf mcgTarget hostname) = some g ∧
      loadBalancedOut mcgTarget hostname =
        mcgTarget.GroupTargetsByGeo.flatMap (groupOut (lbNameOf mcgTarget hostname)) ++
          [defaultEndpointOf (lbNameOf mcgTarget hostname) g,
            rootEndpointOf hostname (lbNameOf mcgTarget hostname)] := by
  have hd : defaultGeoOf mcgTarget (lbNameOf mcgTarget hostname) ≠ none :=
    foldl_defaultGeoStep_ne_none mcgTarget.GetDefaultGeo (lbNameOf mcgTarget hostname)
      mcgTarget.GroupTargetsByGeo none (Or.inr h)
  obtain ⟨g, hg⟩ := Option.ne_none_iff_exists'.mp hd
  refine ⟨g, hg, ?_⟩
  unfold loadBalancedOut
  have hpos : (mcgTarget.GroupTargetsByGeo.flatMap (groupOut (lbNameOf mcgTarget hostname))).length > 0 :=
    List.length_pos.mpr h
  simp only [hpos, if_true, hg]

theorem flat_of_loadBalancedOut (mcgTarget : MultiClusterGatewayTarget) (hostname : String)
    (h : loadBalancedOut mcgTarget hostname ≠ []) :
    mcgTarget.GroupTargetsByGeo.flatMap (groupOut (lbNameOf mcgTarget hostname)) ≠ [] := by
  intro h0
  apply h
  unfold loadBalancedOut
  simp [h0]

theorem allWrites_of_flat (mcgTarget : MultiClusterGatewayTarget) (hostname : String)
    (h : mcgTarget.GroupTargetsByGeo.flatMap (groupOut (lbNameOf mcgTarget hostname)) ≠ []) :
    allWrites mcgTarget hostname =
      loopWrites mcgTarget.GetDefaultGeo (lbNameOf mcgTarget hostname) none mcgTarget.GroupTargetsByGeo ++
        [Write.star, Write.value (rootEndpointOf hostname (lbNameOf mcgTarget hostname))] := by
  unfold allWrites
  have hpos : (mcgTarget.GroupTargetsByGeo.flatMap (groupOut (lbNameOf mcgTarget hostname))).length > 0 :=
    List.length_pos.mpr h
  simp only [hpos, if_true]

theorem mem_allWrites (mcgTarget : MultiClusterGatewayTarget) (hostname : String) (w : Write)
    (hw : w ∈ allWrites mcgTarget hostname) :
    mcgTarget.GroupTargetsByGeo.flatMap (groupOut (lbNameOf mcgTarget hostname)) ≠ [] ∧
    (w = Write.star ∨
      (∃ entry ∈ mcgTarget.GroupTargetsByGeo, groupClusterOut (lbNameOf mcgTarget hostname) entry ≠ [] ∧
        w = Write.value (defaultEndpointRaw (lbNameOf mcgTarget hostname) entry.1)) ∨
      (∃ o ∈ mcgTarget.GroupTargetsByGeo.flatMap (groupOut (lbNameOf mcgTarget hostname)),
        w = Write.value o) ∨
      w = Write.value (rootEndpointOf hostname (lbNameOf mcgTarget hostname))) := by
  by_cases h : mcgTarget.GroupTargetsByGeo.flatMap (groupOut (lbNameOf mcgTarget hostname)) = []
  · exfalso
    unfold allWrites at hw
    simp only [h, List.length_nil, gt_iff_lt, lt_self_iff_false, if_false] at hw
    rcases mem_loopWrites _ _ _ _ w hw with ⟨entry, he, hne, _⟩ | ⟨o, ho, _⟩
    · have : groupOut (lbNameOf mcgTarget hostname) entry = [] := by
        have := List.flatMap_eq_nil_iff.mp h entry he
        exact this
      apply hne
      unfold groupOut at this
      by_cases h0 : (groupClusterOut (lbNameOf mcgTarget hostname) entry).length = 0
      · exact List.length_eq_zero.mp h0
      · simp only [h0, if_false, List.append_eq_nil] at this
        exact this.1
    · rw [h] at ho
      simp at ho
  · refine ⟨h, ?_⟩
    rw [allWrites_of_flat mcgTarget hostname h] at hw
    rcases List.mem_append.mp hw with hw | hw
    · rcases mem_loopWrites _ _ _ _ w hw with h1 | h1
      · exact Or.inr (Or.inl h1)
      · exact Or.inr (Or.inr (Or.inl h1))
    · simp only [List.mem_cons, List.mem_singleton, List.not_mem_nil, or_false] at hw
      rcases hw with hw | hw
      · exact Or.inl hw
      · exact Or.inr (Or.inr (Or.inr hw))

theorem value_mem_allWrites (mcgTarget : MultiClusterGatewayTarget) (hostname : String) (o : Endpoint)
    (ho : o ∈ mcgTarget.GroupTargetsByGeo.flatMap (groupOut (lbNameOf mcgTarget hostname))) :
    Write.value o ∈ allWrites mcgTarget hostname := by
  rw [allWrites_of_flat mcgTarget hostname (List.ne_nil_of_mem ho)]
  exact List.mem_append_left _ (value_mem_loopWrites _ _ _ _ o ho)

theorem finalIn_cases (recordEndpoints : List Endpoint) (lbName : String) (ws : List Write)
    (o : Endpoint) :
    (finalIn recordEndpoints lbName ws o = o ∧ ∀ s ∈ recordEndpoints, s.SetID ≠ o.SetID) ∨
      ∃ s ∈ recordEndpoints, s.SetID = o.SetID ∧
        finalIn recordEndpoints lbName ws o = replay (writesTo lbName o.SetID ws) s := by
  unfold finalIn
  cases hl : (currentEndpointsOf recordEndpoints).lookup o.SetID with
  | some q =>
    right
    obtain ⟨hq, hk⟩ := currentEndpointsOf_valid recordEndpoints _ q hl
    refine ⟨deref recordEndpoints q, ?_, hk, rfl⟩
    unfold deref
    rw [List.getD_eq_getElem _ _ hq]
    exact List.getElem_mem _
  | none =>
    left
    refine ⟨rfl, fun s hs he => ?_⟩
    obtain ⟨i, hi, hget⟩ := List.getElem_of_mem hs
    have hmem : (s.SetID, i) ∈ currentEndpointsOf recordEndpoints := by
      unfold currentEndpointsOf
      rw [List.mem_reverse, List.mem_map]
      exact ⟨(i, s), List.mk_mem_enum_iff_getElem?.mpr (by rw [List.getElem?_eq_getElem hi, hget]), rfl⟩
    have hne : (currentEndpointsOf recordEndpoints).lookup s.SetID ≠ none := by
      intro hnone
      rw [List.lookup_eq_none_iff] at hnone
      have := hnone _ hmem
      simp at this
    rw [he] at hne
    exact hne hl

theorem mem_map_finalIn (recordEndpoints fresh : List Endpoint) (lbName : String) (ws : List Write)
    (e : Endpoint) (he : e ∈ fresh.map (finalIn recordEndpoints lbName ws)) :
    ∃ o ∈ fresh, e = finalIn recordEndpoints lbName ws o := by
  obtain ⟨o, ho, h⟩ := List.mem_map.mp he
  exact ⟨o, ho, h.symm⟩

theorem synthesize_final (mcgTarget : MultiClusterGatewayTarget) (hostname : String)
    (recordEndpoints fresh : List Endpoint)
    (hfresh : synthesize mcgTarget hostname .loadbalanced [] = .ok fresh) :
    fresh = loadBalancedOut mcgTarget hostname ∧
      synthesize mcgTarget hostname .loadbalanced recordEndpoints =
        .ok (fresh.map (finalIn recordEndpoints (lbNameOf mcgTarget hostname)
          (allWrites mcgTarget hostname))) := by
  rw [synthesize_loadbalanced_nil] at hfresh
  injection hfresh with hfresh
  subst hfresh
  exact ⟨rfl, synthesize_loadbalanced_final mcgTarget hostname recordEndpoints⟩

/-! ## The identity strings of the synthesized endpoints -/

theorem count_dot_toLower (s : String) : (toLower s).data.count '.' = s.data.count '.' :=
  count_dot_map_toLower s.data

theorem count_dot_SetID_clusterOut (lbName geoCode : String) (c : ClusterGatewayTarget) (x : Endpoint)
    (hx : x ∈ clusterOut lbName (geoLbNameOf geoCode lbName) c) :
    lbName.data.count '.' < x.SetID.data.count '.' := by
  obtain ⟨y, hy⟩ := DNSName_clusterOut lbName geoCode c x hx
  unfold Endpoint.SetID
  rw [hy, String.data_append, List.count_append, count_dot_toLower]
  simp only [String.data_append, List.count_append]
  have : List.count '.' ['.'] = 1 := by decide
  rw [this]
  omega

theorem SetID_clusterOut_ne (lbName geoCode : String) (c : ClusterGatewayTarget) (x : Endpoint)
    (hx : x ∈ clusterOut lbName (geoLbNameOf geoCode lbName) c) (t : String)
    (ht : t.data.count '.' = 0) : x.SetID ≠ lbName ++ t := by
  intro h
  have := count_dot_SetID_clusterOut lbName geoCode c x hx
  rw [h, String.data_append, List.count_append] at this
  omega

theorem hostname_ne_lbName_append (mcgTarget : MultiClusterGatewayTarget) (hostname t : String) :
    hostname ≠ lbNameOf mcgTarget hostname ++ t := by
  intro h
  have h1 := congrArg hyphens h
  rw [hyphens_append, hyphens_lbNameOf] at h1
  omega

theorem SetID_rootEndpointOf (hostname lbName : String) :
    (rootEndpointOf hostname lbName).SetID = hostname := by
  unfold Endpoint.SetID rootEndpointOf mkEndpoint
  simp

theorem SetID_geoEndpointOf (lbName geoCode : String) :
    (geoEndpointOf lbName geoCode).SetID = lbName ++ geoCode := rfl

theorem SetID_defaultEndpointRaw (lbName geoCode : String) :
    (defaultEndpointRaw lbName geoCode).SetID = lbName ++ "default" := rfl

theorem SetID_defaultEndpointOf (lbName geoCode : String) :
    (defaultEndpointOf lbName geoCode).SetID = lbName ++ "default" := rfl

theorem flat_subset_loadBalancedOut (mcgTarget : MultiClusterGatewayTarget) (hostname : String)
    (o : Endpoint)
    (ho : o ∈ mcgTarget.GroupTargetsByGeo.flatMap (groupOut (lbNameOf mcgTarget hostname))) :
    o ∈ loadBalancedOut mcgTarget hostname := by
  obtain ⟨g, _, hout⟩ := loadBalancedOut_of_flat mcgTarget hostname (List.ne_nil_of_mem ho)
  rw [hout]
  exact List.mem_append_left _ ho

theorem root_mem_loadBalancedOut (mcgTarget : MultiClusterGatewayTarget) (hostname : String)
    (h : mcgTarget.GroupTargetsByGeo.flatMap (groupOut (lbNameOf mcgTarget hostname)) ≠ []) :
    rootEndpointOf hostname (lbNameOf mcgTarget hostname) ∈ loadBalancedOut mcgTarget hostname := by
  obtain ⟨g, _, hout⟩ := loadBalancedOut_of_flat mcgTarget hostname h
  rw [hout]
  exact List.mem_append_right _ (by simp)

/-- The writes to the identity string of the `default` endpoint are those of
the `default` endpoint: its assignments and its attribute `geo-code = *`. -/
theorem writes_at_default_key (mcgTarget : MultiClusterGatewayTarget) (hostname : String) (w : Write)
    (hw : w ∈ allWrites mcgTarget hostname)
    (hk : w.key (lbNameOf mcgTarget hostname) = lbNameOf mcgTarget hostname ++ "default") :
    w = Write.star ∨
      ∃ entry ∈ mcgTarget.GroupTargetsByGeo, groupClusterOut (lbNameOf mcgTarget hostname) entry ≠ [] ∧
        w = Write.value (defaultEndpointRaw (lbNameOf mcgTarget hostname) entry.1) := by
  obtain ⟨_, h | h | ⟨o, ho, h⟩ | h⟩ := mem_allWrites mcgTarget hostname w hw
  · exact Or.inl h
  · exact Or.inr h
  · exfalso
    subst h
    have hk1 : o.SetID = lbNameOf mcgTarget hostname ++ "default" := hk
    obtain ⟨entry, _, hgo⟩ := List.mem_flatMap.mp ho
    rcases mem_groupOut_cases _ entry o hgo with ⟨c, _, hec⟩ | ⟨rfl, hnd⟩
    · exact SetID_clusterOut_ne _ entry.1 c o hec "default" (by decide) hk1
    · rw [SetID_geoEndpointOf] at hk1
      exact hnd (String_append_left_cancel _ _ _ hk1)
  · exfalso
    subst h
    have hk1 : (rootEndpointOf hostname (lbNameOf mcgTarget hostname)).SetID =
        lbNameOf mcgTarget hostname ++ "default" := hk
    rw [SetID_rootEndpointOf] at hk1
    exact hostname_ne_lbName_append mcgTarget hostname "default" hk1

/-- What the writes leave in a stored endpoint with the identity string of the
`default` endpoint: a CNAME at the LB name with TTL 300 and `geo-code = *` that
targets the geo LB name of a geo group with a cluster endpoint. -/
theorem replay_at_default_key (mcgTarget : MultiClusterGatewayTarget) (hostname : String)
    (s : Endpoint)
    (h : mcgTarget.GroupTargetsByGeo.flatMap (groupOut (lbNameOf mcgTarget hostname)) ≠ []) :
    ∃ entry ∈ mcgTarget.GroupTargetsByGeo, groupClusterOut (lbNameOf mcgTarget hostname) entry ≠ [] ∧
      Write.value (defaultEndpointRaw (lbNameOf mcgTarget hostname) entry.1) ∈
        allWrites mcgTarget hostname ∧
      (replay (writesTo (lbNameOf mcgTarget hostname) (lbNameOf mcgTarget hostname ++ "default")
        (allWrites mcgTarget hostname)) s).DNSName = lbNameOf mcgTarget hostname ∧
      (replay (writesTo (lbNameOf mcgTarget hostname) (lbNameOf mcgTarget hostname ++ "default")
        (allWrites mcgTarget hostname)) s).RecordType = "CNAME" ∧
      (replay (writesTo (lbNameOf mcgTarget hostname) (lbNameOf mcgTarget hostname ++ "default")
        (allWrites mcgTarget hostname)) s).RecordTTL = 300 ∧
      (replay (writesTo (lbNameOf mcgTarget hostname) (lbNameOf mcgTarget hostname ++ "default")
        (allWrites mcgTarget hostname)) s).Targets =
          [toLower (entry.1 ++ "." ++ lbNameOf mcgTarget hostname)] ∧
      (replay (writesTo (lbNameOf mcgTarget hostname) (lbNameOf mcgTarget hostname ++ "default")
        (allWrites mcgTarget hostname)) s).GetProviderSpecific "geo-code" = some "*" := by
  obtain ⟨g, hg⟩ := raw_mem_loopWrites mcgTarget.GetDefaultGeo (lbNameOf mcgTarget hostname)
    mcgTarget.GroupTargetsByGeo h
  have hall := allWrites_of_flat mcgTarget hostname h
  have hraw : Write.value (defaultEndpointRaw (lbNameOf mcgTarget hostname) g) ∈
      writesTo (lbNameOf mcgTarget hostname) (lbNameOf mcgTarget hostname ++ "default")
        (allWrites mcgTarget hostname) := by
    rw [mem_writesTo, hall]
    exact ⟨List.mem_append_left _ hg, rfl⟩
  have hstar : Write.star ∈
      writesTo (lbNameOf mcgTarget hostname) (lbNameOf mcgTarget hostname ++ "default")
        (allWrites mcgTarget hostname) := by
    rw [mem_writesTo, hall]
    exact ⟨List.mem_append_right _ (by simp), rfl⟩
  obtain ⟨o, ho, h1, h2, h3, h4⟩ := replay_fields _ s ⟨_, hraw⟩
  obtain ⟨how, hok⟩ := (mem_writesTo _ _ _ _).mp ho
  rcases writes_at_default_key mcgTarget hostname _ how hok with hc | ⟨entry, he, hne, hc⟩
  · cases hc
  · injection hc with hc
    subst hc
    refine ⟨entry, he, hne, how, h1, h2, h4, h3, ?_⟩
    apply replay_getProviderSpecific_set _ s "geo-code" "*"
    · intro o' ho'
      obtain ⟨how', hok'⟩ := (mem_writesTo _ _ _ _).mp ho'
      rcases writes_at_default_key mcgTarget hostname _ how' hok' with hc | ⟨entry', _, _, hc⟩
      · cases hc
      · injection hc with hc
        subst hc
        left
        intro a ha
        simp [defaultEndpointRaw, mkEndpoint] at ha
    · intro _
      exact Or.inr ⟨rfl, rfl⟩
    · exact Or.inr ⟨hstar, rfl, rfl⟩

/-- When every synthesized endpoint with the identity string of `o` is `o`,
and `o` is no CNAME, all writes to that identity string assign `o`. -/
theorem writes_at_unique_key (mcgTarget : MultiClusterGatewayTarget) (hostname : String)
    (o : Endpoint) (hty : o.RecordType ≠ "CNAME")
    (huniq : ∀ o' ∈ loadBalancedOut mcgTarget hostname, o'.SetID = o.SetID → o' = o)
    (w : Write) (hw : w ∈ writesTo (lbNameOf mcgTarget hostname) o.SetID (allWrites mcgTarget hostname)) :
    w = Write.value o := by
  obtain ⟨how, hok⟩ := (mem_writesTo _ _ _ _).mp hw
  obtain ⟨hflat, hcases⟩ := mem_allWrites mcgTarget hostname w how
  obtain ⟨g, _, hout⟩ := loadBalancedOut_of_flat mcgTarget hostname hflat
  have hdef : defaultEndpointOf (lbNameOf mcgTarget hostname) g ∈ loadBalancedOut mcgTarget hostname := by
    rw [hout]
    exact List.mem_append_right _ (by simp)
  have hnd : o.SetID ≠ lbNameOf mcgTarget hostname ++ "default" := by
    intro hk
    have := huniq _ hdef (by rw [hk]; rfl)
    rw [← this] at hty
    exact hty rfl
  rcases hcases with h | ⟨entry, _, _, h⟩ | ⟨o', ho', h⟩ | h
  · subst h
    exact absurd hok.symm hnd
  · subst h
    exact absurd hok.symm hnd
  · subst h
    rw [huniq o' (flat_subset_loadBalancedOut mcgTarget hostname o' ho') hok]
  · subst h
    rw [huniq _ (root_mem_loadBalancedOut mcgTarget hostname hflat) hok]

theorem replay_all_value (ws : List Write) (o s : Endpoint) (hne : ws ≠ [])
    (hall : ∀ w ∈ ws, w = Write.value o) :
    (replay ws s).DNSName = o.DNSName ∧ (replay ws s).RecordType = o.RecordType ∧
      (replay ws s).Targets = o.Targets ∧ (replay ws s).RecordTTL = o.RecordTTL := by
  obtain ⟨w, hw⟩ := List.exists_mem_of_ne_nil ws hne
  have hv : Write.value o ∈ ws := by
    rw [← hall w hw]
    exact hw
  obtain ⟨o', ho', h⟩ := replay_fields ws s ⟨o, hv⟩
  have := hall _ ho'
  injection this with this
  subst this
  exact h

/-- What the writes leave in a stored endpoint with the identity string of the
geo CNAME of the geo group `geoCode`, when every synthesized endpoint with that
identity string is at the LB name: the fields and the attribute of the geo CNAME. -/
theorem replay_at_geo_key (mcgTarget : MultiClusterGatewayTarget) (hostname geoCode : String)
    (s : Endpoint)
    (hgeo : geoEndpointOf (lbNameOf mcgTarget hostname) geoCode ∈
      mcgTarget.GroupTargetsByGeo.flatMap (groupOut (lbNameOf mcgTarget hostname)))
    (hnd : geoCode ≠ "default")
    (hname : ∀ o ∈ loadBalancedOut mcgTarget hostname,
      o.SetID = lbNameOf mcgTarget hostname ++ geoCode → o.DNSName = lbNameOf mcgTarget hostname) :
    (replay (writesTo (lbNameOf mcgTarget hostname) (lbNameOf mcgTarget hostname ++ geoCode)
        (allWrites mcgTarget hostname)) s).DNSName = lbNameOf mcgTarget hostname ∧
      (replay (writesTo (lbNameOf mcgTarget hostname) (lbNameOf mcgTarget hostname ++ geoCode)
        (allWrites mcgTarget hostname)) s).RecordType = "CNAME" ∧
      (replay (writesTo (lbNameOf mcgTarget hostname) (lbNameOf mcgTarget hostname ++ geoCode)
        (allWrites mcgTarget hostname)) s).Targets =
          [toLower (geoCode ++ "." ++ lbNameOf mcgTarget hostname)] ∧
      (replay (writesTo (lbNameOf mcgTarget hostname) (lbNameOf mcgTarget hostname ++ geoCode)
        (allWrites mcgTarget hostname)) s).RecordTTL = 300 ∧
      (replay (writesTo (lbNameOf mcgTarget hostname) (lbNameOf mcgTarget hostname ++ geoCode)
        (allWrites mcgTarget hostname)) s).GetProviderSpecific "geo-code" = some geoCode := by
  have hall : ∀ w ∈ writesTo (lbNameOf mcgTarget hostname) (lbNameOf mcgTarget hostname ++ geoCode)
      (allWrites mcgTarget hostname),
      w = Write.value (geoEndpointOf (lbNameOf mcgTarget hostname) geoCode) := by
    intro w hw
    obtain ⟨how, hok⟩ := (mem_writesTo _ _ _ _).mp hw
    obtain ⟨hflat, h | ⟨entry, _, _, h⟩ | ⟨o, ho, h⟩ | h⟩ := mem_allWrites mcgTarget hostname w how
    · subst h
      exact absurd (String_append_left_cancel _ _ _ hok).symm hnd
    · subst h
      exact absurd (String_append_left_cancel _ _ _ hok).symm hnd
    · subst h
      have hk : o.SetID = lbNameOf mcgTarget hostname ++ geoCode := hok
      have hn := hname o (flat_subset_loadBalancedOut mcgTarget hostname o ho) hk
      obtain ⟨entry, _, hgo⟩ := List.mem_flatMap.mp ho
      rcases mem_groupOut_cases _ entry o hgo with ⟨c, _, hec⟩ | ⟨rfl, _⟩
      · obtain ⟨y, hy⟩ := DNSName_clusterOut _ entry.1 c o hec
        rw [hy] at hn
        exact absurd hn (prefixed_ne_self _ _)
      · rw [SetID_geoEndpointOf] at hk
        rw [String_append_left_cancel _ _ _ hk]
    · subst h
      have hk : (rootEndpointOf hostname (lbNameOf mcgTarget hostname)).SetID =
          lbNameOf mcgTarget hostname ++ geoCode := hok
      have hn := hname _ (root_mem_loadBalancedOut mcgTarget hostname hflat) hk
      exact absurd hn.symm (lbNameOf_ne_hostname mcgTarget hostname)
  have hmem : Write.value (geoEndpointOf (lbNameOf mcgTarget hostname) geoCode) ∈
      writesTo (lbNameOf mcgTarget hostname) (lbNameOf mcgTarget hostname ++ geoCode)
        (allWrites mcgTarget hostname) :=
    (mem_writesTo _ _ _ _).mpr ⟨value_mem_allWrites mcgTarget hostname _ hgeo, rfl⟩
  obtain ⟨h1, h2, h3, h4⟩ := replay_all_value _ _ s (List.ne_nil_of_mem hmem) hall
  refine ⟨h1, h2, h3, h4, ?_⟩
  apply replay_getProviderSpecific_set _ s "geo-code" geoCode
  · intro o ho
    have := hall _ ho
    injection this with this
    subst this
    exact Or.inr rfl
  · intro h
    have := hall _ h
    cases this
  · exact Or.inl ⟨_, hmem, rfl⟩

theorem geo_mem_flat (mcgTarget : MultiClusterGatewayTarget) (hostname geoCode : String)
    (cgwTargets : List ClusterGatewayTarget)
    (hg : (geoCode, cgwTargets) ∈ mcgTarget.GroupTargetsByGeo) (hd : geoCode ≠ "default")
    (ha : ∃ c ∈ cgwTargets, c.Addresses ≠ []) :
    geoEndpointOf (lbNameOf mcgTarget hostname) geoCode ∈
      mcgTarget.GroupTargetsByGeo.flatMap (groupOut (lbNameOf mcgTarget hostname)) := by
  refine List.mem_flatMap.mpr ⟨(geoCode, cgwTargets), hg, ?_⟩
  unfold groupOut
  have h1 := groupClusterOut_length_pos (lbNameOf mcgTarget hostname) (geoCode, cgwTargets) ha
  have h2 : IsDefaultCode geoCode = false := by simpa [IsDefaultCode, DefaultGeo] using hd
  simp [h1, h2]

/-! ## The writes to the `default` endpoint when no group matches the default geo -/

theorem loopWrites_append (defaultGeo lbName : String)
    (a b : List (String × List ClusterGatewayTarget)) (d : Option String) :
    loopWrites defaultGeo lbName d (a ++ b) =
      loopWrites defaultGeo lbName d a ++
        loopWrites defaultGeo lbName (a.foldl (defaultGeoStep defaultGeo lbName) d) b := by
  induction a generalizing d with
  | nil => rfl
  | cons x a ih =>
    show groupWrites defaultGeo lbName d x ++
        loopWrites defaultGeo lbName (defaultGeoStep defaultGeo lbName d x) (a ++ b) = _
    rw [ih]
    simp only [loopWrites, List.foldl_cons, List.append_assoc]

theorem loopWrites_of_empty (defaultGeo lbName : String)
    (pre : List (String × List ClusterGatewayTarget)) (d : Option String)
    (hpre : ∀ entry ∈ pre, (groupClusterOut lbName entry).length = 0) :
    loopWrites defaultGeo lbName d pre = [] ∧ pre.foldl (defaultGeoStep defaultGeo lbName) d = d := by
  induction pre with
  | nil => exact ⟨rfl, rfl⟩
  | cons x pre ih =>
    have h0 := hpre x (List.mem_cons_self _ _)
    have hg : groupWrites defaultGeo lbName d x = [] := by simp [groupWrites, h0]
    have hs : defaultGeoStep defaultGeo lbName d x = d := by simp [defaultGeoStep, h0]
    obtain ⟨h1, h2⟩ := ih (fun e he => hpre e (List.mem_cons_of_mem _ he))
    simp only [loopWrites, List.foldl_cons, hg, hs, h1, h2, List.append_nil, and_self]

theorem mem_loopWrites_some (defaultGeo lbName : String)
    (gs : List (String × List ClusterGatewayTarget)) (g : String)
    (hno : ∀ entry ∈ gs, (groupClusterOut lbName entry).length ≠ 0 →
      entry.1 ≠ defaultGeo ∧ entry.1 ≠ "default")
    (w : Write) (hw : w ∈ loopWrites defaultGeo lbName (some g) gs) :
    ∃ o ∈ gs.flatMap (groupOut lbName), w = Write.value o := by
  induction gs with
  | nil => simp [loopWrites] at hw
  | cons entry gs ih =>
    simp only [loopWrites, List.mem_append] at hw
    have hs : defaultGeoStep defaultGeo lbName (some g) entry = some g := by
      unfold defaultGeoStep
      by_cases h0 : (groupClusterOut lbName entry).length = 0
      · simp [h0]
      · obtain ⟨h1, h2⟩ := hno entry (List.mem_cons_self _ _) h0
        have h3 : IsDefaultCode entry.1 = false := by simpa [IsDefaultCode, DefaultGeo] using h2
        simp [h0, h1, h3]
    rw [hs] at hw
    rcases hw with hw | hw
    · by_cases h0 : (groupClusterOut lbName entry).length = 0
      · simp [groupWrites, h0] at hw
      · obtain ⟨h1, h2⟩ := hno entry (List.mem_cons_self _ _) h0
        have h3 : IsDefaultCode entry.1 = false := by simpa [IsDefaultCode, DefaultGeo] using h2
        unfold groupWrites at hw
        simp only [h0, if_false, h3, Bool.false_eq_true, h1, false_or, List.mem_append,
          List.mem_map, List.mem_cons] at hw
        simp only [reduceCtorEq, if_false, List.not_mem_nil, or_false] at hw
        have hsub : ∀ o ∈ groupOut lbName entry, o ∈ (entry :: gs).flatMap (groupOut lbName) := by
          intro o ho
          rw [List.flatMap_cons]
          exact List.mem_append_left _ ho
        rcases hw with ⟨a, ha, rfl⟩ | rfl
        · refine ⟨a, hsub a ?_, rfl⟩
          unfold groupOut
          simp only [h0, if_false]
          exact List.mem_append_left _ ha
        · refine ⟨_, hsub _ ?_, rfl⟩
          unfold groupOut
          simp [h0, h3]
    · obtain ⟨o, ho, h⟩ := ih (fun e he => hno e (List.mem_cons_of_mem _ he)) hw
      exact ⟨o, by rw [List.flatMap_cons]; exact List.mem_append_right _ ho, h⟩

theorem mem_allWrites_first (mcgTarget : MultiClusterGatewayTarget) (hostname : String)
    (pre post : List (String × List ClusterGatewayTarget)) (first : String × List ClusterGatewayTarget)
    (hgroups : mcgTarget.GroupTargetsByGeo = pre ++ first :: post)
    (hpre : ∀ entry ∈ pre, ∀ c ∈ entry.2, c.Addresses = [])
    (hfirst : ∃ c ∈ first.2, c.Addresses ≠ [])
    (hno : ∀ entry ∈ mcgTarget.GroupTargetsByGeo, (∃ c ∈ entry.2, c.Addresses ≠ []) →
      entry.1 ≠ mcgTarget.GetDefaultGeo)
    (hnd : ∀ entry ∈ mcgTarget.GroupTargetsByGeo, entry.1 ≠ "default")
    (w : Write) (hw : w ∈ allWrites mcgTarget hostname) :
    w = Write.star ∨ w = Write.value (defaultEndpointRaw (lbNameOf mcgTarget hostname) first.1) ∨
      ∃ o ∈ loadBalancedOut mcgTarget hostname, w = Write.value o := by
  obtain ⟨hflat, _⟩ := mem_allWrites mcgTarget hostname w hw
  rw [allWrites_of_flat mcgTarget hostname hflat] at hw
  rcases List.mem_append.mp hw with hw | hw
  · have hpre0 : ∀ entry ∈ pre, (groupClusterOut (lbNameOf mcgTarget hostname) entry).length = 0 := by
      intro entry hm
      by_contra h0
      obtain ⟨c, hc, ha⟩ := exists_address_of_groupClusterOut _ entry h0
      exact ha (hpre entry hm c hc)
    have hf0 := groupClusterOut_length_pos (lbNameOf mcgTarget hostname) first hfirst
    have hfm : first ∈ mcgTarget.GroupTargetsByGeo := by rw [hgroups]; simp
    have hf3 : IsDefaultCode first.1 = false := by
      simpa [IsDefaultCode, DefaultGeo] using hnd first hfm
    obtain ⟨e1, e2⟩ := loopWrites_of_empty mcgTarget.GetDefaultGeo (lbNameOf mcgTarget hostname) pre
      none hpre0
    have hs : defaultGeoStep mcgTarget.GetDefaultGeo (lbNameOf mcgTarget hostname) none first =
        some first.1 := by
      simp [defaultGeoStep, hf0, hf3]
    have hflatmem : ∀ o, o ∈ groupOut (lbNameOf mcgTarget hostname) first ∨
        o ∈ post.flatMap (groupOut (lbNameOf mcgTarget hostname)) →
        o ∈ loadBalancedOut mcgTarget hostname := by
      intro o ho
      apply flat_subset_loadBalancedOut
      rw [hgroups, List.flatMap_append, List.flatMap_cons]
      exact List.mem_append_right _ (List.mem_append.mpr ho)
    rw [hgroups, loopWrites_append, e1, e2, List.nil_append] at hw
    simp only [loopWrites, hs, List.mem_append] at hw
    rcases hw with hw | hw
    · obtain ⟨_, h | ⟨o, ho, h⟩⟩ := mem_groupWrites _ _ _ first w hw
      · exact Or.inr (Or.inl h)
      · exact Or.inr (Or.inr ⟨o, hflatmem o (Or.inl ho), h⟩)
    · obtain ⟨o, ho, h⟩ := mem_loopWrites_some mcgTarget.GetDefaultGeo (lbNameOf mcgTarget hostname)
        post first.1 (fun entry hm h0 =>
          have hm' : entry ∈ mcgTarget.GroupTargetsByGeo := by rw [hgroups]; simp [hm]
          ⟨hno entry hm' (exists_address_of_groupClusterOut _ entry h0), hnd entry hm'⟩) w hw
      exact Or.inr (Or.inr ⟨o, hflatmem o (Or.inr ho), h⟩)
  · simp only [List.mem_cons, List.mem_singleton, List.not_mem_nil, or_false] at hw
    rcases hw with hw | hw
    · exact Or.inl hw
    · exact Or.inr (Or.inr ⟨_, root_mem_loadBalancedOut mcgTarget hostname hflat, hw⟩)

theorem exists_value_at_key (mcgTarget : MultiClusterGatewayTarget) (hostname : String) (o : Endpoint)
    (ho : o ∈ loadBalancedOut mcgTarget hostname) :
    ∃ o', Write.value o' ∈
      writesTo (lbNameOf mcgTarget hostname) o.SetID (allWrites mcgTarget hostname) := by
  have hne : loadBalancedOut mcgTarget hostname ≠ [] := List.ne_nil_of_mem ho
  have hflat := flat_of_loadBalancedOut mcgTarget hostname hne
  obtain ⟨g, _, hout⟩ := loadBalancedOut_of_flat mcgTarget hostname hflat
  rw [hout] at ho
  rcases List.mem_append.mp ho with ho | ho
  · exact ⟨o, (mem_writesTo _ _ _ _).mpr ⟨value_mem_allWrites mcgTarget hostname o ho, rfl⟩⟩
  · simp only [List.mem_cons, List.mem_singleton, List.not_mem_nil, or_false] at ho
    rcases ho with rfl | rfl
    · obtain ⟨g', hg'⟩ := raw_mem_loopWrites mcgTarget.GetDefaultGeo (lbNameOf mcgTarget hostname)
        mcgTarget.GroupTargetsByGeo hflat
      refine ⟨defaultEndpointRaw (lbNameOf mcgTarget hostname) g',
        (mem_writesTo _ _ _ _).mpr ⟨?_, rfl⟩⟩
      rw [allWrites_of_flat mcgTarget hostname hflat]
      exact List.mem_append_left _ hg'
    · refine ⟨_, (mem_writesTo _ _ _ _).mpr ⟨?_, rfl⟩⟩
      rw [allWrites_of_flat mcgTarget hostname hflat]
      exact List.mem_append_right _ (by simp)

/-! ## Where an attribute of a replayed endpoint comes from -/

/-- C10 (amended): for every load-balanced target, every record, and every geo
group `G` other than the synthetic `default` that has a cluster with an address,
when every endpoint of the record whose identity string DNSName+SetIdentifier is
the LB name followed by `G` has the set-identifier `G` and, if the record holds
such an endpoint, every endpoint a synthesis on an empty record produces with
that identity string has the LB name as its DNS name, the output contains a
CNAME endpoint at the LB name with set-identifier `G`, the attribute `geo-code`
equal to `G`, TTL 300 and the single target `lowercase(G).lbName`. -/
theorem C10_geo_cname_per_group (mcgTarget : MultiClusterGatewayTarget) (hostname geoCode : String)
    (cgwTargets : List ClusterGatewayTarget) (recordEndpoints fresh : List Endpoint)
    (hg : (geoCode, cgwTargets) ∈ mcgTarget.GroupTargetsByGeo) (hd : geoCode ≠ "default")
    (ha : ∃ c ∈ cgwTargets, c.Addresses ≠ [])
    (hfresh : synthesize mcgTarget hostname .loadbalanced [] = .ok fresh)
    (hid : ∀ s ∈ recordEndpoints, s.SetID = lbNameOf mcgTarget hostname ++ geoCode →
      s.SetIdentifier = geoCode ∧
        ∀ o ∈ fresh, o.SetID = lbNameOf mcgTarget hostname ++ geoCode →
          o.DNSName = lbNameOf mcgTarget hostname) :
    ∃ out, synthesize mcgTarget hostname .loadbalanced recordEndpoints = .ok out ∧
      ∃ e ∈ out, e.RecordType = "CNAME" ∧ e.DNSName = lbNameOf mcgTarget hostname ∧
        e.SetIdentifier = geoCode ∧ e.GetProviderSpecific "geo-code" = some geoCode ∧
        e.RecordTTL = 300 ∧ e.Targets = [toLower (geoCode ++ "." ++ lbNameOf mcgTarget hostname)] := by
  obtain ⟨hf, hsyn⟩ := synthesize_final mcgTarget hostname recordEndpoints fresh hfresh
  subst hf
  have hgeo := geo_mem_flat mcgTarget hostname geoCode cgwTargets hg hd ha
  refine ⟨_, hsyn, _, List.mem_map_of_mem _
    (flat_subset_loadBalancedOut mcgTarget hostname _ hgeo), ?_⟩
  rcases finalIn_cases recordEndpoints (lbNameOf mcgTarget hostname) (allWrites mcgTarget hostname)
    (geoEndpointOf (lbNameOf mcgTarget hostname) geoCode) with ⟨h, _⟩ | ⟨s, hs, hk, h⟩
  · rw [h]
    exact ⟨rfl, rfl, rfl, rfl, rfl, rfl⟩
  · rw [h]
    obtain ⟨h1, h2⟩ := hid s hs hk
    obtain ⟨r1, r2, r3, r4, r5⟩ := replay_at_geo_key mcgTarget hostname geoCode s hgeo hd h2
    exact ⟨r2, r1, by rw [replay_SetIdentifier]; exact h1, r5, r4, r3⟩

theorem C10_geo_cname_per_group_witness :
    ((("ES", [clusterTwo 160]) ∈ customWeightsTarget.GroupTargetsByGeo ∧ "ES" ≠ "default" ∧
        ∃ c ∈ [clusterTwo 160], c.Addresses ≠ []) ∧
      synthesize customWeightsTarget "test.example.com" .loadbalanced [] =
        .ok (loadBalancedOut customWeightsTarget "test.example.com") ∧
      ∀ s ∈ customWeightsRecord,
        s.SetID = lbNameOf customWeightsTarget "test.example.com" ++ "ES" →
          s.SetIdentifier = "ES" ∧
            ∀ o ∈ loadBalancedOut customWeightsTarget "test.example.com",
              o.SetID = lbNameOf customWeightsTarget "test.example.com" ++ "ES" →
                o.DNSName = lbNameOf customWeightsTarget "test.example.com") ∧
    ∃ out, synthesize customWeightsTarget "test.example.com" .loadbalanced customWeightsRecord = .ok out ∧
      ∃ e ∈ out, e.RecordType = "CNAME" ∧ e.DNSName = lbNameOf customWeightsTarget "test.example.com" ∧
        e.SetIdentifier = "ES" ∧ e.GetProviderSpecific "geo-code" = some "ES" ∧
        e.RecordTTL = 300 ∧
        e.Targets = [toLower ("ES" ++ "." ++ lbNameOf customWeightsTarget "test.example.com")] :=
  ⟨⟨⟨by decide, by decide, clusterTwo 160, by decide, by decide⟩, synthesize_loadbalanced_nil _ _,
      by decide⟩,
    C10_geo_cname_per_group customWeightsTarget "test.example.com" "ES" [clusterTwo 160]
      customWeightsRecord (loadBalancedOut customWeightsTarget "test.example.com") (by decide) (by decide)
      ⟨clusterTwo 160, by decide, by decide⟩ (synthesize_loadbalanced_nil _ _) (by decide)⟩

/-- C10 as stated fails in two ways.  On the record that holds one endpoint
with DNS name `lb-abc123.test.example.comE` and set-identifier `S`, whose
identity string is that of the geo CNAME of `ES`, the builder reuses it for the
geo CNAME of `ES` and keeps its set-identifier, so the output of
`customWeightsTarget`, whose geo group `ES` has a cluster with an address, has
no endpoint with the set-identifier `ES`.  For `dottedGeoTarget` the geo CNAME
of the first geo group and the A record of the cluster `clusterAtLbName` have
one identity string; on the record that holds that geo CNAME both calls of
`createOrUpdateEndpoint` return the stored object, the A record is written
last, and the output has no CNAME with the set-identifier of the first group. -/
theorem C10_counterexample :
    ("ES", [clusterTwo 160]) ∈ customWeightsTarget.GroupTargetsByGeo ∧
    (∃ c ∈ [clusterTwo 160], c.Addresses ≠ []) ∧
    (synthesize customWeightsTarget "test.example.com" .loadbalanced splitGeoRecord).toOption.map
        (fun out => (out.filter (fun e => e.DNSName == "lb-abc123.test.example.com")).map
          (fun e => (e.RecordType, e.SetIdentifier, e.GetProviderSpecific "geo-code", e.Targets))) =
      some [("CNAME", "IE", some "IE", ["ie.lb-abc123.test.example.com"]),
        ("CNAME", "S", some "ES", ["es.lb-abc123.test.example.com"]),
        ("CNAME", "default", some "*", ["ie.lb-abc123.test.example.com"])] ∧
    (synthesize customWeightsTarget "test.example.com" .loadbalanced splitGeoRecord).toOption.map
        (fun out => decide (∃ e ∈ out, e.SetIdentifier = "ES")) = some false ∧
    (".lb-abc123.test.example.com", [clusterTwo 120]) ∈ dottedGeoTarget.GroupTargetsByGeo ∧
    (∃ c ∈ [clusterTwo 120], c.Addresses ≠ []) ∧
    (∀ s ∈ dottedGeoRecord,
      s.SetID = lbNameOf dottedGeoTarget "test.example.com" ++ ".lb-abc123.test.example.com" →
        s.SetIdentifier = ".lb-abc123.test.example.com") ∧
    (synthesize dottedGeoTarget "test.example.com" .loadbalanced dottedGeoRecord).toOption.map
        (fun out => (out.filter (fun e => e.SetIdentifier == ".lb-abc123.test.example.com")).map
          (fun e => (e.RecordType, e.DNSName, e.Targets))) =
      some [("A", "lb-abc123.test.example.com.lb-abc123.test.example.com", ["172.0.0.3"]),
        ("A", "lb-abc123.test.example.com.lb-abc123.test.example.com", ["172.0.0.3"])] ∧
    (synthesize dottedGeoTarget "test.example.com" .loadbalanced dottedGeoRecord).toOption.map
        (fun out => decide (∃ e ∈ out, e.RecordType = "CNAME" ∧
          e.SetIdentifier = ".lb-abc123.test.example.com")) = some false :=
  ⟨by decide, by decide, by decide, by decide, by decide, by decide, by decide, by decide, by decide⟩

/-! ## The A records on a record with prior endpoints (C11) -/

/-- C11 (amended): for every load-balanced target and every record, when every
endpoint of the record that shares its identity string DNSName+SetIdentifier
with an A record that a synthesis on an empty record produces has an empty
set-identifier, and that A record is then the only endpoint of that synthesis
with this identity string, every A endpoint of the output belongs to a cluster
`c` with at least one IP address: its DNS name is
`lowercase(c.shortCode.lbName)`, its targets are the values of the IP
addresses of `c` in order (each the value of an address of type `IPAddress`),
its TTL is 60 and its set-identifier is empty; and every cluster with at least
one IP address has such an endpoint. -/
theorem C11_a_record_per_ip_cluster (mcgTarget : MultiClusterGatewayTarget) (hostname : String)
    (recordEndpoints fresh : List Endpoint)
    (hfresh : synthesize mcgTarget hostname .loadbalanced [] = .ok fresh)
    (hid : ∀ s ∈ recordEndpoints, ∀ o ∈ fresh, o.RecordType = "A" → s.SetID = o.SetID →
      s.SetIdentifier = "" ∧ ∀ o' ∈ fresh, o'.SetID = o.SetID → o' = o) :
    ∃ out, synthesize mcgTarget hostname .loadbalanced recordEndpoints = .ok out ∧
      (∀ e ∈ out, e.RecordType = "A" →
        ∃ entry ∈ mcgTarget.GroupTargetsByGeo, ∃ c ∈ entry.2,
          (∃ a ∈ c.Addresses, a.AddressType = "IPAddress") ∧
          e.DNSName = toLower (c.GetShortCode ++ "." ++ lbNameOf mcgTarget hostname) ∧
          e.Targets = (c.Addresses.filter (fun a => a.AddressType == "IPAddress")).map (fun a => a.Value) ∧
          e.RecordTTL = 60 ∧ e.SetIdentifier = "" ∧
          ∀ t ∈ e.Targets, ∃ a ∈ c.Addresses, a.AddressType = "IPAddress" ∧ a.Value = t) ∧
      (∀ entry ∈ mcgTarget.GroupTargetsByGeo, ∀ c ∈ entry.2,
        (∃ a ∈ c.Addresses, a.AddressType = "IPAddress") →
          ∃ e ∈ out, e.RecordType = "A" ∧
            e.DNSName = toLower (c.GetShortCode ++ "." ++ lbNameOf mcgTarget hostname) ∧
            e.Targets = (c.Addresses.filter (fun a => a.AddressType == "IPAddress")).map (fun a => a.Value) ∧
            e.RecordTTL = 60 ∧ e.SetIdentifier = "") := by
  obtain ⟨hf, hsyn⟩ := synthesize_final mcgTarget hostname recordEndpoints fresh hfresh
  obtain ⟨out0, h0, hA, hB⟩ := a_records_of_first_synthesis mcgTarget hostname
  rw [hfresh] at h0
  injection h0 with h0
  subst h0
  subst hf
  refine ⟨_, hsyn, ?_, ?_⟩
  · intro e he hty
    obtain ⟨o', ho', rfl⟩ := mem_map_finalIn _ _ _ _ e he
    rcases finalIn_cases recordEndpoints (lbNameOf mcgTarget hostname) (allWrites mcgTarget hostname)
      o' with ⟨h, _⟩ | ⟨s, hs, hk, h⟩
    · rw [h] at hty ⊢
      exact hA o' ho' hty
    · rw [h] at hty ⊢
      obtain ⟨o, ho, f1, f2, f3, f4⟩ := replay_fields _ s (exists_value_at_key mcgTarget hostname o' ho')
      obtain ⟨how, hok⟩ := (mem_writesTo _ _ _ _).mp ho
      rw [f2] at hty
      have hom : o ∈ loadBalancedOut mcgTarget hostname := by
        obtain ⟨hflat, hc | ⟨entry', _, _, hc⟩ | ⟨o3, ho3, hc⟩ | hc⟩ :=
          mem_allWrites mcgTarget hostname _ how
        · cases hc
        · injection hc with hc
          subst hc
          exact absurd hty (show "CNAME" ≠ "A" by decide)
        · injection hc with hc
          subst hc
          exact flat_subset_loadBalancedOut mcgTarget hostname o ho3
        · injection hc with hc
          subst hc
          exact root_mem_loadBalancedOut mcgTarget hostname hflat
      obtain ⟨entry, hentry, c, hc, hip, h1, h2, h3, _, h5⟩ := hA o hom hty
      refine ⟨entry, hentry, c, hc, hip, ?_, ?_, ?_, ?_, ?_⟩
      · rw [f1]; exact h1
      · rw [f3]; exact h2
      · rw [f4]; exact h3
      · rw [replay_SetIdentifier]
        exact (hid s hs o hom hty (hk.trans hok.symm)).1
      · rw [f3]; exact h5
  · intro entry hentry c hc hip
    obtain ⟨o, ho, h1, h2, h3, h4, h5⟩ := hB entry hentry c hc hip
    refine ⟨_, List.mem_map_of_mem _ ho, ?_⟩
    rcases finalIn_cases recordEndpoints (lbNameOf mcgTarget hostname) (allWrites mcgTarget hostname)
      o with ⟨h, _⟩ | ⟨s, hs, hk, h⟩
    · rw [h]
      exact ⟨h1, h2, h3, h4, h5⟩
    · rw [h]
      obtain ⟨hset, huniq⟩ := hid s hs o ho h1 hk
      obtain ⟨o2, ho2⟩ := exists_value_at_key mcgTarget hostname o ho
      obtain ⟨f1, f2, f3, f4⟩ := replay_all_value _ o s (List.ne_nil_of_mem ho2)
        (writes_at_unique_key mcgTarget hostname o
          (by rw [h1]; exact (show "A" ≠ "CNAME" by decide)) huniq)
      refine ⟨by rw [f2]; exact h1, by rw [f1]; exact h2, by rw [f3]; exact h3,
        by rw [f4]; exact h4, ?_⟩
      rw [replay_SetIdentifier]
      exact hset

theorem C11_a_record_per_ip_cluster_witness :
    (synthesize customWeightsTarget "test.example.com" .loadbalanced [] =
        .ok (loadBalancedOut customWeightsTarget "test.example.com") ∧
      ∀ s ∈ customWeightsRecord, ∀ o ∈ loadBalancedOut customWeightsTarget "test.example.com",
        o.RecordType = "A" → s.SetID = o.SetID →
          s.SetIdentifier = "" ∧
            ∀ o' ∈ loadBalancedOut customWeightsTarget "test.example.com",
              o'.SetID = o.SetID → o' = o) ∧
    ∃ out, synthesize customWeightsTarget "test.example.com" .loadbalanced customWeightsRecord = .ok out ∧
      (∀ e ∈ out, e.RecordType = "A" →
        ∃ entry ∈ customWeightsTarget.GroupTargetsByGeo, ∃ c ∈ entry.2,
          (∃ a ∈ c.Addresses, a.AddressType = "IPAddress") ∧
          e.DNSName = toLower (c.GetShortCode ++ "." ++ lbNameOf customWeightsTarget "test.example.com") ∧
          e.Targets = (c.Addresses.filter (fun a => a.AddressType == "IPAddress")).map (fun a => a.Value) ∧
          e.RecordTTL = 60 ∧ e.SetIdentifier = "" ∧
          ∀ t ∈ e.Targets, ∃ a ∈ c.Addresses, a.AddressType = "IPAddress" ∧ a.Value = t) ∧
      (∀ entry ∈ customWeightsTarget.GroupTargetsByGeo, ∀ c ∈ entry.2,
        (∃ a ∈ c.Addresses, a.AddressType = "IPAddress") →
          ∃ e ∈ out, e.RecordType = "A" ∧
            e.DNSName = toLower (c.GetShortCode ++ "." ++ lbNameOf customWeightsTarget "test.example.com") ∧
            e.Targets = (c.Addresses.filter (fun a => a.AddressType == "IPAddress")).map (fun a => a.Value) ∧
            e.RecordTTL = 60 ∧ e.SetIdentifier = "") :=
  ⟨⟨synthesize_loadbalanced_nil _ _, by decide⟩,
    C11_a_record_per_ip_cluster customWeightsTarget "test.example.com" customWeightsRecord
      (loadBalancedOut customWeightsTarget "test.example.com") (synthesize_loadbalanced_nil _ _)
      (by decide)⟩

/-- C11 as stated fails in both halves.  On the record that holds one endpoint
with DNS name `s07c46.lb-abc123.test.example.co` and set-identifier `m`, whose
identity string is that of the A record of the first cluster, the builder
reuses the stored endpoint: the A record of that cluster has the set-identifier
`m`.  On the record its own first reconciliation stored, `collidingTarget`, whose
two clusters have one IP address each, publishes a single A record: the stored
object of the A record of `clusterLong` is also the one of a weighted CNAME,
which is written last. -/
theorem C11_counterexample :
    (synthesize weightedTarget "test.example.com" .loadbalanced splitClusterRecord).toOption.map
        (fun out => (out.filter (fun e => e.RecordType == "A")).map
          (fun e => (e.DNSName, e.SetIdentifier, e.Targets))) =
      some [("s07c46.lb-abc123.test.example.com", "m", ["172.0.0.1"]),
        ("2w705o.lb-abc123.test.example.com", "", ["172.0.0.2"])] ∧
    (∀ c ∈ [clusterLong, clusterOne 120], ∃ a ∈ c.Addresses, a.AddressType = "IPAddress") ∧
    (synthesize collidingTarget "test.example.com" .loadbalanced collidingRecord).toOption.map
        (fun out => (out.filter (fun e => e.RecordType == "A")).map
          (fun e => (e.DNSName, e.SetIdentifier, e.Targets))) =
      some [("s07c46.lb-abc123.test.example.com", "", ["172.0.0.1"])] := by
  decide

/-! ## The `default` endpoint of the first group on a record with prior endpoints (C33) -/

/-- C33 (amended): for every load-balanced target and every record, when the
geo groups of the target are `pre ++ first :: post`, no group of `pre` has a
cluster address, `first` has one, no geo group with an address carries the
policy's default geo code and no group carries the synthetic code `default`,
and every endpoint of the record that shares its identity string
DNSName+SetIdentifier with an endpoint that a synthesis on an empty record
produces at the LB name has the set-identifier `default` exactly when that
endpoint has it, then the output has an endpoint with set-identifier `default`
at the LB name, and every such endpoint has the single target
`lowercase(first).lbName`, whatever the groups of `post` are. -/
theorem C33_default_falls_to_first_group (mcgTarget : MultiClusterGatewayTarget) (hostname : String)
    (pre post : List (String × List ClusterGatewayTarget)) (first : String × List ClusterGatewayTarget)
    (recordEndpoints fresh : List Endpoint)
    (hgroups : mcgTarget.GroupTargetsByGeo = pre ++ first :: post)
    (hpre : ∀ entry ∈ pre, ∀ c ∈ entry.2, c.Addresses = [])
    (hfirst : ∃ c ∈ first.2, c.Addresses ≠ [])
    (hno : ∀ entry ∈ mcgTarget.GroupTargetsByGeo, (∃ c ∈ entry.2, c.Addresses ≠ []) →
      entry.1 ≠ mcgTarget.GetDefaultGeo)
    (hnd : ∀ entry ∈ mcgTarget.GroupTargetsByGeo, entry.1 ≠ "default")
    (hfresh : synthesize mcgTarget hostname .loadbalanced [] = .ok fresh)
    (hid : ∀ s ∈ recordEndpoints, ∀ o ∈ fresh, o.DNSName = lbNameOf mcgTarget hostname →
      s.SetID = o.SetID → (s.SetIdentifier = "default" ↔ o.SetIdentifier = "default")) :
    ∃ out, synthesize mcgTarget hostname .loadbalanced recordEndpoints = .ok out ∧
      (∃ e ∈ out, e.DNSName = lbNameOf mcgTarget hostname ∧ e.SetIdentifier = "default") ∧
      ∀ e ∈ out, e.DNSName = lbNameOf mcgTarget hostname → e.SetIdentifier = "default" →
        e.Targets = [toLower (first.1 ++ "." ++ lbNameOf mcgTarget hostname)] := by
  obtain ⟨hf, hsyn⟩ := synthesize_final mcgTarget hostname recordEndpoints fresh hfresh
  obtain ⟨out0, h0, _, hall⟩ := default_of_first_group_of_first_synthesis mcgTarget
    hostname pre post first hgroups hpre hfirst hno hnd
  rw [hfresh] at h0
  injection h0 with h0
  subst h0
  subst hf
  have hshape := loadBalancedOut_of_first mcgTarget hostname pre post first hgroups hpre hfirst hno hnd
  have hdm : defaultEndpointOf (lbNameOf mcgTarget hostname) first.1 ∈
      loadBalancedOut mcgTarget hostname := by
    rw [hshape]
    exact List.mem_append_right _ (by simp)
  have hflat := flat_of_loadBalancedOut mcgTarget hostname (List.ne_nil_of_mem hdm)
  refine ⟨_, hsyn, ⟨_, List.mem_map_of_mem _ hdm, ?_⟩, ?_⟩
  · rcases finalIn_cases recordEndpoints (lbNameOf mcgTarget hostname) (allWrites mcgTarget hostname)
      (defaultEndpointOf (lbNameOf mcgTarget hostname) first.1) with ⟨h, _⟩ | ⟨s, hs, hk, h⟩
    · rw [h]
      exact ⟨rfl, rfl⟩
    · rw [h]
      obtain ⟨_, _, _, _, r1, _⟩ := replay_at_default_key mcgTarget hostname s hflat
      exact ⟨r1, by rw [replay_SetIdentifier]; exact (hid s hs _ hdm rfl hk).mpr rfl⟩
  · intro e he hname hset
    obtain ⟨o', ho', rfl⟩ := mem_map_finalIn _ _ _ _ e he
    rcases finalIn_cases recordEndpoints (lbNameOf mcgTarget hostname) (allWrites mcgTarget hostname)
      o' with ⟨h, _⟩ | ⟨s, hs, hk, h⟩
    · rw [h] at hname hset ⊢
      exact hall o' ho' hname hset
    · rw [h] at hname hset ⊢
      rw [replay_SetIdentifier] at hset
      obtain ⟨o, ho, f1, _, f3, _⟩ := replay_fields _ s (exists_value_at_key mcgTarget hostname o' ho')
      obtain ⟨how, hok⟩ := (mem_writesTo _ _ _ _).mp ho
      rw [f3]
      rw [f1] at hname
      rcases mem_allWrites_first mcgTarget hostname pre post first hgroups hpre hfirst hno hnd _ how
        with hc | hc | ⟨o2, ho2, hc⟩
      · cases hc
      · injection hc with hc
        subst hc
        rfl
      · injection hc with hc
        subst hc
        have hk2 : s.SetID = o.SetID := hk.trans hok.symm
        exact hall o ho2 hname ((hid s hs o ho2 hname hk2).mp hset)

theorem C33_default_falls_to_first_group_witness :
    ((unmatchedDefaultTarget [("NA", [clusterPending]), ("IE", [clusterOne 120]),
          ("ES", [clusterTwo 120])]).GroupTargetsByGeo =
        [("NA", [clusterPending])] ++ ("IE", [clusterOne 120]) :: [("ES", [clusterTwo 120])] ∧
      ∀ s ∈ customWeightsRecord, ∀ o ∈ loadBalancedOut (unmatchedDefaultTarget
          [("NA", [clusterPending]), ("IE", [clusterOne 120]), ("ES", [clusterTwo 120])])
          "test.example.com",
        o.DNSName = lbNameOf (unmatchedDefaultTarget [("NA", [clusterPending]),
          ("IE", [clusterOne 120]), ("ES", [clusterTwo 120])]) "test.example.com" →
        s.SetID = o.SetID → (s.SetIdentifier = "default" ↔ o.SetIdentifier = "default")) ∧
    ∃ out, synthesize (unmatchedDefaultTarget [("NA", [clusterPending]), ("IE", [clusterOne 120]),
        ("ES", [clusterTwo 120])]) "test.example.com" .loadbalanced customWeightsRecord = .ok out ∧
      (∃ e ∈ out, e.DNSName = lbNameOf (unmatchedDefaultTarget [("NA", [clusterPending]),
          ("IE", [clusterOne 120]), ("ES", [clusterTwo 120])]) "test.example.com" ∧
        e.SetIdentifier = "default") ∧
      ∀ e ∈ out, e.DNSName = lbNameOf (unmatchedDefaultTarget [("NA", [clusterPending]),
          ("IE", [clusterOne 120]), ("ES", [clusterTwo 120])]) "test.example.com" →
        e.SetIdentifier = "default" →
        e.Targets = [toLower (("IE", [clusterOne 120]).1 ++ "." ++
          lbNameOf (unmatchedDefaultTarget [("NA", [clusterPending]), ("IE", [clusterOne 120]),
            ("ES", [clusterTwo 120])]) "test.example.com")] :=
  ⟨⟨rfl, by decide⟩,
    C33_default_falls_to_first_group _ "test.example.com" [("NA", [clusterPending])]
      [("ES", [clusterTwo 120])] ("IE", [clusterOne 120]) customWeightsRecord
      (loadBalancedOut (unmatchedDefaultTarget [("NA", [clusterPending]), ("IE", [clusterOne 120]),
        ("ES", [clusterTwo 120])]) "test.example.com") rfl (by decide)
      ⟨clusterOne 120, by decide, by decide⟩ (by decide) (by decide)
      (synthesize_loadbalanced_nil _ _) (by decide)⟩

/-- C33 as stated fails in two ways.  On the record that holds one endpoint
with DNS name `lb-abc123.test.example.comd` and set-identifier `efault`, whose
identity string is that of the `default` endpoint, the builder reuses it and
keeps its set-identifier, so the output for the groups `IE` and `ES`, of which
none is the policy's default geo, has no endpoint with the set-identifier
`default`: the endpoint that targets the geo LB name of the first group has the
set-identifier `efault`.  On the record that holds one endpoint with DNS name
`lb-abc123.test.example.comEU-` and set-identifier `default`, whose identity
string is that of the geo CNAME of the group `EU-default`, the builder reuses
it for that geo CNAME, so the output for the groups `IE` and `EU-default` has
two endpoints with the set-identifier `default` at the LB name, and one of them
targets the geo LB name of the second group. -/
theorem C33_counterexample :
    (∀ entry ∈ (unmatchedDefaultTarget [("IE", [clusterOne 120]),
        ("ES", [clusterTwo 120])]).GroupTargetsByGeo,
      entry.1 ≠ (unmatchedDefaultTarget [("IE", [clusterOne 120]),
        ("ES", [clusterTwo 120])]).GetDefaultGeo ∧ entry.1 ≠ "default") ∧
    (synthesize (unmatchedDefaultTarget [("IE", [clusterOne 120]), ("ES", [clusterTwo 120])])
        "test.example.com" .loadbalanced splitDefaultRecord).toOption.map
        (fun out => (out.filter (fun e => e.DNSName == "lb-abc123.test.example.com")).map
          (fun e => (e.SetIdentifier, e.GetProviderSpecific "geo-code", e.Targets))) =
      some [("IE", some "IE", ["ie.lb-abc123.test.example.com"]),
        ("ES", some "ES", ["es.lb-abc123.test.example.com"]),
        ("efault", some "*", ["ie.lb-abc123.test.example.com"])] ∧
    (synthesize (unmatchedDefaultTarget [("IE", [clusterOne 120]), ("ES", [clusterTwo 120])])
        "test.example.com" .loadbalanced splitDefaultRecord).toOption.map
        (fun out => decide (∃ e ∈ out, e.SetIdentifier = "default")) = some false ∧
    (∀ entry ∈ (unmatchedDefaultTarget [("IE", [clusterOne 120]),
        ("EU-default", [clusterTwo 120])]).GroupTargetsByGeo,
      entry.1 ≠ (unmatchedDefaultTarget [("IE", [clusterOne 120]),
        ("EU-default", [clusterTwo 120])]).GetDefaultGeo ∧ entry.1 ≠ "default") ∧
    (synthesize (unmatchedDefaultTarget [("IE", [clusterOne 120]), ("EU-default", [clusterTwo 120])])
        "test.example.com" .loadbalanced suffixDefaultRecord).toOption.map
        (fun out => (out.filter (fun e => e.DNSName == "lb-abc123.test.example.com")).map
          (fun e => (e.SetIdentifier, e.GetProviderSpecific "geo-code", e.Targets))) =
      some [("IE", some "IE", ["ie.lb-abc123.test.example.com"]),
        ("default", some "EU-default", ["eu-default.lb-abc123.test.example.com"]),
        ("default", some "*", ["ie.lb-abc123.test.example.com"])] :=
  ⟨by decide, by decide, by decide, by decide, by decide⟩

/-! ## The `default` endpoint on a record with prior endpoints (C5) -/

end DNSPolicy
